import Mathlib

/-!
QuickStep (ode/src/quickstep.cpp): a shallow embedding.

The development models the iterative constraint solver of `quickstep.cpp` in
exact arithmetic: `dReal` is `ℚ`, C arrays are total maps from element
offsets to values (a pointer `p + k` is the map shifted by `k`), `int`
and `size_t` are unbounded integers and naturals.  The configuration is the
compiled one: `RANDOMLY_REORDER_CONSTRAINTS`, `USE_JOINT_DAMPING` and
`USE_TPROW` defined, `WARM_STARTING`, `REORDER_CONSTRAINTS`, `RECOMPUTE_RMS`
and `CHECK_VELOCITY_OBEYS_CONSTRAINT` undefined.  Worker tasks are run one
after the other in dispatch order (the path taken when no thread pool is
configured).
-/

namespace QuickStep

/-! ## Scalars, arrays, small helpers -/

/-- The scalar type `dReal`, in exact arithmetic. -/
abbrev dReal := ℚ

/-- The function `dFabs`: absolute value of a `dReal`. -/
def dFabs (x : ℚ) : ℚ := if x < 0 then -x else x

/-- Pointer arithmetic `p + k` on an array given as a map from offsets. -/
def offs {α : Type} (p : Nat → α) (k : Nat) : Nat → α := fun n => p (k + n)

/-- The call `dSetZero (a, n)`: the first `n` cells become `0`. -/
def dSetZero (a : Nat → ℚ) (n : Nat) : Nat → ℚ := fun i => if i < n then 0 else a i

/-- The call `dSetValue (a, n, v)`: the first `n` cells become `v`. -/
def dSetValue {α : Type} (a : Nat → α) (n : Nat) (v : α) : Nat → α :=
  fun i => if i < n then v else a i

/-- Six-term inner product `a[ao..ao+5] . b[bo..bo+5]`, summed left to right. -/
def dot6 (a : Nat → ℚ) (ao : Nat) (b : Nat → ℚ) (bo : Nat) : ℚ :=
  a ao * b bo + a (ao + 1) * b (bo + 1) + a (ao + 2) * b (bo + 2)
    + a (ao + 3) * b (bo + 3) + a (ao + 4) * b (bo + 4) + a (ao + 5) * b (bo + 5)

/-- The six statements `p[j] += delta * v[j]`, `j = 0..5`, for `p = a + o` and
`v = src + vo`. -/
def addScaled6 (a : Nat → ℚ) (o : Nat) (delta : ℚ) (src : Nat → ℚ) (vo : Nat) : Nat → ℚ :=
  fun n => if o ≤ n ∧ n < o + 6 then a n + delta * src (vo + (n - o)) else a n

/-- The routine `dMultiply0_331 (A, B, C)` of `odemath.h` (not among the
sources): `A = B * C` for a 3x3 matrix `B` stored with row stride 4 and a
3-vector `C`; the result is `A[0..2]`. -/
def dMultiply0_331 (B : Nat → ℚ) (C : Nat → ℚ) (i : Nat) : ℚ :=
  B (4 * i) * C 0 + B (4 * i + 1) * C 1 + B (4 * i + 2) * C 2

/-- The routine `dMultiply0_333 (A, B, C)` of `odemath.h`: `A = B * C` for 3x3
matrices with row stride 4; cell `4 i + j` of the result, `i, j < 3`. -/
def dMultiply0_333 (B C : Nat → ℚ) (n : Nat) : ℚ :=
  if n % 4 < 3 then
    B (4 * (n / 4)) * C (n % 4) + B (4 * (n / 4) + 1) * C (4 + n % 4)
      + B (4 * (n / 4) + 2) * C (8 + n % 4)
  else 0

/-- The routine `dMultiply2_333 (A, B, C)` of `odemath.h`: `A = B * C^T` for
3x3 matrices with row stride 4. -/
def dMultiply2_333 (B C : Nat → ℚ) (n : Nat) : ℚ :=
  if n % 4 < 3 then
    B (4 * (n / 4)) * C (4 * (n % 4)) + B (4 * (n / 4) + 1) * C (4 * (n % 4) + 1)
      + B (4 * (n / 4) + 2) * C (4 * (n % 4) + 2)
  else 0

/-- The comparison `sqrt (s) < tol` of exact real arithmetic, for a sum of
squares `s >= 0`, expressed without the square root. -/
def sqrtLt (s tol : ℚ) : Bool := decide (0 < tol) && decide (s < tol * tol)

/-- A lower bound `lo[i]`: `none` stands for `-dInfinity`. -/
abbrev LoBound := Option ℚ

/-- An upper bound `hi[i]`: `none` stands for `+dInfinity`. -/
abbrev HiBound := Option ℚ

/-- The test `x < lo` against a possibly infinite lower bound. -/
def ltLo (x : ℚ) : LoBound → Bool
  | none => false
  | some l => decide (x < l)

/-- The test `x > hi` against a possibly infinite upper bound. -/
def gtHi (x : ℚ) : HiBound → Bool
  | none => false
  | some h => decide (x > h)

/-- The proposition `lo <= x` for a possibly infinite lower bound. -/
def loLe (lo : LoBound) (x : ℚ) : Prop := ∀ l, lo = some l → l ≤ x

/-- The proposition `x <= hi` for a possibly infinite upper bound. -/
def leHi (x : ℚ) (hi : HiBound) : Prop := ∀ h, hi = some h → x ≤ h

/-- The proposition `lo <= hi` for possibly infinite bounds. -/
def boundsOrdered (lo : LoBound) (hi : HiBound) : Prop :=
  ∀ l h, lo = some l → hi = some h → l ≤ h

/-! ## Special matrix multipliers -/

/-- One accumulator of `Multiply1_12q1`: the value of `A[c]` after the loop
over `i = 0..q-1`, that is the running sum of `B[c + 12 i] * C[i]`. -/
def Multiply1_12q1 (B : Nat → ℚ) (C : Nat → ℚ) (c : Nat) : Nat → ℚ
  | 0 => 0
  | q + 1 => Multiply1_12q1 B C c q + B (c + 12 * q) * C q

/-! ## Bodies -/


/-- The fields of `dxBody` that the stepper reads or writes. Vectors are maps
from the component index `0..2`, matrices (`dMatrix3`) maps from `0..11`. -/
structure dxBody where
  flags : Nat
  tag : Int
  mass_mass : ℚ
  mass_I : Nat → ℚ
  invMass : ℚ
  invI : Nat → ℚ
  posr_R : Nat → ℚ
  lvel : Nat → ℚ
  avel : Nat → ℚ
  facc : Nat → ℚ
  tacc : Nat → ℚ

/-- The flag bit `dxBodyNoGravity` of `objects.h` (not among the sources). -/
def dxBodyNoGravity : Nat := 8

/-- The flag bit `dxBodyGyroscopic` of `objects.h` (not among the sources). -/
def dxBodyGyroscopic : Nat := 256

/-! ## Common computations involving the matrix `J` -/

/-- The function `compute_invM_JT`: `iMJ = inv(M) * J^T`. In row `i` the
first body's linear block is scaled by its inverse mass and its angular block
is multiplied by its global inverse inertia; the second body's blocks are
written only when `jb[2i+1] >= 0`. -/
def compute_invM_JT (m : Nat) (J : Nat → ℚ) (iMJ : Nat → ℚ) (jb : Nat → Int)
    (body : Nat → dxBody) (invI : Nat → ℚ) : Nat → ℚ := fun n =>
  if n < 12 * m then
    let i := n / 12
    let c := n % 12
    let b1 := jb (i * 2)
    let b2 := jb (i * 2 + 1)
    if c < 3 then (body b1.toNat).invMass * J n
    else if c < 6 then dMultiply0_331 (offs invI (12 * b1).toNat) (offs J (12 * i + 3)) (c - 3)
    else if b2 ≥ 0 then
      (if c < 9 then (body b2.toNat).invMass * J n
       else dMultiply0_331 (offs invI (12 * b2).toNat) (offs J (12 * i + 9)) (c - 9))
    else iMJ n
  else iMJ n

/-- One pass of the loop of `multiply_invM_JT` for row `i`:
`out[b1] += iMJ_i[0..5] * in[i]` and, when `b2 >= 0`,
`out[b2] += iMJ_i[6..11] * in[i]`. -/
def multiply_invM_JT_row (iMJ : Nat → ℚ) (jb : Nat → Int) (inp : Nat → ℚ) (out : Nat → ℚ)
    (i : Nat) : Nat → ℚ :=
  let b1 := jb (i * 2)
  let b2 := jb (i * 2 + 1)
  let o1 := addScaled6 out (b1 * 6).toNat (inp i) iMJ (12 * i)
  if b2 ≥ 0 then addScaled6 o1 (b2 * 6).toNat (inp i) iMJ (12 * i + 6) else o1

/-- The function `multiply_invM_JT`: `out = iMJ * in`, accumulated per body. -/
def multiply_invM_JT (m nb : Nat) (iMJ : Nat → ℚ) (jb : Nat → Int) (inp : Nat → ℚ)
    (out : Nat → ℚ) : Nat → ℚ :=
  (List.range m).foldl (multiply_invM_JT_row iMJ jb inp) (dSetZero out (6 * nb))

/-! ## The row kernel `ComputeRows` -/

/-- The arguments unpacked at the top of `ComputeRows` (`tmpInt`, `tmpReal`,
`tmpIntPtr`, `tmpRealPtr` and the arrays of `tmpMutablePtr` that the kernel
only reads), the body array, and the stream of values returned by successive
calls of `dRandInt`. -/
structure RowEnv where
  startRow : Int
  nRows : Int
  m : Nat
  nb : Nat
  m_damp : Nat
  num_iterations : Int
  stepsize : ℚ
  sor_lcp_tolerance : ℚ
  jb : Nat → Int
  findex : Nat → Int
  jb_damp : Nat → Int
  Ad : Nat → ℚ
  hi : Nat → HiBound
  lo : Nat → LoBound
  Adcfm : Nat → ℚ
  JiM : Nat → ℚ
  invI : Nat → ℚ
  coeff_damp : Nat → ℚ
  b : Nat → ℚ
  J : Nat → ℚ
  iMJ : Nat → ℚ
  J_damp : Nat → ℚ
  body : Nat → dxBody
  draws : Nat → Nat

/-- The memory `ComputeRows` writes: `order[].index`, `lambda`, `fc`,
`b_damp`, `delta_error`, `f_damp`, `v_damp`, `v_joint_damp`; the local
`rms_error` (the sum of `delta*delta`, before the square root); the number of
`dRandInt` calls made so far; the number of iterations executed; and, as a
record of the run, `L_last[i]`: the value `lambda[findex[i]]` read by the most
recent update of a friction row `i`. -/
structure RowState where
  order : Nat → Nat
  lambda : Nat → ℚ
  fc : Nat → ℚ
  b_damp : Nat → ℚ
  delta_error : Nat → ℚ
  f_damp : Nat → ℚ
  v_damp : Nat → ℚ
  v_joint_damp : Nat → ℚ
  rms_error : ℚ
  randCalls : Nat
  iterations : Nat
  L_last : Nat → ℚ

/-- The call `dRandInt (n)` of `misc.cpp` (not among the sources): the `k`-th
call returns the `k`-th value of the stream, reduced into `[0, n)`. -/
def dRandInt (draws : Nat → Nat) (k : Nat) (n : Nat) : Nat := draws k % n

/-- One pass of the random reordering loop, for `i = startRow + 1 + k`:
`swapi = dRandInt (i+1-startRow) + startRow`, then `order[i]` and
`order[swapi]` are exchanged. -/
def swapStep (E : RowEnv) (s : RowState) (k : Nat) : RowState :=
  let i := E.startRow.toNat + 1 + k
  let swapi := dRandInt E.draws s.randCalls (i + 1 - E.startRow.toNat) + E.startRow.toNat
  let tmp := s.order i
  let o1 := Function.update s.order i (s.order swapi)
  let o2 := Function.update o1 swapi tmp
  { s with order := o2, randCalls := s.randCalls + 1 }

/-- The random reordering block: `for (i = startRow+1; i < startRow+nRows; i++)`. -/
def shuffle (E : RowEnv) (s : RowState) : RowState :=
  (List.range (E.nRows.toNat - 1)).foldl (swapStep E) s

/-- The value of `b_damp[index]` computed at the top of a row update:
`Ad[index] * (JiM_row . f_damp)` over the row's one or two bodies. -/
def b_damp_row (E : RowEnv) (f_damp : Nat → ℚ) (index : Nat) : ℚ :=
  let b1 := E.jb (index * 2)
  let b2 := E.jb (index * 2 + 1)
  let acc := (List.range 6).foldl (fun (acc : ℚ) (j : Nat) =>
      let acc1 := acc + E.JiM (index * 12 + j) * f_damp ((6 * b1).toNat + j)
      if b2 ≥ 0 then acc1 + E.JiM (index * 12 + j + 6) * f_damp ((6 * b2).toNat + j)
      else acc1) 0
  acc * E.Ad index

/-- The unclamped `delta` of a row update:
`b[index] - old_lambda*Adcfm[index] + b_damp[index] - J_row . fc`. -/
def rowDelta (E : RowEnv) (s : RowState) (index : Nat) : ℚ :=
  let b1 := E.jb (index * 2)
  let b2 := E.jb (index * 2 + 1)
  let old_lambda := s.lambda index
  let d0 := E.b index - old_lambda * E.Adcfm index
  let d1 := d0 + b_damp_row E s.f_damp index
  let d2 := d1 - dot6 s.fc (6 * b1).toNat E.J (index * 12)
  if b2 ≥ 0 then d2 - dot6 s.fc (6 * b2).toNat E.J (index * 12 + 6) else d2

/-- The local `hi_act` of a row update. For a friction row with
`hi = +dInfinity` the product is infinite (or NaN), and no clamping happens,
as for an infinite bound. -/
def hi_act (E : RowEnv) (lambda : Nat → ℚ) (index : Nat) : HiBound :=
  if E.findex index ≥ 0 then
    (E.hi index).map (fun h => dFabs (h * lambda (E.findex index).toNat))
  else E.hi index

/-- The local `lo_act` of a row update: `-hi_act` for a friction row. -/
def lo_act (E : RowEnv) (lambda : Nat → ℚ) (index : Nat) : LoBound :=
  if E.findex index ≥ 0 then (hi_act E lambda index).map (fun h => -h)
  else E.lo index

/-- The clamped value stored into `lambda[index]`. -/
def clampLambda (new_lambda : ℚ) (lo : LoBound) (hi : HiBound) : ℚ :=
  if ltLo new_lambda lo then lo.getD new_lambda
  else if gtHi new_lambda hi then hi.getD new_lambda
  else new_lambda

/-- One row update of `ComputeRows` (the body of the loop over
`i = startRow .. startRow+nRows-1`, for `index = order[i].index`). -/
def rowUpdate (E : RowEnv) (s : RowState) (index : Nat) : RowState :=
  let b1 := E.jb (index * 2)
  let b2 := E.jb (index * 2 + 1)
  let bd := b_damp_row E s.f_damp index
  let old_lambda := s.lambda index
  let new_lambda := old_lambda + rowDelta E s index
  let lam := clampLambda new_lambda (lo_act E s.lambda index) (hi_act E s.lambda index)
  let delta := lam - old_lambda
  let fc1 := addScaled6 s.fc (6 * b1).toNat delta E.iMJ (index * 12)
  let fc2 := if b2 ≥ 0 then addScaled6 fc1 (6 * b2).toNat delta E.iMJ (index * 12 + 6) else fc1
  { s with
    b_damp := Function.update s.b_damp index bd
    lambda := Function.update s.lambda index lam
    rms_error := s.rms_error + delta * delta
    delta_error := Function.update s.delta_error index (dFabs delta)
    fc := fc2
    L_last := if E.findex index ≥ 0 then
        Function.update s.L_last index (s.lambda (E.findex index).toNat)
      else s.L_last }

/-- The loop over the rows of the chunk, in the order given by `order`. -/
def rowLoop (E : RowEnv) (s : RowState) : RowState :=
  (List.range E.nRows.toNat).foldl
    (fun s k => rowUpdate E s (s.order (E.startRow.toNat + k))) s

/-- The recomputation of `v_damp` after the row loop: for every body
`v_damp = v + stepsize * fc + stepsize * invM * (f_ext + f_damp)`. -/
def v_damp_update (E : RowEnv) (s : RowState) : Nat → ℚ := fun n =>
  if n < 6 * E.nb then
    let bd := E.body (n / 6)
    let j := n % 6
    if j < 3 then
      bd.lvel j + E.stepsize * s.fc n
        + E.stepsize * bd.invMass * (bd.facc j + s.f_damp n)
    else
      (bd.avel (j - 3) + E.stepsize * s.fc n)
        + dMultiply0_331 (offs E.invI (12 * (n / 6)))
            (fun t => E.stepsize * (bd.tacc t + s.f_damp (6 * (n / 6) + t + 3))) (j - 3)
  else s.v_damp n

/-- The ramp factor `alpha` of the damping force (`skip = 10`). -/
def dampAlpha (iteration : Nat) (num_iterations : Int) : ℚ :=
  if iteration ≥ 10 then
    (((iteration : Int) - 10 + 1 : Int) : ℚ) / ((num_iterations - 10 : Int) : ℚ)
  else 0

/-- The value `v_joint_damp[j]` of one damping row. -/
def v_joint_damp_row (E : RowEnv) (iteration : Nat) (v_damp : Nat → ℚ) (j : Nat) : ℚ :=
  let b1 := E.jb_damp (j * 2)
  let b2 := E.jb_damp (j * 2 + 1)
  let alpha := dampAlpha iteration E.num_iterations
  let a1 := (List.range 6).foldl (fun (acc : ℚ) (k : Nat) =>
      acc + alpha * E.J_damp (12 * j + k) * v_damp ((b1 * 6).toNat + k)) 0
  let a2 := if b2 ≥ 0 then (List.range 6).foldl (fun (acc : ℚ) (k : Nat) =>
      acc + alpha * E.J_damp (12 * j + k + 6) * v_damp ((b2 * 6).toNat + k)) a1 else a1
  a2 * E.coeff_damp j

/-- One pass of the loop over the damping rows: `v_joint_damp[j]` is computed
and `J_damp_row^T * v_joint_damp[j]` is subtracted from `f_damp`. -/
def dampRow (E : RowEnv) (iteration : Nat) (s : RowState) (j : Nat) : RowState :=
  let b1 := E.jb_damp (j * 2)
  let b2 := E.jb_damp (j * 2 + 1)
  let vj := v_joint_damp_row E iteration s.v_damp j
  let f1 := addScaled6 s.f_damp (b1 * 6).toNat (-vj) E.J_damp (12 * j)
  let f2 := if b2 ≥ 0 then addScaled6 f1 (b2 * 6).toNat (-vj) E.J_damp (12 * j + 6) else f1
  { s with v_joint_damp := Function.update s.v_joint_damp j vj, f_damp := f2 }

/-- The two damping blocks at the end of an iteration: `v_damp` is recomputed,
`f_damp` is zeroed and rebuilt from the damping rows. -/
def dampingUpdate (E : RowEnv) (iteration : Nat) (s : RowState) : RowState :=
  let s1 := { s with v_damp := v_damp_update E s }
  let s2 := { s1 with f_damp := dSetZero s1.f_damp (6 * E.nb) }
  (List.range E.m_damp).foldl (dampRow E iteration) s2

/-- One iteration of `ComputeRows`: the random reordering when
`(iteration & 7) == 0`, the row loop starting from `rms_error = 0`, then
the damping blocks. -/
def iterationBody (E : RowEnv) (iteration : Nat) (s : RowState) : RowState :=
  let s1 := if iteration &&& 7 = 0 then shuffle E s else s
  let s2 := rowLoop E { s1 with rms_error := 0 }
  let s3 := dampingUpdate E iteration s2
  { s3 with iterations := iteration + 1 }

/-- The iteration loop of `ComputeRows` from iteration `iteration` with `n`
iterations left: it stops after the first iteration whose
`sqrt (rms_error)` is below the tolerance. -/
def iterLoop (E : RowEnv) : Nat → Nat → RowState → RowState
  | 0, _, s => s
  | n + 1, iteration, s =>
    let s1 := iterationBody E iteration s
    if sqrtLt s1.rms_error E.sor_lcp_tolerance then s1
    else iterLoop E n (iteration + 1) s1

/-- The function `ComputeRows`: `num_iterations` iterations at most. -/
def ComputeRows (E : RowEnv) (s : RowState) : RowState :=
  iterLoop E E.num_iterations.toNat 0 s

/-! ## The solver `SOR_LCP` -/

/-- The fields of `dxQuickStepParameters` (`objects.h`) read by the solver. -/
structure dxQuickStepParameters where
  num_iterations : Int
  w : ℚ
  num_chunks : Int
  num_overlap : Int
  sor_lcp_tolerance : ℚ

/-- The arguments of `SOR_LCP`, with the stream of `dRandInt` results. -/
structure SORArgs where
  m : Nat
  nb : Nat
  J : Nat → ℚ
  jb : Nat → Int
  body : Nat → dxBody
  invI : Nat → ℚ
  lambda : Nat → ℚ
  fc : Nat → ℚ
  b : Nat → ℚ
  lo : Nat → LoBound
  hi : Nat → HiBound
  cfm : Nat → ℚ
  findex : Nat → Int
  qs : dxQuickStepParameters
  m_damp : Nat
  J_damp : Nat → ℚ
  coeff_damp : Nat → ℚ
  jb_damp : Nat → Int
  v_damp : Nat → ℚ
  f_damp : Nat → ℚ
  v_joint_damp : Nat → ℚ
  JiM : Nat → ℚ
  stepsize : ℚ
  draws : Nat → Nat

/-- The array `iMJ` of `SOR_LCP`: a copy of the `12 m` cells of `J` (the call
of `compute_invM_JT` is commented out in the source). -/
def SOR_iMJ (A : SORArgs) : Nat → ℚ := fun n => if n < 12 * A.m then A.J n else 0

/-- The local `sum` of the loop that fills `Ad`: the row's `iMJ . J`, the
second body's six columns included only when `jb[2i+1] >= 0`. -/
def SOR_diag (A : SORArgs) (i : Nat) : ℚ :=
  let s1 := dot6 (SOR_iMJ A) (12 * i) A.J (12 * i)
  if A.jb (i * 2 + 1) ≥ 0 then s1 + dot6 (SOR_iMJ A) (12 * i + 6) A.J (12 * i + 6) else s1

/-- The array `Ad`: `Ad[i] = sor_w / (sum + cfm[i])`. The quotient is the one
of the rationals, so it is the value of the code, rounding apart, only where
`sum + cfm[i]` is nonzero: at a zero denominator the code gets an infinity or
a NaN, and this definition gives `0`. -/
def SOR_Ad (A : SORArgs) : Nat → ℚ :=
  fun i => if i < A.m then A.qs.w / (SOR_diag A i + A.cfm i) else 0

/-- The array `J` after the scaling loop: row `i` multiplied by `Ad[i]`. -/
def SOR_Jscaled (A : SORArgs) : Nat → ℚ :=
  fun n => if n < 12 * A.m then A.J n * SOR_Ad A (n / 12) else A.J n

/-- The array `b` after the scaling loop: `b[i] *= Ad[i]`. -/
def SOR_bscaled (A : SORArgs) : Nat → ℚ :=
  fun i => if i < A.m then A.b i * SOR_Ad A i else A.b i

/-- The array `Adcfm`: `Adcfm[i] = Ad[i] * cfm[i]`. -/
def SOR_Adcfm (A : SORArgs) : Nat → ℚ :=
  fun i => if i < A.m then SOR_Ad A i * A.cfm i else 0

/-- The state of the loop that fills `order` from both ends: the array, the
offset of `orderhead` and the offset of `ordertail` (which ends at `-1` when
every row is a friction row). -/
structure OrderFill where
  order : Nat → Nat
  head : Nat
  tail : Int

/-- One pass of the fill loop for row `i`. -/
def orderFillStep (findex : Nat → Int) (f : OrderFill) (i : Nat) : OrderFill :=
  if findex i < 0 then
    { f with order := Function.update f.order f.head i, head := f.head + 1 }
  else
    { f with order := Function.update f.order f.tail.toNat i, tail := f.tail - 1 }

/-- The fill loop over `i = 0..m-1`, from `orderhead = order` and
`ordertail = order + (m - 1)`. -/
def orderFill (findex : Nat → Int) (m : Nat) : OrderFill :=
  (List.range m).foldl (orderFillStep findex)
    { order := fun _ => 0, head := 0, tail := (m : Int) - 1 }

/-- The local `num_chunks`: `qs->num_chunks > 0 ? qs->num_chunks : 1`. -/
def SOR_num_chunks (qs : dxQuickStepParameters) : Int :=
  if qs.num_chunks > 0 then qs.num_chunks else 1

/-- The local `chunk`: `m / num_chunks + 1`, then `chunk > 0 ? chunk : 1`. -/
def SOR_chunk (m : Nat) (qs : dxQuickStepParameters) : Int :=
  let chunk := (m : Int) / SOR_num_chunks qs + 1
  if chunk > 0 then chunk else 1

/-- The values taken by `i` in `for (i = 0; i < m; i += chunk)`: the
multiples of `chunk` below `m`. -/
def chunkStarts (m : Nat) (chunk : Nat) : List Nat :=
  (List.range ((m + chunk - 1) / chunk)).map (fun k => k * chunk)

/-- The local `nStart` of the dispatch loop, with the subtraction exact: the
value of the code when `i - num_overlap` is inside `int` (see `SOR_nStart32`
for the 32-bit evaluation). -/
def SOR_nStart (qs : dxQuickStepParameters) (i : Nat) : Int :=
  if (i : Int) - qs.num_overlap < 0 then 0 else (i : Int) - qs.num_overlap

/-- The local `nEnd` of the dispatch loop, with the sum exact: the value of
the code when `i + chunk + num_overlap` is inside `int`. Beyond that the `int`
sum of the code wraps; `SOR_nEnd32` is the 32-bit evaluation, and the two
agree when `m + chunk + num_overlap <= INT_MAX`. -/
def SOR_nEnd (m : Nat) (qs : dxQuickStepParameters) (i : Nat) : Int :=
  let nEnd := (i : Int) + SOR_chunk m qs + qs.num_overlap
  if nEnd > (m : Int) then (m : Int) else nEnd

/-- The parameter block written for the task that starts at `i`. -/
def SOR_task (A : SORArgs) (i : Nat) : RowEnv :=
  { startRow := SOR_nStart A.qs i
    nRows := SOR_nEnd A.m A.qs i - SOR_nStart A.qs i
    m := A.m
    nb := A.nb
    m_damp := A.m_damp
    num_iterations := A.qs.num_iterations
    stepsize := A.stepsize
    sor_lcp_tolerance := A.qs.sor_lcp_tolerance
    jb := A.jb
    findex := A.findex
    jb_damp := A.jb_damp
    Ad := SOR_Ad A
    hi := A.hi
    lo := A.lo
    Adcfm := SOR_Adcfm A
    JiM := A.JiM
    invI := A.invI
    coeff_damp := A.coeff_damp
    b := SOR_bscaled A
    J := SOR_Jscaled A
    iMJ := SOR_iMJ A
    J_damp := A.J_damp
    body := A.body
    draws := A.draws }

/-- The memory handed to the first task: `lambda` and `fc` zeroed, `order`
filled, the remaining scratch arrays fresh. -/
def SOR_init (A : SORArgs) : RowState :=
  { order := (orderFill A.findex A.m).order
    lambda := dSetZero A.lambda A.m
    fc := dSetZero A.fc (A.nb * 6)
    b_damp := fun _ => 0
    delta_error := fun _ => 0
    f_damp := A.f_damp
    v_damp := A.v_damp
    v_joint_damp := A.v_joint_damp
    rms_error := 0
    randCalls := 0
    iterations := 0
    L_last := fun _ => 0 }

/-- The list of tasks created by the dispatch loop, in creation order. -/
def SOR_tasks (A : SORArgs) : List RowEnv :=
  (chunkStarts A.m (SOR_chunk A.m A.qs).toNat).map (SOR_task A)

/-- The function `SOR_LCP` with the tasks run one after the other in the
calling thread: the final contents of the memory the tasks write. -/
def SOR_LCP (A : SORArgs) : RowState :=
  (SOR_tasks A).foldl (fun s E => ComputeRows E s) (SOR_init A)

/-! ## Joints and the world -/

/-- What a joint writes for one constraint row in `getInfo2`: the twelve
Jacobian entries (`J1l`, `J1a`, `J2l`, `J2a`), `c`, `cfm`, `lo`, `hi` and the
joint-local `findex`. -/
structure ConstraintRow where
  J : Nat → ℚ
  c : ℚ
  cfm : ℚ
  lo : LoBound
  hi : HiBound
  findex : Int

/-- The structure `dJointFeedback`: force and torque on the two bodies. -/
structure dJointFeedback where
  f1 : Nat → ℚ
  t1 : Nat → ℚ
  f2 : Nat → ℚ
  t2 : Nat → ℚ

/-- The part of a `dxJoint` the stepper uses. `info_m`, `info_nub` are the
answers of `getInfo1`, `max_m` the answer of `getSureMaxInfo`; `node0`, `node1`
give the position in the step's body array of the attached bodies (`none` for
a null body pointer); `getInfo2 fps erp preset j` is the content of the
joint's row `j` after the call of `getInfo2`, given the content `preset`
the row had before; `getInfo2_damp fps erp` is the damping Jacobian row written
through `J1ld`, `J1ad`, `J2ld`, `J2ad`. -/
structure dxJoint where
  info_m : Nat
  info_nub : Nat
  max_m : Nat
  feedback : Option dJointFeedback
  use_damping : Bool
  damping_coefficient : ℚ
  node0 : Option Nat
  node1 : Option Nat
  getInfo2 : ℚ → ℚ → ConstraintRow → Nat → ConstraintRow
  getInfo2_damp : ℚ → ℚ → Nat → ℚ

/-- The fields of `dxWorld` read by the stepper. -/
structure dxWorld where
  gravity : Nat → ℚ
  global_cfm : ℚ
  global_erp : ℚ
  qs : dxQuickStepParameters

/-! ## `dxQuickStepper`: preprocessing -/

/-- The loop `body[i]->tag = i`. -/
def tagBodies (body : Nat → dxBody) (nb : Nat) : Nat → dxBody :=
  fun i => if i < nb then { (body i) with tag := Int.ofNat i } else body i

/-- The global-frame inverse inertia of a body: `R * (invI * R^T)`. -/
def globalInvI (b : dxBody) : Nat → ℚ :=
  dMultiply0_333 b.posr_R (dMultiply2_333 b.invI b.posr_R)

/-- The global-frame inertia of a body: `R * (I * R^T)`. -/
def globalI (b : dxBody) : Nat → ℚ :=
  dMultiply0_333 b.posr_R (dMultiply2_333 b.mass_I b.posr_R)

/-- The array `invI`: twelve cells per body. -/
def invI_array (body : Nat → dxBody) (nb : Nat) : Nat → ℚ :=
  fun n => if n < 12 * nb then globalInvI (body (n / 12)) (n % 12) else 0

/-- The array `I`: twelve cells per body. -/
def I_array (body : Nat → dxBody) (nb : Nat) : Nat → ℚ :=
  fun n => if n < 12 * nb then globalI (body (n / 12)) (n % 12) else 0

/-- The routine `dSubtractVectorCross3 (res, a, b)` of `odemath.h`:
`res -= a x b`. -/
def dSubtractVectorCross3 (res a b : Nat → ℚ) : Nat → ℚ := fun j =>
  if j = 0 then res 0 - (a 1 * b 2 - a 2 * b 1)
  else if j = 1 then res 1 - (a 2 * b 0 - a 0 * b 2)
  else if j = 2 then res 2 - (a 0 * b 1 - a 1 * b 0)
  else res j

/-- The rotational force of a gyroscopic body, added to its torque
accumulator. -/
def gyroBody (b : dxBody) : dxBody :=
  if b.flags &&& dxBodyGyroscopic ≠ 0 then
    { b with
      tacc := dSubtractVectorCross3 b.tacc b.avel (dMultiply0_331 (globalI b) b.avel) }
  else b

/-- The gravity block for one body: `facc[j] += mass * gravity[j]` for each
nonzero gravity component, unless the body is flagged `dxBodyNoGravity`. -/
def gravityBody (w : dxWorld) (b : dxBody) : dxBody :=
  { b with
    facc := fun j =>
      if j < 3 ∧ w.gravity j ≠ 0 ∧ b.flags &&& dxBodyNoGravity = 0 then
        b.facc j + b.mass_mass * w.gravity j
      else b.facc j }

/-- The body array after tagging, the gyroscopic torque and gravity. -/
def preBodies (w : dxWorld) (body : Nat → dxBody) (nb : Nat) : Nat → dxBody :=
  fun i => if i < nb then gravityBody w (gyroBody (tagBodies body nb i)) else body i

/-- The array `jointiinfos` after the `getInfo1` loop: the joints with
`info.m > 0`, in order. -/
def jointiinfos (_joint : List dxJoint) : List dxJoint :=
  _joint.filter (fun j => decide (j.info_m > 0))

/-- The total row count `m` of a list of active joints. -/
def count_m (ji : List dxJoint) : Nat :=
  ji.foldl (fun mcurr j => mcurr + j.info_m) 0

/-- The number `mfb` of rows of joints that have a feedback sink. -/
def count_mfb (ji : List dxJoint) : Nat :=
  ji.foldl (fun mfbcurr j => if j.feedback.isSome then mfbcurr + j.info_m else mfbcurr) 0

/-- The number `m_damp` of joints that use damping. -/
def count_m_damp (ji : List dxJoint) : Nat :=
  ji.foldl (fun mcurr j => if j.use_damping then mcurr + 1 else mcurr) 0

/-! ## `dxQuickStepper`: constraint assembly -/

/-- The arrays filled while walking the active joints, with the running
offsets `ofsi`, `ofsi_damp` and the offset of `Jcopyrow` in `Jcopy`. -/
structure Assembly where
  J : Nat → ℚ
  c : Nat → ℚ
  cfm : Nat → ℚ
  lo : Nat → LoBound
  hi : Nat → HiBound
  findex : Nat → Int
  Jcopy : Nat → ℚ
  coeff_damp : Nat → ℚ
  J_damp : Nat → ℚ
  ofsi : Nat
  ofsi_damp : Nat
  Jcopyrow : Nat

/-- The arrays as allocated and preset before the joints are walked: `J`,
`c`, `J_damp`, `coeff_damp` zero, `cfm = global_cfm`, `lo = -dInfinity`,
`hi = +dInfinity`, `findex = -1`. -/
def Assembly.init (w : dxWorld) (m : Nat) : Assembly :=
  { J := fun _ => 0
    c := fun _ => 0
    cfm := dSetValue (fun _ => 0) m w.global_cfm
    lo := dSetValue (fun _ => some 0) m none
    hi := dSetValue (fun _ => some 0) m none
    findex := dSetValue (fun _ => 0) m (-1)
    Jcopy := fun _ => 0
    coeff_damp := fun _ => 0
    J_damp := fun _ => 0
    ofsi := 0
    ofsi_damp := 0
    Jcopyrow := 0 }

/-- The content of global row `i` of the arrays (twelve Jacobian cells). -/
def Assembly.row (A : Assembly) (i : Nat) : ConstraintRow :=
  { J := fun c => if c < 12 then A.J (12 * i + c) else 0
    c := A.c i
    cfm := A.cfm i
    lo := A.lo i
    hi := A.hi i
    findex := A.findex i }

/-- The content of the joint's row `j` after `getInfo2`. -/
def filledRow (fps erp : ℚ) (A : Assembly) (jt : dxJoint) (j : Nat) : ConstraintRow :=
  jt.getInfo2 fps erp (A.row (A.ofsi + j)) j

/-- The value `findex[ofsi + j]` after the adjustment loop: a non-negative
joint-local value is moved by `ofsi`. -/
def adjustFindex (ofsi : Nat) (fival : Int) : Int :=
  if fival ≥ 0 then fival + (ofsi : Int) else fival

/-- One pass of the assembly loop for an active joint. -/
def assembleJoint (fps erp : ℚ) (A : Assembly) (jt : dxJoint) : Assembly :=
  let infom := jt.info_m
  let inRange := fun (i : Nat) => A.ofsi ≤ i ∧ i < A.ofsi + infom
  let newJ : Nat → ℚ := fun n =>
    if inRange (n / 12) then (filledRow fps erp A jt (n / 12 - A.ofsi)).J (n % 12) else A.J n
  { J := newJ
    c := fun i => if inRange i then (filledRow fps erp A jt (i - A.ofsi)).c else A.c i
    cfm := fun i => if inRange i then (filledRow fps erp A jt (i - A.ofsi)).cfm else A.cfm i
    lo := fun i => if inRange i then (filledRow fps erp A jt (i - A.ofsi)).lo else A.lo i
    hi := fun i => if inRange i then (filledRow fps erp A jt (i - A.ofsi)).hi else A.hi i
    findex := fun i =>
      if inRange i then adjustFindex A.ofsi (filledRow fps erp A jt (i - A.ofsi)).findex
      else A.findex i
    Jcopy := fun n =>
      if jt.feedback.isSome ∧ A.Jcopyrow ≤ n ∧ n < A.Jcopyrow + infom * 12 then
        newJ (A.ofsi * 12 + (n - A.Jcopyrow))
      else A.Jcopy n
    coeff_damp := if jt.use_damping then
        Function.update A.coeff_damp A.ofsi_damp jt.damping_coefficient
      else A.coeff_damp
    J_damp := fun n =>
      if jt.use_damping ∧ A.ofsi_damp * 12 ≤ n ∧ n < A.ofsi_damp * 12 + 12 then
        jt.getInfo2_damp fps erp (n - A.ofsi_damp * 12)
      else A.J_damp n
    ofsi := A.ofsi + infom
    ofsi_damp := if jt.use_damping then A.ofsi_damp + 1 else A.ofsi_damp
    Jcopyrow := if jt.feedback.isSome then A.Jcopyrow + infom * 12 else A.Jcopyrow }

/-- The assembly loop over the active joints. -/
def assemble (w : dxWorld) (stepsize1 : ℚ) (ji : List dxJoint) : Assembly :=
  ji.foldl (assembleJoint stepsize1 w.global_erp) (Assembly.init w (count_m ji))

/-- The body number written to `jb` for a joint node: the tag of the attached
body, or `-1`. -/
def nodeTag (body : Nat → dxBody) (node : Option Nat) : Int :=
  match node with
  | some i => (body i).tag
  | none => -1

/-- The state of a loop that fills a body-number array: the array and the
offset of the write pointer. -/
structure JbFill where
  jb : Nat → Int
  ptr : Nat

/-- The inner loop writing `rows` pairs `(b1, b2)` at the write pointer. -/
def jbWrite (f : JbFill) (b1 b2 : Int) (rows : Nat) : JbFill :=
  { jb := fun n =>
      if f.ptr ≤ n ∧ n < f.ptr + 2 * rows then (if (n - f.ptr) % 2 = 0 then b1 else b2)
      else f.jb n
    ptr := f.ptr + 2 * rows }

/-- The array `jb`: `info.m` pairs of body numbers per active joint. -/
def jb_array (body : Nat → dxBody) (ji : List dxJoint) : JbFill :=
  ji.foldl (fun f jt => jbWrite f (nodeTag body jt.node0) (nodeTag body jt.node1) jt.info_m)
    { jb := fun _ => 0, ptr := 0 }

/-- The array `jb_damp`: one pair of body numbers per damped active joint. -/
def jb_damp_array (body : Nat → dxBody) (ji : List dxJoint) : JbFill :=
  ji.foldl (fun f jt =>
      if jt.use_damping then jbWrite f (nodeTag body jt.node0) (nodeTag body jt.node1) 1
      else f)
    { jb := fun _ => 0, ptr := 0 }

/-! ## `dxQuickStepper`: right-hand side and preconditioner -/

/-- The array `tmp1`: for every body `v/h + invM * f_ext`. -/
def tmp1_array (body : Nat → dxBody) (nb : Nat) (invI : Nat → ℚ) (stepsize1 : ℚ) :
    Nat → ℚ := fun n =>
  if n < 6 * nb then
    let b := body (n / 6)
    let j := n % 6
    if j < 3 then b.facc j * b.invMass + b.lvel j * stepsize1
    else dMultiply0_331 (offs invI (12 * (n / 6))) b.tacc (j - 3) + b.avel (j - 3) * stepsize1
  else 0

/-- The function `multiply_J`: `out[i] = J_i . in`, over the row's one or
two bodies. -/
def multiply_J (m : Nat) (J : Nat → ℚ) (jb : Nat → Int) (inp : Nat → ℚ) (out : Nat → ℚ) :
    Nat → ℚ := fun i =>
  if i < m then
    let b1 := jb (i * 2)
    let b2 := jb (i * 2 + 1)
    let sum := dot6 J (12 * i) inp (b1 * 6).toNat
    if b2 ≥ 0 then sum + dot6 J (12 * i + 6) inp (b2 * 6).toNat else sum
  else out i

/-- The completed right-hand side: `rhs[i] = c[i] * stepsize1 - rhs[i]`. -/
def rhs_complete (m : Nat) (c : Nat → ℚ) (stepsize1 : ℚ) (rhs : Nat → ℚ) : Nat → ℚ :=
  fun i => if i < m then c i * stepsize1 - rhs i else rhs i

/-- The locals `J_max`, `J_max_i` of the pivot search. -/
structure Pivot where
  J_max : ℚ
  J_max_i : Nat

/-- One pass of the pivot search over the six columns of one body: the
column replaces the pivot when its magnitude is strictly larger. -/
def pivotStep (J : Nat → ℚ) (J_index : Nat) (bo : Nat) (p : Pivot) (j : Nat) : Pivot :=
  if dFabs (J (J_index + j)) > dFabs p.J_max then
    { J_max := J (J_index + j), J_max_i := bo + j }
  else p

/-- The pivot of row `i` in the preconditioner. -/
def rowPivot (J : Nat → ℚ) (jb : Nat → Int) (i : Nat) : Pivot :=
  let b1 := jb (i * 2)
  let b2 := jb (i * 2 + 1)
  let p1 := (List.range 6).foldl (pivotStep J (12 * i) (b1 * 6).toNat)
    { J_max := 0, J_max_i := 0 }
  if b2 ≥ 0 then (List.range 6).foldl (pivotStep J (12 * i + 6) (b2 * 6).toNat) p1 else p1

/-- One row update of the preconditioner: `delta = (rhs[i] - J_i . x) / J_max`
is added to `x[J_max_i]`. -/
def gsRow (J : Nat → ℚ) (jb : Nat → Int) (rhs : Nat → ℚ) (x : Nat → ℚ) (i : Nat) : Nat → ℚ :=
  let b1 := jb (i * 2)
  let b2 := jb (i * 2 + 1)
  let d1 := dot6 J (12 * i) x (b1 * 6).toNat
  let d := if b2 ≥ 0 then d1 + dot6 J (12 * i + 6) x (b2 * 6).toNat else d1
  let p := rowPivot J jb i
  let delta := (rhs i - d) / p.J_max
  Function.update x p.J_max_i (x p.J_max_i + delta)

/-- One sweep of the preconditioner over rows `0..m-1`. -/
def gsSweep (m : Nat) (J : Nat → ℚ) (jb : Nat → Int) (rhs : Nat → ℚ) (x : Nat → ℚ) : Nat → ℚ :=
  (List.range m).foldl (gsRow J jb rhs) x

/-- The array `invJrhs` after the thirty sweeps, from zero. -/
def invJrhs_array (m nb : Nat) (J : Nat → ℚ) (jb : Nat → Int) (rhs : Nat → ℚ) : Nat → ℚ :=
  (gsSweep m J jb rhs)^[30] (dSetZero (fun _ => 0) (6 * nb))

/-- The local `tmpz` for one body of a row: the row's block times the body's
mass (linear part) and global inertia (angular part). -/
def tmpz_block (J : Nat → ℚ) (Jo : Nat) (mass : ℚ) (I : Nat → ℚ) (Io : Nat) (j : Nat) : ℚ :=
  if j < 3 then J (Jo + j) * mass
  else J (Jo + 3) * I (Io + (j - 3)) + J (Jo + 4) * I (Io + 4 + (j - 3))
        + J (Jo + 5) * I (Io + 8 + (j - 3))

/-- The preconditioned right-hand side: `rhs[i] = (J_i * M) . invJrhs`. -/
def rhs_precond (m : Nat) (J : Nat → ℚ) (jb : Nat → Int) (body : Nat → dxBody)
    (I : Nat → ℚ) (x : Nat → ℚ) (rhs : Nat → ℚ) : Nat → ℚ := fun i =>
  if i < m then
    let b1 := jb (i * 2)
    let b2 := jb (i * 2 + 1)
    let t1 := tmpz_block J (12 * i) (body b1.toNat).mass_mass I (12 * b1).toNat
    let r1 := dot6 t1 0 x (b1 * 6).toNat
    if b2 ≥ 0 then
      r1 + dot6 (tmpz_block J (12 * i + 6) (body b2.toNat).mass_mass I (12 * b2).toNat) 0 x
        (b2 * 6).toNat
    else r1
  else rhs i

/-- The array `v_damp` as initialised before the solver: the bodies' linear
and angular velocities. -/
def v_damp_init (body : Nat → dxBody) (nb : Nat) : Nat → ℚ := fun n =>
  if n < 6 * nb then
    (if n % 6 < 3 then (body (n / 6)).lvel (n % 6) else (body (n / 6)).avel (n % 6 - 3))
  else 0

/-! ## `dxQuickStepper`: the constraint branch -/

/-- The arguments passed to `SOR_LCP` by `dxQuickStepper` when `m > 0`. -/
def sorArgs (w : dxWorld) (body : Nat → dxBody) (nb : Nat) (_joint : List dxJoint)
    (stepsize : ℚ) (draws : Nat → Nat) : SORArgs :=
  let stepsize1 := 1 / stepsize
  let pb := preBodies w body nb
  let ji := jointiinfos _joint
  let m := count_m ji
  let invI := invI_array pb nb
  let asm := assemble w stepsize1 ji
  let jb := (jb_array pb ji).jb
  let rhs0 := multiply_J m asm.J jb (tmp1_array pb nb invI stepsize1) (fun _ => 0)
  let rhs1 := rhs_complete m asm.c stepsize1 rhs0
  let x := invJrhs_array m nb asm.J jb rhs1
  let rhs2 := rhs_precond m asm.J jb pb (I_array pb nb) x rhs1
  { m := m
    nb := nb
    J := asm.J
    jb := jb
    body := pb
    invI := invI
    lambda := fun _ => 0
    fc := fun _ => 0
    b := rhs2
    lo := asm.lo
    hi := asm.hi
    cfm := fun j => if j < m then asm.cfm j * stepsize1 else asm.cfm j
    findex := asm.findex
    qs := w.qs
    m_damp := count_m_damp ji
    J_damp := asm.J_damp
    coeff_damp := asm.coeff_damp
    jb_damp := (jb_damp_array pb ji).jb
    v_damp := v_damp_init pb nb
    f_damp := fun _ => 0
    v_joint_damp := fun _ => 0
    JiM := fun n => if n < 12 * m then asm.J n else 0
    stepsize := stepsize
    draws := draws }

/-- The velocity update due to the damping force, for one body:
`lvel += h * invMass * f_damp.lin`, `avel += invI * (h * f_damp.ang)`. -/
def dampVelBody (stepsize : ℚ) (invI : Nat → ℚ) (f_damp : Nat → ℚ) (i : Nat) (b : dxBody) :
    dxBody :=
  { b with
    lvel := fun j => if j < 3 then b.lvel j + stepsize * b.invMass * f_damp (6 * i + j)
      else b.lvel j
    avel := fun j => if j < 3 then
        b.avel j + dMultiply0_331 (offs invI (12 * i))
          (fun t => f_damp (6 * i + 3 + t) * stepsize) j
      else b.avel j }

/-- The velocity update due to the constraint forces, for one body:
`lvel += h * cforce.lin`, `avel += h * cforce.ang`. -/
def cforceVelBody (stepsize : ℚ) (cforce : Nat → ℚ) (i : Nat) (b : dxBody) : dxBody :=
  { b with
    lvel := fun j => if j < 3 then b.lvel j + stepsize * cforce (6 * i + j) else b.lvel j
    avel := fun j => if j < 3 then b.avel j + stepsize * cforce (6 * i + 3 + j)
      else b.avel j }

/-- The feedback written for one active joint with a feedback sink, whose
rows start at row `Jcopyrow / 12` of `Jcopy` and at `lambdacurr` in
`lambda`: `f1`, `t1` always, `f2`, `t2` only when the joint has a second body. -/
def jointFeedback (jt : dxJoint) (Jcopy : Nat → ℚ) (Jcopyrow : Nat) (lambda : Nat → ℚ)
    (lambdacurr : Nat) (fb : dJointFeedback) : dJointFeedback :=
  let data1 := fun c => Multiply1_12q1 (offs Jcopy Jcopyrow) (offs lambda lambdacurr) c jt.info_m
  let data2 := fun c =>
    Multiply1_12q1 (offs Jcopy (Jcopyrow + 6)) (offs lambda lambdacurr) c jt.info_m
  let fb1 : dJointFeedback :=
    { fb with
      f1 := fun c => if c < 3 then data1 c else fb.f1 c
      t1 := fun c => if c < 3 then data1 (3 + c) else fb.t1 c }
  if jt.node1.isSome then
    { fb1 with
      f2 := fun c => if c < 3 then data2 c else fb.f2 c
      t2 := fun c => if c < 3 then data2 (3 + c) else fb.t2 c }
  else fb1

/-- The state of the feedback loop: the joints processed so far with their
feedback written, and the offsets of `lambdacurr` and `Jcopyrow`. -/
structure FeedbackLoop where
  done : List dxJoint
  lambdacurr : Nat
  Jcopyrow : Nat

/-- One pass of the feedback loop. -/
def feedbackStep (Jcopy lambda : Nat → ℚ) (f : FeedbackLoop) (jt : dxJoint) : FeedbackLoop :=
  match jt.feedback with
  | some fb =>
    { done := f.done ++
        [{ jt with feedback := some (jointFeedback jt Jcopy f.Jcopyrow lambda f.lambdacurr fb) }]
      lambdacurr := f.lambdacurr + jt.info_m
      Jcopyrow := f.Jcopyrow + jt.info_m * 12 }
  | none =>
    { done := f.done ++ [jt]
      lambdacurr := f.lambdacurr + jt.info_m
      Jcopyrow := f.Jcopyrow }

/-- The active joints after the feedback block (`if (mfb > 0)`). -/
def feedbackJoints (ji : List dxJoint) (Jcopy lambda : Nat → ℚ) : List dxJoint :=
  if count_mfb ji > 0 then
    (ji.foldl (feedbackStep Jcopy lambda) { done := [], lambdacurr := 0, Jcopyrow := 0 }).done
  else ji

/-- The final velocity update for one body: `lvel += h * invMass * facc`,
`tacc *= h`, `avel += invI * tacc`. -/
def extVelBody (stepsize : ℚ) (invI : Nat → ℚ) (i : Nat) (b : dxBody) : dxBody :=
  let tacc1 : Nat → ℚ := fun j => if j < 3 then b.tacc j * stepsize else b.tacc j
  { b with
    lvel := fun j => if j < 3 then b.lvel j + stepsize * b.invMass * b.facc j else b.lvel j
    tacc := tacc1
    avel := fun j => if j < 3 then b.avel j + dMultiply0_331 (offs invI (12 * i)) tacc1 j
      else b.avel j }

/-- The tidy-up for one body: both accumulators are zeroed. -/
def zeroAccBody (b : dxBody) : dxBody :=
  { b with
    facc := fun j => if j < 3 then 0 else b.facc j
    tacc := fun j => if j < 3 then 0 else b.tacc j }

/-- What a step leaves behind: the bodies after the velocity updates (before
`dxStepBody`), the bodies on return, the active joints with their feedback, and
the memory written by `SOR_LCP` when it was called (`none` when it was not). -/
structure StepResult where
  velBodies : Nat → dxBody
  bodies : Nat → dxBody
  joints : List dxJoint
  sor : Option RowState

/-- The function `dxQuickStepper`. The routine `dxStepBody` (position and
orientation update, not among the sources) is a parameter. -/
def dxQuickStepper (dxStepBody : dxBody → ℚ → dxBody) (w : dxWorld) (body : Nat → dxBody)
    (nb : Nat) (_joint : List dxJoint) (stepsize : ℚ) (draws : Nat → Nat) : StepResult :=
  let pb := preBodies w body nb
  let ji := jointiinfos _joint
  let m := count_m ji
  let invI := invI_array pb nb
  let sor : Option RowState :=
    if m > 0 then some (SOR_LCP (sorArgs w body nb _joint stepsize draws)) else none
  let b1 : Nat → dxBody :=
    match sor with
    | some r => fun i =>
        if i < nb then
          cforceVelBody stepsize r.fc i (dampVelBody stepsize invI r.f_damp i (pb i))
        else pb i
    | none => pb
  let joints1 : List dxJoint :=
    match sor with
    | some r => feedbackJoints ji (assemble w (1 / stepsize) ji).Jcopy r.lambda
    | none => ji
  let vb : Nat → dxBody := fun i => if i < nb then extVelBody stepsize invI i (b1 i) else b1 i
  { velBodies := vb
    bodies := fun i => if i < nb then zeroAccBody (dxStepBody (vb i) stepsize) else vb i
    joints := joints1
    sor := sor }

/-! ## The step arena and the memory estimate -/

/-- The constant `EFFICIENT_ALIGNMENT` of `config.h`. -/
def EFFICIENT_ALIGNMENT : Nat := 16

/-- The macro `dEFFICIENT_SIZE` of `common.h` (not among the sources): its
argument rounded up to a multiple of `EFFICIENT_ALIGNMENT`. -/
def dEFFICIENT_SIZE (x : Nat) : Nat :=
  (x + (EFFICIENT_ALIGNMENT - 1)) / EFFICIENT_ALIGNMENT * EFFICIENT_ALIGNMENT

/-- The values of `sizeof` for the element types of the arena arrays. They
depend on the platform and on `dSINGLE`/`dDOUBLE`, and are parameters. -/
structure TypeSizes where
  sz_dReal : Nat
  sz_int : Nat
  sz_IndexError : Nat
  sz_dJointWithInfo1 : Nat

/-- The operations on the scoped arena (`dxWorldProcessContext`, `util.h`,
not among the sources): `AllocateArray` of a named array of a given byte size,
`ShrinkArray` of the array allocated last, `BEGIN_STATE_SAVE`,
`END_STATE_SAVE`. -/
inductive ArenaOp where
  | alloc (name : String) (bytes : Nat)
  | shrink (name : String) (oldBytes newBytes : Nat)
  | save
  | restore

/-- The arena: the bytes in use (the sum of the aligned sizes of the live
arrays), the saved marks, and the largest number of bytes ever in use. -/
structure Arena where
  cur : Nat
  saved : List Nat
  peak : Nat

/-- The effect of one operation: a bump allocation of the aligned size, an
in-place shrink of the last array, a mark, or a return to the last mark. -/
def Arena.step (a : Arena) : ArenaOp → Arena
  | ArenaOp.alloc _ bytes =>
    { a with cur := a.cur + dEFFICIENT_SIZE bytes
             peak := max a.peak (a.cur + dEFFICIENT_SIZE bytes) }
  | ArenaOp.shrink _ oldBytes newBytes =>
    { a with cur := a.cur - dEFFICIENT_SIZE oldBytes + dEFFICIENT_SIZE newBytes
             peak := max a.peak (a.cur - dEFFICIENT_SIZE oldBytes + dEFFICIENT_SIZE newBytes) }
  | ArenaOp.save => { a with saved := a.cur :: a.saved }
  | ArenaOp.restore =>
    match a.saved with
    | [] => a
    | c :: rest => { a with cur := c, saved := rest }

/-- The arena after a sequence of operations, from empty. -/
def Arena.run (ops : List ArenaOp) : Arena :=
  ops.foldl Arena.step { cur := 0, saved := [], peak := 0 }

/-- The allocations of `SOR_LCP`, in program order. -/
def SOR_LCP_allocs (sz : TypeSizes) (m : Nat) : List ArenaOp :=
  [ ArenaOp.alloc "iMJ" (sz.sz_dReal * (m * 12)),
    ArenaOp.alloc "Ad" (sz.sz_dReal * m),
    ArenaOp.alloc "Adcfm" (sz.sz_dReal * m),
    ArenaOp.alloc "order" (sz.sz_IndexError * m),
    ArenaOp.alloc "delta_error" (sz.sz_dReal * m),
    ArenaOp.alloc "b_damp" (sz.sz_dReal * m) ]

/-- The arena operations of the branch `if (m > 0)` of `dxQuickStepper`, in
program order. -/
def constraintArenaOps (sz : TypeSizes) (nb m mfb m_damp : Nat) : List ArenaOp :=
  [ ArenaOp.alloc "J" (sz.sz_dReal * (m * 12)),
    ArenaOp.alloc "cfm" (sz.sz_dReal * m),
    ArenaOp.alloc "lo" (sz.sz_dReal * m),
    ArenaOp.alloc "hi" (sz.sz_dReal * m),
    ArenaOp.alloc "findex" (sz.sz_int * m),
    ArenaOp.alloc "jb" (sz.sz_int * (m * 2)),
    ArenaOp.alloc "rhs" (sz.sz_dReal * m),
    ArenaOp.alloc "Jcopy" (sz.sz_dReal * (mfb * 12)),
    ArenaOp.alloc "JiM" (sz.sz_dReal * (m * 12)),
    ArenaOp.alloc "J_damp" (sz.sz_dReal * (m_damp * 12)),
    ArenaOp.alloc "v_joint_damp" (sz.sz_dReal * m_damp),
    ArenaOp.alloc "jb_damp" (sz.sz_int * (m_damp * 2)),
    ArenaOp.alloc "f_damp" (sz.sz_dReal * (nb * 6)),
    ArenaOp.alloc "v_damp" (sz.sz_dReal * (nb * 6)),
    ArenaOp.alloc "coeff_damp" (sz.sz_dReal * m_damp),
    ArenaOp.save,
    ArenaOp.alloc "c" (sz.sz_dReal * m),
    ArenaOp.save,
    ArenaOp.alloc "tmp1" (sz.sz_dReal * (nb * 6)),
    ArenaOp.restore,
    ArenaOp.alloc "invJrhs" (sz.sz_dReal * (6 * nb)),
    ArenaOp.restore,
    ArenaOp.alloc "lambda" (sz.sz_dReal * m),
    ArenaOp.alloc "cforce" (sz.sz_dReal * (nb * 6)),
    ArenaOp.save ]
  ++ SOR_LCP_allocs sz m ++ [ ArenaOp.restore ]

/-- The arena operations of one call of `dxQuickStepper`, in program order,
for `_nj` joints of which `nj` are active, with `m` rows, `mfb` rows of joints
with feedback and `m_damp` damped joints. -/
def stepArenaOps (sz : TypeSizes) (nb _nj nj m mfb m_damp : Nat) : List ArenaOp :=
  [ ArenaOp.alloc "invI" (sz.sz_dReal * (3 * 4 * nb)),
    ArenaOp.alloc "I" (sz.sz_dReal * (3 * 4 * nb)),
    ArenaOp.alloc "invM" (sz.sz_dReal * nb),
    ArenaOp.alloc "jointiinfos" (sz.sz_dJointWithInfo1 * _nj),
    ArenaOp.shrink "jointiinfos" (sz.sz_dJointWithInfo1 * _nj) (sz.sz_dJointWithInfo1 * nj) ]
  ++ (if m > 0 then constraintArenaOps sz nb m mfb m_damp else [])

/-- The arena operations of `dxQuickStepper` on a joint list. -/
def quickStepArenaOps (sz : TypeSizes) (nb : Nat) (_joint : List dxJoint) : List ArenaOp :=
  stepArenaOps sz nb _joint.length (jointiinfos _joint).length (count_m (jointiinfos _joint))
    (count_mfb (jointiinfos _joint)) (count_m_damp (jointiinfos _joint))

/-- The function `EstimateSOR_LCPMemoryRequirements`. -/
def EstimateSOR_LCPMemoryRequirements (sz : TypeSizes) (m : Nat) (_m_damp : Nat) : Nat :=
  dEFFICIENT_SIZE (sz.sz_dReal * 12 * m)
    + dEFFICIENT_SIZE (sz.sz_dReal * m)
    + dEFFICIENT_SIZE (sz.sz_dReal * m)
    + dEFFICIENT_SIZE (sz.sz_dReal * m)
    + dEFFICIENT_SIZE (sz.sz_IndexError * m)
    + dEFFICIENT_SIZE (sz.sz_dReal * m)

/-- The locals `nj`, `m`, `mfb` of the estimator after its first loop over
the joints, which uses `getSureMaxInfo`. -/
structure EstCounts where
  njcurr : Nat
  mcurr : Nat
  mfbcurr : Nat

/-- One pass of the estimator's first loop. -/
def estCountStep (e : EstCounts) (j : dxJoint) : EstCounts :=
  if j.max_m > 0 then
    { njcurr := e.njcurr + 1
      mcurr := e.mcurr + j.max_m
      mfbcurr := if j.feedback.isSome then e.mfbcurr + j.max_m else e.mfbcurr }
  else e

/-- The estimator's first loop. -/
def estCounts (_joint : List dxJoint) : EstCounts :=
  _joint.foldl estCountStep { njcurr := 0, mcurr := 0, mfbcurr := 0 }

/-- The estimator's second loop: the number of joints that use damping. -/
def est_m_damp (_joint : List dxJoint) : Nat :=
  _joint.foldl (fun m_dampcurr j => if j.use_damping then m_dampcurr + 1 else m_dampcurr) 0

/-- The size computation of `dxEstimateQuickStepMemoryRequirements`, from
the counts `_nj`, `nj`, `m`, `mfb`, `m_damp` of its two loops. -/
def estimateBytes (sz : TypeSizes) (nb _nj nj m mfb m_damp : Nat) : Nat :=
  let res0 := dEFFICIENT_SIZE (sz.sz_dReal * 3 * 4 * nb)
    + dEFFICIENT_SIZE (sz.sz_dReal * 3 * 4 * nb)
    + dEFFICIENT_SIZE (sz.sz_dReal * nb)
  let sub1_res1 := dEFFICIENT_SIZE (sz.sz_dJointWithInfo1 * _nj)
  let sub1_res2_0 := dEFFICIENT_SIZE (sz.sz_dJointWithInfo1 * nj)
  let sub1_res2 :=
    if m > 0 then
      let base := sub1_res2_0
        + dEFFICIENT_SIZE (sz.sz_dReal * 12 * m)
        + 4 * dEFFICIENT_SIZE (sz.sz_dReal * m)
        + dEFFICIENT_SIZE (sz.sz_int * 2 * m)
        + dEFFICIENT_SIZE (sz.sz_int * m)
        + dEFFICIENT_SIZE (sz.sz_dReal * 12 * mfb)
        + dEFFICIENT_SIZE (sz.sz_dReal * 12 * m_damp)
        + dEFFICIENT_SIZE (sz.sz_dReal * m_damp)
        + dEFFICIENT_SIZE (sz.sz_int * 2 * m_damp)
        + dEFFICIENT_SIZE (sz.sz_dReal * 6 * nb)
        + dEFFICIENT_SIZE (sz.sz_dReal * 12 * m)
        + dEFFICIENT_SIZE (sz.sz_dReal * 6 * nb)
        + dEFFICIENT_SIZE (sz.sz_dReal * m_damp)
      let sub3_res1a := dEFFICIENT_SIZE (sz.sz_dReal * 6 * nb)
      let sub2_res1 := dEFFICIENT_SIZE (sz.sz_dReal * m)
        + dEFFICIENT_SIZE (sz.sz_dReal * 6 * nb)
        + (if sub3_res1a ≥ 0 then sub3_res1a else 0)
      let sub3_res1b := EstimateSOR_LCPMemoryRequirements sz m m_damp
      let sub2_res2 := dEFFICIENT_SIZE (sz.sz_dReal * m)
        + dEFFICIENT_SIZE (sz.sz_dReal * 6 * nb)
        + (if sub3_res1b ≥ 0 then sub3_res1b else 0)
      base + (if sub2_res1 ≥ sub2_res2 then sub2_res1 else sub2_res2)
    else sub1_res2_0
  res0 + (if sub1_res1 ≥ sub1_res2 then sub1_res1 else sub1_res2)

/-- The function `dxEstimateQuickStepMemoryRequirements`: the two counting
loops over the joints, then the size computation. -/
def dxEstimateQuickStepMemoryRequirements (sz : TypeSizes) (nb : Nat)
    (_joint : List dxJoint) : Nat :=
  estimateBytes sz nb _joint.length (estCounts _joint).njcurr (estCounts _joint).mcurr
    (estCounts _joint).mfbcurr (est_m_damp _joint)

/-! ## Predicates used in the statements -/

/-- Component `c` of body `b`'s block of `J^T * lambda`, with no mass factor:
the sum over the rows whose first body is `b` of `lambda[i] * J_i[c]`, plus
the sum over the rows whose second body is `b` of `lambda[i] * J_i[6 + c]`. -/
def JTlambda (m : Nat) (J : Nat → ℚ) (jb : Nat → Int) (lambda : Nat → ℚ) (b c : Nat) : ℚ :=
  Finset.sum (Finset.range m) (fun i =>
    (if jb (i * 2) = (b : Int) then lambda i * J (12 * i + c) else 0)
      + (if jb (i * 2 + 1) = (b : Int) then lambda i * J (12 * i + 6 + c) else 0))

/-- The value `inv(M) * J^T * lambda` of the header comment of `SOR_LCP`,
computed by `compute_invM_JT` and `multiply_invM_JT` from the unscaled `J`. -/
def invM_JT_lambda (A : SORArgs) (lambda : Nat → ℚ) : Nat → ℚ :=
  multiply_invM_JT A.m A.nb (compute_invM_JT A.m A.J (fun _ => 0) A.jb A.body A.invI) A.jb
    lambda (fun _ => 0)

/-- The diagonal entry `J_i * inv(M) * J_i^T` of row `i`, with `inv(M) * J^T`
computed by `compute_invM_JT`; the second body's block contributes only when
`jb[2i+1] >= 0`. -/
def diag_invM (A : SORArgs) (i : Nat) : ℚ :=
  let iMJ := compute_invM_JT A.m A.J (fun _ => 0) A.jb A.body A.invI
  let s1 := dot6 iMJ (12 * i) A.J (12 * i)
  if A.jb (i * 2 + 1) ≥ 0 then s1 + dot6 iMJ (12 * i + 6) A.J (12 * i + 6) else s1

/-- The diagonal entry `J_i * J_i^T` of row `i`, with no mass factor. -/
def diag_plain (A : SORArgs) (i : Nat) : ℚ :=
  let s1 := dot6 A.J (12 * i) A.J (12 * i)
  if A.jb (i * 2 + 1) ≥ 0 then s1 + dot6 A.J (12 * i + 6) A.J (12 * i + 6) else s1

/-- The content of a row as preset by `dxQuickStepper` before any joint
writes to it: zero Jacobian, `c = 0`, `cfm = global_cfm`, infinite bounds,
`findex = -1`. -/
def presetRow (w : dxWorld) : ConstraintRow :=
  { J := fun _ => 0, c := 0, cfm := w.global_cfm, lo := none, hi := none, findex := -1 }

/-- The global row offset of the `k`-th active joint: the sum of `info.m`
over the joints before it. -/
def rowOffset (ji : List dxJoint) (k : Nat) : Nat := count_m (ji.take k)

/-- The row offset in `Jcopy` of the `k`-th active joint: the sum of `info.m`
over the joints before it that have a feedback sink. -/
def fbOffset (ji : List dxJoint) (k : Nat) : Nat := count_mfb (ji.take k)

/-- The joint `jt` after its pass of the feedback loop, when its rows start
at `lambdacurr` in `lambda` and at `Jcopyrow` in `Jcopy`. -/
def feedbackOf (Jcopy lambda : Nat → ℚ) (jt : dxJoint) (lambdacurr Jcopyrow : Nat) : dxJoint :=
  match jt.feedback with
  | some fb => { jt with feedback := some (jointFeedback jt Jcopy Jcopyrow lambda lambdacurr fb) }
  | none => jt

/-- The force invariant: `fc = J^T * lambda` on the blocks of bodies `< nb`. -/
def FcInv (A : SORArgs) (s : RowState) : Prop :=
  ∀ b c, b < A.nb → c < 6 → s.fc (6 * b + c) = JTlambda A.m A.J A.jb s.lambda b c

/-- Position `p` of `order` belongs to the task: `startRow <= p < startRow + nRows`. -/
def InChunk (E : RowEnv) (p : Nat) : Prop :=
  E.startRow.toNat ≤ p ∧ p < E.startRow.toNat + E.nRows.toNat

/-- The array `order` holds a permutation of `0..m-1` in its first `m` cells. -/
def OrderOK (m : Nat) (order : Nat → Nat) : Prop :=
  (∀ p, p < m → order p < m) ∧ (∀ j, j < m → ∃ p, p < m ∧ order p = j)

/-! ## The bilateral scenario -/

/-- The 3x3 identity matrix in `dMatrix3` layout (row stride 4). -/
def identity3 : Nat → ℚ := fun n => if n = 0 ∨ n = 5 ∨ n = 10 then 1 else 0

/-- A body of mass `1` with identity inertia and orientation, no flags, zero
force and torque accumulators, and the given linear and angular velocity. -/
def unitBody (lvel avel : Nat → ℚ) : dxBody :=
  { flags := 0
    tag := 0
    mass_mass := 1
    mass_I := identity3
    invMass := 1
    invI := identity3
    posr_R := identity3
    lvel := lvel
    avel := avel
    facc := fun _ => 0
    tacc := fun _ => 0 }

/-- The body array of the scenario: two unit bodies. -/
def ballBodies (v1 a1 v2 a2 : Nat → ℚ) : Nat → dxBody :=
  fun i => if i = 0 then unitBody v1 a1 else unitBody v2 a2

/-- Row `k` of the bilateral joint: Jacobian `(e_k, 0, -e_k, 0)`, `c = 0`,
`cfm = 0`, no bounds, no friction coupling. -/
def ballRow (k : Nat) : ConstraintRow :=
  { J := fun c => if c = k then 1 else if c = k + 6 then -1 else 0
    c := 0
    cfm := 0
    lo := none
    hi := none
    findex := -1 }

/-- A feedback sink holding zeros. -/
def zeroFeedback : dJointFeedback :=
  { f1 := fun _ => 0, t1 := fun _ => 0, f2 := fun _ => 0, t2 := fun _ => 0 }

/-- The bilateral joint of the scenario: three unbounded rows between body
`0` and body `1`, with a feedback sink and no damping. -/
def ballJoint : dxJoint :=
  { info_m := 3
    info_nub := 3
    max_m := 3
    feedback := some zeroFeedback
    use_damping := false
    damping_coefficient := 0
    node0 := some 0
    node1 := some 1
    getInfo2 := fun _ _ _ j => ballRow j
    getInfo2_damp := fun _ _ _ => 0 }

/-- The world of the scenario: no gravity, `CFM = 0`, `ERP = 1`, SOR weight
`w`, `N` iterations, one chunk, no overlap, tolerance `0`. -/
def ballWorld (w : ℚ) (N : Nat) : dxWorld :=
  { gravity := fun _ => 0
    global_cfm := 0
    global_erp := 1
    qs := { num_iterations := (N : Int), w := w, num_chunks := 1, num_overlap := 0,
            sor_lcp_tolerance := 0 } }

/-- The arguments `dxQuickStepper` passes to `SOR_LCP` in the scenario. -/
def ballArgs (w : ℚ) (N : Nat) (v1 a1 v2 a2 : Nat → ℚ) (stepsize : ℚ) (draws : Nat → Nat) :
    SORArgs :=
  sorArgs (ballWorld w N) (ballBodies v1 a1 v2 a2) 2 [ballJoint] stepsize draws

/-- The right-hand side of the scenario before preconditioning:
`-(v1 - v2) / h` on the three rows. -/
def ballRhs (v1 v2 : Nat → ℚ) (h : ℚ) : Nat → ℚ :=
  fun i => if i < 3 then -((v1 i - v2 i) * (1 / h)) else 0

/-- The `lambda` of the scenario after `n` iterations:
`(rhs / 2) * (1 - (1 - w)^n)` on the three rows. -/
def ballLambda (w : ℚ) (v1 v2 : Nat → ℚ) (h : ℚ) (n : Nat) : Nat → ℚ :=
  fun i => ballRhs v1 v2 h i / 2 * (1 - (1 - w) ^ n)

/-- The invariant of the scenario's solver state: the force invariant, a zero
damping force on the two bodies, and a permutation in `order`. -/
def BallInv (A : SORArgs) (s : RowState) : Prop :=
  FcInv A s ∧ (∀ n, n < 12 → s.f_damp n = 0) ∧ OrderOK 3 s.order

/-! ## Concrete inputs -/

/-- A body at rest with mass `1/2` (inverse mass `2`), identity inertia and
orientation. -/
def exBodyHeavy : dxBody :=
  { flags := 0
    tag := 0
    mass_mass := 1 / 2
    mass_I := fun n => if n = 0 ∨ n = 5 ∨ n = 10 then 1 else 0
    invMass := 2
    invI := fun n => if n = 0 ∨ n = 5 ∨ n = 10 then 1 else 0
    posr_R := fun n => if n = 0 ∨ n = 5 ∨ n = 10 then 1 else 0
    lvel := fun _ => 0
    avel := fun _ => 0
    facc := fun _ => 0
    tacc := fun _ => 0 }

/-- One unbounded row `J = (1,0,0, 0,0,0 | -)` on a single body of inverse
mass `2`, right-hand side `1`, `cfm = 0`, `w = 1`, one iteration, one chunk. -/
def exOneRow : SORArgs :=
  { m := 1
    nb := 1
    J := fun n => if n = 0 then 1 else 0
    jb := fun n => if n = 0 then 0 else -1
    body := fun _ => exBodyHeavy
    invI := fun n => if n = 0 ∨ n = 5 ∨ n = 10 then 1 else 0
    lambda := fun _ => 0
    fc := fun _ => 0
    b := fun _ => 1
    lo := fun _ => none
    hi := fun _ => none
    cfm := fun _ => 0
    findex := fun _ => -1
    qs := { num_iterations := 1, w := 1, num_chunks := 1, num_overlap := 0,
            sor_lcp_tolerance := 0 }
    m_damp := 0
    J_damp := fun _ => 0
    coeff_damp := fun _ => 0
    jb_damp := fun _ => 0
    v_damp := fun _ => 0
    f_damp := fun _ => 0
    v_joint_damp := fun _ => 0
    JiM := fun n => if n = 0 then 1 else 0
    stepsize := 1
    draws := fun _ => 0 }

/-- A contact between body `0` and the static environment, seen by the solver:
row `0` is the normal row (`lo = 0`, no upper bound), row `1` a friction row
coupled to row `0` with `hi = 1/2`. One iteration, one chunk. -/
def exFriction : SORArgs :=
  { m := 2
    nb := 1
    J := fun n => if n = 2 ∨ n = 12 then 1 else 0
    jb := fun n => if n % 2 = 0 then 0 else -1
    body := fun _ => exBodyHeavy
    invI := identity3
    lambda := fun _ => 0
    fc := fun _ => 0
    b := fun _ => 1
    lo := fun i => if i = 1 then some (-1 / 2) else some 0
    hi := fun i => if i = 1 then some (1 / 2) else none
    cfm := fun _ => 0
    findex := fun i => if i = 1 then 0 else -1
    qs := { num_iterations := 1, w := 1, num_chunks := 1, num_overlap := 0,
            sor_lcp_tolerance := 0 }
    m_damp := 0
    J_damp := fun _ => 0
    coeff_damp := fun _ => 0
    jb_damp := fun _ => 0
    v_damp := fun _ => 0
    f_damp := fun _ => 0
    v_joint_damp := fun _ => 0
    JiM := fun n => if n = 2 ∨ n = 12 then 1 else 0
    stepsize := 1
    draws := fun _ => 0 }

/-- A task over the two rows of a contact: right-hand side `1` on both rows,
row `0` the normal row, row `1` a friction row coupled to row `0` with
`hi = 1/2`; one iteration. -/
def exConeEnv : RowEnv :=
  { startRow := 0
    nRows := 2
    m := 2
    nb := 1
    m_damp := 0
    num_iterations := 1
    stepsize := 1
    sor_lcp_tolerance := 0
    jb := fun n => if n % 2 = 0 then 0 else -1
    findex := fun i => if i = 1 then 0 else -1
    jb_damp := fun _ => 0
    Ad := fun _ => 1
    hi := fun i => if i = 1 then some (1 / 2) else none
    lo := fun i => if i = 1 then some (-1 / 2) else some 0
    Adcfm := fun _ => 0
    JiM := fun _ => 0
    invI := identity3
    coeff_damp := fun _ => 0
    b := fun _ => 1
    J := fun n => if n = 2 ∨ n = 12 then 1 else 0
    iMJ := fun n => if n = 2 ∨ n = 12 then 1 else 0
    J_damp := fun _ => 0
    body := fun _ => exBodyHeavy
    draws := fun _ => 1 }

/-- A solver memory at a fixed point of `exConeEnv`: normal force `1`, friction
force `1/2` (on the cone), `fc` the matching body force, `order` the identity. -/
def exConeState : RowState :=
  { order := fun p => p
    lambda := fun i => if i = 0 then 1 else 1 / 2
    fc := fun n => if n = 0 then 1 / 2 else if n = 2 then 1 else 0
    b_damp := fun _ => 0
    delta_error := fun _ => 0
    f_damp := fun _ => 0
    v_damp := fun _ => 0
    v_joint_damp := fun _ => 0
    rms_error := 0
    randCalls := 0
    iterations := 0
    L_last := fun _ => 0 }

/-- A contact joint on body `0`: a normal row and two friction rows whose
joint-local `findex` is `0`. -/
def exContactJoint : dxJoint :=
  { info_m := 3
    info_nub := 0
    max_m := 3
    feedback := none
    use_damping := false
    damping_coefficient := 0
    node0 := some 0
    node1 := none
    getInfo2 := fun _ _ preset j =>
      if j = 0 then { preset with J := fun c => if c = 2 then 1 else 0, lo := some 0 }
      else { preset with J := fun c => if c + 1 = j then 1 else 0, lo := some (-1 / 2),
                         hi := some (1 / 2), findex := 0 }
    getInfo2_damp := fun _ _ _ => 0 }

/-- A joint that reports no rows. -/
def exIdleJoint : dxJoint :=
  { info_m := 0
    info_nub := 0
    max_m := 6
    feedback := none
    use_damping := true
    damping_coefficient := 1
    node0 := some 0
    node1 := some 1
    getInfo2 := fun _ _ preset _ => preset
    getInfo2_damp := fun _ _ _ => 0 }

/-- The sizes on a 64-bit platform with `dSINGLE`. -/
def exSizes : TypeSizes :=
  { sz_dReal := 4, sz_int := 4, sz_IndexError := 4, sz_dJointWithInfo1 := 16 }

/-- A unit vector along the first axis. -/
def exAxis0 : Nat → ℚ := fun k => if k = 0 then 1 else 0

/-! ## The dispatch loop with a thread pool -/

/-- The state of the dispatch loop of `SOR_LCP`: the memory the tasks write,
and the tasks handed to `row_threadpool->schedule` that have not run yet. -/
structure Dispatch where
  mem : RowState
  queue : List RowEnv

/-- One pass of the dispatch loop for the task that starts at row `i`.
`pooled` is the value of the test
`row_threadpool && row_threadpool->size() > 0`: the task is scheduled on the
pool when it holds and `ComputeRows` is called in the calling thread
otherwise, with the same parameter block in both branches. -/
def SOR_dispatchStep (A : SORArgs) (pooled : Bool) (d : Dispatch) (i : Nat) : Dispatch :=
  if pooled then { d with queue := d.queue ++ [SOR_task A i] }
  else { d with mem := ComputeRows (SOR_task A i) d.mem }

/-- The dispatch loop `for (i = 0; i < m; i += chunk, thread_id++)`. -/
def SOR_dispatch (A : SORArgs) (pooled : Bool) : Dispatch :=
  (chunkStarts A.m (SOR_chunk A.m A.qs).toNat).foldl (SOR_dispatchStep A pooled)
    { mem := SOR_init A, queue := [] }

/-- The function `SOR_LCP` with the thread pool: after the dispatch loop,
`row_threadpool->wait ()` is called when the pool is in use. The pool
(`boost::threadpool`, not among the sources) is the parameter `poolWait`:
`poolWait q s` is the memory found when `wait` returns, for the scheduled
tasks `q` and the memory `s` they were scheduled on. -/
def SOR_LCP_pool (poolWait : List RowEnv → RowState → RowState) (A : SORArgs) (pooled : Bool) :
    RowState :=
  let d := SOR_dispatch A pooled
  if pooled then poolWait d.queue d.mem else d.mem

/-! ## The iterations of `ComputeRows`, one by one -/

/-- The memory after the first `t` passes of the row loop of one iteration:
pass `k` updates the row `order[startRow + k].index`. -/
def rowLoopSteps (E : RowEnv) (s : RowState) (t : Nat) : RowState :=
  (List.range t).foldl (fun s k => rowUpdate E s (s.order (E.startRow.toNat + k))) s

/-- The memory after the iterations `0 .. j-1` of the loop of `ComputeRows`,
each run in full, with no convergence test between them. -/
def iterationsRun (E : RowEnv) (s : RowState) : Nat → RowState
  | 0 => s
  | j + 1 => iterationBody E j (iterationsRun E s j)

/-- The test `rms_error < sor_lcp_tolerance` at the end of iteration `k`, for
`rms_error = sqrt (sum of delta*delta)`. -/
def convergedAt (E : RowEnv) (s : RowState) (k : Nat) : Bool :=
  sqrtLt (iterationsRun E s (k + 1)).rms_error E.sor_lcp_tolerance

/-! ## The right-hand side before the preconditioner -/

/-- The array `rhs` of `dxQuickStepper` after the loop `complete rhs`, before
the preconditioning sweeps: `multiply_J (m, J, jb, tmp1, rhs)` followed by
`rhs[i] = c[i] * stepsize1 - rhs[i]`. -/
def rhs_array (w : dxWorld) (body : Nat → dxBody) (nb : Nat) (_joint : List dxJoint)
    (stepsize : ℚ) : Nat → ℚ :=
  let stepsize1 := 1 / stepsize
  let pb := preBodies w body nb
  let ji := jointiinfos _joint
  let m := count_m ji
  let asm := assemble w stepsize1 ji
  let jb := (jb_array pb ji).jb
  rhs_complete m asm.c stepsize1
    (multiply_J m asm.J jb (tmp1_array pb nb (invI_array pb nb) stepsize1) (fun _ => 0))

/-! ## More concrete inputs -/

/-- Four unbounded rows `J = (0,0,1, 0,0,0 | -)` on a single body, right-hand
side `1`, four chunks asked for, no overlap, one iteration. -/
def exChunks : SORArgs :=
  { m := 4
    nb := 1
    J := fun n => if n % 12 = 2 then 1 else 0
    jb := fun n => if n % 2 = 0 then 0 else -1
    body := fun _ => exBodyHeavy
    invI := identity3
    lambda := fun _ => 0
    fc := fun _ => 0
    b := fun _ => 1
    lo := fun _ => none
    hi := fun _ => none
    cfm := fun _ => 0
    findex := fun _ => -1
    qs := { num_iterations := 1, w := 1, num_chunks := 4, num_overlap := 0, sor_lcp_tolerance := 0 }
    m_damp := 0
    J_damp := fun _ => 0
    coeff_damp := fun _ => 0
    jb_damp := fun _ => 0
    v_damp := fun _ => 0
    f_damp := fun _ => 0
    v_joint_damp := fun _ => 0
    JiM := fun n => if n % 12 = 2 then 1 else 0
    stepsize := 1
    draws := fun _ => 0 }

/-- A pool that runs its queue in scheduling order, one task at a time. -/
def exPoolWait (q : List RowEnv) (s : RowState) : RowState :=
  q.foldl (fun s E => ComputeRows E s) s

/-! ## The arrangement produced by given draws -/

/-- The exchange of `order[i]` and `order[j]`:
`tmp = order[i]; order[i] = order[j]; order[j] = tmp`. -/
def swapAt (o : Nat → Nat) (i j : Nat) : Nat → Nat :=
  Function.update (Function.update o i (o j)) j (o i)

/-- The array `order` after the first `t` passes of the reordering loop of a
chunk that starts at position `a`, when the call of `dRandInt` in pass `k`
(for `i = a + 1 + k`) returns `r k`. -/
def shuffleWith (a : Nat) (r : Nat → Nat) (o : Nat → Nat) : Nat → Nat → Nat
  | 0 => o
  | t + 1 => swapAt (shuffleWith a r o t) (a + 1 + t) (r t + a)

/-! ## More concrete inputs -/

/-- The `findex` of a contact with a normal row `0` and two friction rows `1`
and `2` coupled to it. -/
def exContactFindex : Nat → Int := fun i => if i = 0 then -1 else 0

/-- The row of `exOneRow` with the box `[1, 2]`, no iteration, and stale
contents `5` and `7` in `lambda` and `fc`. -/
def exNoIteration : SORArgs :=
  { exOneRow with
    lo := fun _ => some 1
    hi := fun _ => some 2
    lambda := fun _ => 5
    fc := fun _ => 7
    qs := { num_iterations := 0, w := 1, num_chunks := 1, num_overlap := 0, sor_lcp_tolerance := 0 } }

/-- A task with one unbounded row `J = (1,0,0, 0,0,0 | -)` and one damped
joint with damping Jacobian `(1,0,0, 0,0,0 | -)` and coefficient `1`, both on
a single unit body moving with velocity `(1,0,0)`; eleven iterations, so that
the ramp factor of iteration `10` is `1`. -/
def exDampEnv : RowEnv :=
  { startRow := 0
    nRows := 1
    m := 1
    nb := 1
    m_damp := 1
    num_iterations := 11
    stepsize := 1
    sor_lcp_tolerance := 0
    jb := fun n => if n = 0 then 0 else -1
    findex := fun _ => -1
    jb_damp := fun n => if n = 0 then 0 else -1
    Ad := fun _ => 1
    hi := fun _ => none
    lo := fun _ => none
    Adcfm := fun _ => 0
    JiM := fun n => if n = 0 then 1 else 0
    invI := identity3
    coeff_damp := fun _ => 1
    b := fun _ => 0
    J := fun n => if n = 0 then 1 else 0
    iMJ := fun n => if n = 0 then 1 else 0
    J_damp := fun n => if n = 0 then 1 else 0
    body := fun _ => unitBody exAxis0 (fun _ => 0)
    draws := fun _ => 0 }

/-- The memory of `exDampEnv` at the start of iteration `10`: no constraint
force and no damping force yet (the ramp factor is `0` before). -/
def exDampState : RowState :=
  { order := fun p => p
    lambda := fun _ => 0
    fc := fun _ => 0
    b_damp := fun _ => 0
    delta_error := fun _ => 0
    f_damp := fun _ => 0
    v_damp := fun _ => 0
    v_joint_damp := fun _ => 0
    rms_error := 0
    randCalls := 0
    iterations := 10
    L_last := fun _ => 0 }

/-! ## The cells `ComputeRows` accesses -/

/-- The arrays `ComputeRows` indexes. -/
inductive Arr where
  | order | jb | findex | lambda | b | Ad | Adcfm | hi | lo | J | iMJ | JiM | b_damp
  | delta_error | fc | f_damp | v_damp | invI | body
  | J_damp | coeff_damp | v_joint_damp | jb_damp
  deriving DecidableEq

/-- The number of cells of each array, as allocated by `dxQuickStepper` and
`SOR_LCP`: `m` cells per row array, `2 m` for `jb`, `12 m` for the Jacobians,
`6 nb` per body array, `12 nb` for `invI`, and `m_damp`, `2 m_damp`,
`12 m_damp` for the damping arrays. -/
def arrLen (E : RowEnv) : Arr → Nat
  | Arr.order => E.m
  | Arr.jb => 2 * E.m
  | Arr.findex => E.m
  | Arr.lambda => E.m
  | Arr.b => E.m
  | Arr.Ad => E.m
  | Arr.Adcfm => E.m
  | Arr.hi => E.m
  | Arr.lo => E.m
  | Arr.J => 12 * E.m
  | Arr.iMJ => 12 * E.m
  | Arr.JiM => 12 * E.m
  | Arr.b_damp => E.m
  | Arr.delta_error => E.m
  | Arr.fc => 6 * E.nb
  | Arr.f_damp => 6 * E.nb
  | Arr.v_damp => 6 * E.nb
  | Arr.invI => 12 * E.nb
  | Arr.body => E.nb
  | Arr.J_damp => 12 * E.m_damp
  | Arr.coeff_damp => E.m_damp
  | Arr.v_joint_damp => E.m_damp
  | Arr.jb_damp => 2 * E.m_damp

/-- Every cell of the list is inside its array. -/
def InBounds (E : RowEnv) (l : List (Arr × Int)) : Prop :=
  ∀ x, x ∈ l → 0 ≤ x.2 ∧ x.2 < (arrLen E x.1 : Int)

/-- The cells `a[base + j]`, `j = 0..n-1`. -/
def cells (a : Arr) (base : Int) (n : Nat) : List (Arr × Int) :=
  (List.range n).map (fun (j : Nat) => (a, base + (j : Int)))

/-- The cells of `order` accessed by one pass of the random reordering loop,
for `i = startRow + 1 + k`: `order[i]` and `order[swapi]` with
`swapi = dRandInt (i+1-startRow) + startRow`. -/
def swapAccesses (E : RowEnv) (s : RowState) (k : Nat) : List (Arr × Int) :=
  let i : Int := E.startRow + 1 + (k : Int)
  let swapi : Int := (dRandInt E.draws s.randCalls (i + 1 - E.startRow).toNat : Nat) + E.startRow
  [(Arr.order, i), (Arr.order, swapi)]

/-- The cells accessed by the first `t` passes of the random reordering loop. -/
def shuffleAccesses (E : RowEnv) (s : RowState) (t : Nat) : List (Arr × Int) :=
  (List.range t).flatMap (fun (k : Nat) => swapAccesses E ((List.range k).foldl (swapStep E) s) k)

/-- The cells accessed by the row update at position `i` of `order`, for
`index = order[i].index`, `b1 = jb[index*2]`, `b2 = jb[index*2+1]`: the row's
cells of the row arrays, of `JiM`, `J`, `iMJ`, the blocks of `f_damp` and `fc`
of the first body and, when `b2 >= 0`, of the second, and
`lambda[findex[index]]` when `findex[index] >= 0`. -/
def rowAccesses (E : RowEnv) (s : RowState) (i : Int) : List (Arr × Int) :=
  let index : Int := (s.order i.toNat : Int)
  let b1 := E.jb (s.order i.toNat * 2)
  let b2 := E.jb (s.order i.toNat * 2 + 1)
  [(Arr.order, i), (Arr.jb, index * 2), (Arr.jb, index * 2 + 1), (Arr.b_damp, index)]
    ++ cells Arr.JiM (index * 12) 6 ++ cells Arr.f_damp (6 * b1) 6
    ++ (if b2 ≥ 0 then cells Arr.JiM (index * 12 + 6) 6 ++ cells Arr.f_damp (6 * b2) 6 else [])
    ++ [(Arr.Ad, index), (Arr.lambda, index), (Arr.b, index), (Arr.Adcfm, index)]
    ++ cells Arr.J (index * 12) 6 ++ cells Arr.fc (6 * b1) 6
    ++ (if b2 ≥ 0 then cells Arr.J (index * 12 + 6) 6 ++ cells Arr.fc (6 * b2) 6 else [])
    ++ [(Arr.findex, index), (Arr.hi, index)]
    ++ (if E.findex (s.order i.toNat) ≥ 0 then [(Arr.lambda, E.findex (s.order i.toNat))]
        else [(Arr.lo, index)])
    ++ [(Arr.delta_error, index)]
    ++ cells Arr.iMJ (index * 12) 6
    ++ (if b2 ≥ 0 then cells Arr.iMJ (index * 12 + 6) 6 else [])

/-- The cells accessed by the first `t` passes of the row loop. -/
def rowLoopAccesses (E : RowEnv) (s : RowState) (t : Nat) : List (Arr × Int) :=
  (List.range t).flatMap (fun (k : Nat) => rowAccesses E (rowLoopSteps E s k) (E.startRow + (k : Int)))

/-- The cells accessed by the body loop that recomputes `v_damp`, for body
`bi`: the body, its blocks of `fc`, `f_damp` and `v_damp`, and its three rows
of `invI` read by `dMultiplyAdd0_331`. -/
def vDampAccesses (bi : Nat) : List (Arr × Int) :=
  [(Arr.body, (bi : Int))]
    ++ cells Arr.fc (6 * (bi : Int)) 6 ++ cells Arr.f_damp (6 * (bi : Int)) 6
    ++ cells Arr.v_damp (6 * (bi : Int)) 6
    ++ cells Arr.invI (12 * (bi : Int)) 3 ++ cells Arr.invI (12 * (bi : Int) + 4) 3
    ++ cells Arr.invI (12 * (bi : Int) + 8) 3

/-- The cells accessed by one pass of the loop over the damping rows. -/
def dampRowAccesses (E : RowEnv) (j : Nat) : List (Arr × Int) :=
  let b1 := E.jb_damp (j * 2)
  let b2 := E.jb_damp (j * 2 + 1)
  [(Arr.jb_damp, (j : Int) * 2), (Arr.jb_damp, (j : Int) * 2 + 1), (Arr.v_joint_damp, (j : Int))]
    ++ cells Arr.J_damp (12 * (j : Int)) 6 ++ cells Arr.v_damp (b1 * 6) 6
    ++ (if b2 ≥ 0 then cells Arr.J_damp (12 * (j : Int) + 6) 6 ++ cells Arr.v_damp (b2 * 6) 6
        else [])
    ++ [(Arr.coeff_damp, (j : Int))]
    ++ cells Arr.f_damp (b1 * 6) 6
    ++ (if b2 ≥ 0 then cells Arr.f_damp (b2 * 6) 6 else [])

/-- The cells accessed by the two damping blocks of an iteration. -/
def dampAccesses (E : RowEnv) : List (Arr × Int) :=
  (List.range E.nb).flatMap vDampAccesses
    ++ cells Arr.f_damp 0 (6 * E.nb)
    ++ (List.range E.m_damp).flatMap (dampRowAccesses E)

/-- The cells accessed by iteration `iteration` of `ComputeRows` from the
memory `s`. -/
def iterationAccesses (E : RowEnv) (iteration : Nat) (s : RowState) : List (Arr × Int) :=
  (if iteration &&& 7 = 0 then shuffleAccesses E s (E.nRows.toNat - 1) else [])
    ++ rowLoopAccesses E { (if iteration &&& 7 = 0 then shuffle E s else s) with rms_error := 0 }
        E.nRows.toNat
    ++ dampAccesses E

/-- The cells accessed by the iteration loop, which stops as `iterLoop` does. -/
def iterLoopAccesses (E : RowEnv) : Nat → Nat → RowState → List (Arr × Int)
  | 0, _, _ => []
  | n + 1, iteration, s =>
    iterationAccesses E iteration s ++
      (if sqrtLt (iterationBody E iteration s).rms_error E.sor_lcp_tolerance then []
       else iterLoopAccesses E n (iteration + 1) (iterationBody E iteration s))

/-- The cells accessed by a call of `ComputeRows`. -/
def ComputeRowsAccesses (E : RowEnv) (s : RowState) : List (Arr × Int) :=
  iterLoopAccesses E E.num_iterations.toNat 0 s

/-! ## The dispatch loop in 32-bit `int` arithmetic -/

/-- The value an `int` holds after an operation whose exact result is `x`:
`x` brought back into `[-2^31, 2^31)` by a multiple of `2^32`, the two's
complement wrap of the compiled code. -/
def int32 (x : Int) : Int :=
  (x + 2147483648) % 4294967296 - 2147483648

/-- The local `nStart` of the dispatch loop,
`i - num_overlap < 0 ? 0 : i - num_overlap`, with the subtraction done in
`int`. -/
def SOR_nStart32 (qs : dxQuickStepParameters) (i : Nat) : Int :=
  if int32 ((i : Int) - qs.num_overlap) < 0 then 0 else int32 ((i : Int) - qs.num_overlap)

/-- The local `nEnd` of the dispatch loop: `i + chunk + num_overlap`, the two
additions done in `int` from left to right, then `if (nEnd > m) nEnd = m`. -/
def SOR_nEnd32 (m : Nat) (qs : dxQuickStepParameters) (i : Nat) : Int :=
  let nEnd := int32 (int32 ((i : Int) + SOR_chunk m qs) + qs.num_overlap)
  if nEnd > (m : Int) then (m : Int) else nEnd

/-- The parameter block written for the task that starts at `i`, with
`startRow = nStart` and `nRows = nEnd - nStart` computed in `int`; the other
fields are those of `SOR_task`. -/
def SOR_task32 (A : SORArgs) (i : Nat) : RowEnv :=
  { SOR_task A i with
    startRow := SOR_nStart32 A.qs i
    nRows := int32 (SOR_nEnd32 A.m A.qs i - SOR_nStart32 A.qs i) }

/-- The list of tasks created by the dispatch loop, in creation order, with
the `int` arithmetic of the loop body in 32 bits. The counter `i` and `chunk`
run below `m + chunk`, which is taken to be inside `int`. -/
def SOR_tasks32 (A : SORArgs) : List RowEnv :=
  (chunkStarts A.m (SOR_chunk A.m A.qs).toNat).map (SOR_task32 A)

/-- The function `SOR_LCP` with the tasks run one after the other in the
calling thread, the task ranges computed in 32-bit `int` arithmetic. -/
def SOR_LCP32 (A : SORArgs) : RowState :=
  (SOR_tasks32 A).foldl (fun s E => ComputeRows E s) (SOR_init A)

/-- One pass of the dispatch loop for the task that starts at row `i`, the
task range computed in 32-bit `int` arithmetic: scheduled on the pool when
`pooled` holds, run by a call of `ComputeRows` otherwise. -/
def SOR_dispatchStep32 (A : SORArgs) (pooled : Bool) (d : Dispatch) (i : Nat) : Dispatch :=
  if pooled then { d with queue := d.queue ++ [SOR_task32 A i] }
  else { d with mem := ComputeRows (SOR_task32 A i) d.mem }

/-- The dispatch loop `for (i = 0; i < m; i += chunk, thread_id++)`, the task
ranges computed in 32-bit `int` arithmetic. -/
def SOR_dispatch32 (A : SORArgs) (pooled : Bool) : Dispatch :=
  (chunkStarts A.m (SOR_chunk A.m A.qs).toNat).foldl (SOR_dispatchStep32 A pooled)
    { mem := SOR_init A, queue := [] }

/-- The function `SOR_LCP` with the thread pool, the task ranges computed in
32-bit `int` arithmetic; `poolWait` is the pool, as in `SOR_LCP_pool`. -/
def SOR_LCP_pool32 (poolWait : List RowEnv → RowState → RowState) (A : SORArgs)
    (pooled : Bool) : RowState :=
  let d := SOR_dispatch32 A pooled
  if pooled then poolWait d.queue d.mem else d.mem

/-- The row of `exOneRow` with `num_overlap = INT_MAX`: in the dispatch loop
`i + chunk + num_overlap = 0 + 2 + 2147483647` wraps to `-2147483647`. -/
def exOverflow : SORArgs :=
  { exOneRow with
    qs := { num_iterations := 1, w := 1, num_chunks := 1, num_overlap := 2147483647,
            sor_lcp_tolerance := 0 } }

theorem dFabs_eq_abs (x : ℚ) : dFabs x = |x| := by
  unfold dFabs
  split_ifs with h
  · exact (abs_of_neg h).symm
  · exact (abs_of_nonneg (not_lt.mp h)).symm

theorem clampLambda_bounds (x : ℚ) (lo : LoBound) (hi : HiBound) (h : boundsOrdered lo hi) :
    loLe lo (clampLambda x lo hi) ∧ leHi (clampLambda x lo hi) hi := by
  unfold clampLambda
  cases lo with
  | none =>
    cases hi with
    | none => simp [ltLo, gtHi, loLe, leHi]
    | some u =>
      by_cases hx : x > u
      · simp [ltLo, gtHi, loLe, leHi, hx]
      · simp [ltLo, gtHi, loLe, leHi, hx]
        exact not_lt.mp hx
  | some l =>
    cases hi with
    | none =>
      by_cases hx : x < l
      · simp [ltLo, gtHi, loLe, leHi, hx]
      · simp [ltLo, gtHi, loLe, leHi, hx]
        exact not_lt.mp hx
    | some u =>
      have hlu : l ≤ u := h l u rfl rfl
      by_cases hx : x < l
      · simp [ltLo, gtHi, loLe, leHi, hx, hlu]
      · by_cases hx2 : x > u
        · simp [ltLo, gtHi, loLe, leHi, hx, hx2, hlu]
        · simp [ltLo, gtHi, loLe, leHi, hx, hx2]
          exact ⟨not_lt.mp hx, not_lt.mp hx2⟩

theorem clampLambda_friction (x B : ℚ) (hB : 0 ≤ B) :
    |clampLambda x (some (-B)) (some B)| ≤ B := by
  have h := clampLambda_bounds x (some (-B)) (some B)
    (by intro l u hl hu; cases hl; cases hu; linarith)
  exact abs_le.mpr ⟨h.1 _ rfl, h.2 _ rfl⟩

theorem rowUpdate_lambda (E : RowEnv) (s : RowState) (index : Nat) :
    (rowUpdate E s index).lambda = Function.update s.lambda index
      (clampLambda (s.lambda index + rowDelta E s index) (lo_act E s.lambda index)
        (hi_act E s.lambda index)) := rfl

theorem rowUpdate_order (E : RowEnv) (s : RowState) (index : Nat) :
    (rowUpdate E s index).order = s.order := rfl

theorem rowUpdate_L_last (E : RowEnv) (s : RowState) (index : Nat) :
    (rowUpdate E s index).L_last = if E.findex index ≥ 0 then
        Function.update s.L_last index (s.lambda (E.findex index).toNat)
      else s.L_last := rfl

theorem swapStep_lambda (E : RowEnv) (s : RowState) (k : Nat) :
    (swapStep E s k).lambda = s.lambda := rfl

theorem swapStep_L_last (E : RowEnv) (s : RowState) (k : Nat) :
    (swapStep E s k).L_last = s.L_last := rfl

theorem swapStep_order_apply (E : RowEnv) (s : RowState) (k p : Nat) :
    (swapStep E s k).order p =
      if p = dRandInt E.draws s.randCalls (E.startRow.toNat + 1 + k + 1 - E.startRow.toNat)
            + E.startRow.toNat then s.order (E.startRow.toNat + 1 + k)
      else if p = E.startRow.toNat + 1 + k then
        s.order (dRandInt E.draws s.randCalls (E.startRow.toNat + 1 + k + 1 - E.startRow.toNat)
            + E.startRow.toNat)
      else s.order p := by
  simp only [swapStep, Function.update_apply]

theorem dRandInt_lt (draws : Nat → Nat) (k n : Nat) (hn : 0 < n) : dRandInt draws k n < n :=
  Nat.mod_lt _ hn

/-- The state after the first `t` passes of the reordering loop. -/
theorem shuffle_steps (E : RowEnv) (s : RowState) (t : Nat) (ht : t ≤ E.nRows.toNat - 1) :
    ((List.range t).foldl (swapStep E) s).lambda = s.lambda ∧ ((List.range t).foldl (swapStep E) s).L_last = s.L_last ∧
    (∀ p, ¬ (E.startRow.toNat ≤ p ∧ p < E.startRow.toNat + E.nRows.toNat) →
      ((List.range t).foldl (swapStep E) s).order p = s.order p) ∧
    (∀ p, E.startRow.toNat ≤ p → p < E.startRow.toNat + E.nRows.toNat →
      ∃ q, E.startRow.toNat ≤ q ∧ q < E.startRow.toNat + E.nRows.toNat ∧
        ((List.range t).foldl (swapStep E) s).order p = s.order q) ∧
    (∀ q, E.startRow.toNat ≤ q → q < E.startRow.toNat + E.nRows.toNat →
      ∃ p, E.startRow.toNat ≤ p ∧ p < E.startRow.toNat + E.nRows.toNat ∧
        ((List.range t).foldl (swapStep E) s).order p = s.order q) := by
  induction t with
  | zero =>
    exact ⟨rfl, rfl, fun _ _ => rfl, fun p h1 h2 => ⟨p, h1, h2, rfl⟩,
      fun q h1 h2 => ⟨q, h1, h2, rfl⟩⟩
  | succ t ih =>
    have ih' := ih (by omega)
    simp only [List.range_succ, List.foldl_append, List.foldl_cons, List.foldl_nil] at ih' ⊢
    obtain ⟨h1, h2, h3, h4, h5⟩ := ih'
    set s1 := (List.range t).foldl (swapStep E) s with hs1
    have hr : dRandInt E.draws s1.randCalls (E.startRow.toNat + 1 + t + 1 - E.startRow.toNat)
        < E.startRow.toNat + 1 + t + 1 - E.startRow.toNat :=
      dRandInt_lt _ _ _ (by omega)
    set sw := dRandInt E.draws s1.randCalls (E.startRow.toNat + 1 + t + 1 - E.startRow.toNat)
      + E.startRow.toNat with hsw
    have hswlo : E.startRow.toNat ≤ sw := by omega
    have hswhi : sw < E.startRow.toNat + E.nRows.toNat := by omega
    have hilo : E.startRow.toNat ≤ E.startRow.toNat + 1 + t := by omega
    have hihi : E.startRow.toNat + 1 + t < E.startRow.toNat + E.nRows.toNat := by omega
    refine ⟨by rw [swapStep_lambda, h1], by rw [swapStep_L_last, h2], ?_, ?_, ?_⟩
    · intro p hp
      rw [swapStep_order_apply]
      have hp1 : p ≠ sw := by intro h; apply hp; omega
      have hp2 : p ≠ E.startRow.toNat + 1 + t := by intro h; apply hp; omega
      rw [if_neg hp1, if_neg hp2]
      exact h3 p hp
    · intro p hp1 hp2
      rw [swapStep_order_apply]
      split_ifs with ha hb
      · exact h4 _ hilo hihi
      · exact h4 _ hswlo hswhi
      · exact h4 p hp1 hp2
    · intro q hq1 hq2
      obtain ⟨p, hp1, hp2, hp3⟩ := h5 q hq1 hq2
      by_cases ha : p = sw
      · refine ⟨E.startRow.toNat + 1 + t, hilo, hihi, ?_⟩
        rw [swapStep_order_apply]
        by_cases hb : E.startRow.toNat + 1 + t = sw
        · rw [if_pos hb, ← hp3, ha, ← hb]
        · rw [if_neg hb, if_pos rfl, ← hp3, ha]
      · by_cases hb : p = E.startRow.toNat + 1 + t
        · refine ⟨sw, hswlo, hswhi, ?_⟩
          rw [swapStep_order_apply, if_pos rfl, ← hp3, hb]
        · refine ⟨p, hp1, hp2, ?_⟩
          rw [swapStep_order_apply, if_neg ha, if_neg hb, hp3]

theorem shuffle_spec (E : RowEnv) (s : RowState) :
    (shuffle E s).lambda = s.lambda ∧ (shuffle E s).L_last = s.L_last ∧
    (∀ p, ¬ (E.startRow.toNat ≤ p ∧ p < E.startRow.toNat + E.nRows.toNat) →
      (shuffle E s).order p = s.order p) ∧
    (∀ p, E.startRow.toNat ≤ p → p < E.startRow.toNat + E.nRows.toNat →
      ∃ q, E.startRow.toNat ≤ q ∧ q < E.startRow.toNat + E.nRows.toNat ∧
        (shuffle E s).order p = s.order q) ∧
    (∀ q, E.startRow.toNat ≤ q → q < E.startRow.toNat + E.nRows.toNat →
      ∃ p, E.startRow.toNat ≤ p ∧ p < E.startRow.toNat + E.nRows.toNat ∧
        (shuffle E s).order p = s.order q) :=
  shuffle_steps E s (E.nRows.toNat - 1) le_rfl

theorem shuffle_orderOK (E : RowEnv) (s : RowState) (m : Nat)
    (hR : ∀ p, InChunk E p → p < m) (h : OrderOK m s.order) :
    OrderOK m (shuffle E s).order := by
  obtain ⟨_, _, h3, h4, h5⟩ := shuffle_spec E s
  constructor
  · intro p hp
    by_cases hpr : E.startRow.toNat ≤ p ∧ p < E.startRow.toNat + E.nRows.toNat
    · obtain ⟨q, hq1, hq2, hq3⟩ := h4 p hpr.1 hpr.2
      rw [hq3]
      exact h.1 q (hR q ⟨hq1, hq2⟩)
    · rw [h3 p hpr]
      exact h.1 p hp
  · intro j hj
    obtain ⟨q, hq, hqj⟩ := h.2 j hj
    by_cases hqr : E.startRow.toNat ≤ q ∧ q < E.startRow.toNat + E.nRows.toNat
    · obtain ⟨p, hp1, hp2, hp3⟩ := h5 q hqr.1 hqr.2
      exact ⟨p, hR p ⟨hp1, hp2⟩, by rw [hp3, hqj]⟩
    · exact ⟨q, hq, by rw [h3 q hqr, hqj]⟩

/-! ## The row loop and the damping blocks -/

theorem dampRows_fields (E : RowEnv) (it : Nat) (l : List Nat) (s : RowState) :
    (l.foldl (dampRow E it) s).order = s.order ∧
    (l.foldl (dampRow E it) s).lambda = s.lambda ∧
    (l.foldl (dampRow E it) s).L_last = s.L_last ∧
    (l.foldl (dampRow E it) s).fc = s.fc ∧
    (l.foldl (dampRow E it) s).rms_error = s.rms_error ∧
    (l.foldl (dampRow E it) s).delta_error = s.delta_error ∧
    (l.foldl (dampRow E it) s).b_damp = s.b_damp ∧
    (l.foldl (dampRow E it) s).randCalls = s.randCalls := by
  induction l generalizing s with
  | nil => exact ⟨rfl, rfl, rfl, rfl, rfl, rfl, rfl, rfl⟩
  | cons a l ih =>
    simp only [List.foldl_cons]
    exact ih (dampRow E it s a)

theorem dampingUpdate_fields (E : RowEnv) (it : Nat) (s : RowState) :
    (dampingUpdate E it s).order = s.order ∧
    (dampingUpdate E it s).lambda = s.lambda ∧
    (dampingUpdate E it s).L_last = s.L_last ∧
    (dampingUpdate E it s).fc = s.fc ∧
    (dampingUpdate E it s).rms_error = s.rms_error ∧
    (dampingUpdate E it s).delta_error = s.delta_error ∧
    (dampingUpdate E it s).b_damp = s.b_damp ∧
    (dampingUpdate E it s).randCalls = s.randCalls := by
  unfold dampingUpdate
  exact dampRows_fields E it _ _

/-! ## One iteration, the iteration loop, one task -/

theorem orderFill_steps (findex : Nat → Int) (m t : Nat) (ht : t ≤ m) :
    let f := (List.range t).foldl (orderFillStep findex)
      { order := fun _ => 0, head := 0, tail := (m : Int) - 1 }
    f.tail = (m : Int) - 1 - ((t : Int) - (f.head : Int)) ∧ f.head ≤ t ∧
    (∀ p : Nat, (p < f.head ∨ (f.tail < (p : Int) ∧ p < m)) → f.order p < t) ∧
    (∀ i, i < t → ∃ p : Nat, (p < f.head ∨ (f.tail < (p : Int) ∧ p < m)) ∧ f.order p = i) := by
  induction t with
  | zero =>
    intro f
    refine ⟨by simp [f], by simp [f], ?_, ?_⟩
    · intro p hp
      simp only [f, List.range_zero, List.foldl_nil] at hp
      omega
    · intro i hi
      omega
  | succ t ih =>
    have ih' := ih (by omega)
    simp only [List.range_succ, List.foldl_append, List.foldl_cons, List.foldl_nil] at ih' ⊢
    set f0 := (List.range t).foldl (orderFillStep findex)
      { order := fun _ => 0, head := 0, tail := (m : Int) - 1 } with hf0
    obtain ⟨h1, h2, h3, h4⟩ := ih'
    unfold orderFillStep
    split_ifs with hneg
    · refine ⟨by simp only []; omega, by simp only []; omega, ?_, ?_⟩
      · intro p hp
        simp only [Function.update_apply] at hp ⊢
        split_ifs with hph
        · omega
        · have := h3 p (by omega)
          omega
      · intro i hi
        by_cases hit : i = t
        · refine ⟨f0.head, Or.inl (by simp only []; omega), ?_⟩
          simp only [Function.update_same, hit]
        · obtain ⟨p, hp, hpi⟩ := h4 i (by omega)
          refine ⟨p, ?_, ?_⟩
          · simp only []
            omega
          · simp only [Function.update_apply]
            rw [if_neg (by omega), hpi]
    · have htl : f0.tail.toNat = m - 1 - (t - f0.head) := by omega
      have htl2 : (f0.tail.toNat : Int) = f0.tail := by omega
      refine ⟨by simp only []; omega, by simp only []; omega, ?_, ?_⟩
      · intro p hp
        simp only [Function.update_apply] at hp ⊢
        split_ifs with hph
        · omega
        · have := h3 p (by omega)
          omega
      · intro i hi
        by_cases hit : i = t
        · refine ⟨f0.tail.toNat, Or.inr (by simp only []; omega), ?_⟩
          simp only [Function.update_same, hit]
        · obtain ⟨p, hp, hpi⟩ := h4 i (by omega)
          refine ⟨p, ?_, ?_⟩
          · simp only []
            omega
          · simp only [Function.update_apply]
            rw [if_neg (by omega), hpi]

theorem orderFill_orderOK (findex : Nat → Int) (m : Nat) :
    OrderOK m (orderFill findex m).order := by
  obtain ⟨h1, h2, h3, h4⟩ := orderFill_steps findex m m le_rfl
  unfold orderFill
  constructor
  · intro p hp
    apply h3 p
    omega
  · intro j hj
    obtain ⟨p, hp, hpj⟩ := h4 j hj
    exact ⟨p, by omega, hpj⟩

/-! ## The dispatch loop -/

theorem SOR_chunk_pos (m : Nat) (qs : dxQuickStepParameters) : 0 < SOR_chunk m qs := by
  unfold SOR_chunk
  simp only []
  split_ifs with h
  · exact h
  · exact Int.one_pos

theorem SOR_task_range (A : SORArgs) (i : Nat) :
    ∀ p, InChunk (SOR_task A i) p → p < A.m := by
  intro p hp
  simp only [InChunk, SOR_task, SOR_nStart, SOR_nEnd] at hp
  split_ifs at hp <;> omega

theorem SOR_LCP_eq_foldl (A : SORArgs) :
    SOR_LCP A = (chunkStarts A.m (SOR_chunk A.m A.qs).toNat).foldl
      (fun s i => ComputeRows (SOR_task A i) s) (SOR_init A) := by
  unfold SOR_LCP SOR_tasks
  rw [List.foldl_map]

/-! ## Friction cone at convergence -/

theorem rowUpdate_rms (E : RowEnv) (s : RowState) (index : Nat) :
    (rowUpdate E s index).rms_error = s.rms_error +
      ((rowUpdate E s index).lambda index - s.lambda index) *
      ((rowUpdate E s index).lambda index - s.lambda index) := by
  rw [rowUpdate_lambda, Function.update_same]
  rfl

/-- The friction bound of row `idx` against the current values of `lambda`. -/
theorem rowUpdate_cone (E : RowEnv) (s : RowState) (index : Nat) (h : ℚ)
    (hf : E.findex index ≥ 0) (hh : E.hi index = some h) :
    |(rowUpdate E s index).lambda index| ≤ |h * s.lambda (E.findex index).toNat| := by
  rw [rowUpdate_lambda]
  simp only [Function.update_same, lo_act, hi_act, if_pos hf, hh, Option.map_some']
  rw [dFabs_eq_abs]
  exact clampLambda_friction _ _ (abs_nonneg _)

theorem rowLoop_steps_order (E : RowEnv) (s : RowState) (t : Nat) :
    ((List.range t).foldl (fun s k => rowUpdate E s (s.order (E.startRow.toNat + k))) s).order
      = s.order := by
  induction t with
  | zero => rfl
  | succ t ih =>
    simp only [List.range_succ, List.foldl_append, List.foldl_cons, List.foldl_nil]
    rw [rowUpdate_order, ih]

theorem rowLoop_order (E : RowEnv) (s : RowState) : (rowLoop E s).order = s.order :=
  rowLoop_steps_order E s _

theorem rowLoop_steps_cone (E : RowEnv) (s : RowState) (t : Nat) :
    s.rms_error ≤ ((List.range t).foldl
      (fun s k => rowUpdate E s (s.order (E.startRow.toNat + k))) s).rms_error ∧
    (((List.range t).foldl
      (fun s k => rowUpdate E s (s.order (E.startRow.toNat + k))) s).rms_error = s.rms_error →
      ((List.range t).foldl
        (fun s k => rowUpdate E s (s.order (E.startRow.toNat + k))) s).lambda = s.lambda ∧
      ∀ k, k < t → ∀ h, E.findex (s.order (E.startRow.toNat + k)) ≥ 0 →
        E.hi (s.order (E.startRow.toNat + k)) = some h →
        |s.lambda (s.order (E.startRow.toNat + k))| ≤
          |h * s.lambda (E.findex (s.order (E.startRow.toNat + k))).toNat|) := by
  induction t with
  | zero =>
    refine ⟨le_refl _, fun _ => ⟨rfl, ?_⟩⟩
    intro k hk
    omega
  | succ t ih =>
    obtain ⟨ih1, ih2⟩ := ih
    have ho := rowLoop_steps_order E s t
    simp only [List.range_succ, List.foldl_append, List.foldl_cons, List.foldl_nil]
    set st := (List.range t).foldl
      (fun s k => rowUpdate E s (s.order (E.startRow.toNat + k))) s with hst
    rw [ho]
    set idx := s.order (E.startRow.toNat + t) with hidx
    have hr := rowUpdate_rms E st idx
    have hsq : 0 ≤ ((rowUpdate E st idx).lambda idx - st.lambda idx) *
        ((rowUpdate E st idx).lambda idx - st.lambda idx) := mul_self_nonneg _
    refine ⟨by linarith, ?_⟩
    intro heq
    have h1 : st.rms_error = s.rms_error := by linarith
    have h2 : ((rowUpdate E st idx).lambda idx - st.lambda idx) *
        ((rowUpdate E st idx).lambda idx - st.lambda idx) = 0 := by linarith
    have h3 : (rowUpdate E st idx).lambda idx = st.lambda idx := by
      have := mul_self_eq_zero.mp h2
      linarith
    obtain ⟨hl, hc⟩ := ih2 h1
    have hlam : (rowUpdate E st idx).lambda = s.lambda := by
      rw [← hl]
      funext j
      by_cases hj : j = idx
      · rw [hj, h3]
      · rw [rowUpdate_lambda, Function.update_noteq hj]
    refine ⟨hlam, ?_⟩
    intro k hk h hf hh
    by_cases hkt : k = t
    · subst hkt
      have := rowUpdate_cone E st idx h hf hh
      rw [h3, hl] at this
      exact this
    · exact hc k (by omega) h hf hh

/-- The cone bound of one row against given values of `lambda`. -/
theorem iterationBody_cone (E : RowEnv) (it : Nat) (s : RowState)
    (hz : (iterationBody E it s).rms_error = 0) :
    ∀ p, InChunk E p → ∀ h, E.findex ((iterationBody E it s).order p) ≥ 0 →
      E.hi ((iterationBody E it s).order p) = some h →
      |(iterationBody E it s).lambda ((iterationBody E it s).order p)| ≤
        |h * (iterationBody E it s).lambda
          (E.findex ((iterationBody E it s).order p)).toNat| := by
  have key : ∀ s1 : RowState,
      ({ dampingUpdate E it (rowLoop E { s1 with rms_error := 0 }) with
        iterations := it + 1 } : RowState).rms_error = 0 →
      ∀ p, InChunk E p → ∀ h,
      E.findex (({ dampingUpdate E it (rowLoop E { s1 with rms_error := 0 }) with
        iterations := it + 1 } : RowState).order p) ≥ 0 →
      E.hi (({ dampingUpdate E it (rowLoop E { s1 with rms_error := 0 }) with
        iterations := it + 1 } : RowState).order p) = some h →
      |({ dampingUpdate E it (rowLoop E { s1 with rms_error := 0 }) with
        iterations := it + 1 } : RowState).lambda
          (({ dampingUpdate E it (rowLoop E { s1 with rms_error := 0 }) with
        iterations := it + 1 } : RowState).order p)| ≤
        |h * ({ dampingUpdate E it (rowLoop E { s1 with rms_error := 0 }) with
        iterations := it + 1 } : RowState).lambda
          (E.findex (({ dampingUpdate E it (rowLoop E { s1 with rms_error := 0 }) with
        iterations := it + 1 } : RowState).order p)).toNat| := by
    intro s1 hz1 p hp h
    obtain ⟨d1, d2, _, _, d5, _⟩ := dampingUpdate_fields E it (rowLoop E { s1 with rms_error := 0 })
    show E.findex ((dampingUpdate E it (rowLoop E { s1 with rms_error := 0 })).order p) ≥ 0 →
      E.hi ((dampingUpdate E it (rowLoop E { s1 with rms_error := 0 })).order p) = some h →
      |(dampingUpdate E it (rowLoop E { s1 with rms_error := 0 })).lambda
        ((dampingUpdate E it (rowLoop E { s1 with rms_error := 0 })).order p)| ≤
      |h * (dampingUpdate E it (rowLoop E { s1 with rms_error := 0 })).lambda
        (E.findex ((dampingUpdate E it (rowLoop E { s1 with rms_error := 0 })).order p)).toNat|
    have hz2 : (rowLoop E { s1 with rms_error := 0 }).rms_error = 0 := by
      rw [← d5]
      exact hz1
    rw [d1, d2, rowLoop_order]
    obtain ⟨_, c2⟩ := rowLoop_steps_cone E { s1 with rms_error := 0 } E.nRows.toNat
    obtain ⟨hl, hc⟩ := c2 hz2
    have hl' : (rowLoop E { s1 with rms_error := 0 }).lambda = s1.lambda := hl
    rw [hl']
    intro hf hh
    have := hc (p - E.startRow.toNat) (by have := hp.1; have := hp.2; omega) h
    have hpe : E.startRow.toNat + (p - E.startRow.toNat) = p := by have := hp.1; omega
    rw [hpe] at this
    exact this hf hh
  unfold iterationBody at hz ⊢
  split_ifs at hz ⊢ with hsh
  · exact key (shuffle E s) hz
  · exact key s hz

theorem iterationBody_rows (E : RowEnv) (it : Nat) (s : RowState) :
    ∀ q, InChunk E q → ∃ p, InChunk E p ∧ (iterationBody E it s).order p = s.order q := by
  intro q hq
  have key : ∀ s1 : RowState,
      ({ dampingUpdate E it (rowLoop E { s1 with rms_error := 0 }) with
        iterations := it + 1 } : RowState).order = s1.order := by
    intro s1
    obtain ⟨d1, _⟩ := dampingUpdate_fields E it (rowLoop E { s1 with rms_error := 0 })
    show (dampingUpdate E it (rowLoop E { s1 with rms_error := 0 })).order = s1.order
    rw [d1, rowLoop_order]
  unfold iterationBody
  split_ifs with hsh
  · rw [key]
    obtain ⟨_, _, _, _, h5⟩ := shuffle_spec E s
    obtain ⟨p, hp1, hp2, hp3⟩ := h5 q hq.1 hq.2
    exact ⟨p, ⟨hp1, hp2⟩, hp3⟩
  · rw [key]
    exact ⟨q, hq, rfl⟩

/-- With at least one iteration to run, the loop ends with an iteration body
applied to a state that holds the same rows in the chunk. -/
theorem iterLoop_last (E : RowEnv) (n : Nat) :
    ∀ (it : Nat) (s : RowState), ∃ (it1 : Nat) (s1 : RowState),
      iterLoop E (n + 1) it s = iterationBody E it1 s1 ∧
      ∀ q, InChunk E q → ∃ p, InChunk E p ∧ s1.order p = s.order q := by
  induction n with
  | zero =>
    intro it s
    refine ⟨it, s, ?_, fun q hq => ⟨q, hq, rfl⟩⟩
    unfold iterLoop
    simp only []
    split_ifs
    · rfl
    · rfl
  | succ n ih =>
    intro it s
    unfold iterLoop
    simp only []
    split_ifs with hc
    · exact ⟨it, s, rfl, fun q hq => ⟨q, hq, rfl⟩⟩
    · obtain ⟨it1, s1, h1, h2⟩ := ih (it + 1) (iterationBody E it s)
      refine ⟨it1, s1, h1, ?_⟩
      intro q hq
      obtain ⟨p, hp, hpq⟩ := iterationBody_rows E it s q hq
      obtain ⟨p', hp', hpq'⟩ := h2 p hp
      exact ⟨p', hp', by rw [hpq', hpq]⟩

/-- C4. Friction cone at convergence: if a task runs at least one iteration
and its last executed iteration changed no `lambda` (the sum of `delta^2`
over the chunk is `0`), then on return a friction row `f` of the chunk with
`hi[f] = mu >= 0` and `findex[f] = n` has `|lambda[f]| <= mu * |lambda[n]|`,
for the final values of both. -/
theorem C4_friction_cone_at_convergence (E : RowEnv) (s : RowState) (f n : Nat) (mu : ℚ)
    (hn : 1 ≤ E.num_iterations) (hfn : E.findex f = (n : Int)) (hmu : E.hi f = some mu)
    (hmu0 : 0 ≤ mu) (hrow : ∃ q, InChunk E q ∧ s.order q = f)
    (hconv : (ComputeRows E s).rms_error = 0) :
    |(ComputeRows E s).lambda f| ≤ mu * |(ComputeRows E s).lambda n| := by
  obtain ⟨k, hk⟩ : ∃ k, E.num_iterations.toNat = k + 1 := ⟨E.num_iterations.toNat - 1, by omega⟩
  unfold ComputeRows at hconv ⊢
  rw [hk] at hconv ⊢
  obtain ⟨it1, s1, h1, h2⟩ := iterLoop_last E k 0 s
  rw [h1] at hconv ⊢
  obtain ⟨q, hq, hqf⟩ := hrow
  obtain ⟨p, hp, hpq⟩ := h2 q hq
  obtain ⟨p', hp', hpq'⟩ := iterationBody_rows E it1 s1 p hp
  have hrow' : (iterationBody E it1 s1).order p' = f := by rw [hpq', hpq, hqf]
  have := iterationBody_cone E it1 s1 hconv p' hp' mu
  rw [hrow', hfn] at this
  have h3 := this (by omega) hmu
  rw [abs_mul, abs_of_nonneg hmu0] at h3
  simpa using h3

/-! ## A general invariant principle for the solver

A property of the solver memory that does not depend on `order`, on the
position in the random stream, on `rms_error` or on the iteration count, and
that is preserved by every row update of a row `< m` and by the damping blocks,
holds on return if it holds on entry. -/

theorem swapSteps_eta (E : RowEnv) (l : List Nat) (s : RowState) :
    l.foldl (swapStep E) s =
      { s with order := (l.foldl (swapStep E) s).order
               randCalls := (l.foldl (swapStep E) s).randCalls } := by
  induction l generalizing s with
  | nil => rfl
  | cons a l ih =>
    simp only [List.foldl_cons]
    rw [ih (swapStep E s a)]
    rfl

theorem shuffle_eta (E : RowEnv) (s : RowState) :
    shuffle E s = { s with order := (shuffle E s).order, randCalls := (shuffle E s).randCalls } :=
  swapSteps_eta E _ s

theorem rowLoop_invariant (E : RowEnv) (m : Nat) (P : RowState → Prop)
    (hrow : ∀ s idx, idx < m → P s → P (rowUpdate E s idx))
    (s : RowState) (ho : OrderOK m s.order) (hR : ∀ p, InChunk E p → p < m) (hP : P s) :
    P (rowLoop E s) := by
  have key : ∀ t, t ≤ E.nRows.toNat →
      P ((List.range t).foldl (fun s k => rowUpdate E s (s.order (E.startRow.toNat + k))) s) := by
    intro t
    induction t with
    | zero => intro _; exact hP
    | succ t ih =>
      intro ht
      simp only [List.range_succ, List.foldl_append, List.foldl_cons, List.foldl_nil]
      apply hrow _ _ _ (ih (by omega))
      rw [rowLoop_steps_order]
      exact ho.1 _ (hR _ ⟨by omega, by omega⟩)
  exact key _ le_rfl

theorem iterationBody_invariant (E : RowEnv) (m : Nat) (P : RowState → Prop)
    (hstable : ∀ (s : RowState) (o : Nat → Nat) (r : Nat) (e : ℚ) (k : Nat),
      P s → P { s with order := o, randCalls := r, rms_error := e, iterations := k })
    (hrow : ∀ s idx, idx < m → P s → P (rowUpdate E s idx))
    (hdamp : ∀ it s, P s → P (dampingUpdate E it s))
    (hR : ∀ p, InChunk E p → p < m)
    (it : Nat) (s : RowState) (ho : OrderOK m s.order) (hP : P s) :
    P (iterationBody E it s) := by
  have key : ∀ s1 : RowState, OrderOK m s1.order → P s1 →
      P ({ dampingUpdate E it (rowLoop E { s1 with rms_error := 0 }) with
        iterations := it + 1 } : RowState) := by
    intro s1 ho1 hP1
    have h1 : P ({ s1 with rms_error := 0 } : RowState) :=
      hstable s1 s1.order s1.randCalls 0 s1.iterations hP1
    have h2 := rowLoop_invariant E m P hrow { s1 with rms_error := 0 } ho1 hR h1
    have h3 := hdamp it _ h2
    exact hstable _ _ _ _ (it + 1) h3
  unfold iterationBody
  split_ifs with hsh
  · apply key _ (shuffle_orderOK E s m hR ho)
    rw [shuffle_eta]
    exact hstable s _ _ s.rms_error s.iterations hP
  · exact key s ho hP

theorem iterationBody_orderOK (E : RowEnv) (m : Nat) (hR : ∀ p, InChunk E p → p < m)
    (it : Nat) (s : RowState) (ho : OrderOK m s.order) :
    OrderOK m (iterationBody E it s).order := by
  have key : ∀ s1 : RowState,
      ({ dampingUpdate E it (rowLoop E { s1 with rms_error := 0 }) with
        iterations := it + 1 } : RowState).order = s1.order := by
    intro s1
    obtain ⟨d1, _⟩ := dampingUpdate_fields E it (rowLoop E { s1 with rms_error := 0 })
    show (dampingUpdate E it (rowLoop E { s1 with rms_error := 0 })).order = s1.order
    rw [d1, rowLoop_order]
  unfold iterationBody
  split_ifs with hsh
  · rw [key]
    exact shuffle_orderOK E s m hR ho
  · rw [key]
    exact ho

theorem iterLoop_invariant (E : RowEnv) (m : Nat) (P : RowState → Prop)
    (hstable : ∀ (s : RowState) (o : Nat → Nat) (r : Nat) (e : ℚ) (k : Nat),
      P s → P { s with order := o, randCalls := r, rms_error := e, iterations := k })
    (hrow : ∀ s idx, idx < m → P s → P (rowUpdate E s idx))
    (hdamp : ∀ it s, P s → P (dampingUpdate E it s))
    (hR : ∀ p, InChunk E p → p < m) (n : Nat) :
    ∀ (it : Nat) (s : RowState), OrderOK m s.order → P s →
      OrderOK m (iterLoop E n it s).order ∧ P (iterLoop E n it s) := by
  induction n with
  | zero => intro it s ho hP; exact ⟨ho, hP⟩
  | succ n ih =>
    intro it s ho hP
    have h1 := iterationBody_orderOK E m hR it s ho
    have h2 := iterationBody_invariant E m P hstable hrow hdamp hR it s ho hP
    unfold iterLoop
    simp only []
    split_ifs with hc
    · exact ⟨h1, h2⟩
    · exact ih (it + 1) _ h1 h2

theorem ComputeRows_invariant (E : RowEnv) (m : Nat) (P : RowState → Prop)
    (hstable : ∀ (s : RowState) (o : Nat → Nat) (r : Nat) (e : ℚ) (k : Nat),
      P s → P { s with order := o, randCalls := r, rms_error := e, iterations := k })
    (hrow : ∀ s idx, idx < m → P s → P (rowUpdate E s idx))
    (hdamp : ∀ it s, P s → P (dampingUpdate E it s))
    (hR : ∀ p, InChunk E p → p < m) (s : RowState) (ho : OrderOK m s.order) (hP : P s) :
    OrderOK m (ComputeRows E s).order ∧ P (ComputeRows E s) :=
  iterLoop_invariant E m P hstable hrow hdamp hR _ 0 s ho hP

theorem SOR_LCP_invariant (A : SORArgs) (P : RowState → Prop)
    (hstable : ∀ (s : RowState) (o : Nat → Nat) (r : Nat) (e : ℚ) (k : Nat),
      P s → P { s with order := o, randCalls := r, rms_error := e, iterations := k })
    (hrow : ∀ c s idx, idx < A.m → P s → P (rowUpdate (SOR_task A c) s idx))
    (hdamp : ∀ c it s, P s → P (dampingUpdate (SOR_task A c) it s))
    (hP : P (SOR_init A)) : P (SOR_LCP A) := by
  have key : ∀ (L : List Nat) (s : RowState), OrderOK A.m s.order → P s →
      OrderOK A.m (L.foldl (fun s i => ComputeRows (SOR_task A i) s) s).order ∧
      P (L.foldl (fun s i => ComputeRows (SOR_task A i) s) s) := by
    intro L
    induction L with
    | nil => intro s ho hs; exact ⟨ho, hs⟩
    | cons a L ih =>
      intro s ho hs
      simp only [List.foldl_cons]
      obtain ⟨h1, h2⟩ := ComputeRows_invariant (SOR_task A a) A.m P hstable (hrow a) (hdamp a)
        (SOR_task_range A a) s ho hs
      exact ih _ h1 h2
  rw [SOR_LCP_eq_foldl]
  exact (key _ _ (orderFill_orderOK A.findex A.m) hP).2

/-! ## The incrementally maintained force `fc` -/

theorem addScaled6_block (a : Nat → ℚ) (delta : ℚ) (src : Nat → ℚ) (vo bo b c : Nat)
    (hc : c < 6) :
    addScaled6 a (6 * bo) delta src vo (6 * b + c) =
      a (6 * b + c) + (if bo = b then delta * src (vo + c) else 0) := by
  unfold addScaled6
  by_cases h : bo = b
  · subst h
    have h1 : 6 * bo ≤ 6 * bo + c ∧ 6 * bo + c < 6 * bo + 6 := ⟨by omega, by omega⟩
    have h2 : 6 * bo + c - 6 * bo = c := by omega
    rw [if_pos h1, if_pos rfl, h2]
  · have h1 : ¬ (6 * bo ≤ 6 * b + c ∧ 6 * b + c < 6 * bo + 6) := by
      intro hh
      apply h
      omega
    rw [if_neg h1, if_neg h, add_zero]

theorem JTlambda_update (m : Nat) (J : Nat → ℚ) (jb : Nat → Int) (lambda : Nat → ℚ)
    (idx : Nat) (v : ℚ) (b c : Nat) (hidx : idx < m) :
    JTlambda m J jb (Function.update lambda idx v) b c =
      JTlambda m J jb lambda b c
      + ((if jb (idx * 2) = (b : Int) then (v - lambda idx) * J (12 * idx + c) else 0)
        + (if jb (idx * 2 + 1) = (b : Int) then (v - lambda idx) * J (12 * idx + 6 + c)
            else 0)) := by
  unfold JTlambda
  have hpt : ∀ i ∈ Finset.range m,
      ((if jb (i * 2) = (b : Int) then Function.update lambda idx v i * J (12 * i + c) else 0)
        + (if jb (i * 2 + 1) = (b : Int) then
            Function.update lambda idx v i * J (12 * i + 6 + c) else 0)) =
      ((if jb (i * 2) = (b : Int) then lambda i * J (12 * i + c) else 0)
        + (if jb (i * 2 + 1) = (b : Int) then lambda i * J (12 * i + 6 + c) else 0))
      + (if i = idx then
          ((if jb (idx * 2) = (b : Int) then (v - lambda idx) * J (12 * idx + c) else 0)
          + (if jb (idx * 2 + 1) = (b : Int) then (v - lambda idx) * J (12 * idx + 6 + c)
              else 0)) else 0) := by
    intro i _
    by_cases hi : i = idx
    · subst hi
      rw [Function.update_same, if_pos rfl]
      split_ifs <;> ring
    · rw [Function.update_noteq hi, if_neg hi, add_zero]
  rw [Finset.sum_congr rfl hpt, Finset.sum_add_distrib, Finset.sum_ite_eq']
  rw [if_pos (Finset.mem_range.mpr hidx)]

theorem rowUpdate_fc (E : RowEnv) (s : RowState) (index : Nat) :
    (rowUpdate E s index).fc =
      if E.jb (index * 2 + 1) ≥ 0 then
        addScaled6 (addScaled6 s.fc (6 * E.jb (index * 2)).toNat
          ((rowUpdate E s index).lambda index - s.lambda index) E.iMJ (index * 12))
          (6 * E.jb (index * 2 + 1)).toNat
          ((rowUpdate E s index).lambda index - s.lambda index) E.iMJ (index * 12 + 6)
      else addScaled6 s.fc (6 * E.jb (index * 2)).toNat
          ((rowUpdate E s index).lambda index - s.lambda index) E.iMJ (index * 12) := by
  rw [rowUpdate_lambda, Function.update_same]
  rfl

theorem rowUpdate_FcInv (A : SORArgs) (hjb : ∀ i, i < A.m → 0 ≤ A.jb (i * 2))
    (c0 : Nat) (s : RowState) (idx : Nat) (hidx : idx < A.m) (hP : FcInv A s) :
    FcInv A (rowUpdate (SOR_task A c0) s idx) := by
  intro b c hb hc
  have hb1 := hjb idx hidx
  have e1 : (6 * A.jb (idx * 2)).toNat = 6 * (A.jb (idx * 2)).toNat := by omega
  have hiMJ1 : SOR_iMJ A (idx * 12 + c) = A.J (12 * idx + c) := by
    unfold SOR_iMJ
    rw [if_pos (by omega)]
    congr 1
    omega
  have hiMJ2 : SOR_iMJ A (idx * 12 + 6 + c) = A.J (12 * idx + 6 + c) := by
    unfold SOR_iMJ
    rw [if_pos (by omega)]
    congr 1
    omega
  have hc1 : ((A.jb (idx * 2)).toNat = b) ↔ (A.jb (idx * 2) = (b : Int)) := by omega
  rw [rowUpdate_fc]
  rw [show (rowUpdate (SOR_task A c0) s idx).lambda =
    Function.update s.lambda idx ((rowUpdate (SOR_task A c0) s idx).lambda idx) from by
      rw [rowUpdate_lambda, Function.update_same]]
  rw [JTlambda_update _ _ _ _ _ _ _ _ hidx, Function.update_same]
  show (if A.jb (idx * 2 + 1) ≥ 0 then
        addScaled6 (addScaled6 s.fc (6 * A.jb (idx * 2)).toNat
          ((rowUpdate (SOR_task A c0) s idx).lambda idx - s.lambda idx) (SOR_iMJ A) (idx * 12))
          (6 * A.jb (idx * 2 + 1)).toNat
          ((rowUpdate (SOR_task A c0) s idx).lambda idx - s.lambda idx) (SOR_iMJ A)
          (idx * 12 + 6)
      else addScaled6 s.fc (6 * A.jb (idx * 2)).toNat
          ((rowUpdate (SOR_task A c0) s idx).lambda idx - s.lambda idx) (SOR_iMJ A) (idx * 12))
      (6 * b + c) = _
  rw [← hP b c hb hc]
  by_cases hb2 : A.jb (idx * 2 + 1) ≥ 0
  · have e2 : (6 * A.jb (idx * 2 + 1)).toNat = 6 * (A.jb (idx * 2 + 1)).toNat := by omega
    have hc2 : ((A.jb (idx * 2 + 1)).toNat = b) ↔ (A.jb (idx * 2 + 1) = (b : Int)) := by omega
    rw [if_pos hb2, e1, e2, addScaled6_block _ _ _ _ _ _ _ hc, addScaled6_block _ _ _ _ _ _ _ hc,
      hiMJ1, hiMJ2]
    simp only [hc1, hc2]
    ring
  · have hc2 : ¬ (A.jb (idx * 2 + 1) = (b : Int)) := by omega
    rw [if_neg hb2, e1, addScaled6_block _ _ _ _ _ _ _ hc, hiMJ1, if_neg hc2]
    simp only [hc1]
    ring

theorem JTlambda_zero (m : Nat) (J : Nat → ℚ) (jb : Nat → Int) (lambda : Nat → ℚ) (b c : Nat)
    (hz : ∀ i, i < m → lambda i = 0) : JTlambda m J jb lambda b c = 0 := by
  unfold JTlambda
  apply Finset.sum_eq_zero
  intro i hi
  rw [hz i (Finset.mem_range.mp hi)]
  simp

theorem SOR_init_FcInv (A : SORArgs) : FcInv A (SOR_init A) := by
  intro b c hb hc
  rw [JTlambda_zero]
  · show dSetZero A.fc (A.nb * 6) (6 * b + c) = 0
    unfold dSetZero
    rw [if_pos (by omega)]
  · intro i hi
    show dSetZero A.lambda A.m i = 0
    unfold dSetZero
    rw [if_pos hi]

/-- On return from a sequential run, `fc = J^T * lambda` on every body block,
for the unscaled `J` and with no inverse-mass factor. -/
theorem SOR_LCP_FcInv (A : SORArgs) (hjb : ∀ i, i < A.m → 0 ≤ A.jb (i * 2)) :
    FcInv A (SOR_LCP A) := by
  apply SOR_LCP_invariant A (FcInv A)
  · intro s o r e k hP
    exact hP
  · intro c s idx hidx hP
    exact rowUpdate_FcInv A hjb c s idx hidx hP
  · intro c it s hP b c' hb hc
    obtain ⟨_, d2, _, d4, _⟩ := dampingUpdate_fields (SOR_task A c) it s
    rw [d2, d4]
    exact hP b c' hb hc
  · exact SOR_init_FcInv A

/-! ## Evaluation lemmas for small chunks -/

theorem iterLoop_one (E : RowEnv) (it : Nat) (s : RowState) :
    iterLoop E 1 it s = iterationBody E it s := by
  unfold iterLoop
  simp only []
  split_ifs
  · rfl
  · rfl

theorem shuffle_of_le_one (E : RowEnv) (s : RowState) (h : E.nRows.toNat ≤ 1) :
    shuffle E s = s := by
  unfold shuffle
  have : E.nRows.toNat - 1 = 0 := by omega
  rw [this]
  rfl

theorem rowLoop_of_one (E : RowEnv) (s : RowState) (h : E.nRows.toNat = 1) :
    rowLoop E s = rowUpdate E s (s.order E.startRow.toNat) := by
  unfold rowLoop
  rw [h]
  rfl

theorem iterationBody_lambda_one (E : RowEnv) (it : Nat) (s : RowState)
    (h : E.nRows.toNat = 1) :
    (iterationBody E it s).lambda =
      (rowUpdate E { s with rms_error := 0 } (s.order E.startRow.toNat)).lambda := by
  have key : ∀ s1 : RowState,
      ({ dampingUpdate E it (rowLoop E { s1 with rms_error := 0 }) with
        iterations := it + 1 } : RowState).lambda
        = (rowUpdate E { s1 with rms_error := 0 } (s1.order E.startRow.toNat)).lambda := by
    intro s1
    obtain ⟨_, d2, _⟩ := dampingUpdate_fields E it (rowLoop E { s1 with rms_error := 0 })
    show (dampingUpdate E it (rowLoop E { s1 with rms_error := 0 })).lambda = _
    rw [d2, rowLoop_of_one E _ h]
  unfold iterationBody
  split_ifs with hsh
  · rw [shuffle_of_le_one E s (by omega)]
    exact key s
  · exact key s

theorem exOneRow_Ad : SOR_Ad exOneRow 0 = 1 := by
  simp [SOR_Ad, SOR_diag, SOR_iMJ, exOneRow, dot6]

theorem exOneRow_diag_invM : diag_invM exOneRow 0 = 2 := by
  simp [diag_invM, compute_invM_JT, exOneRow, dot6, exBodyHeavy]

theorem exOneRow_tasks : SOR_tasks exOneRow = [SOR_task exOneRow 0] := by
  have hc : (SOR_chunk exOneRow.m exOneRow.qs).toNat = 2 := by
    simp [SOR_chunk, SOR_num_chunks, exOneRow]
  have hm : exOneRow.m = 1 := rfl
  rw [SOR_tasks, hc, hm]
  simp [chunkStarts, List.range_succ]

theorem exOneRow_lambda : (SOR_LCP exOneRow).lambda 0 = 1 := by
  simp only [SOR_LCP, exOneRow_tasks, List.foldl_cons, List.foldl_nil]
  have h1 : (SOR_task exOneRow 0).num_iterations.toNat = 1 := by
    simp [SOR_task, exOneRow]
  have h2 : (SOR_task exOneRow 0).nRows.toNat = 1 := by
    simp [SOR_task, exOneRow, SOR_nEnd, SOR_nStart, SOR_chunk, SOR_num_chunks]
  have h3 : (SOR_task exOneRow 0).startRow.toNat = 0 := by
    simp [SOR_task, exOneRow, SOR_nStart]
  have h4 : (SOR_init exOneRow).order 0 = 0 := by
    simp [SOR_init, orderFill, exOneRow, orderFillStep, List.range_succ]
  rw [ComputeRows, h1, iterLoop_one, iterationBody_lambda_one _ _ _ h2, h3, h4, rowUpdate_lambda,
    Function.update_same]
  have hd : rowDelta (SOR_task exOneRow 0) { SOR_init exOneRow with rms_error := 0 } 0 = 1 := by
    simp [rowDelta, SOR_task, b_damp_row, SOR_init, dot6, dSetZero, SOR_bscaled,
      List.range_succ, exOneRow_Ad]
    simp [exOneRow]
  rw [hd]
  simp [clampLambda, lo_act, hi_act, SOR_task, SOR_init, dSetZero, exOneRow, ltLo, gtHi]

/-! ## Constraint assembly -/

theorem count_m_foldl (l : List dxJoint) (a : Nat) :
    l.foldl (fun mcurr j => mcurr + j.info_m) a = a + count_m l := by
  induction l generalizing a with
  | nil => simp [count_m]
  | cons x l ih =>
    simp only [List.foldl_cons, count_m]
    rw [ih, ih (0 + x.info_m)]
    omega

theorem count_m_cons (x : dxJoint) (l : List dxJoint) :
    count_m (x :: l) = x.info_m + count_m l := by
  simp only [count_m, List.foldl_cons]
  rw [count_m_foldl]
  simp [count_m]

theorem count_m_append (l1 l2 : List dxJoint) :
    count_m (l1 ++ l2) = count_m l1 + count_m l2 := by
  induction l1 with
  | nil => simp [count_m]
  | cons x l ih => rw [List.cons_append, count_m_cons, count_m_cons, ih]; omega

theorem count_mfb_foldl (l : List dxJoint) (a : Nat) :
    l.foldl (fun mfbcurr j => if j.feedback.isSome then mfbcurr + j.info_m else mfbcurr) a
      = a + count_mfb l := by
  induction l generalizing a with
  | nil => simp [count_mfb]
  | cons x l ih =>
    simp only [List.foldl_cons, count_mfb]
    rw [ih, ih (if x.feedback.isSome then 0 + x.info_m else 0)]
    by_cases h : x.feedback.isSome = true
    · rw [if_pos h, if_pos h]
      omega
    · rw [if_neg h, if_neg h]
      omega

theorem count_mfb_cons (x : dxJoint) (l : List dxJoint) :
    count_mfb (x :: l) = (if x.feedback.isSome then x.info_m else 0) + count_mfb l := by
  simp only [count_mfb, List.foldl_cons]
  rw [count_mfb_foldl]
  simp only [count_mfb]
  by_cases h : x.feedback.isSome = true
  · rw [if_pos h, if_pos h]
    omega
  · rw [if_neg h, if_neg h]

theorem count_mfb_append (l1 l2 : List dxJoint) :
    count_mfb (l1 ++ l2) = count_mfb l1 + count_mfb l2 := by
  induction l1 with
  | nil => simp [count_mfb]
  | cons x l ih => rw [List.cons_append, count_mfb_cons, count_mfb_cons, ih]; omega

theorem assembleJoint_ofsi (fps erp : ℚ) (A : Assembly) (jt : dxJoint) :
    (assembleJoint fps erp A jt).ofsi = A.ofsi + jt.info_m := rfl

theorem assembleJoint_Jcopyrow (fps erp : ℚ) (A : Assembly) (jt : dxJoint) :
    (assembleJoint fps erp A jt).Jcopyrow =
      A.Jcopyrow + 12 * (if jt.feedback.isSome then jt.info_m else 0) := by
  simp only [assembleJoint]
  split_ifs <;> omega

theorem assemble_foldl_ofsi (fps erp : ℚ) (l : List dxJoint) (A : Assembly) :
    (l.foldl (assembleJoint fps erp) A).ofsi = A.ofsi + count_m l ∧
    (l.foldl (assembleJoint fps erp) A).Jcopyrow = A.Jcopyrow + 12 * count_mfb l := by
  induction l generalizing A with
  | nil => simp [count_m, count_mfb]
  | cons x l ih =>
    simp only [List.foldl_cons]
    obtain ⟨h1, h2⟩ := ih (assembleJoint fps erp A x)
    rw [h1, h2, assembleJoint_ofsi, assembleJoint_Jcopyrow, count_m_cons, count_mfb_cons]
    constructor <;> omega

/-- The cells of the row arrays below `ofsi`, and the cells of `Jcopy` below
`Jcopyrow`, are not written again. -/
theorem assembleJoint_below (fps erp : ℚ) (A : Assembly) (jt : dxJoint) :
    (∀ n, n < 12 * A.ofsi → (assembleJoint fps erp A jt).J n = A.J n) ∧
    (∀ i, i < A.ofsi → (assembleJoint fps erp A jt).findex i = A.findex i) ∧
    (∀ n, n < A.Jcopyrow → (assembleJoint fps erp A jt).Jcopy n = A.Jcopy n) := by
  refine ⟨?_, ?_, ?_⟩
  · intro n hn
    simp only [assembleJoint]
    rw [if_neg]
    omega
  · intro i hi
    simp only [assembleJoint]
    rw [if_neg]
    omega
  · intro n hn
    simp only [assembleJoint]
    rw [if_neg]
    omega

theorem assemble_foldl_below (fps erp : ℚ) (l : List dxJoint) (A : Assembly) :
    (∀ n, n < 12 * A.ofsi → (l.foldl (assembleJoint fps erp) A).J n = A.J n) ∧
    (∀ i, i < A.ofsi → (l.foldl (assembleJoint fps erp) A).findex i = A.findex i) ∧
    (∀ n, n < A.Jcopyrow → (l.foldl (assembleJoint fps erp) A).Jcopy n = A.Jcopy n) := by
  induction l generalizing A with
  | nil => exact ⟨fun _ _ => rfl, fun _ _ => rfl, fun _ _ => rfl⟩
  | cons x l ih =>
    simp only [List.foldl_cons]
    obtain ⟨h1, h2, h3⟩ := ih (assembleJoint fps erp A x)
    obtain ⟨g1, g2, g3⟩ := assembleJoint_below fps erp A x
    have ho := assembleJoint_ofsi fps erp A x
    have hj := assembleJoint_Jcopyrow fps erp A x
    refine ⟨?_, ?_, ?_⟩
    · intro n hn
      rw [h1 n (by rw [ho]; omega), g1 n hn]
    · intro i hi
      rw [h2 i (by rw [ho]; omega), g2 i hi]
    · intro n hn
      rw [h3 n (by rw [hj]; omega), g3 n hn]

/-- The rows at and above `ofsi` keep their content while the joints of `l`
fill the rows `ofsi .. ofsi + count_m l - 1`. -/
theorem assemble_foldl_above (fps erp : ℚ) (l : List dxJoint) (A : Assembly) :
    ∀ i, A.ofsi + count_m l ≤ i → (l.foldl (assembleJoint fps erp) A).row i = A.row i := by
  induction l generalizing A with
  | nil => intro i _; rfl
  | cons x l ih =>
    intro i hi
    simp only [List.foldl_cons]
    rw [count_m_cons] at hi
    rw [ih (assembleJoint fps erp A x) i (by rw [assembleJoint_ofsi]; omega)]
    have hni : ¬ (A.ofsi ≤ i ∧ i < A.ofsi + x.info_m) := by omega
    simp only [Assembly.row, assembleJoint, if_neg hni]
    congr 1
    funext c
    split_ifs with hc h2
    · exfalso
      apply hni
      have : (12 * i + c) / 12 = i := by omega
      rw [this] at h2
      exact h2
    · rfl
    · rfl

theorem assembleJoint_Jcopy_in (fps erp : ℚ) (A : Assembly) (jt : dxJoint)
    (hfb : jt.feedback.isSome) (n : Nat) (hn : n < 12 * jt.info_m) :
    (assembleJoint fps erp A jt).Jcopy (A.Jcopyrow + n) =
      (assembleJoint fps erp A jt).J (12 * A.ofsi + n) := by
  have e : A.ofsi * 12 + (A.Jcopyrow + n - A.Jcopyrow) = 12 * A.ofsi + n := by omega
  simp only [assembleJoint]
  rw [if_pos ⟨hfb, by omega, by omega⟩, e]

theorem init_row (w : dxWorld) (m i : Nat) (hi : i < m) :
    (Assembly.init w m).row i = presetRow w := by
  simp only [Assembly.row, Assembly.init, presetRow, dSetValue, if_pos hi]
  congr 1
  funext c
  split_ifs <;> rfl

/-- Row `o + j` of the assembled arrays, for the joint `jt` that follows the
joints of `pre` and precedes those of `post`, with `o` the row count of `pre`. -/
theorem assemble_row (w : dxWorld) (fps : ℚ) (pre post : List dxJoint) (jt : dxJoint) (j : Nat)
    (hj : j < jt.info_m) :
    (∀ c, c < 12 → (assemble w fps (pre ++ jt :: post)).J (12 * (count_m pre + j) + c) =
      (jt.getInfo2 fps w.global_erp (presetRow w) j).J c) ∧
    (assemble w fps (pre ++ jt :: post)).findex (count_m pre + j) =
      adjustFindex (count_m pre) (jt.getInfo2 fps w.global_erp (presetRow w) j).findex ∧
    (jt.feedback.isSome → ∀ n, n < 12 * jt.info_m →
      (assemble w fps (pre ++ jt :: post)).Jcopy (12 * count_mfb pre + n) =
      (assemble w fps (pre ++ jt :: post)).J (12 * count_m pre + n)) := by
  unfold assemble
  rw [List.foldl_append, List.foldl_cons]
  set m := count_m (pre ++ jt :: post) with hm
  set A1 := pre.foldl (assembleJoint fps w.global_erp) (Assembly.init w m) with hA1
  obtain ⟨ho1, hc1⟩ := assemble_foldl_ofsi fps w.global_erp pre (Assembly.init w m)
  have ho1' : A1.ofsi = count_m pre := by rw [ho1]; simp [Assembly.init]
  have hc1' : A1.Jcopyrow = 12 * count_mfb pre := by rw [hc1]; simp [Assembly.init]
  have hmtot : m = count_m pre + (jt.info_m + count_m post) := by
    rw [hm, count_m_append, count_m_cons]
  have hrow : A1.row (A1.ofsi + j) = presetRow w := by
    rw [assemble_foldl_above fps w.global_erp pre (Assembly.init w m) (A1.ofsi + j)
      (by rw [ho1']; simp [Assembly.init])]
    exact init_row w m _ (by rw [ho1']; omega)
  obtain ⟨b1, b2, b3⟩ := assemble_foldl_below fps w.global_erp post
    (assembleJoint fps w.global_erp A1 jt)
  have hin : A1.ofsi ≤ count_m pre + j ∧ count_m pre + j < A1.ofsi + jt.info_m := by
    rw [ho1']; omega
  have hsub : count_m pre + j - A1.ofsi = j := by rw [ho1']; omega
  refine ⟨?_, ?_, ?_⟩
  · intro c hc
    rw [b1 _ (by rw [assembleJoint_ofsi, ho1']; omega)]
    simp only [assembleJoint]
    have e1 : (12 * (count_m pre + j) + c) / 12 = count_m pre + j := by omega
    have e2 : (12 * (count_m pre + j) + c) % 12 = c := by omega
    rw [e1, e2, if_pos hin, hsub, filledRow, hrow]
  · rw [b2 _ (by rw [assembleJoint_ofsi, ho1']; omega)]
    simp only [assembleJoint]
    rw [if_pos hin, hsub, filledRow, hrow, ho1']
  · intro hfb n hn
    rw [b3 _ (by rw [assembleJoint_Jcopyrow, hc1', if_pos hfb]; omega),
      b1 _ (by rw [assembleJoint_ofsi, ho1']; omega)]
    have := assembleJoint_Jcopy_in fps w.global_erp A1 jt hfb n hn
    rw [hc1', ho1'] at this
    exact this

/-! ## Joint feedback -/

theorem Multiply1_12q1_eq_sum (B C : Nat → ℚ) (c q : Nat) :
    Multiply1_12q1 B C c q = Finset.sum (Finset.range q) (fun r => B (c + 12 * r) * C r) := by
  induction q with
  | zero => simp [Multiply1_12q1]
  | succ q ih => rw [Multiply1_12q1, ih, Finset.sum_range_succ]

theorem feedbackStep_eq (Jcopy lambda : Nat → ℚ) (f : FeedbackLoop) (jt : dxJoint) :
    feedbackStep Jcopy lambda f jt =
      { done := f.done ++ [feedbackOf Jcopy lambda jt f.lambdacurr f.Jcopyrow]
        lambdacurr := f.lambdacurr + jt.info_m
        Jcopyrow := f.Jcopyrow + 12 * (if jt.feedback.isSome then jt.info_m else 0) } := by
  unfold feedbackStep feedbackOf
  cases h : jt.feedback with
  | none => simp
  | some fb =>
    simp only [Option.isSome_some, if_true]
    congr 1
    omega

theorem feedback_foldl (Jcopy lambda : Nat → ℚ) (l : List dxJoint) :
    ∀ f : FeedbackLoop, ∃ rest : List dxJoint,
      (l.foldl (feedbackStep Jcopy lambda) f).done = f.done ++ rest ∧
      rest.length = l.length ∧
      ∀ (k : Nat) (hk : k < l.length), rest[k]? =
        some (feedbackOf Jcopy lambda l[k] (f.lambdacurr + count_m (l.take k))
          (f.Jcopyrow + 12 * count_mfb (l.take k))) := by
  induction l with
  | nil =>
    intro f
    exact ⟨[], by simp, rfl, fun k hk => absurd hk (by simp)⟩
  | cons x l ih =>
    intro f
    simp only [List.foldl_cons]
    obtain ⟨rest, h1, h2, h3⟩ := ih (feedbackStep Jcopy lambda f x)
    refine ⟨feedbackOf Jcopy lambda x f.lambdacurr f.Jcopyrow :: rest, ?_, ?_, ?_⟩
    · rw [h1, feedbackStep_eq]
      simp
    · simp [h2]
    · intro k hk
      cases k with
      | zero => simp [count_m, count_mfb]
      | succ k =>
        have hk' : k < l.length := by simpa using hk
        have := h3 k hk'
        simp only [feedbackStep_eq] at this
        simp only [List.getElem?_cons_succ, List.getElem_cons_succ, List.take_succ_cons,
          count_m_cons, count_mfb_cons]
        rw [this]
        congr 2
        · omega
        · omega

theorem jointFeedback_f1 (jt : dxJoint) (Jcopy : Nat → ℚ) (Jr : Nat) (lambda : Nat → ℚ)
    (lc : Nat) (fb : dJointFeedback) (c : Nat) :
    (jointFeedback jt Jcopy Jr lambda lc fb).f1 c =
      if c < 3 then Multiply1_12q1 (offs Jcopy Jr) (offs lambda lc) c jt.info_m
      else fb.f1 c := by
  unfold jointFeedback
  simp only []
  by_cases h : jt.node1.isSome = true
  · rw [if_pos h]
  · rw [if_neg h]

theorem jointFeedback_t1 (jt : dxJoint) (Jcopy : Nat → ℚ) (Jr : Nat) (lambda : Nat → ℚ)
    (lc : Nat) (fb : dJointFeedback) (c : Nat) :
    (jointFeedback jt Jcopy Jr lambda lc fb).t1 c =
      if c < 3 then Multiply1_12q1 (offs Jcopy Jr) (offs lambda lc) (3 + c) jt.info_m
      else fb.t1 c := by
  unfold jointFeedback
  simp only []
  by_cases h : jt.node1.isSome = true
  · rw [if_pos h]
  · rw [if_neg h]

theorem jointFeedback_f2 (jt : dxJoint) (Jcopy : Nat → ℚ) (Jr : Nat) (lambda : Nat → ℚ)
    (lc : Nat) (fb : dJointFeedback) (h : jt.node1.isSome) (c : Nat) :
    (jointFeedback jt Jcopy Jr lambda lc fb).f2 c =
      if c < 3 then Multiply1_12q1 (offs Jcopy (Jr + 6)) (offs lambda lc) c jt.info_m
      else fb.f2 c := by
  unfold jointFeedback
  simp only []
  rw [if_pos h]

theorem jointFeedback_t2 (jt : dxJoint) (Jcopy : Nat → ℚ) (Jr : Nat) (lambda : Nat → ℚ)
    (lc : Nat) (fb : dJointFeedback) (h : jt.node1.isSome) (c : Nat) :
    (jointFeedback jt Jcopy Jr lambda lc fb).t2 c =
      if c < 3 then Multiply1_12q1 (offs Jcopy (Jr + 6)) (offs lambda lc) (3 + c) jt.info_m
      else fb.t2 c := by
  unfold jointFeedback
  simp only []
  rw [if_pos h]

theorem count_mfb_pos_of_mem (l : List dxJoint) (jt : dxJoint) (hm : jt ∈ l)
    (hfb : jt.feedback.isSome) (hpos : 0 < jt.info_m) : 0 < count_mfb l := by
  induction l with
  | nil => simp at hm
  | cons x l ih =>
    rw [count_mfb_cons]
    rcases List.mem_cons.mp hm with h | h
    · subst h
      rw [if_pos hfb]
      omega
    · have := ih h
      omega

theorem jointiinfos_pos (_joint : List dxJoint) (jt : dxJoint) (h : jt ∈ jointiinfos _joint) :
    0 < jt.info_m := by
  unfold jointiinfos at h
  have := (List.mem_filter.mp h).2
  simpa using this

theorem list_split_at (l : List dxJoint) (k : Nat) (hk : k < l.length) :
    l = l.take k ++ l[k] :: l.drop (k + 1) := by
  rw [← List.drop_eq_getElem_cons hk, List.take_append_drop]

/-- The feedback written for the `k`-th of a list of active joints: the
joint's rows of `Jcopy` hold what the joint wrote in `getInfo2`, and each
feedback component is the sum over the joint's rows of the Jacobian entry
times the row's `lambda`. -/
theorem feedback_formula (w : dxWorld) (fps : ℚ) (ji : List dxJoint) (lambda : Nat → ℚ)
    (k : Nat) (hk : k < ji.length) (fb : dJointFeedback) (hfb : ji[k].feedback = some fb)
    (hpos : 0 < ji[k].info_m) :
    ∃ fb' : dJointFeedback,
      (feedbackJoints ji (assemble w fps ji).Jcopy lambda)[k]? =
        some { ji[k] with feedback := some fb' } ∧
      (∀ c, c < 3 →
        fb'.f1 c = Finset.sum (Finset.range ji[k].info_m) (fun r =>
          (ji[k].getInfo2 fps w.global_erp (presetRow w) r).J c * lambda (rowOffset ji k + r)) ∧
        fb'.t1 c = Finset.sum (Finset.range ji[k].info_m) (fun r =>
          (ji[k].getInfo2 fps w.global_erp (presetRow w) r).J (3 + c)
            * lambda (rowOffset ji k + r))) ∧
      (ji[k].node1.isSome → ∀ c, c < 3 →
        fb'.f2 c = Finset.sum (Finset.range ji[k].info_m) (fun r =>
          (ji[k].getInfo2 fps w.global_erp (presetRow w) r).J (6 + c)
            * lambda (rowOffset ji k + r)) ∧
        fb'.t2 c = Finset.sum (Finset.range ji[k].info_m) (fun r =>
          (ji[k].getInfo2 fps w.global_erp (presetRow w) r).J (9 + c)
            * lambda (rowOffset ji k + r))) := by
  have hsome : ji[k].feedback.isSome := by rw [hfb]; rfl
  have hmfb : 0 < count_mfb ji := count_mfb_pos_of_mem ji ji[k] (List.getElem_mem hk) hsome hpos
  obtain ⟨rest, h1, h2, h3⟩ := feedback_foldl (assemble w fps ji).Jcopy lambda ji
    { done := [], lambdacurr := 0, Jcopyrow := 0 }
  have hJ : ∀ r c, r < ji[k].info_m → c < 12 →
      (assemble w fps ji).Jcopy (12 * fbOffset ji k + (12 * r + c)) =
        (ji[k].getInfo2 fps w.global_erp (presetRow w) r).J c := by
    intro r c hr hc
    have hs := list_split_at ji k hk
    have a := assemble_row w fps (ji.take k) (ji.drop (k + 1)) ji[k] r hr
    rw [← hs] at a
    obtain ⟨a1, _, a3⟩ := a
    have := a3 hsome (12 * r + c) (by omega)
    unfold fbOffset
    rw [this, ← a1 c hc]
    congr 1
    omega
  refine ⟨jointFeedback ji[k] (assemble w fps ji).Jcopy (12 * fbOffset ji k) lambda
    (rowOffset ji k) fb, ?_, ?_, ?_⟩
  · unfold feedbackJoints
    rw [if_pos hmfb, h1]
    simp only [List.nil_append]
    rw [h3 k hk]
    simp only [feedbackOf, hfb, zero_add]
    rfl
  · intro c hc
    rw [jointFeedback_f1, jointFeedback_t1, if_pos hc, if_pos hc, Multiply1_12q1_eq_sum,
      Multiply1_12q1_eq_sum]
    constructor
    · apply Finset.sum_congr rfl
      intro r hr
      have hr' := Finset.mem_range.mp hr
      simp only [offs]
      rw [show 12 * fbOffset ji k + (c + 12 * r) = 12 * fbOffset ji k + (12 * r + c) by omega,
        hJ r c hr' (by omega)]
    · apply Finset.sum_congr rfl
      intro r hr
      have hr' := Finset.mem_range.mp hr
      simp only [offs]
      rw [show 12 * fbOffset ji k + (3 + c + 12 * r) = 12 * fbOffset ji k + (12 * r + (3 + c))
        by omega, hJ r (3 + c) hr' (by omega)]
  · intro hn1 c hc
    rw [jointFeedback_f2 _ _ _ _ _ _ hn1, jointFeedback_t2 _ _ _ _ _ _ hn1, if_pos hc, if_pos hc,
      Multiply1_12q1_eq_sum, Multiply1_12q1_eq_sum]
    constructor
    · apply Finset.sum_congr rfl
      intro r hr
      have hr' := Finset.mem_range.mp hr
      simp only [offs]
      rw [show 12 * fbOffset ji k + 6 + (c + 12 * r) = 12 * fbOffset ji k + (12 * r + (6 + c))
        by omega, hJ r (6 + c) hr' (by omega)]
    · apply Finset.sum_congr rfl
      intro r hr
      have hr' := Finset.mem_range.mp hr
      simp only [offs]
      rw [show 12 * fbOffset ji k + 6 + (3 + c + 12 * r)
        = 12 * fbOffset ji k + (12 * r + (9 + c)) by omega, hJ r (9 + c) hr' (by omega)]

/-! ## The stepper: findex globalisation and feedback -/

theorem count_m_pos_of_mem (l : List dxJoint) (jt : dxJoint) (hm : jt ∈ l)
    (hpos : 0 < jt.info_m) : 0 < count_m l := by
  induction l with
  | nil => simp at hm
  | cons x l ih =>
    rw [count_m_cons]
    rcases List.mem_cons.mp hm with h | h
    · subst h
      omega
    · have := ih h
      omega

theorem getElem?_split (l : List dxJoint) (k : Nat) (jt : dxJoint) (h : l[k]? = some jt) :
    jt ∈ l ∧ l = l.take k ++ jt :: l.drop (k + 1) := by
  obtain ⟨hk, he⟩ := List.getElem?_eq_some.mp h
  refine ⟨?_, ?_⟩
  · rw [← he]
    exact List.getElem_mem hk
  · have := list_split_at l k hk
    rw [he] at this
    exact this

theorem sorArgs_findex (w : dxWorld) (body : Nat → dxBody) (nb : Nat) (_joint : List dxJoint)
    (stepsize : ℚ) (draws : Nat → Nat) :
    (sorArgs w body nb _joint stepsize draws).findex =
      (assemble w (1 / stepsize) (jointiinfos _joint)).findex := rfl

theorem dxQuickStepper_joints (dxStepBody : dxBody → ℚ → dxBody) (w : dxWorld)
    (body : Nat → dxBody) (nb : Nat) (_joint : List dxJoint) (stepsize : ℚ) (draws : Nat → Nat)
    (hm : 0 < count_m (jointiinfos _joint)) :
    (dxQuickStepper dxStepBody w body nb _joint stepsize draws).joints =
      feedbackJoints (jointiinfos _joint) (assemble w (1 / stepsize) (jointiinfos _joint)).Jcopy
        (SOR_LCP (sorArgs w body nb _joint stepsize draws)).lambda := by
  unfold dxQuickStepper
  simp only [gt_iff_lt, hm, if_true]

/-- The global `findex` of the rows of the `k`-th active joint. -/
theorem findex_global (w : dxWorld) (fps : ℚ) (ji : List dxJoint) (k : Nat) (jt : dxJoint)
    (hjt : ji[k]? = some jt) (j : Nat) (hj : j < jt.info_m) :
    (assemble w fps ji).findex (rowOffset ji k + j) =
      adjustFindex (rowOffset ji k) (jt.getInfo2 fps w.global_erp (presetRow w) j).findex ∧
    rowOffset ji k + jt.info_m ≤ count_m ji := by
  obtain ⟨_, hs⟩ := getElem?_split ji k jt hjt
  have a := assemble_row w fps (ji.take k) (ji.drop (k + 1)) jt j hj
  rw [← hs] at a
  refine ⟨a.2.1, ?_⟩
  unfold rowOffset
  conv_rhs => rw [hs, count_m_append, count_m_cons]
  omega

/-- C10. For the `k`-th active joint `jt`, with global row offset `o` and
`info.m` rows, the assembled `findex[o + j]` is `f + o` when the joint
reported the joint-local value `f >= 0` for its row `j`, and `f` itself
when `f < 0`; hence, if every reported `f >= 0` is `< info.m`, a
non-negative global `findex[o + j]` lies in `[o, o + info.m)`, and in
`[0, m)`. -/
theorem C10_findex_globalisation (w : dxWorld) (body : Nat → dxBody) (nb : Nat)
    (_joint : List dxJoint) (stepsize : ℚ) (draws : Nat → Nat) (k : Nat) (jt : dxJoint)
    (hjt : (jointiinfos _joint)[k]? = some jt) (j : Nat) (hj : j < jt.info_m) :
    ((jt.getInfo2 (1 / stepsize) w.global_erp (presetRow w) j).findex ≥ 0 →
      (sorArgs w body nb _joint stepsize draws).findex (rowOffset (jointiinfos _joint) k + j) =
        (jt.getInfo2 (1 / stepsize) w.global_erp (presetRow w) j).findex
          + (rowOffset (jointiinfos _joint) k : Int)) ∧
    ((jt.getInfo2 (1 / stepsize) w.global_erp (presetRow w) j).findex < 0 →
      (sorArgs w body nb _joint stepsize draws).findex (rowOffset (jointiinfos _joint) k + j) =
        (jt.getInfo2 (1 / stepsize) w.global_erp (presetRow w) j).findex) ∧
    ((∀ j', j' < jt.info_m →
        (jt.getInfo2 (1 / stepsize) w.global_erp (presetRow w) j').findex ≥ 0 →
        (jt.getInfo2 (1 / stepsize) w.global_erp (presetRow w) j').findex < (jt.info_m : Int)) →
      (sorArgs w body nb _joint stepsize draws).findex (rowOffset (jointiinfos _joint) k + j) ≥ 0 →
      (rowOffset (jointiinfos _joint) k : Int) ≤
        (sorArgs w body nb _joint stepsize draws).findex (rowOffset (jointiinfos _joint) k + j) ∧
      (sorArgs w body nb _joint stepsize draws).findex (rowOffset (jointiinfos _joint) k + j) <
        (rowOffset (jointiinfos _joint) k : Int) + (jt.info_m : Int) ∧
      (sorArgs w body nb _joint stepsize draws).findex (rowOffset (jointiinfos _joint) k + j) <
        ((sorArgs w body nb _joint stepsize draws).m : Int)) := by
  obtain ⟨h1, h2⟩ := findex_global w (1 / stepsize) (jointiinfos _joint) k jt hjt j hj
  rw [sorArgs_findex, h1]
  have hm : (sorArgs w body nb _joint stepsize draws).m = count_m (jointiinfos _joint) := rfl
  rw [hm]
  unfold adjustFindex
  refine ⟨fun h => by rw [if_pos h], fun h => by rw [if_neg (by omega)], ?_⟩
  intro hall
  have := hall j hj
  split_ifs with hf
  · intro _
    have := this hf
    omega
  · intro hge
    omega

/-- C6. For the `k`-th active joint `jt`, with a feedback sink and rows in
the global range `[o, o + info.m)`, `dxQuickStepper` reports
`f1[c] = sum_r Jorig[r][c] * lambda[o + r]` and
`t1[c] = sum_r Jorig[r][3 + c] * lambda[o + r]` for `c = 0..2`, and, when the
joint has a second body, `f2` and `t2` likewise from columns `6..8` and
`9..11`, where `Jorig[r]` is the row as the joint wrote it in `getInfo2` and
`lambda` is the solver's result. -/
theorem C6_feedback_uses_original_jacobian (dxStepBody : dxBody → ℚ → dxBody) (w : dxWorld)
    (body : Nat → dxBody) (nb : Nat) (_joint : List dxJoint) (stepsize : ℚ) (draws : Nat → Nat)
    (k : Nat) (jt : dxJoint) (hjt : (jointiinfos _joint)[k]? = some jt)
    (fb : dJointFeedback) (hfb : jt.feedback = some fb) :
    ∃ fb' : dJointFeedback,
      (dxQuickStepper dxStepBody w body nb _joint stepsize draws).joints[k]? =
        some { jt with feedback := some fb' } ∧
      (∀ c, c < 3 →
        fb'.f1 c = Finset.sum (Finset.range jt.info_m) (fun r =>
          (jt.getInfo2 (1 / stepsize) w.global_erp (presetRow w) r).J c *
            (SOR_LCP (sorArgs w body nb _joint stepsize draws)).lambda
              (rowOffset (jointiinfos _joint) k + r)) ∧
        fb'.t1 c = Finset.sum (Finset.range jt.info_m) (fun r =>
          (jt.getInfo2 (1 / stepsize) w.global_erp (presetRow w) r).J (3 + c) *
            (SOR_LCP (sorArgs w body nb _joint stepsize draws)).lambda
              (rowOffset (jointiinfos _joint) k + r))) ∧
      (jt.node1.isSome → ∀ c, c < 3 →
        fb'.f2 c = Finset.sum (Finset.range jt.info_m) (fun r =>
          (jt.getInfo2 (1 / stepsize) w.global_erp (presetRow w) r).J (6 + c) *
            (SOR_LCP (sorArgs w body nb _joint stepsize draws)).lambda
              (rowOffset (jointiinfos _joint) k + r)) ∧
        fb'.t2 c = Finset.sum (Finset.range jt.info_m) (fun r =>
          (jt.getInfo2 (1 / stepsize) w.global_erp (presetRow w) r).J (9 + c) *
            (SOR_LCP (sorArgs w body nb _joint stepsize draws)).lambda
              (rowOffset (jointiinfos _joint) k + r))) := by
  obtain ⟨hk, he⟩ := List.getElem?_eq_some.mp hjt
  obtain ⟨hmem, _⟩ := getElem?_split _ k jt hjt
  have hpos := jointiinfos_pos _joint jt hmem
  have hm := count_m_pos_of_mem _ jt hmem hpos
  rw [dxQuickStepper_joints dxStepBody w body nb _joint stepsize draws hm]
  have := feedback_formula w (1 / stepsize) (jointiinfos _joint)
    (SOR_LCP (sorArgs w body nb _joint stepsize draws)).lambda k hk fb (by rw [he]; exact hfb)
    (by rw [he]; exact hpos)
  rw [he] at this
  exact this

/-- C7. For the `k`-th active joint `jt`, with a feedback sink and a second
body, if in every row the joint wrote the second body's linear block is the
negation of the first body's linear block, the reported forces satisfy
`f2 = -f1`. -/
theorem C7_feedback_forces_opposite (dxStepBody : dxBody → ℚ → dxBody) (w : dxWorld)
    (body : Nat → dxBody) (nb : Nat) (_joint : List dxJoint) (stepsize : ℚ) (draws : Nat → Nat)
    (k : Nat) (jt : dxJoint) (hjt : (jointiinfos _joint)[k]? = some jt)
    (fb : dJointFeedback) (hfb : jt.feedback = some fb) (hn1 : jt.node1.isSome)
    (hJ : ∀ r c, r < jt.info_m → c < 3 →
      (jt.getInfo2 (1 / stepsize) w.global_erp (presetRow w) r).J (6 + c) =
        -(jt.getInfo2 (1 / stepsize) w.global_erp (presetRow w) r).J c) :
    ∃ fb' : dJointFeedback,
      (dxQuickStepper dxStepBody w body nb _joint stepsize draws).joints[k]? =
        some { jt with feedback := some fb' } ∧
      ∀ c, c < 3 → fb'.f2 c = -fb'.f1 c := by
  obtain ⟨hk, he⟩ := List.getElem?_eq_some.mp hjt
  obtain ⟨hmem, _⟩ := getElem?_split _ k jt hjt
  have hpos := jointiinfos_pos _joint jt hmem
  have hm := count_m_pos_of_mem _ jt hmem hpos
  rw [dxQuickStepper_joints dxStepBody w body nb _joint stepsize draws hm]
  have := feedback_formula w (1 / stepsize) (jointiinfos _joint)
    (SOR_LCP (sorArgs w body nb _joint stepsize draws)).lambda k hk fb (by rw [he]; exact hfb)
    (by rw [he]; exact hpos)
  rw [he] at this
  obtain ⟨fb', h1, h2, h3⟩ := this
  refine ⟨fb', h1, ?_⟩
  intro c hc
  rw [(h3 hn1 c hc).1, (h2 c hc).1, ← Finset.sum_neg_distrib]
  apply Finset.sum_congr rfl
  intro r hr
  rw [hJ r c (Finset.mem_range.mp hr) hc]
  ring

/-! ## The memory estimate -/

theorem dEFFICIENT_SIZE_mono {x y : Nat} (h : x ≤ y) : dEFFICIENT_SIZE x ≤ dEFFICIENT_SIZE y := by
  unfold dEFFICIENT_SIZE EFFICIENT_ALIGNMENT
  exact Nat.mul_le_mul_right _ (Nat.div_le_div_right (by omega))

theorem jointiinfos_append (l1 l2 : List dxJoint) :
    jointiinfos (l1 ++ l2) = jointiinfos l1 ++ jointiinfos l2 := by
  unfold jointiinfos
  exact List.filter_append l1 l2

theorem count_m_damp_foldl (l : List dxJoint) (a : Nat) :
    l.foldl (fun mcurr j => if j.use_damping then mcurr + 1 else mcurr) a
      = a + count_m_damp l := by
  induction l generalizing a with
  | nil => simp [count_m_damp]
  | cons x l ih =>
    simp only [List.foldl_cons, count_m_damp]
    rw [ih, ih (if x.use_damping then 0 + 1 else 0)]
    by_cases h : x.use_damping = true
    · rw [if_pos h, if_pos h]
      omega
    · rw [if_neg h, if_neg h]
      omega

theorem count_m_damp_append (l1 l2 : List dxJoint) :
    count_m_damp (l1 ++ l2) = count_m_damp l1 + count_m_damp l2 := by
  unfold count_m_damp
  rw [List.foldl_append, count_m_damp_foldl]
  rfl

/-- The estimator's counts dominate the counts of the step, when every joint
reports at most its sure maximum of rows. -/
theorem est_counts_ge (_joint : List dxJoint) (h : ∀ j, j ∈ _joint → j.info_m ≤ j.max_m) :
    (jointiinfos _joint).length ≤ (estCounts _joint).njcurr ∧
    count_m (jointiinfos _joint) ≤ (estCounts _joint).mcurr ∧
    count_mfb (jointiinfos _joint) ≤ (estCounts _joint).mfbcurr ∧
    count_m_damp (jointiinfos _joint) ≤ est_m_damp _joint := by
  induction _joint using List.reverseRecOn with
  | nil => simp [jointiinfos, estCounts, count_m, count_mfb, count_m_damp, est_m_damp]
  | append_singleton l x ih =>
    obtain ⟨h1, h2, h3, h4⟩ := ih (fun j hj => h j (List.mem_append_left _ hj))
    have hx := h x (List.mem_append_right _ (List.mem_singleton_self x))
    rw [jointiinfos_append, List.length_append, count_m_append, count_mfb_append,
      count_m_damp_append]
    have e1 : estCounts (l ++ [x]) = estCountStep (estCounts l) x := by
      unfold estCounts
      rw [List.foldl_append]
      rfl
    have e2 : est_m_damp (l ++ [x]) =
        (if x.use_damping then est_m_damp l + 1 else est_m_damp l) := by
      unfold est_m_damp
      rw [List.foldl_append]
      rfl
    rw [e1, e2]
    have c1 : count_m [x] = x.info_m := by simp [count_m]
    have c2 : count_mfb [x] = if x.feedback.isSome then x.info_m else 0 := by
      simp [count_mfb]
    have c3 : count_m_damp [x] = if x.use_damping then 1 else 0 := by
      simp [count_m_damp]
    have c4 : count_m ([] : List dxJoint) = 0 := rfl
    have c5 : count_mfb ([] : List dxJoint) = 0 := rfl
    have c6 : count_m_damp ([] : List dxJoint) = 0 := rfl
    unfold estCountStep
    by_cases hpos : x.info_m > 0
    · have hj : jointiinfos [x] = [x] := by simp [jointiinfos, hpos]
      have hmax : x.max_m > 0 := by omega
      rw [hj, if_pos hmax, c1, c2, c3]
      simp only [List.length_singleton]
      refine ⟨by omega, by omega, ?_, ?_⟩
      · split_ifs <;> omega
      · split_ifs <;> omega
    · have hj : jointiinfos [x] = [] := by simp [jointiinfos, hpos]
      rw [hj, c4, c5, c6]
      simp only [List.length_nil]
      refine ⟨?_, ?_, ?_, ?_⟩
      · split_ifs <;> (try dsimp only) <;> omega
      · split_ifs <;> (try dsimp only) <;> omega
      · split_ifs <;> (try dsimp only) <;> omega
      · split_ifs <;> omega

/-- The bytes in use never exceed the recorded peak, nor do the saved marks. -/
theorem arena_foldl_inv (ops : List ArenaOp) :
    ∀ a : Arena, a.cur ≤ a.peak → (∀ c, c ∈ a.saved → c ≤ a.peak) →
      a.peak ≤ (ops.foldl Arena.step a).peak ∧
      (ops.foldl Arena.step a).cur ≤ (ops.foldl Arena.step a).peak ∧
      (∀ c, c ∈ (ops.foldl Arena.step a).saved → c ≤ (ops.foldl Arena.step a).peak) := by
  induction ops with
  | nil => intro a h1 h2; exact ⟨le_refl _, h1, h2⟩
  | cons op ops ih =>
    intro a h1 h2
    simp only [List.foldl_cons]
    have hs : a.peak ≤ (Arena.step a op).peak ∧ (Arena.step a op).cur ≤ (Arena.step a op).peak ∧
        (∀ c, c ∈ (Arena.step a op).saved → c ≤ (Arena.step a op).peak) := by
      cases op with
      | alloc name bytes =>
        simp only [Arena.step]
        refine ⟨le_max_left _ _, le_max_right _ _, fun c hc => le_trans (h2 c hc) (le_max_left _ _)⟩
      | shrink name o n =>
        simp only [Arena.step]
        refine ⟨le_max_left _ _, le_max_right _ _, fun c hc => le_trans (h2 c hc) (le_max_left _ _)⟩
      | save =>
        simp only [Arena.step]
        refine ⟨le_refl _, h1, ?_⟩
        intro c hc
        rcases List.mem_cons.mp hc with h | h
        · rw [h]; exact h1
        · exact h2 c h
      | restore =>
        cases hsv : a.saved with
        | nil =>
          simp only [Arena.step, hsv]
          exact ⟨le_refl _, h1, by rw [hsv] at h2; exact h2⟩
        | cons c rest =>
          simp only [Arena.step, hsv]
          refine ⟨le_refl _, ?_, ?_⟩
          · exact h2 c (by rw [hsv]; exact List.mem_cons_self c rest)
          · intro c' hc'
            exact h2 c' (by rw [hsv]; exact List.mem_cons_of_mem c hc')
    obtain ⟨i1, i2, i3⟩ := ih (Arena.step a op) hs.2.1 hs.2.2
    exact ⟨le_trans hs.1 i1, i2, i3⟩

/-- The bytes in use after any prefix of the operations are at most the
final peak. -/
theorem arena_take_le_peak (ops : List ArenaOp) (t : Nat) :
    (Arena.run (ops.take t)).cur ≤ (Arena.run ops).peak := by
  have hsplit : ops = ops.take t ++ ops.drop t := (List.take_append_drop t ops).symm
  have h1 := arena_foldl_inv (ops.take t) { cur := 0, saved := [], peak := 0 } (le_refl _)
    (fun c hc => by simp at hc)
  have h2 := arena_foldl_inv (ops.drop t) (Arena.run (ops.take t)) h1.2.1 h1.2.2
  unfold Arena.run at *
  conv_rhs => rw [hsplit, List.foldl_append]
  exact le_trans h1.2.1 h2.1

theorem stepArena_peak_le (sz : TypeSizes) (nb _nj nj m mfb md NJ M MFB MD : Nat)
    (g1 : nj ≤ NJ) (g2 : m ≤ M) (g3 : mfb ≤ MFB) (g4 : md ≤ MD) :
    (Arena.run (stepArenaOps sz nb _nj nj m mfb md)).peak ≤
      estimateBytes sz nb _nj NJ M MFB MD := by
  have k1 : dEFFICIENT_SIZE (sz.sz_dReal * (3 * 4 * nb)) =
      dEFFICIENT_SIZE (sz.sz_dReal * 3 * 4 * nb) := by
    congr 1; ring
  have k2 : dEFFICIENT_SIZE (sz.sz_dJointWithInfo1 * nj) ≤
      dEFFICIENT_SIZE (sz.sz_dJointWithInfo1 * NJ) :=
    dEFFICIENT_SIZE_mono (Nat.mul_le_mul_left _ g1)
  have kJ : dEFFICIENT_SIZE (sz.sz_dReal * (m * 12)) ≤ dEFFICIENT_SIZE (sz.sz_dReal * 12 * M) :=
    dEFFICIENT_SIZE_mono (by have := Nat.mul_le_mul_left sz.sz_dReal g2; linarith)
  have km : dEFFICIENT_SIZE (sz.sz_dReal * m) ≤ dEFFICIENT_SIZE (sz.sz_dReal * M) :=
    dEFFICIENT_SIZE_mono (Nat.mul_le_mul_left _ g2)
  have kf : dEFFICIENT_SIZE (sz.sz_int * m) ≤ dEFFICIENT_SIZE (sz.sz_int * M) :=
    dEFFICIENT_SIZE_mono (Nat.mul_le_mul_left _ g2)
  have kjb : dEFFICIENT_SIZE (sz.sz_int * (m * 2)) ≤ dEFFICIENT_SIZE (sz.sz_int * 2 * M) :=
    dEFFICIENT_SIZE_mono (by have := Nat.mul_le_mul_left sz.sz_int g2; linarith)
  have kJc : dEFFICIENT_SIZE (sz.sz_dReal * (mfb * 12)) ≤
      dEFFICIENT_SIZE (sz.sz_dReal * 12 * MFB) :=
    dEFFICIENT_SIZE_mono (by have := Nat.mul_le_mul_left sz.sz_dReal g3; linarith)
  have kJd : dEFFICIENT_SIZE (sz.sz_dReal * (md * 12)) ≤
      dEFFICIENT_SIZE (sz.sz_dReal * 12 * MD) :=
    dEFFICIENT_SIZE_mono (by have := Nat.mul_le_mul_left sz.sz_dReal g4; linarith)
  have kvd : dEFFICIENT_SIZE (sz.sz_dReal * md) ≤ dEFFICIENT_SIZE (sz.sz_dReal * MD) :=
    dEFFICIENT_SIZE_mono (Nat.mul_le_mul_left _ g4)
  have kjd : dEFFICIENT_SIZE (sz.sz_int * (md * 2)) ≤ dEFFICIENT_SIZE (sz.sz_int * 2 * MD) :=
    dEFFICIENT_SIZE_mono (by have := Nat.mul_le_mul_left sz.sz_int g4; linarith)
  have knb : dEFFICIENT_SIZE (sz.sz_dReal * (nb * 6)) = dEFFICIENT_SIZE (sz.sz_dReal * 6 * nb) := by
    congr 1; ring
  have knb2 : dEFFICIENT_SIZE (sz.sz_dReal * (6 * nb)) =
      dEFFICIENT_SIZE (sz.sz_dReal * 6 * nb) := by
    congr 1; ring
  have kx : dEFFICIENT_SIZE (sz.sz_IndexError * m) ≤ dEFFICIENT_SIZE (sz.sz_IndexError * M) :=
    dEFFICIENT_SIZE_mono (Nat.mul_le_mul_left _ g2)
  unfold stepArenaOps estimateBytes
  by_cases hpos : m > 0
  · have hMpos : M > 0 := by omega
    simp only [if_pos hpos, if_pos hMpos, constraintArenaOps, SOR_LCP_allocs, Arena.run,
      List.cons_append, List.nil_append, List.foldl_cons, List.foldl_nil, Arena.step,
      EstimateSOR_LCPMemoryRequirements, k1, knb, knb2, ge_iff_le, Nat.zero_le, if_true]
    split_ifs <;> simp only [max_le_iff, sup_le_iff] <;> (repeat' apply And.intro) <;> omega
  · simp only [if_neg hpos, Arena.run, List.append_nil, List.foldl_cons, List.foldl_nil,
      Arena.step, k1]
    split_ifs <;> simp only [max_le_iff, sup_le_iff] <;> (repeat' apply And.intro) <;> omega

theorem quickStep_peak_le (sz : TypeSizes) (nb : Nat) (_joint : List dxJoint)
    (h : ∀ j, j ∈ _joint → j.info_m ≤ j.max_m) :
    (Arena.run (quickStepArenaOps sz nb _joint)).peak ≤
      dxEstimateQuickStepMemoryRequirements sz nb _joint := by
  obtain ⟨g1, g2, g3, g4⟩ := est_counts_ge _joint h
  exact stepArena_peak_le sz nb _ _ _ _ _ _ _ _ _ g1 g2 g3 g4

/-- C2. The estimate is never too small: when every joint reports at most
its sure maximum of rows, the bytes in use in the arena (the sum of the
aligned sizes of the live arrays) after any number of the arena operations of
`dxQuickStepper`, those of `SOR_LCP` included, are at most the value
returned by `dxEstimateQuickStepMemoryRequirements`. -/
theorem C2_estimate_never_underestimates (sz : TypeSizes) (nb : Nat) (_joint : List dxJoint)
    (h : ∀ j, j ∈ _joint → j.info_m ≤ j.max_m) (t : Nat) :
    (Arena.run ((quickStepArenaOps sz nb _joint).take t)).cur ≤
      dxEstimateQuickStepMemoryRequirements sz nb _joint :=
  le_trans (arena_take_le_peak _ t) (quickStep_peak_le sz nb _joint h)

/-! ## Zero constraints -/

theorem jointiinfos_nil_of_zero (_joint : List dxJoint) (h : ∀ j, j ∈ _joint → j.info_m = 0) :
    jointiinfos _joint = [] := by
  unfold jointiinfos
  apply List.filter_eq_nil_iff.mpr
  intro j hj
  have := h j hj
  simp [this]

/-- C5. When no joint reports a positive row count, `dxQuickStepper` does
not call `SOR_LCP`, its arena operations allocate neither `lambda` nor
`cforce`, and after the velocity updates every body's linear velocity has
changed by exactly `stepsize * invMass * (facc + mass * gravity)`, the gravity
term being left out for a body flagged `dxBodyNoGravity`. -/
theorem C5_zero_constraints (dxStepBody : dxBody → ℚ → dxBody) (w : dxWorld)
    (body : Nat → dxBody) (nb : Nat) (_joint : List dxJoint) (stepsize : ℚ) (draws : Nat → Nat)
    (sz : TypeSizes) (h : ∀ j, j ∈ _joint → j.info_m = 0) :
    (dxQuickStepper dxStepBody w body nb _joint stepsize draws).sor = none ∧
    (∀ bytes, ArenaOp.alloc "lambda" bytes ∉ quickStepArenaOps sz nb _joint ∧
      ArenaOp.alloc "cforce" bytes ∉ quickStepArenaOps sz nb _joint) ∧
    (∀ i j, i < nb → j < 3 →
      ((dxQuickStepper dxStepBody w body nb _joint stepsize draws).velBodies i).lvel j =
        (body i).lvel j + stepsize * (body i).invMass *
          ((body i).facc j +
            (if (body i).flags &&& dxBodyNoGravity = 0 then (body i).mass_mass * w.gravity j
             else 0))) := by
  have hji := jointiinfos_nil_of_zero _joint h
  have hm : count_m (jointiinfos _joint) = 0 := by rw [hji]; rfl
  refine ⟨?_, ?_, ?_⟩
  · unfold dxQuickStepper
    simp only [hm, gt_iff_lt, lt_self_iff_false, if_false]
  · intro bytes
    unfold quickStepArenaOps stepArenaOps
    have hm0 : count_m ([] : List dxJoint) = 0 := rfl
    simp only [hji, hm0, gt_iff_lt, lt_self_iff_false, if_false, List.append_nil]
    constructor <;> simp
  · intro i j hi hj
    unfold dxQuickStepper
    simp only [hm, gt_iff_lt, lt_self_iff_false, if_false, if_pos hi, extVelBody, if_pos hj,
      preBodies, gravityBody, gyroBody, tagBodies]
    by_cases hgy : (body i).flags &&& dxBodyGyroscopic ≠ 0
    · simp only [if_pos hgy, hj, true_and]
      by_cases hg : w.gravity j = 0
      · simp [hg]
      · by_cases hf : (body i).flags &&& dxBodyNoGravity = 0
        · simp [hg, hf]
        · simp [hg, hf]
    · simp only [if_neg hgy, hj, true_and]
      by_cases hg : w.gravity j = 0
      · simp [hg]
      · by_cases hf : (body i).flags &&& dxBodyNoGravity = 0
        · simp [hg, hf]
        · simp [hg, hf]

/-! ## The bilateral scenario: what the solver is given -/

theorem ball_ji : jointiinfos [ballJoint] = [ballJoint] := by
  simp [jointiinfos, ballJoint]

theorem ball_count_m : count_m [ballJoint] = 3 := by
  simp [count_m, ballJoint]

theorem ball_asm (w : dxWorld) (fps : ℚ) :
    assemble w fps [ballJoint] =
      assembleJoint fps w.global_erp (Assembly.init w 3) ballJoint := by
  unfold assemble
  rw [ball_count_m]
  rfl

/-- The unscaled Jacobian of the scenario. -/
theorem ball_J (w : ℚ) (N : Nat) (v1 a1 v2 a2 : Nat → ℚ) (h : ℚ) (draws : Nat → Nat) (n : Nat) :
    (ballArgs w N v1 a1 v2 a2 h draws).J n =
      if n / 12 < 3 then (ballRow (n / 12)).J (n % 12) else 0 := by
  show (assemble (ballWorld w N) (1 / h) (jointiinfos [ballJoint])).J n = _
  rw [ball_ji, ball_asm]
  simp [assembleJoint, Assembly.init, ballJoint, filledRow]

theorem ball_pb (w : ℚ) (N : Nat) (v1 a1 v2 a2 : Nat → ℚ) (i : Nat) (hi : i < 2) :
    (preBodies (ballWorld w N) (ballBodies v1 a1 v2 a2) 2 i).tag = (i : Int) ∧
    (preBodies (ballWorld w N) (ballBodies v1 a1 v2 a2) 2 i).invMass = 1 ∧
    (preBodies (ballWorld w N) (ballBodies v1 a1 v2 a2) 2 i).mass_mass = 1 ∧
    (preBodies (ballWorld w N) (ballBodies v1 a1 v2 a2) 2 i).lvel = (if i = 0 then v1 else v2) ∧
    (∀ j, (preBodies (ballWorld w N) (ballBodies v1 a1 v2 a2) 2 i).facc j = 0) := by
  interval_cases i <;>
    simp [preBodies, gravityBody, gyroBody, tagBodies, ballBodies, unitBody, ballWorld]

theorem ball_jb (w : ℚ) (N : Nat) (v1 a1 v2 a2 : Nat → ℚ) (h : ℚ) (draws : Nat → Nat) (i : Nat)
    (hi : i < 3) :
    (ballArgs w N v1 a1 v2 a2 h draws).jb (i * 2) = 0 ∧
    (ballArgs w N v1 a1 v2 a2 h draws).jb (i * 2 + 1) = 1 := by
  have h0 := (ball_pb w N v1 a1 v2 a2 0 (by omega)).1
  have h1 := (ball_pb w N v1 a1 v2 a2 1 (by omega)).1
  show (jb_array (preBodies (ballWorld w N) (ballBodies v1 a1 v2 a2) 2)
      (jointiinfos [ballJoint])).jb (i * 2) = 0 ∧
    (jb_array (preBodies (ballWorld w N) (ballBodies v1 a1 v2 a2) 2)
      (jointiinfos [ballJoint])).jb (i * 2 + 1) = 1
  rw [ball_ji]
  simp only [jb_array, List.foldl_cons, List.foldl_nil, jbWrite, ballJoint, nodeTag, h0, h1]
  interval_cases i <;> simp

theorem ball_rows (w : ℚ) (N : Nat) (v1 a1 v2 a2 : Nat → ℚ) (h : ℚ) (draws : Nat → Nat)
    (i : Nat) (hi : i < 3) :
    (ballArgs w N v1 a1 v2 a2 h draws).cfm i = 0 ∧
    (ballArgs w N v1 a1 v2 a2 h draws).lo i = none ∧
    (ballArgs w N v1 a1 v2 a2 h draws).hi i = none ∧
    (ballArgs w N v1 a1 v2 a2 h draws).findex i = -1 := by
  have e1 : (ballArgs w N v1 a1 v2 a2 h draws).cfm i =
      (if i < count_m (jointiinfos [ballJoint]) then
        (assemble (ballWorld w N) (1 / h) (jointiinfos [ballJoint])).cfm i * (1 / h)
       else (assemble (ballWorld w N) (1 / h) (jointiinfos [ballJoint])).cfm i) := rfl
  have e2 : (ballArgs w N v1 a1 v2 a2 h draws).lo i =
      (assemble (ballWorld w N) (1 / h) (jointiinfos [ballJoint])).lo i := rfl
  have e3 : (ballArgs w N v1 a1 v2 a2 h draws).hi i =
      (assemble (ballWorld w N) (1 / h) (jointiinfos [ballJoint])).hi i := rfl
  have e4 : (ballArgs w N v1 a1 v2 a2 h draws).findex i =
      (assemble (ballWorld w N) (1 / h) (jointiinfos [ballJoint])).findex i := rfl
  rw [e1, e2, e3, e4, ball_ji, ball_asm, ball_count_m]
  simp [assembleJoint, Assembly.init, ballJoint, filledRow, ballRow, hi, adjustFindex]

theorem ball_misc (w : ℚ) (N : Nat) (v1 a1 v2 a2 : Nat → ℚ) (h : ℚ) (draws : Nat → Nat) :
    (ballArgs w N v1 a1 v2 a2 h draws).m = 3 ∧
    (ballArgs w N v1 a1 v2 a2 h draws).nb = 2 ∧
    (ballArgs w N v1 a1 v2 a2 h draws).m_damp = 0 ∧
    (ballArgs w N v1 a1 v2 a2 h draws).f_damp = (fun _ => 0) ∧
    (ballArgs w N v1 a1 v2 a2 h draws).qs = (ballWorld w N).qs ∧
    (ballArgs w N v1 a1 v2 a2 h draws).stepsize = h := by
  refine ⟨?_, rfl, ?_, rfl, rfl, rfl⟩
  · show count_m (jointiinfos [ballJoint]) = 3
    rw [ball_ji, ball_count_m]
  · show count_m_damp (jointiinfos [ballJoint]) = 0
    rw [ball_ji]
    simp [count_m_damp, ballJoint]

theorem ball_rhs1 (w : ℚ) (N : Nat) (v1 a1 v2 a2 : Nat → ℚ) (h : ℚ) (draws : Nat → Nat) :
    rhs_complete 3 (assemble (ballWorld w N) (1 / h) [ballJoint]).c (1 / h)
      (multiply_J 3 (ballArgs w N v1 a1 v2 a2 h draws).J (ballArgs w N v1 a1 v2 a2 h draws).jb
        (tmp1_array (preBodies (ballWorld w N) (ballBodies v1 a1 v2 a2) 2) 2
          (invI_array (preBodies (ballWorld w N) (ballBodies v1 a1 v2 a2) 2) 2) (1 / h))
        (fun _ => 0)) = ballRhs v1 v2 h := by
  funext i
  unfold rhs_complete multiply_J ballRhs
  by_cases hi : i < 3
  · obtain ⟨j1, j2⟩ := ball_jb w N v1 a1 v2 a2 h draws i hi
    obtain ⟨_, p2, _, p4, p5⟩ := ball_pb w N v1 a1 v2 a2 0 (by omega)
    obtain ⟨_, q2, _, q4, q5⟩ := ball_pb w N v1 a1 v2 a2 1 (by omega)
    have hc : (assemble (ballWorld w N) (1 / h) [ballJoint]).c i = 0 := by
      rw [ball_asm]
      simp [assembleJoint, Assembly.init, ballJoint, filledRow, ballRow, hi]
    simp only [if_pos hi, j1, j2, hc]
    interval_cases i <;>
      simp [dot6, ball_J, ballRow, tmp1_array, p2, p4, p5, q2, q4, q5] <;> ring
  · simp only [if_neg hi]

theorem dFabs_nonneg (x : ℚ) : 0 ≤ dFabs x := by
  rw [dFabs_eq_abs]
  exact abs_nonneg x

theorem pivotStep_of_zero (J : Nat → ℚ) (Ji bo : Nat) (p : Pivot) (j : Nat)
    (hJ : J (Ji + j) = 0) : pivotStep J Ji bo p j = p := by
  unfold pivotStep
  rw [hJ, if_neg]
  have := dFabs_nonneg p.J_max
  simp only [dFabs, lt_self_iff_false, if_false, neg_zero, gt_iff_lt, not_lt]
  exact this

theorem pivotStep_first (J : Nat → ℚ) (Ji bo : Nat) (p : Pivot) (j : Nat)
    (hJ : J (Ji + j) = 1) (hp : p.J_max = 0) :
    pivotStep J Ji bo p j = { J_max := 1, J_max_i := bo + j } := by
  unfold pivotStep
  rw [hJ, hp, if_pos]
  rw [dFabs_eq_abs, dFabs_eq_abs]
  norm_num

theorem pivotStep_skip_neg (J : Nat → ℚ) (Ji bo : Nat) (p : Pivot) (j : Nat)
    (hJ : J (Ji + j) = -1) (hp : p.J_max = 1) : pivotStep J Ji bo p j = p := by
  unfold pivotStep
  rw [hJ, hp, if_neg]
  rw [dFabs_eq_abs, dFabs_eq_abs]
  norm_num

theorem pivot_skip (J : Nat → ℚ) (Ji bo : Nat) (l : List Nat) (p : Pivot)
    (h : ∀ j, j ∈ l → dFabs (J (Ji + j)) ≤ dFabs p.J_max) :
    l.foldl (pivotStep J Ji bo) p = p := by
  induction l with
  | nil => rfl
  | cons a l ih =>
    have ha : pivotStep J Ji bo p a = p := by
      unfold pivotStep
      rw [if_neg (not_lt.mpr (h a (List.mem_cons_self a l)))]
    rw [List.foldl_cons, ha]
    exact ih (fun j hj => h j (List.mem_cons_of_mem a hj))

theorem pivot_of_ballRow (J : Nat → ℚ) (jb : Nat → Int) (i : Nat) (hi : i < 3)
    (j1 : jb (i * 2) = 0) (j2 : jb (i * 2 + 1) = 1)
    (hJ : ∀ c, c < 12 → J (12 * i + c) = if c = i then 1 else if c = i + 6 then -1 else 0) :
    rowPivot J jb i = { J_max := 1, J_max_i := i } := by
  have e : rowPivot J jb i =
      if jb (i * 2 + 1) ≥ 0 then
        (List.range 6).foldl (pivotStep J (12 * i + 6) (jb (i * 2 + 1) * 6).toNat)
          ((List.range 6).foldl (pivotStep J (12 * i) (jb (i * 2) * 6).toNat)
            { J_max := 0, J_max_i := 0 })
      else (List.range 6).foldl (pivotStep J (12 * i) (jb (i * 2) * 6).toNat)
            { J_max := 0, J_max_i := 0 } := rfl
  have hsplit : List.range 6 = List.range i ++ i :: List.range' (i + 1) (5 - i) := by
    interval_cases i <;> rfl
  have hd0 : dFabs 0 = 0 := by simp [dFabs]
  have hd1 : dFabs 1 = 1 := by rw [dFabs_eq_abs]; norm_num
  have hdm : dFabs (-1) = 1 := by rw [dFabs_eq_abs]; norm_num
  have first : (List.range 6).foldl (pivotStep J (12 * i) 0) { J_max := 0, J_max_i := 0 } =
      { J_max := 1, J_max_i := i } := by
    rw [hsplit, List.foldl_append, List.foldl_cons]
    rw [pivot_skip J (12 * i) 0 (List.range i) _ (by
      intro j hj
      have hj' := List.mem_range.mp hj
      rw [hJ j (by omega), if_neg (by omega), if_neg (by omega), hd0])]
    rw [pivotStep_first J (12 * i) 0 _ i (by rw [hJ i (by omega), if_pos rfl]) rfl]
    rw [pivot_skip J (12 * i) 0 _ _ (by
      intro j hj
      have hj' := List.mem_range'.mp hj
      rw [hJ j (by omega), if_neg (by omega), if_neg (by omega), hd0, hd1]
      norm_num)]
    simp
  rw [e, j1, j2, if_pos (by norm_num)]
  rw [show ((0 : Int) * 6).toNat = 0 from rfl, show ((1 : Int) * 6).toNat = 6 from rfl, first]
  apply pivot_skip
  intro j hj
  have hj' := List.mem_range.mp hj
  rw [show 12 * i + 6 + j = 12 * i + (6 + j) by omega, hJ (6 + j) (by omega), if_neg (by omega), hd1]
  split_ifs
  · rw [hdm]
  · rw [hd0]; norm_num

theorem ball_J_row (w : ℚ) (N : Nat) (v1 a1 v2 a2 : Nat → ℚ) (h : ℚ) (draws : Nat → Nat)
    (i : Nat) (hi : i < 3) (c : Nat) (hc : c < 12) :
    (ballArgs w N v1 a1 v2 a2 h draws).J (12 * i + c) =
      if c = i then 1 else if c = i + 6 then -1 else 0 := by
  rw [ball_J]
  have e1 : (12 * i + c) / 12 = i := by omega
  have e2 : (12 * i + c) % 12 = c := by omega
  rw [e1, e2, if_pos hi]
  rfl

theorem ball_pivot (w : ℚ) (N : Nat) (v1 a1 v2 a2 : Nat → ℚ) (h : ℚ) (draws : Nat → Nat)
    (i : Nat) (hi : i < 3) :
    rowPivot (ballArgs w N v1 a1 v2 a2 h draws).J (ballArgs w N v1 a1 v2 a2 h draws).jb i =
      { J_max := 1, J_max_i := i } := by
  obtain ⟨j1, j2⟩ := ball_jb w N v1 a1 v2 a2 h draws i hi
  exact pivot_of_ballRow _ _ i hi j1 j2 (ball_J_row w N v1 a1 v2 a2 h draws i hi)

theorem ball_gsRow (w : ℚ) (N : Nat) (v1 a1 v2 a2 : Nat → ℚ) (h : ℚ) (draws : Nat → Nat)
    (rhs x : Nat → ℚ) (i : Nat) (hi : i < 3) :
    gsRow (ballArgs w N v1 a1 v2 a2 h draws).J (ballArgs w N v1 a1 v2 a2 h draws).jb rhs x i =
      Function.update x i (rhs i + x (6 + i)) := by
  obtain ⟨j1, j2⟩ := ball_jb w N v1 a1 v2 a2 h draws i hi
  have p := ball_pivot w N v1 a1 v2 a2 h draws i hi
  have hJ := ball_J_row w N v1 a1 v2 a2 h draws i hi
  have e : ∀ c, 12 * i + 6 + c = 12 * i + (6 + c) := fun c => by omega
  have hv : x i + (rhs i - (dot6 (ballArgs w N v1 a1 v2 a2 h draws).J (12 * i) x 0
      + dot6 (ballArgs w N v1 a1 v2 a2 h draws).J (12 * i + 6) x 6)) / 1 = rhs i + x (6 + i) := by
    simp only [dot6, e]
    rw [show 12 * i = 12 * i + 0 from rfl, hJ 0 (by omega), hJ 1 (by omega), hJ 2 (by omega),
      hJ 3 (by omega), hJ 4 (by omega), hJ 5 (by omega), hJ (6 + 0) (by omega),
      hJ (6 + 1) (by omega), hJ (6 + 2) (by omega), hJ (6 + 3) (by omega),
      hJ (6 + 4) (by omega), hJ (6 + 5) (by omega)]
    interval_cases i <;> norm_num <;> ring
  unfold gsRow
  rw [p, j1, j2]
  simp only [show ((0 : Int) * 6).toNat = 0 from rfl, show ((1 : Int) * 6).toNat = 6 from rfl]
  rw [if_pos (by norm_num), hv]

/-- The fixed point of the preconditioner sweep in the scenario. -/
theorem ball_gsSweep (w : ℚ) (N : Nat) (v1 a1 v2 a2 : Nat → ℚ) (h : ℚ) (draws : Nat → Nat)
    (rhs x : Nat → ℚ) (hx : ∀ n, 3 ≤ n → x n = 0) :
    gsSweep 3 (ballArgs w N v1 a1 v2 a2 h draws).J (ballArgs w N v1 a1 v2 a2 h draws).jb rhs x =
      fun n => if n < 3 then rhs n else 0 := by
  unfold gsSweep
  simp only [List.range_succ, List.range_zero, List.nil_append, List.cons_append,
    List.foldl_cons, List.foldl_nil]
  rw [ball_gsRow _ _ _ _ _ _ _ _ _ _ 0 (by omega), ball_gsRow _ _ _ _ _ _ _ _ _ _ 1 (by omega),
    ball_gsRow _ _ _ _ _ _ _ _ _ _ 2 (by omega)]
  funext n
  simp only [Function.update_apply]
  have h6 := hx 6 (by omega)
  have h7 := hx 7 (by omega)
  have h8 := hx 8 (by omega)
  by_cases h0 : n = 0
  · subst h0; simp [h6]
  · by_cases h1 : n = 1
    · subst h1; simp [h7]
    · by_cases h2 : n = 2
      · subst h2; simp [h8]
      · have h3 : ¬ n < 3 := by omega
        simp [h0, h1, h2, h3, hx n (by omega)]

theorem ball_invJrhs (w : ℚ) (N : Nat) (v1 a1 v2 a2 : Nat → ℚ) (h : ℚ) (draws : Nat → Nat)
    (rhs : Nat → ℚ) :
    invJrhs_array 3 2 (ballArgs w N v1 a1 v2 a2 h draws).J
      (ballArgs w N v1 a1 v2 a2 h draws).jb rhs = fun n => if n < 3 then rhs n else 0 := by
  unfold invJrhs_array
  rw [show (30 : Nat) = 29 + 1 from rfl, Function.iterate_succ_apply]
  rw [ball_gsSweep _ _ _ _ _ _ _ _ _ _ (by intro n _; simp [dSetZero])]
  apply Function.iterate_fixed
  exact ball_gsSweep _ _ _ _ _ _ _ _ _ _ (by intro n hn; simp; omega)

/-- The right-hand side handed to the solver in the scenario. -/
theorem ball_b (w : ℚ) (N : Nat) (v1 a1 v2 a2 : Nat → ℚ) (h : ℚ) (draws : Nat → Nat)
    (i : Nat) (hi : i < 3) :
    (ballArgs w N v1 a1 v2 a2 h draws).b i = ballRhs v1 v2 h i := by
  have e : (ballArgs w N v1 a1 v2 a2 h draws).b =
      rhs_precond 3 (ballArgs w N v1 a1 v2 a2 h draws).J (ballArgs w N v1 a1 v2 a2 h draws).jb
        (preBodies (ballWorld w N) (ballBodies v1 a1 v2 a2) 2)
        (I_array (preBodies (ballWorld w N) (ballBodies v1 a1 v2 a2) 2) 2)
        (invJrhs_array 3 2 (ballArgs w N v1 a1 v2 a2 h draws).J
          (ballArgs w N v1 a1 v2 a2 h draws).jb
          (rhs_complete 3 (assemble (ballWorld w N) (1 / h) [ballJoint]).c (1 / h)
            (multiply_J 3 (ballArgs w N v1 a1 v2 a2 h draws).J
              (ballArgs w N v1 a1 v2 a2 h draws).jb
              (tmp1_array (preBodies (ballWorld w N) (ballBodies v1 a1 v2 a2) 2) 2
                (invI_array (preBodies (ballWorld w N) (ballBodies v1 a1 v2 a2) 2) 2) (1 / h))
              (fun _ => 0))))
        (rhs_complete 3 (assemble (ballWorld w N) (1 / h) [ballJoint]).c (1 / h)
            (multiply_J 3 (ballArgs w N v1 a1 v2 a2 h draws).J
              (ballArgs w N v1 a1 v2 a2 h draws).jb
              (tmp1_array (preBodies (ballWorld w N) (ballBodies v1 a1 v2 a2) 2) 2
                (invI_array (preBodies (ballWorld w N) (ballBodies v1 a1 v2 a2) 2) 2) (1 / h))
              (fun _ => 0))) := rfl
  rw [e, ball_rhs1, ball_invJrhs]
  obtain ⟨j1, j2⟩ := ball_jb w N v1 a1 v2 a2 h draws i hi
  obtain ⟨_, _, p3, _⟩ := ball_pb w N v1 a1 v2 a2 0 (by omega)
  obtain ⟨_, _, q3, _⟩ := ball_pb w N v1 a1 v2 a2 1 (by omega)
  unfold rhs_precond
  simp only [if_pos hi, j1, j2]
  interval_cases i <;>
    simp [dot6, tmpz_block, ball_J, ballRow, p3, q3, ballRhs]

/-! ## The bilateral scenario: the solver -/

theorem b_damp_row_zero (E : RowEnv) (f_damp : Nat → ℚ) (index : Nat)
    (hjb : E.jb (index * 2) = 0) (hjb2 : E.jb (index * 2 + 1) = 1)
    (hfd : ∀ n, n < 12 → f_damp n = 0) : b_damp_row E f_damp index = 0 := by
  have hsix : ∀ (f : ℚ → Nat → ℚ) (p : ℚ),
      (List.range 6).foldl f p = f (f (f (f (f (f p 0) 1) 2) 3) 4) 5 := fun _ _ => rfl
  unfold b_damp_row
  simp only [hjb, hjb2, hsix]
  rw [show ((6 : Int) * 0).toNat = 0 from rfl, show ((6 : Int) * 1).toNat = 6 from rfl]
  simp only [ge_iff_le, zero_le_one, if_true, Nat.zero_add]
  rw [hfd 0 (by omega), hfd 1 (by omega), hfd 2 (by omega), hfd 3 (by omega), hfd 4 (by omega),
    hfd 5 (by omega), hfd (6 + 0) (by omega), hfd (6 + 1) (by omega), hfd (6 + 2) (by omega),
    hfd (6 + 3) (by omega), hfd (6 + 4) (by omega), hfd (6 + 5) (by omega)]
  simp

/-- One row update in the scenario, from the fields of the task: the row's
`lambda` becomes `(1 - w) * lambda + (w / 2) * rhs`. -/
theorem rowUpdate_ballRow (E : RowEnv) (s : RowState) (idx : Nat) (hidx : idx < 3) (w : ℚ)
    (rhs : Nat → ℚ)
    (hjb : E.jb (idx * 2) = 0) (hjb2 : E.jb (idx * 2 + 1) = 1)
    (hJ : ∀ c, c < 12 →
      E.J (idx * 12 + c) = (if c = idx then 1 else if c = idx + 6 then -1 else 0) * (w / 2))
    (hb : E.b idx = rhs idx * (w / 2)) (hAdcfm : E.Adcfm idx = 0)
    (hlo : E.lo idx = none) (hhi : E.hi idx = none) (hfi : E.findex idx = -1)
    (hfd : ∀ n, n < 12 → s.f_damp n = 0)
    (hfc1 : s.fc idx = s.lambda idx) (hfc2 : s.fc (6 + idx) = -s.lambda idx) :
    (rowUpdate E s idx).lambda =
      Function.update s.lambda idx ((1 - w) * s.lambda idx + w / 2 * rhs idx) := by
  have hd : rowDelta E s idx = w / 2 * rhs idx - w * s.lambda idx := by
    unfold rowDelta
    simp only [hjb, hjb2, b_damp_row_zero E s.f_damp idx hjb hjb2 hfd, hb, hAdcfm]
    rw [show ((6 : Int) * 0).toNat = 0 from rfl, show ((6 : Int) * 1).toNat = 6 from rfl]
    simp only [ge_iff_le, zero_le_one, if_true, dot6]
    have e : ∀ c, idx * 12 + 6 + c = idx * 12 + (6 + c) := fun c => by omega
    simp only [e]
    rw [show idx * 12 = idx * 12 + 0 from rfl, hJ 0 (by omega), hJ 1 (by omega),
      hJ 2 (by omega), hJ 3 (by omega), hJ 4 (by omega), hJ 5 (by omega), hJ (6 + 0) (by omega),
      hJ (6 + 1) (by omega), hJ (6 + 2) (by omega), hJ (6 + 3) (by omega),
      hJ (6 + 4) (by omega), hJ (6 + 5) (by omega)]
    interval_cases idx <;> norm_num at hfc1 hfc2 ⊢ <;> rw [hfc1, hfc2] <;> ring
  rw [rowUpdate_lambda, hd]
  have hla : lo_act E s.lambda idx = none := by
    unfold lo_act
    rw [if_neg (by rw [hfi]; norm_num), hlo]
  have hha : hi_act E s.lambda idx = none := by
    unfold hi_act
    rw [if_neg (by rw [hfi]; norm_num), hhi]
  have hcl : ∀ x : ℚ, clampLambda x none none = x := by
    intro x
    simp [clampLambda, ltLo, gtHi]
  rw [hla, hha, hcl, show s.lambda idx + (w / 2 * rhs idx - w * s.lambda idx) =
    (1 - w) * s.lambda idx + w / 2 * rhs idx by ring]

/-- The entries of `fc` that the scenario's rows read, from the force
invariant. -/
theorem ball_fc_of_FcInv (w : ℚ) (N : Nat) (v1 a1 v2 a2 : Nat → ℚ) (h : ℚ) (draws : Nat → Nat)
    (s : RowState) (hs : FcInv (ballArgs w N v1 a1 v2 a2 h draws) s) (k : Nat) (hk : k < 3) :
    s.fc k = s.lambda k ∧ s.fc (6 + k) = -s.lambda k := by
  obtain ⟨m3, nb2, _⟩ := ball_misc w N v1 a1 v2 a2 h draws
  have f0 := hs 0 k (by rw [nb2]; omega) (by omega)
  have f1 := hs 1 k (by rw [nb2]; omega) (by omega)
  rw [m3] at f0 f1
  obtain ⟨a0, b0⟩ := ball_jb w N v1 a1 v2 a2 h draws 0 (by omega)
  obtain ⟨a1', b1⟩ := ball_jb w N v1 a1 v2 a2 h draws 1 (by omega)
  obtain ⟨a2', b2⟩ := ball_jb w N v1 a1 v2 a2 h draws 2 (by omega)
  have J0 := ball_J_row w N v1 a1 v2 a2 h draws 0 (by omega)
  have J1 := ball_J_row w N v1 a1 v2 a2 h draws 1 (by omega)
  have J2 := ball_J_row w N v1 a1 v2 a2 h draws 2 (by omega)
  simp only [JTlambda, Finset.sum_range_succ, Finset.sum_range_zero, a0, b0, a1', b1, a2', b2]
    at f0 f1
  have e : ∀ i c : Nat, 12 * i + 6 + c = 12 * i + (6 + c) := fun i c => by omega
  simp only [e] at f0 f1
  rw [J0 k (by omega), J1 k (by omega), J2 k (by omega), J0 (6 + k) (by omega),
    J1 (6 + k) (by omega), J2 (6 + k) (by omega)] at f0 f1
  constructor
  · have : s.fc k = s.fc (6 * 0 + k) := by congr 1; omega
    rw [this, f0]
    interval_cases k <;> norm_num
  · have : s.fc (6 + k) = s.fc (6 * 1 + k) := by congr 1
    rw [this, f1]
    interval_cases k <;> norm_num

theorem ball_Ad (w : ℚ) (N : Nat) (v1 a1 v2 a2 : Nat → ℚ) (h : ℚ) (draws : Nat → Nat)
    (i : Nat) (hi : i < 3) : SOR_Ad (ballArgs w N v1 a1 v2 a2 h draws) i = w / 2 := by
  obtain ⟨m3, _, _, _, hqs, _⟩ := ball_misc w N v1 a1 v2 a2 h draws
  obtain ⟨_, j2⟩ := ball_jb w N v1 a1 v2 a2 h draws i hi
  obtain ⟨c0, _⟩ := ball_rows w N v1 a1 v2 a2 h draws i hi
  have hJ := ball_J_row w N v1 a1 v2 a2 h draws i hi
  have hiMJ : ∀ c, c < 12 → SOR_iMJ (ballArgs w N v1 a1 v2 a2 h draws) (12 * i + c) =
      (ballArgs w N v1 a1 v2 a2 h draws).J (12 * i + c) := by
    intro c hc
    unfold SOR_iMJ
    rw [if_pos (by rw [m3]; omega)]
  have e : ∀ c, 12 * i + 6 + c = 12 * i + (6 + c) := fun c => by omega
  unfold SOR_Ad SOR_diag
  rw [if_pos (by rw [m3]; exact hi), j2, c0, hqs]
  simp only [ge_iff_le, zero_le_one, if_true, dot6, e]
  rw [show 12 * i = 12 * i + 0 from rfl, hiMJ 0 (by omega), hiMJ 1 (by omega),
    hiMJ 2 (by omega), hiMJ 3 (by omega), hiMJ 4 (by omega), hiMJ 5 (by omega),
    hiMJ (6 + 0) (by omega), hiMJ (6 + 1) (by omega), hiMJ (6 + 2) (by omega),
    hiMJ (6 + 3) (by omega), hiMJ (6 + 4) (by omega), hiMJ (6 + 5) (by omega),
    hJ 0 (by omega), hJ 1 (by omega), hJ 2 (by omega), hJ 3 (by omega), hJ 4 (by omega),
    hJ 5 (by omega), hJ (6 + 0) (by omega), hJ (6 + 1) (by omega), hJ (6 + 2) (by omega),
    hJ (6 + 3) (by omega), hJ (6 + 4) (by omega), hJ (6 + 5) (by omega)]
  interval_cases i <;> norm_num [ballWorld]

theorem ball_rowUpdate (w : ℚ) (N : Nat) (v1 a1 v2 a2 : Nat → ℚ) (h : ℚ) (draws : Nat → Nat)
    (c0 : Nat) (s : RowState) (idx : Nat) (hidx : idx < 3)
    (hs : FcInv (ballArgs w N v1 a1 v2 a2 h draws) s) (hfd : ∀ n, n < 12 → s.f_damp n = 0) :
    (rowUpdate (SOR_task (ballArgs w N v1 a1 v2 a2 h draws) c0) s idx).lambda =
      Function.update s.lambda idx ((1 - w) * s.lambda idx + w / 2 * ballRhs v1 v2 h idx) ∧
    FcInv (ballArgs w N v1 a1 v2 a2 h draws)
      (rowUpdate (SOR_task (ballArgs w N v1 a1 v2 a2 h draws) c0) s idx) ∧
    (rowUpdate (SOR_task (ballArgs w N v1 a1 v2 a2 h draws) c0) s idx).f_damp = s.f_damp ∧
    (rowUpdate (SOR_task (ballArgs w N v1 a1 v2 a2 h draws) c0) s idx).order = s.order := by
  obtain ⟨m3, _, _, _, _, _⟩ := ball_misc w N v1 a1 v2 a2 h draws
  obtain ⟨j1, j2⟩ := ball_jb w N v1 a1 v2 a2 h draws idx hidx
  obtain ⟨r1, r2, r3, r4⟩ := ball_rows w N v1 a1 v2 a2 h draws idx hidx
  obtain ⟨f1, f2⟩ := ball_fc_of_FcInv w N v1 a1 v2 a2 h draws s hs idx hidx
  have hAd := ball_Ad w N v1 a1 v2 a2 h draws idx hidx
  refine ⟨?_, ?_, rfl, rfl⟩
  · apply rowUpdate_ballRow _ s idx hidx w (ballRhs v1 v2 h) j1 j2 ?_ ?_ ?_ r2 r3 r4 hfd f1 f2
    · intro c hc
      show SOR_Jscaled (ballArgs w N v1 a1 v2 a2 h draws) (idx * 12 + c) = _
      unfold SOR_Jscaled
      have e1 : (idx * 12 + c) / 12 = idx := by omega
      rw [if_pos (by rw [m3]; omega), e1, hAd, show idx * 12 + c = 12 * idx + c by omega,
        ball_J_row w N v1 a1 v2 a2 h draws idx hidx c hc]
    · show SOR_bscaled (ballArgs w N v1 a1 v2 a2 h draws) idx = _
      unfold SOR_bscaled
      rw [if_pos (by rw [m3]; exact hidx), hAd, ball_b w N v1 a1 v2 a2 h draws idx hidx]
    · show SOR_Adcfm (ballArgs w N v1 a1 v2 a2 h draws) idx = 0
      unfold SOR_Adcfm
      rw [if_pos (by rw [m3]; exact hidx), r1, mul_zero]
  · apply rowUpdate_FcInv _ _ c0 s idx (by rw [m3]; exact hidx) hs
    intro i hi
    rw [m3] at hi
    rw [(ball_jb w N v1 a1 v2 a2 h draws i hi).1]

theorem perm3_distinct (order : Nat → Nat) (ho : OrderOK 3 order) :
    order 0 < 3 ∧ order 1 < 3 ∧ order 2 < 3 ∧ order 0 ≠ order 1 ∧ order 0 ≠ order 2 ∧
      order 1 ≠ order 2 := by
  obtain ⟨p0, hp0, e0⟩ := ho.2 0 (by omega)
  obtain ⟨p1, hp1, e1⟩ := ho.2 1 (by omega)
  obtain ⟨p2, hp2, e2⟩ := ho.2 2 (by omega)
  have h0 := ho.1 0 (by omega)
  have h1 := ho.1 1 (by omega)
  have h2 := ho.1 2 (by omega)
  interval_cases p0 <;> interval_cases p1 <;> interval_cases p2 <;> omega

theorem ball_task0 (w : ℚ) (N : Nat) (v1 a1 v2 a2 : Nat → ℚ) (h : ℚ) (draws : Nat → Nat) :
    (SOR_task (ballArgs w N v1 a1 v2 a2 h draws) 0).startRow.toNat = 0 ∧
    (SOR_task (ballArgs w N v1 a1 v2 a2 h draws) 0).nRows.toNat = 3 ∧
    (SOR_task (ballArgs w N v1 a1 v2 a2 h draws) 0).m_damp = 0 ∧
    (SOR_task (ballArgs w N v1 a1 v2 a2 h draws) 0).nb = 2 ∧
    (SOR_task (ballArgs w N v1 a1 v2 a2 h draws) 0).sor_lcp_tolerance = 0 ∧
    (SOR_task (ballArgs w N v1 a1 v2 a2 h draws) 0).num_iterations = (N : Int) ∧
    SOR_tasks (ballArgs w N v1 a1 v2 a2 h draws) =
      [SOR_task (ballArgs w N v1 a1 v2 a2 h draws) 0] := by
  obtain ⟨m3, nb2, md, _, hqs, _⟩ := ball_misc w N v1 a1 v2 a2 h draws
  have hchunk : SOR_chunk 3 (ballWorld w N).qs = 4 := by
    simp [SOR_chunk, SOR_num_chunks, ballWorld]
  refine ⟨?_, ?_, md, nb2, ?_, ?_, ?_⟩
  · show (SOR_nStart (ballArgs w N v1 a1 v2 a2 h draws).qs 0).toNat = 0
    rw [hqs]
    simp [SOR_nStart, ballWorld]
  · show (SOR_nEnd (ballArgs w N v1 a1 v2 a2 h draws).m (ballArgs w N v1 a1 v2 a2 h draws).qs 0
      - SOR_nStart (ballArgs w N v1 a1 v2 a2 h draws).qs 0).toNat = 3
    rw [hqs, m3]
    simp only [SOR_nEnd, SOR_nStart, hchunk]
    simp [ballWorld]
  · show (ballArgs w N v1 a1 v2 a2 h draws).qs.sor_lcp_tolerance = 0
    rw [hqs]
    rfl
  · show (ballArgs w N v1 a1 v2 a2 h draws).qs.num_iterations = (N : Int)
    rw [hqs]
    rfl
  · unfold SOR_tasks
    rw [hqs, m3, hchunk]
    rfl

theorem ball_rowLoop (w : ℚ) (N : Nat) (v1 a1 v2 a2 : Nat → ℚ) (h : ℚ) (draws : Nat → Nat)
    (s : RowState) (hs : BallInv (ballArgs w N v1 a1 v2 a2 h draws) s) :
    BallInv (ballArgs w N v1 a1 v2 a2 h draws)
      (rowLoop (SOR_task (ballArgs w N v1 a1 v2 a2 h draws) 0) s) ∧
    ∀ k, k < 3 → (rowLoop (SOR_task (ballArgs w N v1 a1 v2 a2 h draws) 0) s).lambda k =
      (1 - w) * s.lambda k + w / 2 * ballRhs v1 v2 h k := by
  obtain ⟨t1, t2, _⟩ := ball_task0 w N v1 a1 v2 a2 h draws
  obtain ⟨hfc, hfd, ho⟩ := hs
  obtain ⟨pa, pb, pc, pab, pac, pbc⟩ := perm3_distinct s.order ho
  have hthree : ∀ (f : RowState → Nat → RowState) (p : RowState),
      (List.range 3).foldl f p = f (f (f p 0) 1) 2 := fun _ _ => rfl
  unfold rowLoop
  rw [t1, t2, hthree]
  simp only [Nat.zero_add]
  obtain ⟨l1, g1, d1, o1⟩ := ball_rowUpdate w N v1 a1 v2 a2 h draws 0 s (s.order 0) pa hfc hfd
  set s1 := rowUpdate (SOR_task (ballArgs w N v1 a1 v2 a2 h draws) 0) s (s.order 0) with hs1
  obtain ⟨l2, g2, d2, o2⟩ := ball_rowUpdate w N v1 a1 v2 a2 h draws 0 s1 (s.order 1) pb g1
    (by rw [d1]; exact hfd)
  rw [o1]
  set s2 := rowUpdate (SOR_task (ballArgs w N v1 a1 v2 a2 h draws) 0) s1 (s.order 1) with hs2
  obtain ⟨l3, g3, d3, o3⟩ := ball_rowUpdate w N v1 a1 v2 a2 h draws 0 s2 (s.order 2) pc g2
    (by rw [d2, d1]; exact hfd)
  rw [o2, o1]
  set s3 := rowUpdate (SOR_task (ballArgs w N v1 a1 v2 a2 h draws) 0) s2 (s.order 2) with hs3
  refine ⟨⟨g3, by rw [d3, d2, d1]; exact hfd, by rw [o3, o2, o1]; exact ho⟩, ?_⟩
  intro k hk
  rw [l3, l2, l1]
  simp only [Function.update_apply]
  have hcase : k = s.order 0 ∨ k = s.order 1 ∨ k = s.order 2 := by omega
  rcases hcase with hk0 | hk1 | hk2
  · have n1 : ¬ k = s.order 2 := by omega
    have n2 : ¬ k = s.order 1 := by omega
    have n3 : ¬ s.order 1 = s.order 0 := by omega
    have n4 : ¬ s.order 2 = s.order 1 := by omega
    have n5 : ¬ s.order 2 = s.order 0 := by omega
    simp only [n1, n2, n3, n4, n5, if_false]
    rw [if_pos hk0, hk0]
  · have n1 : ¬ k = s.order 2 := by omega
    have n3 : ¬ s.order 1 = s.order 0 := by omega
    have n4 : ¬ s.order 2 = s.order 1 := by omega
    have n5 : ¬ s.order 2 = s.order 0 := by omega
    simp only [n1, n3, n4, n5, if_false]
    rw [if_pos hk1, hk1]
  · have n3 : ¬ s.order 1 = s.order 0 := by omega
    have n4 : ¬ s.order 2 = s.order 1 := by omega
    have n5 : ¬ s.order 2 = s.order 0 := by omega
    simp only [n3, n4, n5, if_false]
    rw [if_pos hk2, hk2]

theorem ball_damping (w : ℚ) (N : Nat) (v1 a1 v2 a2 : Nat → ℚ) (h : ℚ) (draws : Nat → Nat)
    (it : Nat) (s : RowState) (n : Nat) (hn : n < 12) :
    (dampingUpdate (SOR_task (ballArgs w N v1 a1 v2 a2 h draws) 0) it s).f_damp n = 0 := by
  obtain ⟨_, _, t3, t4, _⟩ := ball_task0 w N v1 a1 v2 a2 h draws
  unfold dampingUpdate
  rw [t3, t4]
  simp only [List.range_zero, List.foldl_nil, dSetZero]
  rw [if_pos (by omega)]

/-- The fields of the state after one iteration, in terms of the row loop run
on the (possibly reordered) state `s1`. -/
theorem iterationBody_eq (E : RowEnv) (it : Nat) (s : RowState) :
    ∃ s1 : RowState, (s1 = s ∨ s1 = shuffle E s) ∧
      (iterationBody E it s).lambda = (rowLoop E { s1 with rms_error := 0 }).lambda ∧
      (iterationBody E it s).fc = (rowLoop E { s1 with rms_error := 0 }).fc ∧
      (iterationBody E it s).order = s1.order ∧
      (iterationBody E it s).rms_error = (rowLoop E { s1 with rms_error := 0 }).rms_error ∧
      (iterationBody E it s).f_damp =
        (dampingUpdate E it (rowLoop E { s1 with rms_error := 0 })).f_damp := by
  have key : ∀ s1 : RowState,
      ({ dampingUpdate E it (rowLoop E { s1 with rms_error := 0 }) with
          iterations := it + 1 } : RowState).lambda = (rowLoop E { s1 with rms_error := 0 }).lambda ∧
      ({ dampingUpdate E it (rowLoop E { s1 with rms_error := 0 }) with
          iterations := it + 1 } : RowState).fc = (rowLoop E { s1 with rms_error := 0 }).fc ∧
      ({ dampingUpdate E it (rowLoop E { s1 with rms_error := 0 }) with
          iterations := it + 1 } : RowState).order = s1.order ∧
      ({ dampingUpdate E it (rowLoop E { s1 with rms_error := 0 }) with
          iterations := it + 1 } : RowState).rms_error =
        (rowLoop E { s1 with rms_error := 0 }).rms_error ∧
      ({ dampingUpdate E it (rowLoop E { s1 with rms_error := 0 }) with
          iterations := it + 1 } : RowState).f_damp =
        (dampingUpdate E it (rowLoop E { s1 with rms_error := 0 })).f_damp := by
    intro s1
    obtain ⟨d1, d2, _, d4, d5, _⟩ :=
      dampingUpdate_fields E it (rowLoop E { s1 with rms_error := 0 })
    exact ⟨d2, d4, by
      show (dampingUpdate E it (rowLoop E { s1 with rms_error := 0 })).order = s1.order
      rw [d1, rowLoop_order], d5, rfl⟩
  unfold iterationBody
  split_ifs with hsh
  · exact ⟨shuffle E s, Or.inr rfl, key _⟩
  · exact ⟨s, Or.inl rfl, key _⟩

theorem ball_iterationBody (w : ℚ) (N : Nat) (v1 a1 v2 a2 : Nat → ℚ) (h : ℚ)
    (draws : Nat → Nat) (it : Nat) (s : RowState)
    (hs : BallInv (ballArgs w N v1 a1 v2 a2 h draws) s) :
    BallInv (ballArgs w N v1 a1 v2 a2 h draws)
      (iterationBody (SOR_task (ballArgs w N v1 a1 v2 a2 h draws) 0) it s) ∧
    ∀ k, k < 3 →
      (iterationBody (SOR_task (ballArgs w N v1 a1 v2 a2 h draws) 0) it s).lambda k =
        (1 - w) * s.lambda k + w / 2 * ballRhs v1 v2 h k := by
  obtain ⟨m3, _⟩ := ball_misc w N v1 a1 v2 a2 h draws
  have hR : ∀ p, InChunk (SOR_task (ballArgs w N v1 a1 v2 a2 h draws) 0) p → p < 3 := by
    intro p hp
    have := SOR_task_range (ballArgs w N v1 a1 v2 a2 h draws) 0 p hp
    rw [m3] at this
    exact this
  obtain ⟨s1, hs1, e1, e2, e3, _, e5⟩ :=
    iterationBody_eq (SOR_task (ballArgs w N v1 a1 v2 a2 h draws) 0) it s
  have hinv1 : BallInv (ballArgs w N v1 a1 v2 a2 h draws) s1 ∧ s1.lambda = s.lambda := by
    rcases hs1 with rfl | rfl
    · exact ⟨hs, rfl⟩
    · obtain ⟨q1, _⟩ := shuffle_spec (SOR_task (ballArgs w N v1 a1 v2 a2 h draws) 0) s
      obtain ⟨hfc, hfd, ho⟩ := hs
      have heta := shuffle_eta (SOR_task (ballArgs w N v1 a1 v2 a2 h draws) 0) s
      refine ⟨⟨?_, ?_, shuffle_orderOK _ s 3 hR ho⟩, q1⟩
      · rw [heta]
        exact hfc
      · rw [heta]
        exact hfd
  obtain ⟨hb1, hl1⟩ := hinv1
  have hb1' : BallInv (ballArgs w N v1 a1 v2 a2 h draws)
      ({ s1 with rms_error := 0 } : RowState) := hb1
  obtain ⟨⟨q1, q2, q3⟩, q4⟩ := ball_rowLoop w N v1 a1 v2 a2 h draws _ hb1'
  refine ⟨⟨?_, ?_, ?_⟩, ?_⟩
  · intro b c hb hc
    rw [e1, e2]
    exact q1 b c hb hc
  · intro n hn
    rw [e5]
    exact ball_damping w N v1 a1 v2 a2 h draws it _ n hn
  · rw [e3]
    exact hb1.2.2
  · intro k hk
    rw [e1, q4 k hk]
    show (1 - w) * s1.lambda k + _ = _
    rw [hl1]

theorem sqrtLt_zero (x : ℚ) : sqrtLt x 0 = false := by
  simp [sqrtLt]

theorem ballLambda_step (w : ℚ) (v1 v2 : Nat → ℚ) (h : ℚ) (n k : Nat) :
    (1 - w) * ballLambda w v1 v2 h n k + w / 2 * ballRhs v1 v2 h k =
      ballLambda w v1 v2 h (n + 1) k := by
  unfold ballLambda
  rw [pow_succ]
  ring

theorem ball_iterLoop (w : ℚ) (N : Nat) (v1 a1 v2 a2 : Nat → ℚ) (h : ℚ) (draws : Nat → Nat)
    (n : Nat) : ∀ (it j : Nat) (s : RowState),
    BallInv (ballArgs w N v1 a1 v2 a2 h draws) s →
    (∀ k, k < 3 → s.lambda k = ballLambda w v1 v2 h j k) →
    BallInv (ballArgs w N v1 a1 v2 a2 h draws)
      (iterLoop (SOR_task (ballArgs w N v1 a1 v2 a2 h draws) 0) n it s) ∧
    ∀ k, k < 3 → (iterLoop (SOR_task (ballArgs w N v1 a1 v2 a2 h draws) 0) n it s).lambda k =
      ballLambda w v1 v2 h (j + n) k := by
  obtain ⟨_, _, _, _, t5, _⟩ := ball_task0 w N v1 a1 v2 a2 h draws
  induction n with
  | zero =>
    intro it j s hs hl
    exact ⟨hs, hl⟩
  | succ n ih =>
    intro it j s hs hl
    obtain ⟨b1, b2⟩ := ball_iterationBody w N v1 a1 v2 a2 h draws it s hs
    unfold iterLoop
    simp only []
    rw [t5, sqrtLt_zero]
    simp only [Bool.false_eq_true, if_false]
    have := ih (it + 1) (j + 1) _ b1 (by
      intro k hk
      rw [b2 k hk, hl k hk, ballLambda_step])
    rw [show j + (n + 1) = j + 1 + n by omega]
    exact this

/-- The solver's result in the scenario: `lambda` after `N` iterations, and
the state invariant. -/
theorem ball_SOR_LCP (w : ℚ) (N : Nat) (v1 a1 v2 a2 : Nat → ℚ) (h : ℚ) (draws : Nat → Nat) :
    BallInv (ballArgs w N v1 a1 v2 a2 h draws) (SOR_LCP (ballArgs w N v1 a1 v2 a2 h draws)) ∧
    ∀ k, k < 3 → (SOR_LCP (ballArgs w N v1 a1 v2 a2 h draws)).lambda k =
      ballLambda w v1 v2 h N k := by
  obtain ⟨m3, _, _, hfd, _, _⟩ := ball_misc w N v1 a1 v2 a2 h draws
  obtain ⟨_, _, _, _, _, t6, t7⟩ := ball_task0 w N v1 a1 v2 a2 h draws
  unfold SOR_LCP
  rw [t7]
  simp only [List.foldl_cons, List.foldl_nil, ComputeRows]
  rw [t6, Int.toNat_ofNat]
  have hinit : BallInv (ballArgs w N v1 a1 v2 a2 h draws)
      (SOR_init (ballArgs w N v1 a1 v2 a2 h draws)) := by
    refine ⟨SOR_init_FcInv _, ?_, ?_⟩
    · intro n _
      show (ballArgs w N v1 a1 v2 a2 h draws).f_damp n = 0
      rw [hfd]
    · have := orderFill_orderOK (ballArgs w N v1 a1 v2 a2 h draws).findex
        (ballArgs w N v1 a1 v2 a2 h draws).m
      rw [m3] at this
      exact this
  have := ball_iterLoop w N v1 a1 v2 a2 h draws N 0 0 _ hinit (by
    intro k hk
    show dSetZero (ballArgs w N v1 a1 v2 a2 h draws).lambda
      (ballArgs w N v1 a1 v2 a2 h draws).m k = _
    rw [m3]
    simp [dSetZero, hk, ballLambda])
  rw [Nat.zero_add] at this
  exact this

/-! ## The bilateral scenario: the velocity update -/

theorem ball_velocity (dxStepBody : dxBody → ℚ → dxBody) (w : ℚ) (N : Nat)
    (v1 a1 v2 a2 : Nat → ℚ) (h : ℚ) (draws : Nat → Nat) (k : Nat) (hk : k < 3) :
    ((dxQuickStepper dxStepBody (ballWorld w N) (ballBodies v1 a1 v2 a2) 2 [ballJoint] h
        draws).velBodies 0).lvel k = v1 k + h * ballLambda w v1 v2 h N k ∧
    ((dxQuickStepper dxStepBody (ballWorld w N) (ballBodies v1 a1 v2 a2) 2 [ballJoint] h
        draws).velBodies 1).lvel k = v2 k - h * ballLambda w v1 v2 h N k := by
  obtain ⟨⟨hfc, hfd, _⟩, hl⟩ := ball_SOR_LCP w N v1 a1 v2 a2 h draws
  obtain ⟨f1, f2⟩ := ball_fc_of_FcInv w N v1 a1 v2 a2 h draws _ hfc k hk
  obtain ⟨_, p2, _, p4, p5⟩ := ball_pb w N v1 a1 v2 a2 0 (by omega)
  obtain ⟨_, q2, _, q4, q5⟩ := ball_pb w N v1 a1 v2 a2 1 (by omega)
  have hm : count_m (jointiinfos [ballJoint]) > 0 := by
    rw [ball_ji, ball_count_m]
    omega
  have hA : sorArgs (ballWorld w N) (ballBodies v1 a1 v2 a2) 2 [ballJoint] h draws =
      ballArgs w N v1 a1 v2 a2 h draws := rfl
  have hv : ∀ i, i < 2 →
      ((dxQuickStepper dxStepBody (ballWorld w N) (ballBodies v1 a1 v2 a2) 2 [ballJoint] h
        draws).velBodies i).lvel k =
      (preBodies (ballWorld w N) (ballBodies v1 a1 v2 a2) 2 i).lvel k
        + h * (preBodies (ballWorld w N) (ballBodies v1 a1 v2 a2) 2 i).invMass *
          (SOR_LCP (ballArgs w N v1 a1 v2 a2 h draws)).f_damp (6 * i + k)
        + h * (SOR_LCP (ballArgs w N v1 a1 v2 a2 h draws)).fc (6 * i + k)
        + h * (preBodies (ballWorld w N) (ballBodies v1 a1 v2 a2) 2 i).invMass *
          (preBodies (ballWorld w N) (ballBodies v1 a1 v2 a2) 2 i).facc k := by
    intro i hi
    unfold dxQuickStepper
    simp only [hm, if_true, hA, if_pos hi, extVelBody, cforceVelBody, dampVelBody, if_pos hk]
  constructor
  · rw [hv 0 (by omega), p2, p4, p5 k, hfd _ (by omega), if_pos rfl,
      show 6 * 0 + k = k by omega, f1, hl k hk]
    ring
  · rw [hv 1 (by omega), q2, q4, q5 k, hfd _ (by omega), if_neg (by omega),
      show 6 * 1 + k = 6 + k by omega, f2, hl k hk]
    ring

/-- C3. Bilateral scenario: two unit bodies joined by three unbounded rows
with Jacobian `(e_k, 0, -e_k, 0)`, `c = 0`, `CFM = 0`, no gravity, no
external force, no damped joint, one chunk, tolerance `0`, `N` iterations,
SOR weight `w`, step `h` other than zero. After the velocity update of
`dxQuickStepper` the relative linear velocity along each constrained axis `k`
is `(1 - w)^N` times its initial value; so its magnitude is at most `1e-5` for
`w = 1.3`, `N = 20` and an initial magnitude of at most `1`, and it is `0` for
`w = 1` and `N >= 1`. -/
theorem C3_bilateral_scenario (dxStepBody : dxBody → ℚ → dxBody) (w : ℚ) (N : Nat)
    (v1 a1 v2 a2 : Nat → ℚ) (h : ℚ) (hh : h ≠ 0) (draws : Nat → Nat) (k : Nat) (hk : k < 3) :
    (((dxQuickStepper dxStepBody (ballWorld w N) (ballBodies v1 a1 v2 a2) 2 [ballJoint] h
        draws).velBodies 0).lvel k -
      ((dxQuickStepper dxStepBody (ballWorld w N) (ballBodies v1 a1 v2 a2) 2 [ballJoint] h
        draws).velBodies 1).lvel k = (1 - w) ^ N * (v1 k - v2 k)) ∧
    (w = 13 / 10 → N = 20 → |v1 k - v2 k| ≤ 1 →
      |((dxQuickStepper dxStepBody (ballWorld w N) (ballBodies v1 a1 v2 a2) 2 [ballJoint] h
          draws).velBodies 0).lvel k -
        ((dxQuickStepper dxStepBody (ballWorld w N) (ballBodies v1 a1 v2 a2) 2 [ballJoint] h
          draws).velBodies 1).lvel k| ≤ 1 / 100000) ∧
    (w = 1 → 1 ≤ N →
      ((dxQuickStepper dxStepBody (ballWorld w N) (ballBodies v1 a1 v2 a2) 2 [ballJoint] h
          draws).velBodies 0).lvel k -
        ((dxQuickStepper dxStepBody (ballWorld w N) (ballBodies v1 a1 v2 a2) 2 [ballJoint] h
          draws).velBodies 1).lvel k = 0) := by
  obtain ⟨e0, e1⟩ := ball_velocity dxStepBody w N v1 a1 v2 a2 h draws k hk
  have main : ((dxQuickStepper dxStepBody (ballWorld w N) (ballBodies v1 a1 v2 a2) 2 [ballJoint] h
        draws).velBodies 0).lvel k -
      ((dxQuickStepper dxStepBody (ballWorld w N) (ballBodies v1 a1 v2 a2) 2 [ballJoint] h
        draws).velBodies 1).lvel k = (1 - w) ^ N * (v1 k - v2 k) := by
    rw [e0, e1]
    unfold ballLambda ballRhs
    rw [if_pos hk]
    field_simp
    ring
  refine ⟨main, ?_, ?_⟩
  · intro hw hN hv
    rw [main, hw, hN, abs_mul]
    have h1 : |(1 - 13 / 10 : ℚ) ^ 20| ≤ 1 / 100000 := by
      rw [abs_pow]
      norm_num [abs_of_neg]
    calc |(1 - 13 / 10 : ℚ) ^ 20| * |v1 k - v2 k|
        ≤ 1 / 100000 * 1 := mul_le_mul h1 hv (abs_nonneg _) (by norm_num)
      _ = 1 / 100000 := by norm_num
  · intro hw hN
    rw [main, hw]
    obtain ⟨n, rfl⟩ : ∃ n, N = n + 1 := ⟨N - 1, by omega⟩
    simp

/-! ## `fc` and `Ad`: the solver carries no inverse-mass factor -/

theorem exOneRow_fc : (SOR_LCP exOneRow).fc 0 = 1 := by
  have h := SOR_LCP_FcInv exOneRow (by
    intro i hi
    have : i = 0 := by
      have : exOneRow.m = 1 := rfl
      omega
    subst this
    simp [exOneRow]) 0 0 (by decide) (by decide)
  have e : (SOR_LCP exOneRow).fc 0 = (SOR_LCP exOneRow).fc (6 * 0 + 0) := rfl
  rw [e, h]
  have hm : exOneRow.m = 1 := rfl
  rw [hm]
  simp only [JTlambda, Finset.sum_range_succ, Finset.sum_range_zero, exOneRow_lambda]
  simp [exOneRow]

theorem exOneRow_invM_fc : invM_JT_lambda exOneRow (SOR_LCP exOneRow).lambda 0 = 2 := by
  have hm : exOneRow.m = 1 := rfl
  have hnb : exOneRow.nb = 1 := rfl
  unfold invM_JT_lambda multiply_invM_JT
  rw [hm, hnb]
  simp only [List.range_succ, List.range_zero, List.nil_append, List.foldl_cons, List.foldl_nil,
    multiply_invM_JT_row, exOneRow_lambda]
  simp [exOneRow, addScaled6, dSetZero, compute_invM_JT, exBodyHeavy]

/-- C8. The code at a failing input: one row `J = (1, 0, ...)` attached to a
body of inverse mass `2`, with right-hand side `1`. `SOR_LCP` returns
`fc[0] = 1`, which is `J^T * lambda`; the header of `SOR_LCP` and the claim
state that `fc` is `inv(M) * J^T * lambda`, which is `2` here. -/
theorem C8_fc_lacks_invM :
    ¬ ((SOR_LCP exOneRow).fc 0 = invM_JT_lambda exOneRow (SOR_LCP exOneRow).lambda 0) := by
  rw [exOneRow_fc, exOneRow_invM_fc]
  norm_num

theorem exOneRow_jb (i : Nat) (hi : i < exOneRow.m) : 0 ≤ exOneRow.jb (i * 2) := by
  have : i = 0 := by
    have : exOneRow.m = 1 := rfl
    omega
  subst this
  simp [exOneRow]

/-- C9, as stated, fails: on one row `J = (1, 0, ...)` attached to a body of
inverse mass `2`, with `cfm = 0` and `w = 1`, the solver uses `Ad[0] = 1`,
while `w / (J inv(M) J^T + cfm)` is `1/2`. -/
theorem C9_counterexample :
    ¬ (SOR_Ad exOneRow 0 = exOneRow.qs.w / (diag_invM exOneRow 0 + exOneRow.cfm 0)) := by
  rw [exOneRow_Ad, exOneRow_diag_invM]
  norm_num [exOneRow]

theorem SOR_diag_eq_plain (A : SORArgs) (i : Nat) (hi : i < A.m) :
    SOR_diag A i = diag_plain A i := by
  have hiMJ : ∀ c, c < 12 → SOR_iMJ A (12 * i + c) = A.J (12 * i + c) := by
    intro c hc
    unfold SOR_iMJ
    rw [if_pos (by omega)]
  have e : ∀ c, 12 * i + 6 + c = 12 * i + (6 + c) := fun c => by omega
  unfold SOR_diag diag_plain
  simp only [dot6, e]
  rw [show SOR_iMJ A (12 * i) = SOR_iMJ A (12 * i + 0) from rfl, hiMJ 0 (by omega),
    hiMJ 1 (by omega), hiMJ 2 (by omega), hiMJ 3 (by omega), hiMJ 4 (by omega), hiMJ 5 (by omega),
    hiMJ (6 + 0) (by omega), hiMJ (6 + 1) (by omega), hiMJ (6 + 2) (by omega),
    hiMJ (6 + 3) (by omega), hiMJ (6 + 4) (by omega), hiMJ (6 + 5) (by omega)]
  rfl

/-- C9, amended. For every row `i` and every task, the array `Ad` handed to
`ComputeRows` has `Ad[i] = w / (J_i * J_i^T + cfm[i])`, where `w` is the SOR
weight and `J_i` the unscaled row, with no inverse-mass factor; the second
body's block contributes only when `jb[2i+1] >= 0`. -/
theorem C9_Ad_is_w_over_JJT (A : SORArgs) (c i : Nat) (hi : i < A.m) :
    (SOR_task A c).Ad i = A.qs.w / (diag_plain A i + A.cfm i) := by
  show SOR_Ad A i = _
  unfold SOR_Ad
  rw [if_pos hi, SOR_diag_eq_plain A i hi]

theorem C9_Ad_is_w_over_JJT_witness :
    (SOR_task exOneRow 0).Ad 0 = exOneRow.qs.w / (diag_plain exOneRow 0 + exOneRow.cfm 0) :=
  C9_Ad_is_w_over_JJT exOneRow 0 0 (by decide)

/-! ## Instances on concrete inputs -/

theorem C2_estimate_never_underestimates_witness :
    (Arena.run ((quickStepArenaOps exSizes 2 [ballJoint, exContactJoint, exIdleJoint]).take
      30)).cur ≤
      dxEstimateQuickStepMemoryRequirements exSizes 2 [ballJoint, exContactJoint, exIdleJoint] :=
  C2_estimate_never_underestimates exSizes 2 [ballJoint, exContactJoint, exIdleJoint]
    (by
      intro j hj
      simp only [List.mem_cons, List.mem_singleton, List.not_mem_nil, or_false] at hj
      rcases hj with rfl | rfl | rfl <;> decide) 30

theorem C3_bilateral_scenario_witness :
    ((dxQuickStepper (fun b _ => b) (ballWorld 1 1) (ballBodies exAxis0 exAxis0 (fun _ => 0)
        (fun _ => 0)) 2 [ballJoint] 1 (fun _ => 0)).velBodies 0).lvel 0 -
      ((dxQuickStepper (fun b _ => b) (ballWorld 1 1) (ballBodies exAxis0 exAxis0 (fun _ => 0)
        (fun _ => 0)) 2 [ballJoint] 1 (fun _ => 0)).velBodies 1).lvel 0 = 0 :=
  (C3_bilateral_scenario (fun b _ => b) 1 1 exAxis0 exAxis0 (fun _ => 0) (fun _ => 0) 1
    (by norm_num) (fun _ => 0) 0 (by decide)).2.2 rfl (by decide)

theorem C5_zero_constraints_witness :
    (dxQuickStepper (fun b _ => b) (ballWorld 1 1) (ballBodies exAxis0 exAxis0 (fun _ => 0)
        (fun _ => 0)) 2 [exIdleJoint] 1 (fun _ => 0)).sor = none :=
  (C5_zero_constraints (fun b _ => b) (ballWorld 1 1) (ballBodies exAxis0 exAxis0 (fun _ => 0)
      (fun _ => 0)) 2 [exIdleJoint] 1 (fun _ => 0) exSizes
    (by
      intro j hj
      simp only [List.mem_singleton] at hj
      rw [hj]
      rfl)).1

theorem ballJoint_opposite (stepsize : ℚ) (w : dxWorld) (r c : Nat) (_hr : r < ballJoint.info_m)
    (hc : c < 3) :
    (ballJoint.getInfo2 (1 / stepsize) w.global_erp (presetRow w) r).J (6 + c) =
      -(ballJoint.getInfo2 (1 / stepsize) w.global_erp (presetRow w) r).J c := by
  show (ballRow r).J (6 + c) = -(ballRow r).J c
  unfold ballRow
  have hr : r < 3 := _hr
  simp only []
  by_cases h : c = r
  · subst h
    rw [if_neg (by omega), if_pos (by omega), if_pos rfl]
  · rw [if_neg (by omega), if_neg (by omega), if_neg h, if_neg (by omega), neg_zero]

theorem C6_feedback_uses_original_jacobian_witness :
    ∃ fb' : dJointFeedback,
      (dxQuickStepper (fun b _ => b) (ballWorld 1 1) (ballBodies exAxis0 exAxis0 (fun _ => 0)
        (fun _ => 0)) 2 [ballJoint] 1 (fun _ => 0)).joints[0]? =
        some { ballJoint with feedback := some fb' } ∧
      fb'.f1 0 = Finset.sum (Finset.range ballJoint.info_m) (fun r =>
          (ballJoint.getInfo2 (1 / 1) (ballWorld 1 1).global_erp (presetRow (ballWorld 1 1)) r).J 0 *
            (SOR_LCP (sorArgs (ballWorld 1 1) (ballBodies exAxis0 exAxis0 (fun _ => 0)
              (fun _ => 0)) 2 [ballJoint] 1 (fun _ => 0))).lambda
              (rowOffset (jointiinfos [ballJoint]) 0 + r)) := by
  obtain ⟨fb', h1, h2, _⟩ := C6_feedback_uses_original_jacobian (fun b _ => b) (ballWorld 1 1)
    (ballBodies exAxis0 exAxis0 (fun _ => 0) (fun _ => 0)) 2 [ballJoint] 1 (fun _ => 0) 0
    ballJoint rfl zeroFeedback rfl
  exact ⟨fb', h1, (h2 0 (by decide)).1⟩

theorem C7_feedback_forces_opposite_witness :
    ∃ fb' : dJointFeedback,
      (dxQuickStepper (fun b _ => b) (ballWorld 1 1) (ballBodies exAxis0 exAxis0 (fun _ => 0)
        (fun _ => 0)) 2 [ballJoint] 1 (fun _ => 0)).joints[0]? =
        some { ballJoint with feedback := some fb' } ∧
      ∀ c, c < 3 → fb'.f2 c = -fb'.f1 c :=
  C7_feedback_forces_opposite (fun b _ => b) (ballWorld 1 1)
    (ballBodies exAxis0 exAxis0 (fun _ => 0) (fun _ => 0)) 2 [ballJoint] 1 (fun _ => 0) 0
    ballJoint rfl zeroFeedback rfl rfl
    (fun r c hr hc => ballJoint_opposite 1 (ballWorld 1 1) r c hr hc)

theorem C10_findex_globalisation_witness :
    (sorArgs (ballWorld 1 1) (ballBodies exAxis0 exAxis0 (fun _ => 0) (fun _ => 0)) 2
        [ballJoint, exIdleJoint, exContactJoint] 1 (fun _ => 0)).findex
        (rowOffset (jointiinfos [ballJoint, exIdleJoint, exContactJoint]) 1 + 1) =
      (exContactJoint.getInfo2 (1 / 1) (ballWorld 1 1).global_erp (presetRow (ballWorld 1 1))
        1).findex + (rowOffset (jointiinfos [ballJoint, exIdleJoint, exContactJoint]) 1 : Int) :=
  (C10_findex_globalisation (ballWorld 1 1) (ballBodies exAxis0 exAxis0 (fun _ => 0)
      (fun _ => 0)) 2 [ballJoint, exIdleJoint, exContactJoint] 1 (fun _ => 0) 1 exContactJoint rfl
    1 (by decide)).1 (by decide)

/-! ## A fixed point of the row updates -/

theorem addScaled6_zero (a : Nat → ℚ) (o : Nat) (src : Nat → ℚ) (vo : Nat) :
    addScaled6 a o 0 src vo = a := by
  funext n
  unfold addScaled6
  split_ifs
  · rw [zero_mul, add_zero]
  · rfl

/-- A row update whose clamped value is the old value changes neither
`lambda`, `fc` nor `rms_error`. -/
theorem rowUpdate_fixed (E : RowEnv) (s : RowState) (index : Nat)
    (h : clampLambda (s.lambda index + rowDelta E s index) (lo_act E s.lambda index)
        (hi_act E s.lambda index) = s.lambda index) :
    (rowUpdate E s index).lambda = s.lambda ∧ (rowUpdate E s index).fc = s.fc ∧
    (rowUpdate E s index).f_damp = s.f_damp ∧ (rowUpdate E s index).order = s.order ∧
    (rowUpdate E s index).rms_error = s.rms_error := by
  have hl : (rowUpdate E s index).lambda = s.lambda := by
    rw [rowUpdate_lambda, h, Function.update_eq_self]
  refine ⟨hl, ?_, rfl, rfl, ?_⟩
  · rw [rowUpdate_fc, hl, sub_self, addScaled6_zero, addScaled6_zero, ite_self]
  · rw [rowUpdate_rms, hl, sub_self, mul_zero, add_zero]

theorem exCone_shuffle_order : (shuffle exConeEnv exConeState).order = exConeState.order := by
  funext p
  simp [shuffle, swapStep, exConeEnv, exConeState, dRandInt, List.range_succ, Function.update_apply]

theorem exCone_row0 (s : RowState)
    (hl : s.lambda = exConeState.lambda) (hf : s.fc = exConeState.fc)
    (hd : s.f_damp = exConeState.f_damp) :
    clampLambda (s.lambda 0 + rowDelta exConeEnv s 0) (lo_act exConeEnv s.lambda 0)
      (hi_act exConeEnv s.lambda 0) = s.lambda 0 := by
  have hdelta : rowDelta exConeEnv s 0 = 0 := by
    simp [rowDelta, b_damp_row, hl, hf, hd, exConeEnv, exConeState, dot6, List.range_succ]
  rw [hdelta, hl]
  simp [clampLambda, lo_act, hi_act, exConeEnv, exConeState, ltLo, gtHi]

theorem exCone_row1 (s : RowState)
    (hl : s.lambda = exConeState.lambda) (hf : s.fc = exConeState.fc)
    (hd : s.f_damp = exConeState.f_damp) :
    clampLambda (s.lambda 1 + rowDelta exConeEnv s 1) (lo_act exConeEnv s.lambda 1)
      (hi_act exConeEnv s.lambda 1) = s.lambda 1 := by
  have hdelta : rowDelta exConeEnv s 1 = 1 / 2 := by
    simp [rowDelta, b_damp_row, hl, hf, hd, exConeEnv, exConeState, dot6, List.range_succ]
    norm_num
  rw [hdelta, hl]
  simp [clampLambda, lo_act, hi_act, exConeEnv, exConeState, ltLo, gtHi, dFabs]
  norm_num

theorem exCone_rowLoop (s1 : RowState) (ho : s1.order = exConeState.order)
    (hl : s1.lambda = exConeState.lambda) (hf : s1.fc = exConeState.fc)
    (hd : s1.f_damp = exConeState.f_damp) :
    (rowLoop exConeEnv { s1 with rms_error := 0 }).rms_error = 0 ∧
    (rowLoop exConeEnv { s1 with rms_error := 0 }).lambda = exConeState.lambda := by
  have e : rowLoop exConeEnv { s1 with rms_error := 0 } =
      rowUpdate exConeEnv (rowUpdate exConeEnv { s1 with rms_error := 0 } 0) 1 := by
    unfold rowLoop
    have hn : exConeEnv.nRows.toNat = 2 := rfl
    have hs : exConeEnv.startRow.toNat = 0 := rfl
    rw [hn, hs]
    simp only [List.range_succ, List.range_zero, List.nil_append, List.cons_append,
      List.foldl_cons, List.foldl_nil, Nat.zero_add, rowUpdate_order]
    show rowUpdate exConeEnv (rowUpdate exConeEnv { s1 with rms_error := 0 } (s1.order 0))
      (s1.order 1) = _
    rw [ho]
    rfl
  obtain ⟨a1, a2, a3, _, a5⟩ := rowUpdate_fixed exConeEnv { s1 with rms_error := 0 } 0
    (exCone_row0 _ hl hf hd)
  obtain ⟨b1, _, _, _, b5⟩ := rowUpdate_fixed exConeEnv
    (rowUpdate exConeEnv { s1 with rms_error := 0 } 0) 1
    (exCone_row1 _ (a1.trans hl) (a2.trans hf) (a3.trans hd))
  rw [e]
  exact ⟨b5.trans a5, b1.trans (a1.trans hl)⟩

theorem exCone_converged : (ComputeRows exConeEnv exConeState).rms_error = 0 := by
  have hn : exConeEnv.num_iterations.toNat = 1 := rfl
  rw [ComputeRows, hn, iterLoop_one]
  obtain ⟨s1, hs1, _, _, _, h4, _⟩ := iterationBody_eq exConeEnv 0 exConeState
  rw [h4]
  rcases hs1 with rfl | rfl
  · exact (exCone_rowLoop _ rfl rfl rfl rfl).1
  · have hfc : (shuffle exConeEnv exConeState).fc = exConeState.fc := by
      rw [shuffle_eta]
    have hfd : (shuffle exConeEnv exConeState).f_damp = exConeState.f_damp := by
      rw [shuffle_eta]
    exact (exCone_rowLoop _ exCone_shuffle_order (shuffle_spec _ _).1 hfc hfd).1

theorem C4_friction_cone_at_convergence_witness :
    |(ComputeRows exConeEnv exConeState).lambda 1| ≤
      1 / 2 * |(ComputeRows exConeEnv exConeState).lambda 0| :=
  C4_friction_cone_at_convergence exConeEnv exConeState 1 0 (1 / 2) (by decide) rfl rfl
    (by norm_num) ⟨1, ⟨by decide, by decide⟩, rfl⟩ exCone_converged

/-! ## The active joints and their counts -/

theorem count_m_eq_sum (l : List dxJoint) : count_m l = (l.map (fun j => j.info_m)).sum := by
  induction l with
  | nil => rfl
  | cons x l ih => rw [count_m_cons, List.map_cons, List.sum_cons, ih]

theorem count_mfb_eq_sum (l : List dxJoint) :
    count_mfb l = ((l.filter (fun j => j.feedback.isSome)).map (fun j => j.info_m)).sum := by
  induction l with
  | nil => rfl
  | cons x l ih =>
    rw [count_mfb_cons, ih]
    by_cases h : x.feedback.isSome = true
    · rw [if_pos h]
      simp only [List.filter_cons, h, if_true, List.map_cons, List.sum_cons]
    · rw [if_neg h, Nat.zero_add]
      simp only [List.filter_cons, h, Bool.false_eq_true, if_false]

/-- C11. Active-joint filtering: the list walked after the `getInfo1` loop is
the sublist of the input joints with `info.m > 0`, in their order; `nj` (the
size `jointiinfos` is shrunk to) is its length; the `m` handed to `SOR_LCP` is
the sum of `info.m` over it; `mfb` is the sum of `info.m` over its members
with a feedback sink; and the offset `ofsi` at which the assembly loop places
its `k`-th joint is the sum of `info.m` of the joints before it. -/
theorem C11_active_joint_filtering (w : dxWorld) (body : Nat → dxBody) (nb : Nat)
    (_joint : List dxJoint) (stepsize : ℚ) (draws : Nat → Nat) (sz : TypeSizes) (k : Nat) :
    jointiinfos _joint = _joint.filter (fun j => decide (0 < j.info_m)) ∧
    List.Sublist (jointiinfos _joint) _joint ∧
    ArenaOp.shrink "jointiinfos" (sz.sz_dJointWithInfo1 * _joint.length)
      (sz.sz_dJointWithInfo1 * (jointiinfos _joint).length) ∈ quickStepArenaOps sz nb _joint ∧
    (sorArgs w body nb _joint stepsize draws).m =
      ((jointiinfos _joint).map (fun j => j.info_m)).sum ∧
    count_mfb (jointiinfos _joint) =
      (((jointiinfos _joint).filter (fun j => j.feedback.isSome)).map (fun j => j.info_m)).sum ∧
    (((jointiinfos _joint).take k).foldl (assembleJoint (1 / stepsize) w.global_erp)
        (Assembly.init w (count_m (jointiinfos _joint)))).ofsi =
      (((jointiinfos _joint).take k).map (fun j => j.info_m)).sum ∧
    rowOffset (jointiinfos _joint) k =
      (((jointiinfos _joint).take k).map (fun j => j.info_m)).sum := by
  refine ⟨rfl, List.filter_sublist _, ?_, ?_, count_mfb_eq_sum _, ?_, count_m_eq_sum _⟩
  · unfold quickStepArenaOps stepArenaOps
    simp
  · show count_m (jointiinfos _joint) = _
    exact count_m_eq_sum _
  · rw [(assemble_foldl_ofsi _ _ _ _).1, ← count_m_eq_sum]
    show 0 + _ = _
    omega

/-! ## The default order -/

/-- The rows placed at the front have `findex < 0`, the rows placed at the
end have `findex >= 0`. -/
theorem orderFill_steps_sign (findex : Nat → Int) (m t : Nat) (ht : t ≤ m) :
    ((List.range t).foldl (orderFillStep findex)
      { order := fun _ => 0, head := 0, tail := (m : Int) - 1 }).tail =
      (m : Int) - 1 - ((t : Int) - (((List.range t).foldl (orderFillStep findex)
        { order := fun _ => 0, head := 0, tail := (m : Int) - 1 }).head : Int)) ∧
    ((List.range t).foldl (orderFillStep findex)
      { order := fun _ => 0, head := 0, tail := (m : Int) - 1 }).head ≤ t ∧
    (∀ p : Nat, p < ((List.range t).foldl (orderFillStep findex)
        { order := fun _ => 0, head := 0, tail := (m : Int) - 1 }).head →
      findex (((List.range t).foldl (orderFillStep findex)
        { order := fun _ => 0, head := 0, tail := (m : Int) - 1 }).order p) < 0) ∧
    (∀ p : Nat, ((List.range t).foldl (orderFillStep findex)
        { order := fun _ => 0, head := 0, tail := (m : Int) - 1 }).tail < (p : Int) → p < m →
      findex (((List.range t).foldl (orderFillStep findex)
        { order := fun _ => 0, head := 0, tail := (m : Int) - 1 }).order p) ≥ 0) := by
  induction t with
  | zero =>
    refine ⟨by simp, by simp, ?_, ?_⟩
    · intro p hp
      simp only [List.range_zero, List.foldl_nil] at hp
      omega
    · intro p hp hpm
      simp only [List.range_zero, List.foldl_nil] at hp
      omega
  | succ t ih =>
    have ih' := ih (by omega)
    simp only [List.range_succ, List.foldl_append, List.foldl_cons, List.foldl_nil] at ih' ⊢
    generalize (List.range t).foldl (orderFillStep findex)
      { order := fun _ => 0, head := 0, tail := (m : Int) - 1 } = f0 at ih' ⊢
    obtain ⟨h1, h2, h3, h4⟩ := ih'
    unfold orderFillStep
    by_cases hneg : findex t < 0
    · rw [if_pos hneg]
      refine ⟨by simp only []; omega, by simp only []; omega, ?_, ?_⟩
      · intro p hp
        simp only [Function.update_apply] at hp ⊢
        by_cases hph : p = f0.head
        · rw [if_pos hph]; exact hneg
        · rw [if_neg hph]; exact h3 p (by omega)
      · intro p hp hpm
        simp only [Function.update_apply] at hp ⊢
        rw [if_neg (by omega)]
        exact h4 p hp hpm
    · rw [if_neg hneg]
      have htl2 : (f0.tail.toNat : Int) = f0.tail := by omega
      refine ⟨by simp only []; omega, by simp only []; omega, ?_, ?_⟩
      · intro p hp
        simp only [Function.update_apply] at hp ⊢
        rw [if_neg (by omega)]
        exact h3 p hp
      · intro p hp hpm
        simp only [Function.update_apply] at hp ⊢
        by_cases hph : p = f0.tail.toNat
        · rw [if_pos hph]; omega
        · rw [if_neg hph]; exact h4 p (by omega) hpm

/-- C14. Default row order: for every `m` and every `findex`, the array
`order` built by the fill loop of `SOR_LCP` is a permutation of `0..m-1`, every
position holding a row with `findex < 0` comes before every position holding a
row with `findex >= 0`, and `orderhead - ordertail == 1` after the loop. -/
theorem C14_default_row_order (findex : Nat → Int) (m : Nat) :
    OrderOK m (orderFill findex m).order ∧
    (∀ p q, p < m → q < m → findex ((orderFill findex m).order p) < 0 →
      findex ((orderFill findex m).order q) ≥ 0 → p < q) ∧
    ((orderFill findex m).head : Int) - (orderFill findex m).tail = 1 := by
  obtain ⟨h1, h2, h3, h4⟩ := orderFill_steps_sign findex m m le_rfl
  refine ⟨orderFill_orderOK findex m, ?_, ?_⟩
  · intro p q hp _ hfp hfq
    unfold orderFill at hfp hfq
    by_contra hlt
    by_cases hqh : q < ((List.range m).foldl (orderFillStep findex)
        { order := fun _ => 0, head := 0, tail := (m : Int) - 1 }).head
    · have := h3 q hqh
      omega
    · have := h4 p (by omega) hp
      omega
  · unfold orderFill
    omega

theorem C14_default_row_order_witness :
    (0 : Nat) < 1 ∧ ((orderFill exFriction.findex 2).head : Int)
      - (orderFill exFriction.findex 2).tail = 1 :=
  ⟨(C14_default_row_order exFriction.findex 2).2.1 0 1 (by decide) (by decide) (by decide)
    (by decide), (C14_default_row_order exFriction.findex 2).2.2⟩

/-! ## The partition of the rows into tasks -/

theorem SOR_tasks_length (A : SORArgs) :
    (SOR_tasks A).length =
      (A.m + (SOR_chunk A.m A.qs).toNat - 1) / (SOR_chunk A.m A.qs).toNat := by
  simp [SOR_tasks, chunkStarts]

theorem SOR_tasks_getElem (A : SORArgs) (k : Nat) (E : RowEnv)
    (h : (SOR_tasks A)[k]? = some E) :
    k < (SOR_tasks A).length ∧ E = SOR_task A (k * (SOR_chunk A.m A.qs).toNat) := by
  have hk : k < (SOR_tasks A).length := by
    by_contra hc
    rw [List.getElem?_eq_none (by omega)] at h
    cases h
  refine ⟨hk, ?_⟩
  have hk' : k < (A.m + (SOR_chunk A.m A.qs).toNat - 1) / (SOR_chunk A.m A.qs).toNat := by
    rw [← SOR_tasks_length]; exact hk
  simp only [SOR_tasks, chunkStarts, List.map_map, List.getElem?_map, List.getElem?_range hk',
    Option.map_some', Function.comp_apply, Option.some.injEq] at h
  exact h.symm

/-- The chunk size for a positive chunk count, on naturals. -/
theorem SOR_chunk_nat (m : Nat) (qs : dxQuickStepParameters) (hnc : 1 ≤ qs.num_chunks) :
    SOR_chunk m qs = (m : Int) / qs.num_chunks + 1 ∧
    (SOR_chunk m qs).toNat = m / qs.num_chunks.toNat + 1 := by
  have hN : ((qs.num_chunks.toNat : Nat) : Int) = qs.num_chunks := by omega
  have hdiv : (m : Int) / qs.num_chunks = ((m / qs.num_chunks.toNat : Nat) : Int) := by
    rw [← hN, Int.toNat_ofNat]
    exact (Int.natCast_div m qs.num_chunks.toNat).symm
  have hs : SOR_num_chunks qs = qs.num_chunks := by
    unfold SOR_num_chunks
    rw [if_pos (by omega)]
  unfold SOR_chunk
  simp only [hs]
  rw [hdiv]
  have hpos : ((m / qs.num_chunks.toNat : Nat) : Int) + 1 > 0 :=
    Int.add_pos_of_nonneg_of_pos (Int.ofNat_nonneg _) Int.one_pos
  rw [if_pos hpos]
  refine ⟨rfl, ?_⟩
  generalize m / qs.num_chunks.toNat = q
  omega

/-- C12, as stated, fails: with `m = 4` rows and `num_chunks = 4` the chunk
size is `4/4 + 1 = 2`, not the ceiling `1`, and two tasks are created, not
four. -/
theorem C12_counterexample :
    ¬ (((SOR_tasks exChunks).length : Int) = exChunks.qs.num_chunks) ∧
    ¬ (SOR_chunk exChunks.m exChunks.qs =
        ((exChunks.m : Int) + exChunks.qs.num_chunks - 1) / exChunks.qs.num_chunks) := by
  rw [SOR_tasks_length]
  have h1 : SOR_chunk exChunks.m exChunks.qs = 2 := by decide
  rw [h1]
  constructor <;> decide

/-- C12, amended. For `m >= 1`, `num_chunks >= 1` and overlap `0`, the chunk
size is `m / num_chunks + 1` (integer division), `SOR_LCP` creates
`ceil (m / chunk)` tasks, at least one and at most `num_chunks`, and their
ranges are contiguous and disjoint and cover `[0, m)`: the first starts at row
`0`, each next one starts where the one before it ends, the last ends at `m`,
and none is empty. -/
theorem C12_row_partition (A : SORArgs) (hm : 1 ≤ A.m) (hnc : 1 ≤ A.qs.num_chunks)
    (hov : A.qs.num_overlap = 0) :
    SOR_chunk A.m A.qs = (A.m : Int) / A.qs.num_chunks + 1 ∧
    (SOR_tasks A).length =
      (A.m + (SOR_chunk A.m A.qs).toNat - 1) / (SOR_chunk A.m A.qs).toNat ∧
    1 ≤ (SOR_tasks A).length ∧ ((SOR_tasks A).length : Int) ≤ A.qs.num_chunks ∧
    (∀ E, (SOR_tasks A)[0]? = some E → E.startRow = 0) ∧
    (∀ k E E', (SOR_tasks A)[k]? = some E → (SOR_tasks A)[k + 1]? = some E' →
      E'.startRow = E.startRow + E.nRows ∧ 0 < E.nRows) ∧
    (∀ E, (SOR_tasks A).getLast? = some E → E.startRow + E.nRows = (A.m : Int) ∧ 0 < E.nRows) := by
  obtain ⟨hc1, hc2⟩ := SOR_chunk_nat A.m A.qs hnc
  have hlen := SOR_tasks_length A
  have hcpos := SOR_chunk_pos A.m A.qs
  have hcI : ((SOR_chunk A.m A.qs).toNat : Int) = SOR_chunk A.m A.qs := by omega
  generalize hcdef : (SOR_chunk A.m A.qs).toNat = c at *
  generalize hNdef : A.qs.num_chunks.toNat = N at *
  have hN : (N : Int) = A.qs.num_chunks := by omega
  have hN0 : 0 < N := by omega
  have hc0 : 0 < c := by omega
  have hmlt : A.m < N * c := by
    rw [hc2]
    exact Nat.lt_mul_div_succ A.m hN0
  have hlen1 : 1 ≤ (A.m + c - 1) / c := by
    apply (Nat.le_div_iff_mul_le hc0).mpr
    omega
  have hlen2 : (A.m + c - 1) / c ≤ N := by
    have : (A.m + c - 1) / c < N + 1 := by
      apply (Nat.div_lt_iff_lt_mul hc0).mpr
      have : (N + 1) * c = N * c + c := by ring
      omega
    omega
  -- bounds on the start of task `k`
  have hstart : ∀ k, k < (A.m + c - 1) / c → k * c < A.m := by
    intro k hk
    have h1 : (k + 1) * c ≤ A.m + c - 1 := (Nat.le_div_iff_mul_le hc0).mp hk
    have h2 : (k + 1) * c = k * c + c := by ring
    omega
  have hend : A.m ≤ (A.m + c - 1) / c * c := by
    have := Nat.lt_div_mul_add hc0 (a := A.m + c - 1)
    omega
  refine ⟨hc1, hlen, by omega, by omega, ?_, ?_, ?_⟩
  · intro E hE
    obtain ⟨_, rfl⟩ := SOR_tasks_getElem A 0 E hE
    simp only [SOR_task, SOR_nStart, hov]
    simp
  · intro k E E' hE hE'
    obtain ⟨_, rfl⟩ := SOR_tasks_getElem A k E hE
    obtain ⟨hk', rfl⟩ := SOR_tasks_getElem A (k + 1) E' hE'
    rw [hlen] at hk'
    have h1 := hstart (k + 1) hk'
    rw [hcdef]
    have h2 : (k + 1) * c = k * c + c := by ring
    simp only [SOR_task, SOR_nStart, SOR_nEnd, hov, sub_zero, add_zero]
    have e1 : ¬ (((k + 1) * c : Nat) : Int) < 0 := by omega
    have e2 : ¬ ((k * c : Nat) : Int) < 0 := by omega
    have e3 : ¬ ((k * c : Nat) : Int) + SOR_chunk A.m A.qs > (A.m : Int) := by omega
    rw [if_neg e1, if_neg e2, if_neg e3]
    constructor <;> omega
  · intro E hE
    rw [List.getLast?_eq_getElem?] at hE
    obtain ⟨hk', rfl⟩ := SOR_tasks_getElem A _ E hE
    rw [hcdef]
    rw [hlen] at hk' ⊢
    have h1 := hstart _ hk'
    generalize hL : (A.m + c - 1) / c = L at *
    have h2 : L * c = (L - 1) * c + c := by
      have : L = (L - 1) + 1 := by omega
      nth_rewrite 1 [this]
      ring
    simp only [SOR_task, SOR_nStart, SOR_nEnd, hov, sub_zero, add_zero]
    have e2 : ¬ (((L - 1) * c : Nat) : Int) < 0 := by omega
    rw [if_neg e2]
    split_ifs <;> omega

theorem C12_row_partition_witness :
    SOR_chunk exChunks.m exChunks.qs = (exChunks.m : Int) / exChunks.qs.num_chunks + 1 ∧
    (SOR_tasks exChunks).length =
      (exChunks.m + (SOR_chunk exChunks.m exChunks.qs).toNat - 1)
        / (SOR_chunk exChunks.m exChunks.qs).toNat :=
  ⟨(C12_row_partition exChunks (by decide) (by decide) rfl).1,
    (C12_row_partition exChunks (by decide) (by decide) rfl).2.1⟩

/-! ## The single chunk, with and without the pool -/

theorem single_chunk_starts (A : SORArgs) (hm : 1 ≤ A.m) (hnc : A.qs.num_chunks ≤ 1) :
    SOR_chunk A.m A.qs = (A.m : Int) + 1 ∧
    chunkStarts A.m (SOR_chunk A.m A.qs).toNat = [0] := by
  have hs : SOR_num_chunks A.qs = 1 := by
    unfold SOR_num_chunks
    split_ifs <;> omega
  have hc : SOR_chunk A.m A.qs = (A.m : Int) + 1 := by
    unfold SOR_chunk
    simp only [hs, Int.ediv_one]
    rw [if_pos (by omega)]
  refine ⟨hc, ?_⟩
  have hcn : (SOR_chunk A.m A.qs).toNat = A.m + 1 := by omega
  rw [hcn]
  unfold chunkStarts
  have hd : (A.m + (A.m + 1) - 1) / (A.m + 1) = 1 := by
    apply Nat.div_eq_of_lt_le
    · omega
    · omega
  rw [hd]
  simp [List.range_succ]

/-! ## The iteration loop: termination and early exit -/

/-- The test `sqrtLt` is the comparison `sqrt (x) < tol` of real numbers. -/
theorem sqrtLt_iff_real (x tol : ℚ) :
    sqrtLt x tol = true ↔ Real.sqrt (x : ℝ) < (tol : ℝ) := by
  unfold sqrtLt
  simp only [Bool.and_eq_true, decide_eq_true_eq]
  constructor
  · rintro ⟨h1, h2⟩
    have h1' : (0 : ℝ) < (tol : ℝ) := by exact_mod_cast h1
    rw [Real.sqrt_lt' h1']
    have : (x : ℝ) < (tol : ℝ) * (tol : ℝ) := by exact_mod_cast h2
    rw [pow_two]
    exact this
  · intro h
    have h1' : (0 : ℝ) < (tol : ℝ) := lt_of_le_of_lt (Real.sqrt_nonneg _) h
    have h2 := (Real.sqrt_lt' h1').mp h
    rw [pow_two] at h2
    exact ⟨by exact_mod_cast h1', by exact_mod_cast h2⟩

theorem iterationBody_rms_nonneg (E : RowEnv) (it : Nat) (s : RowState) :
    0 ≤ (iterationBody E it s).rms_error := by
  obtain ⟨s1, _, _, _, _, h4, _⟩ := iterationBody_eq E it s
  rw [h4]
  exact (rowLoop_steps_cone E { s1 with rms_error := 0 } E.nRows.toNat).1

theorem iterLoop_succ (E : RowEnv) (s : RowState) (n it : Nat) :
    iterLoop E (n + 1) it (iterationsRun E s it) =
      if convergedAt E s it = true then iterationsRun E s (it + 1)
      else iterLoop E n (it + 1) (iterationsRun E s (it + 1)) := rfl

theorem iterLoop_stop (E : RowEnv) (s : RowState) (n : Nat) :
    ∀ it k, k < n → convergedAt E s (it + k) = true →
      (∀ i, i < k → convergedAt E s (it + i) = false) →
      iterLoop E n it (iterationsRun E s it) = iterationsRun E s (it + k + 1) := by
  induction n with
  | zero => intro it k hk; omega
  | succ n ih =>
    intro it k hk hc hnc
    rw [iterLoop_succ]
    cases k with
    | zero =>
      rw [Nat.add_zero] at hc
      rw [if_pos hc]
    | succ k =>
      have h0 := hnc 0 (by omega)
      rw [Nat.add_zero] at h0
      rw [if_neg (by rw [h0]; decide)]
      have e : it + 1 + k = it + (k + 1) := by omega
      have := ih (it + 1) k (by omega) (by rw [e]; exact hc)
        (fun i hi => by
          have e2 : it + 1 + i = it + (i + 1) := by omega
          rw [e2]
          exact hnc (i + 1) (by omega))
      rw [this, e]

theorem iterLoop_full (E : RowEnv) (s : RowState) (n : Nat) :
    ∀ it, (∀ i, i < n → convergedAt E s (it + i) = false) →
      iterLoop E n it (iterationsRun E s it) = iterationsRun E s (it + n) := by
  induction n with
  | zero => intro it _; rfl
  | succ n ih =>
    intro it hnc
    rw [iterLoop_succ]
    have h0 := hnc 0 (by omega)
    rw [Nat.add_zero] at h0
    rw [if_neg (by rw [h0]; decide)]
    have := ih (it + 1) (fun i hi => by
      have e2 : it + 1 + i = it + (i + 1) := by omega
      rw [e2]
      exact hnc (i + 1) (by omega))
    rw [this]
    congr 1
    omega

theorem iterLoop_some (E : RowEnv) (s : RowState) (n : Nat) :
    ∀ it, ∃ j, j ≤ n ∧ (n = 0 ∨ 0 < j) ∧
      iterLoop E n it (iterationsRun E s it) = iterationsRun E s (it + j) := by
  induction n with
  | zero => intro it; exact ⟨0, le_rfl, Or.inl rfl, rfl⟩
  | succ n ih =>
    intro it
    rw [iterLoop_succ]
    by_cases hc : convergedAt E s it = true
    · rw [if_pos hc]
      exact ⟨1, by omega, Or.inr (by omega), rfl⟩
    · rw [if_neg hc]
      obtain ⟨j, hj, _, e⟩ := ih (it + 1)
      refine ⟨j + 1, by omega, Or.inr (by omega), ?_⟩
      rw [e]
      congr 1
      omega

theorem iterationsRun_iterations (E : RowEnv) (s : RowState) (j : Nat) :
    (iterationsRun E s (j + 1)).iterations = j + 1 := rfl

/-- C16. Termination and early exit: `ComputeRows` runs the iterations
`0, 1, ..., k`, where `k` is the least iteration at whose end the square root
of the sum of `delta^2` over the rows of the chunk is below the tolerance, or
all `num_iterations` iterations when there is none; it never runs more than
`num_iterations` iterations, runs exactly that many when the tolerance is
`<= 0`, and none when `num_iterations <= 0`. -/
theorem C16_termination_early_exit (E : RowEnv) (s : RowState) :
    (∀ k, convergedAt E s k = true ↔
      Real.sqrt (((iterationsRun E s (k + 1)).rms_error : ℚ) : ℝ)
        < ((E.sor_lcp_tolerance : ℚ) : ℝ)) ∧
    (∀ k, k < E.num_iterations.toNat → convergedAt E s k = true →
      (∀ i, i < k → convergedAt E s i = false) →
      ComputeRows E s = iterationsRun E s (k + 1) ∧ (ComputeRows E s).iterations = k + 1) ∧
    ((∀ i, i < E.num_iterations.toNat → convergedAt E s i = false) →
      ComputeRows E s = iterationsRun E s E.num_iterations.toNat) ∧
    (∃ j, j ≤ E.num_iterations.toNat ∧ ComputeRows E s = iterationsRun E s j) ∧
    (E.sor_lcp_tolerance ≤ 0 →
      ComputeRows E s = iterationsRun E s E.num_iterations.toNat) ∧
    (E.num_iterations ≤ 0 → ComputeRows E s = s) := by
  have hfull : (∀ i, i < E.num_iterations.toNat → convergedAt E s i = false) →
      ComputeRows E s = iterationsRun E s E.num_iterations.toNat := by
    intro h
    have := iterLoop_full E s E.num_iterations.toNat 0 (fun i hi => by
      rw [Nat.zero_add]; exact h i hi)
    rw [Nat.zero_add] at this
    exact this
  refine ⟨?_, ?_, hfull, ?_, ?_, ?_⟩
  · intro k
    exact sqrtLt_iff_real _ _
  · intro k hk hc hnc
    have := iterLoop_stop E s E.num_iterations.toNat 0 k hk (by rw [Nat.zero_add]; exact hc)
      (fun i hi => by rw [Nat.zero_add]; exact hnc i hi)
    rw [Nat.zero_add] at this
    have e : ComputeRows E s = iterationsRun E s (k + 1) := this
    exact ⟨e, by rw [e]; rfl⟩
  · obtain ⟨j, hj, _, e⟩ := iterLoop_some E s E.num_iterations.toNat 0
    rw [Nat.zero_add] at e
    exact ⟨j, hj, e⟩
  · intro htol
    apply hfull
    intro i _
    unfold convergedAt sqrtLt
    have : ¬ (0 < E.sor_lcp_tolerance) := not_lt.mpr htol
    simp [this]
  · intro hn
    have h0 : E.num_iterations.toNat = 0 := by omega
    unfold ComputeRows
    rw [h0]
    rfl

theorem C16_termination_early_exit_witness :
    ComputeRows exConeEnv exConeState = iterationsRun exConeEnv exConeState 1 :=
  (C16_termination_early_exit exConeEnv exConeState).2.2.2.2.1 (by decide)

/-! ## The right-hand side, the velocity update, the tidy-up -/

theorem dot6_eq_sum (a : Nat → ℚ) (ao : Nat) (b : Nat → ℚ) (bo : Nat) :
    dot6 a ao b bo = Finset.sum (Finset.range 6) (fun j => a (ao + j) * b (bo + j)) := by
  simp only [dot6, Finset.sum_range_succ, Finset.sum_range_zero, Nat.add_zero, zero_add]

/-- What the preprocessing leaves unchanged in a body, and the gravity it
adds to `facc`. -/
theorem preBodies_fields (w : dxWorld) (body : Nat → dxBody) (nb i : Nat) (hi : i < nb) :
    (preBodies w body nb i).lvel = (body i).lvel ∧
    (preBodies w body nb i).avel = (body i).avel ∧
    (preBodies w body nb i).invMass = (body i).invMass ∧
    (preBodies w body nb i).invI = (body i).invI ∧
    (preBodies w body nb i).posr_R = (body i).posr_R ∧
    (∀ j, j < 3 → (preBodies w body nb i).facc j = (body i).facc j +
      (if w.gravity j ≠ 0 ∧ (body i).flags &&& dxBodyNoGravity = 0 then
        (body i).mass_mass * w.gravity j else 0)) ∧
    (preBodies w body nb i).tacc = (gyroBody (body i)).tacc := by
  unfold preBodies
  rw [if_pos hi]
  have hg : ∀ b : dxBody, (gyroBody b).lvel = b.lvel ∧ (gyroBody b).avel = b.avel ∧
      (gyroBody b).invMass = b.invMass ∧ (gyroBody b).invI = b.invI ∧
      (gyroBody b).posr_R = b.posr_R ∧ (gyroBody b).facc = b.facc ∧
      (gyroBody b).flags = b.flags ∧ (gyroBody b).mass_mass = b.mass_mass := by
    intro b
    unfold gyroBody
    split_ifs <;> exact ⟨rfl, rfl, rfl, rfl, rfl, rfl, rfl, rfl⟩
  have ht : tagBodies body nb i = { (body i) with tag := Int.ofNat i } := by
    unfold tagBodies
    rw [if_pos hi]
  obtain ⟨g1, g2, g3, g4, g5, g6, g7, g8⟩ := hg (tagBodies body nb i)
  refine ⟨?_, ?_, ?_, ?_, ?_, ?_, ?_⟩
  · show (gyroBody (tagBodies body nb i)).lvel = _
    rw [g1, ht]
  · show (gyroBody (tagBodies body nb i)).avel = _
    rw [g2, ht]
  · show (gyroBody (tagBodies body nb i)).invMass = _
    rw [g3, ht]
  · show (gyroBody (tagBodies body nb i)).invI = _
    rw [g4, ht]
  · show (gyroBody (tagBodies body nb i)).posr_R = _
    rw [g5, ht]
  · intro j hj
    have f6 : (gyroBody (tagBodies body nb i)).facc = (body i).facc := by rw [g6, ht]
    have f7 : (gyroBody (tagBodies body nb i)).flags = (body i).flags := by rw [g7, ht]
    have f8 : (gyroBody (tagBodies body nb i)).mass_mass = (body i).mass_mass := by rw [g8, ht]
    show (if j < 3 ∧ w.gravity j ≠ 0 ∧
        (gyroBody (tagBodies body nb i)).flags &&& dxBodyNoGravity = 0 then
        (gyroBody (tagBodies body nb i)).facc j
          + (gyroBody (tagBodies body nb i)).mass_mass * w.gravity j
      else (gyroBody (tagBodies body nb i)).facc j) = _
    rw [f6, f7, f8]
    by_cases hc : w.gravity j ≠ 0 ∧ (body i).flags &&& dxBodyNoGravity = 0
    · rw [if_pos ⟨hj, hc⟩, if_pos hc]
    · rw [if_neg (fun h => hc h.2), if_neg hc, add_zero]
  · show (gyroBody (tagBodies body nb i)).tacc = _
    rw [ht]
    unfold gyroBody
    by_cases hf : (body i).flags &&& dxBodyGyroscopic ≠ 0
    · rw [if_pos hf, if_pos hf]
      rfl
    · rw [if_neg hf, if_neg hf]

theorem invI_array_block (w : dxWorld) (body : Nat → dxBody) (nb i : Nat) (hi : i < nb)
    (C : Nat → ℚ) (j : Nat) (hj : j < 3) :
    dMultiply0_331 (offs (invI_array (preBodies w body nb) nb) (12 * i)) C j =
      dMultiply0_331 (globalInvI (body i)) C j := by
  obtain ⟨_, _, _, h4, h5, _, _⟩ := preBodies_fields w body nb i hi
  have hG : globalInvI (preBodies w body nb i) = globalInvI (body i) := by
    unfold globalInvI
    rw [h4, h5]
  have hcell : ∀ x, x < 12 →
      invI_array (preBodies w body nb) nb (12 * i + x) = globalInvI (body i) x := by
    intro x hx
    unfold invI_array
    have e1 : (12 * i + x) / 12 = i := by omega
    have e2 : (12 * i + x) % 12 = x := by omega
    rw [if_pos (by omega), e1, e2, hG]
  unfold dMultiply0_331 offs
  rw [hcell _ (by omega), hcell _ (by omega), hcell _ (by omega)]

theorem sorArgs_b (w : dxWorld) (body : Nat → dxBody) (nb : Nat) (_joint : List dxJoint)
    (stepsize : ℚ) (draws : Nat → Nat) :
    (sorArgs w body nb _joint stepsize draws).b =
      rhs_precond (count_m (jointiinfos _joint)) (assemble w (1 / stepsize) (jointiinfos _joint)).J
        (jb_array (preBodies w body nb) (jointiinfos _joint)).jb (preBodies w body nb)
        (I_array (preBodies w body nb) nb)
        (invJrhs_array (count_m (jointiinfos _joint)) nb
          (assemble w (1 / stepsize) (jointiinfos _joint)).J
          (jb_array (preBodies w body nb) (jointiinfos _joint)).jb
          (rhs_array w body nb _joint stepsize))
        (rhs_array w body nb _joint stepsize) := rfl

/-- C17. Right-hand side: before the preconditioner, for every row `i`,
`rhs[i] = c[i]/h - J_i * tmp1`, where `J_i * tmp1` takes the six entries of the
first body and adds the six entries of the second body only when
`jb[2i+1] >= 0`, and `tmp1` holds for each body
`(lvel/h + invMass*facc, avel/h + invI_global*tacc)`, with the gravity already
added to `facc` (and the gyroscopic term to `tacc`). The solver's `b` is the
preconditioner applied to this array. -/
theorem C17_right_hand_side (w : dxWorld) (body : Nat → dxBody) (nb : Nat)
    (_joint : List dxJoint) (stepsize : ℚ) (draws : Nat → Nat) :
    (∀ i, i < count_m (jointiinfos _joint) →
      rhs_array w body nb _joint stepsize i =
        (assemble w (1 / stepsize) (jointiinfos _joint)).c i / stepsize -
          (Finset.sum (Finset.range 6) (fun j =>
              (assemble w (1 / stepsize) (jointiinfos _joint)).J (12 * i + j) *
                tmp1_array (preBodies w body nb) nb (invI_array (preBodies w body nb) nb)
                  (1 / stepsize)
                  (((jb_array (preBodies w body nb) (jointiinfos _joint)).jb (i * 2) * 6).toNat
                    + j))
            + (if (jb_array (preBodies w body nb) (jointiinfos _joint)).jb (i * 2 + 1) ≥ 0 then
                Finset.sum (Finset.range 6) (fun j =>
                  (assemble w (1 / stepsize) (jointiinfos _joint)).J (12 * i + 6 + j) *
                    tmp1_array (preBodies w body nb) nb (invI_array (preBodies w body nb) nb)
                      (1 / stepsize)
                      (((jb_array (preBodies w body nb) (jointiinfos _joint)).jb
                        (i * 2 + 1) * 6).toNat + j))
              else 0))) ∧
    (∀ b j, b < nb → j < 3 →
      tmp1_array (preBodies w body nb) nb (invI_array (preBodies w body nb) nb) (1 / stepsize)
          (6 * b + j) =
        (body b).lvel j / stepsize
          + (body b).invMass * (preBodies w body nb b).facc j ∧
      tmp1_array (preBodies w body nb) nb (invI_array (preBodies w body nb) nb) (1 / stepsize)
          (6 * b + 3 + j) =
        (body b).avel j / stepsize
          + dMultiply0_331 (globalInvI (body b)) (preBodies w body nb b).tacc j ∧
      (preBodies w body nb b).facc j = (body b).facc j +
        (if w.gravity j ≠ 0 ∧ (body b).flags &&& dxBodyNoGravity = 0 then
          (body b).mass_mass * w.gravity j else 0) ∧
      (preBodies w body nb b).tacc = (gyroBody (body b)).tacc) ∧
    (sorArgs w body nb _joint stepsize draws).b =
      rhs_precond (count_m (jointiinfos _joint)) (assemble w (1 / stepsize) (jointiinfos _joint)).J
        (jb_array (preBodies w body nb) (jointiinfos _joint)).jb (preBodies w body nb)
        (I_array (preBodies w body nb) nb)
        (invJrhs_array (count_m (jointiinfos _joint)) nb
          (assemble w (1 / stepsize) (jointiinfos _joint)).J
          (jb_array (preBodies w body nb) (jointiinfos _joint)).jb
          (rhs_array w body nb _joint stepsize))
        (rhs_array w body nb _joint stepsize) := by
  refine ⟨?_, ?_, sorArgs_b w body nb _joint stepsize draws⟩
  · intro i hi
    unfold rhs_array
    simp only [rhs_complete, multiply_J, if_pos hi]
    rw [← dot6_eq_sum, ← dot6_eq_sum]
    by_cases h2 : (jb_array (preBodies w body nb) (jointiinfos _joint)).jb (i * 2 + 1) ≥ 0
    · rw [if_pos h2, if_pos h2]
      ring
    · rw [if_neg h2, if_neg h2]
      ring
  · intro b j hb hj
    obtain ⟨p1, p2, p3, _, _, p6, p7⟩ := preBodies_fields w body nb b hb
    refine ⟨?_, ?_, p6 j hj, p7⟩
    · unfold tmp1_array
      have e1 : (6 * b + j) / 6 = b := by omega
      have e2 : (6 * b + j) % 6 = j := by omega
      simp only [if_pos (show 6 * b + j < 6 * nb by omega), e1, e2, if_pos hj, p1, p3]
      ring
    · unfold tmp1_array
      have e1 : (6 * b + 3 + j) / 6 = b := by omega
      have e2 : (6 * b + 3 + j) % 6 = 3 + j := by omega
      have e3 : ¬ (3 + j < 3) := by omega
      have e4 : 3 + j - 3 = j := by omega
      simp only [if_pos (show 6 * b + 3 + j < 6 * nb by omega), e1, e2, if_neg e3, e4, p2]
      rw [invI_array_block w body nb b hb _ j hj]
      ring

theorem C17_right_hand_side_witness :
    rhs_array (ballWorld 1 1) (ballBodies exAxis0 (fun _ => 0) (fun _ => 0) (fun _ => 0)) 2
        [ballJoint] 1 0 =
      (assemble (ballWorld 1 1) (1 / 1) (jointiinfos [ballJoint])).c 0 / 1 -
          (Finset.sum (Finset.range 6) (fun j =>
              (assemble (ballWorld 1 1) (1 / 1) (jointiinfos [ballJoint])).J (12 * 0 + j) *
                tmp1_array (preBodies (ballWorld 1 1)
                    (ballBodies exAxis0 (fun _ => 0) (fun _ => 0) (fun _ => 0)) 2) 2
                  (invI_array (preBodies (ballWorld 1 1)
                    (ballBodies exAxis0 (fun _ => 0) (fun _ => 0) (fun _ => 0)) 2) 2)
                  (1 / 1)
                  (((jb_array (preBodies (ballWorld 1 1)
                      (ballBodies exAxis0 (fun _ => 0) (fun _ => 0) (fun _ => 0)) 2)
                      (jointiinfos [ballJoint])).jb (0 * 2) * 6).toNat + j))
            + (if (jb_array (preBodies (ballWorld 1 1)
                    (ballBodies exAxis0 (fun _ => 0) (fun _ => 0) (fun _ => 0)) 2)
                    (jointiinfos [ballJoint])).jb (0 * 2 + 1) ≥ 0 then
                Finset.sum (Finset.range 6) (fun j =>
                  (assemble (ballWorld 1 1) (1 / 1) (jointiinfos [ballJoint])).J (12 * 0 + 6 + j) *
                    tmp1_array (preBodies (ballWorld 1 1)
                        (ballBodies exAxis0 (fun _ => 0) (fun _ => 0) (fun _ => 0)) 2) 2
                      (invI_array (preBodies (ballWorld 1 1)
                        (ballBodies exAxis0 (fun _ => 0) (fun _ => 0) (fun _ => 0)) 2) 2)
                      (1 / 1)
                      (((jb_array (preBodies (ballWorld 1 1)
                          (ballBodies exAxis0 (fun _ => 0) (fun _ => 0) (fun _ => 0)) 2)
                          (jointiinfos [ballJoint])).jb (0 * 2 + 1) * 6).toNat + j))
              else 0)) :=
  (C17_right_hand_side (ballWorld 1 1) (ballBodies exAxis0 (fun _ => 0) (fun _ => 0) (fun _ => 0))
    2 [ballJoint] 1 (fun _ => 0)).1 0 (by decide)

/-! ## The velocity update and the tidy-up -/

/-- C18. Velocity integration: when `m > 0`, after the velocity updates of
`dxQuickStepper` and before the position update, every body has
`lvel' = lvel + h*fc.linear + h*invMass*(f_damp.linear + facc)` and
`avel' = avel + h*fc.angular + invI_global*(h*f_damp.angular)
+ invI_global*(h*tacc)`, where `fc` and `f_damp` are the values left by
`SOR_LCP`, and `facc`, `tacc` are the accumulators after the preprocessing
(with gravity and the gyroscopic term). -/
theorem C18_velocity_integration (dxStepBody : dxBody → ℚ → dxBody) (w : dxWorld)
    (body : Nat → dxBody) (nb : Nat) (_joint : List dxJoint) (stepsize : ℚ) (draws : Nat → Nat)
    (hm : 0 < count_m (jointiinfos _joint)) (i j : Nat) (hi : i < nb) (hj : j < 3) :
    (dxQuickStepper dxStepBody w body nb _joint stepsize draws).sor =
      some (SOR_LCP (sorArgs w body nb _joint stepsize draws)) ∧
    ((dxQuickStepper dxStepBody w body nb _joint stepsize draws).velBodies i).lvel j =
      (body i).lvel j
        + stepsize * (SOR_LCP (sorArgs w body nb _joint stepsize draws)).fc (6 * i + j)
        + stepsize * (body i).invMass *
          ((SOR_LCP (sorArgs w body nb _joint stepsize draws)).f_damp (6 * i + j)
            + (preBodies w body nb i).facc j) ∧
    ((dxQuickStepper dxStepBody w body nb _joint stepsize draws).velBodies i).avel j =
      (body i).avel j
        + stepsize * (SOR_LCP (sorArgs w body nb _joint stepsize draws)).fc (6 * i + 3 + j)
        + dMultiply0_331 (globalInvI (body i))
            (fun t => stepsize *
              (SOR_LCP (sorArgs w body nb _joint stepsize draws)).f_damp (6 * i + 3 + t)) j
        + dMultiply0_331 (globalInvI (body i))
            (fun t => stepsize * (preBodies w body nb i).tacc t) j := by
  obtain ⟨p1, p2, p3, _, _, _, _⟩ := preBodies_fields w body nb i hi
  have hm' : count_m (jointiinfos _joint) > 0 := hm
  generalize hr : SOR_LCP (sorArgs w body nb _joint stepsize draws) = r
  refine ⟨?_, ?_, ?_⟩
  · unfold dxQuickStepper
    simp only [hm', if_true, hr]
  · unfold dxQuickStepper
    simp only [hm', if_true, hr, if_pos hi, extVelBody, cforceVelBody, dampVelBody, if_pos hj,
      p1, p3]
    ring
  · unfold dxQuickStepper
    simp only [hm', if_true, hr, if_pos hi, extVelBody, cforceVelBody, dampVelBody, if_pos hj,
      p2]
    rw [invI_array_block w body nb i hi _ j hj, invI_array_block w body nb i hi _ j hj]
    unfold dMultiply0_331
    simp only [show (0 : Nat) < 3 by omega, show (1 : Nat) < 3 by omega,
      show (2 : Nat) < 3 by omega, if_true]
    ring

theorem C18_velocity_integration_witness :
    (dxQuickStepper (fun b _ => b) (ballWorld 1 1)
      (ballBodies exAxis0 (fun _ => 0) (fun _ => 0) (fun _ => 0)) 2 [ballJoint] 1
      (fun _ => 0)).sor =
      some (SOR_LCP (sorArgs (ballWorld 1 1)
        (ballBodies exAxis0 (fun _ => 0) (fun _ => 0) (fun _ => 0)) 2 [ballJoint] 1
        (fun _ => 0))) :=
  (C18_velocity_integration (fun b _ => b) (ballWorld 1 1)
    (ballBodies exAxis0 (fun _ => 0) (fun _ => 0) (fun _ => 0)) 2 [ballJoint] 1 (fun _ => 0)
    (by decide) 0 0 (by decide) (by decide)).1

/-- C19. For every input, with or without constraint rows, when
`dxQuickStepper` returns the force accumulator `facc` and the torque
accumulator `tacc` of every body are zero in all three components. -/
theorem C19_accumulators_zeroed (dxStepBody : dxBody → ℚ → dxBody) (w : dxWorld)
    (body : Nat → dxBody) (nb : Nat) (_joint : List dxJoint) (stepsize : ℚ) (draws : Nat → Nat)
    (i j : Nat) (hi : i < nb) (hj : j < 3) :
    ((dxQuickStepper dxStepBody w body nb _joint stepsize draws).bodies i).facc j = 0 ∧
    ((dxQuickStepper dxStepBody w body nb _joint stepsize draws).bodies i).tacc j = 0 := by
  unfold dxQuickStepper
  simp only [if_pos hi, zeroAccBody, if_pos hj, and_self]

theorem C19_accumulators_zeroed_witness :
    ((dxQuickStepper (fun b _ => b) (ballWorld 1 1)
      (ballBodies exAxis0 (fun _ => 0) (fun _ => 0) (fun _ => 0)) 2 [exIdleJoint] 1
      (fun _ => 0)).bodies 1).facc 2 = 0 :=
  (C19_accumulators_zeroed (fun b _ => b) (ballWorld 1 1)
    (ballBodies exAxis0 (fun _ => 0) (fun _ => 0) (fun _ => 0)) 2 [exIdleJoint] 1 (fun _ => 0)
    1 2 (by decide) (by decide)).1

/-! ## One row update -/

/-- The update of `fc` by one row update of a task of `SOR_LCP`, per body
block, in terms of the unscaled `J`. -/
theorem rowUpdate_fc_block (A : SORArgs) (c0 : Nat) (s : RowState) (idx : Nat)
    (hidx : idx < A.m) (hb1 : 0 ≤ A.jb (idx * 2)) (b c : Nat) (hc : c < 6) :
    (rowUpdate (SOR_task A c0) s idx).fc (6 * b + c) =
      s.fc (6 * b + c)
        + (if A.jb (idx * 2) = (b : Int) then
            ((rowUpdate (SOR_task A c0) s idx).lambda idx - s.lambda idx) * A.J (12 * idx + c)
          else 0)
        + (if A.jb (idx * 2 + 1) = (b : Int) then
            ((rowUpdate (SOR_task A c0) s idx).lambda idx - s.lambda idx)
              * A.J (12 * idx + 6 + c)
          else 0) := by
  have e1 : (6 * A.jb (idx * 2)).toNat = 6 * (A.jb (idx * 2)).toNat := by omega
  have hiMJ1 : SOR_iMJ A (idx * 12 + c) = A.J (12 * idx + c) := by
    unfold SOR_iMJ
    rw [if_pos (by omega)]
    congr 1
    omega
  have hiMJ2 : SOR_iMJ A (idx * 12 + 6 + c) = A.J (12 * idx + 6 + c) := by
    unfold SOR_iMJ
    rw [if_pos (by omega)]
    congr 1
    omega
  have hc1 : ((A.jb (idx * 2)).toNat = b) ↔ (A.jb (idx * 2) = (b : Int)) := by omega
  rw [rowUpdate_fc]
  show (if A.jb (idx * 2 + 1) ≥ 0 then
        addScaled6 (addScaled6 s.fc (6 * A.jb (idx * 2)).toNat
          ((rowUpdate (SOR_task A c0) s idx).lambda idx - s.lambda idx) (SOR_iMJ A) (idx * 12))
          (6 * A.jb (idx * 2 + 1)).toNat
          ((rowUpdate (SOR_task A c0) s idx).lambda idx - s.lambda idx) (SOR_iMJ A)
          (idx * 12 + 6)
      else addScaled6 s.fc (6 * A.jb (idx * 2)).toNat
          ((rowUpdate (SOR_task A c0) s idx).lambda idx - s.lambda idx) (SOR_iMJ A) (idx * 12))
      (6 * b + c) = _
  by_cases hb2 : A.jb (idx * 2 + 1) ≥ 0
  · have e2 : (6 * A.jb (idx * 2 + 1)).toNat = 6 * (A.jb (idx * 2 + 1)).toNat := by omega
    have hc2 : ((A.jb (idx * 2 + 1)).toNat = b) ↔ (A.jb (idx * 2 + 1) = (b : Int)) := by omega
    rw [if_pos hb2, e1, e2, addScaled6_block _ _ _ _ _ _ _ hc, addScaled6_block _ _ _ _ _ _ _ hc,
      hiMJ1, hiMJ2]
    simp only [hc1, hc2]
  · have hc2 : ¬ (A.jb (idx * 2 + 1) = (b : Int)) := by omega
    rw [if_neg hb2, e1, addScaled6_block _ _ _ _ _ _ _ hc, hiMJ1, if_neg hc2]
    simp only [hc1, add_zero]

/-- The three branches of the clamp. -/
theorem clampLambda_cases (x : ℚ) (lo : LoBound) (hi : HiBound) :
    (∀ l, lo = some l → x < l → clampLambda x lo hi = l) ∧
    (∀ h, hi = some h → loLe lo x → h < x → clampLambda x lo hi = h) ∧
    (loLe lo x → leHi x hi → clampLambda x lo hi = x) := by
  have hlo : loLe lo x → ltLo x lo = false := by
    intro h
    cases lo with
    | none => rfl
    | some l =>
      have := h l rfl
      simp [ltLo, not_lt.mpr this]
  refine ⟨?_, ?_, ?_⟩
  · intro l hl hx
    subst hl
    simp [clampLambda, ltLo, hx]
  · intro h hh hle hx
    subst hh
    simp [clampLambda, hlo hle, gtHi, hx]
  · intro hle hhi
    have hg : gtHi x hi = false := by
      cases hi with
      | none => rfl
      | some h =>
        have := hhi h rfl
        simp [gtHi, not_lt.mpr this]
    simp [clampLambda, hlo hle, hg]

/-- C20. Single row update: one pass of the per-row update of a task of
`SOR_LCP` sets `lambda[index]` to `old_lambda + delta` clamped to
`[lo_act, hi_act]` (`lo_act = lo`, `hi_act = hi` when `findex < 0`, else
`hi_act = |hi*lambda[findex]|` and `lo_act = -hi_act`), leaves the other
entries of `lambda` alone, replaces `delta` by `new_lambda - old_lambda` (the
value recorded in `delta_error` and `rms_error`), and adds that `delta` times
the row's unscaled Jacobian blocks to `fc` of the first body and, if present,
of the second; whenever `lo_act <= hi_act` the new `lambda[index]` lies in
`[lo_act, hi_act]`, and `lo_act <= hi_act` always holds for a friction row. -/
theorem C20_single_row_update (A : SORArgs) (c0 : Nat) (s : RowState) (index : Nat)
    (hidx : index < A.m) :
    (A.findex index < 0 →
      lo_act (SOR_task A c0) s.lambda index = A.lo index ∧
      hi_act (SOR_task A c0) s.lambda index = A.hi index) ∧
    (A.findex index ≥ 0 →
      hi_act (SOR_task A c0) s.lambda index =
        (A.hi index).map (fun h => |h * s.lambda (A.findex index).toNat|) ∧
      lo_act (SOR_task A c0) s.lambda index =
        (A.hi index).map (fun h => -|h * s.lambda (A.findex index).toNat|) ∧
      boundsOrdered (lo_act (SOR_task A c0) s.lambda index)
        (hi_act (SOR_task A c0) s.lambda index)) ∧
    (∀ l, lo_act (SOR_task A c0) s.lambda index = some l →
      s.lambda index + rowDelta (SOR_task A c0) s index < l →
      (rowUpdate (SOR_task A c0) s index).lambda index = l) ∧
    (∀ h, hi_act (SOR_task A c0) s.lambda index = some h →
      loLe (lo_act (SOR_task A c0) s.lambda index)
        (s.lambda index + rowDelta (SOR_task A c0) s index) →
      h < s.lambda index + rowDelta (SOR_task A c0) s index →
      (rowUpdate (SOR_task A c0) s index).lambda index = h) ∧
    (loLe (lo_act (SOR_task A c0) s.lambda index)
        (s.lambda index + rowDelta (SOR_task A c0) s index) →
      leHi (s.lambda index + rowDelta (SOR_task A c0) s index)
        (hi_act (SOR_task A c0) s.lambda index) →
      (rowUpdate (SOR_task A c0) s index).lambda index =
        s.lambda index + rowDelta (SOR_task A c0) s index) ∧
    (∀ j, j ≠ index → (rowUpdate (SOR_task A c0) s index).lambda j = s.lambda j) ∧
    (rowUpdate (SOR_task A c0) s index).delta_error index =
      |(rowUpdate (SOR_task A c0) s index).lambda index - s.lambda index| ∧
    (rowUpdate (SOR_task A c0) s index).rms_error = s.rms_error +
      ((rowUpdate (SOR_task A c0) s index).lambda index - s.lambda index) *
      ((rowUpdate (SOR_task A c0) s index).lambda index - s.lambda index) ∧
    (0 ≤ A.jb (index * 2) → ∀ b c, c < 6 →
      (rowUpdate (SOR_task A c0) s index).fc (6 * b + c) =
        s.fc (6 * b + c)
          + (if A.jb (index * 2) = (b : Int) then
              ((rowUpdate (SOR_task A c0) s index).lambda index - s.lambda index)
                * A.J (12 * index + c)
            else 0)
          + (if A.jb (index * 2 + 1) = (b : Int) then
              ((rowUpdate (SOR_task A c0) s index).lambda index - s.lambda index)
                * A.J (12 * index + 6 + c)
            else 0)) ∧
    (boundsOrdered (lo_act (SOR_task A c0) s.lambda index)
        (hi_act (SOR_task A c0) s.lambda index) →
      loLe (lo_act (SOR_task A c0) s.lambda index)
        ((rowUpdate (SOR_task A c0) s index).lambda index) ∧
      leHi ((rowUpdate (SOR_task A c0) s index).lambda index)
        (hi_act (SOR_task A c0) s.lambda index)) := by
  have hfi : (SOR_task A c0).findex = A.findex := rfl
  have hlam : (rowUpdate (SOR_task A c0) s index).lambda index =
      clampLambda (s.lambda index + rowDelta (SOR_task A c0) s index)
        (lo_act (SOR_task A c0) s.lambda index) (hi_act (SOR_task A c0) s.lambda index) := by
    rw [rowUpdate_lambda, Function.update_same]
  obtain ⟨k1, k2, k3⟩ := clampLambda_cases (s.lambda index + rowDelta (SOR_task A c0) s index)
    (lo_act (SOR_task A c0) s.lambda index) (hi_act (SOR_task A c0) s.lambda index)
  refine ⟨?_, ?_, ?_, ?_, ?_, ?_, ?_, ?_, ?_, ?_⟩
  · intro hf
    have hf' : ¬ (SOR_task A c0).findex index ≥ 0 := by rw [hfi]; omega
    simp only [lo_act, hi_act, if_neg hf']
    exact ⟨rfl, rfl⟩
  · intro hf
    have hf' : (SOR_task A c0).findex index ≥ 0 := by rw [hfi]; exact hf
    have hhi : hi_act (SOR_task A c0) s.lambda index =
        (A.hi index).map (fun h => |h * s.lambda (A.findex index).toNat|) := by
      simp only [hi_act, if_pos hf', dFabs_eq_abs]
      rfl
    have hlo : lo_act (SOR_task A c0) s.lambda index =
        (A.hi index).map (fun h => -|h * s.lambda (A.findex index).toNat|) := by
      simp only [lo_act, if_pos hf', hhi, Option.map_map]
      rfl
    refine ⟨hhi, hlo, ?_⟩
    rw [hhi, hlo]
    intro l h hl hh
    cases hA : A.hi index with
    | none => rw [hA] at hl; cases hl
    | some u =>
      rw [hA] at hl hh
      simp only [Option.map_some', Option.some.injEq] at hl hh
      rw [← hl, ← hh]
      have := abs_nonneg (u * s.lambda (A.findex index).toNat)
      linarith
  · intro l hl hx
    rw [hlam]
    exact k1 l hl hx
  · intro h hh hle hx
    rw [hlam]
    exact k2 h hh hle hx
  · intro hle hhi
    rw [hlam]
    exact k3 hle hhi
  · intro j hj
    rw [rowUpdate_lambda, Function.update_noteq hj]
  · rw [hlam]
    show Function.update s.delta_error index _ index = _
    rw [Function.update_same, dFabs_eq_abs]
  · exact rowUpdate_rms _ _ _
  · intro hb1 b c hc
    exact rowUpdate_fc_block A c0 s index hidx hb1 b c hc
  · intro hb
    rw [hlam]
    exact clampLambda_bounds _ _ _ hb

theorem C20_single_row_update_witness :
    (rowUpdate (SOR_task exOneRow 0) (SOR_init exOneRow) 0).lambda 0 =
      (SOR_init exOneRow).lambda 0 + rowDelta (SOR_task exOneRow 0) (SOR_init exOneRow) 0 :=
  (C20_single_row_update exOneRow 0 (SOR_init exOneRow) 0 (by decide)).2.2.2.2.1
    (fun l hl => by cases hl) (fun h hh => by cases hh)

/-! ## The order of the row updates and the value a friction row reads -/

theorem orderOK_injective (m : Nat) (o : Nat → Nat) (ho : OrderOK m o) :
    ∀ p q, p < m → q < m → o p = o q → p = q := by
  have hs : Function.Surjective (fun i : Fin m => (⟨o i, ho.1 i i.2⟩ : Fin m)) := by
    intro j
    obtain ⟨p, hp, e⟩ := ho.2 j j.2
    exact ⟨⟨p, hp⟩, Fin.ext e⟩
  have hi := Finite.injective_iff_surjective.mpr hs
  intro p q hp hq e
  have := @hi ⟨p, hp⟩ ⟨q, hq⟩ (Fin.ext e)
  exact congrArg Fin.val this

theorem rowLoopSteps_succ (E : RowEnv) (s : RowState) (t : Nat) :
    rowLoopSteps E s (t + 1) =
      rowUpdate E (rowLoopSteps E s t) (s.order (E.startRow.toNat + t)) := by
  unfold rowLoopSteps
  simp only [List.range_succ, List.foldl_append, List.foldl_cons, List.foldl_nil]
  rw [rowLoop_steps_order]

theorem rowLoop_eq_steps (E : RowEnv) (s : RowState) :
    rowLoop E s = rowLoopSteps E s E.nRows.toNat := rfl

/-- While the rows at the positions `0 .. t-1` of `order` have been updated,
the rows at later positions keep their `lambda`, and an updated friction row
has read the new `lambda` of a row at an earlier position and the old `lambda`
of a row at a later position. -/
theorem rowLoopSteps_reads (E : RowEnv) (m : Nat) (s : RowState) (hs : E.startRow.toNat = 0)
    (hinj : ∀ p q, p < m → q < m → s.order p = s.order q → p = q) (t : Nat) (ht : t ≤ m) :
    (∀ q, t ≤ q → q < m → (rowLoopSteps E s t).lambda (s.order q) = s.lambda (s.order q)) ∧
    (∀ p q, p < t → q < m → p ≠ q → E.findex (s.order p) = (s.order q : Int) →
      (q < p → (rowLoopSteps E s t).L_last (s.order p) =
        (rowLoopSteps E s t).lambda (s.order q)) ∧
      (p < q → (rowLoopSteps E s t).L_last (s.order p) = s.lambda (s.order q))) := by
  induction t with
  | zero =>
    refine ⟨fun q _ _ => rfl, ?_⟩
    intro p q hp
    omega
  | succ t ih =>
    obtain ⟨i1, i2⟩ := ih (by omega)
    rw [rowLoopSteps_succ, hs, Nat.zero_add]
    have hne : ∀ q, q < m → q ≠ t → s.order q ≠ s.order t := by
      intro q hq hqt e
      exact hqt (hinj q t hq (by omega) e)
    have hlam : ∀ q, q < m → q ≠ t →
        (rowUpdate E (rowLoopSteps E s t) (s.order t)).lambda (s.order q) =
          (rowLoopSteps E s t).lambda (s.order q) := by
      intro q hq hqt
      rw [rowUpdate_lambda, Function.update_noteq (hne q hq hqt)]
    have hL : ∀ p, p < m → p ≠ t →
        (rowUpdate E (rowLoopSteps E s t) (s.order t)).L_last (s.order p) =
          (rowLoopSteps E s t).L_last (s.order p) := by
      intro p hp hpt
      rw [rowUpdate_L_last]
      split_ifs
      · rw [Function.update_noteq (hne p hp hpt)]
      · rfl
    refine ⟨?_, ?_⟩
    · intro q hq hqm
      rw [hlam q hqm (by omega)]
      exact i1 q (by omega) hqm
    · intro p q hp hq hpq hf
      by_cases hpt : p = t
      · subst hpt
        have hf' : E.findex (s.order p) ≥ 0 := by rw [hf]; omega
        have hread : (rowUpdate E (rowLoopSteps E s p) (s.order p)).L_last (s.order p) =
            (rowLoopSteps E s p).lambda (s.order q) := by
          rw [rowUpdate_L_last, if_pos hf', Function.update_same, hf, Int.toNat_ofNat]
        constructor
        · intro hqp
          rw [hread, hlam q hq (by omega)]
        · intro hpq'
          rw [hread]
          exact i1 q (by omega) hq
      · obtain ⟨j1, j2⟩ := i2 p q (by omega) hq hpq hf
        constructor
        · intro hqp
          rw [hL p (by omega) hpt, hlam q hq (by omega)]
          exact j1 hqp
        · intro hpq'
          rw [hL p (by omega) hpt]
          exact j2 hpq'

/-- The fields of the state after one iteration that the row loop decides. -/
theorem iterationBody_reads (E : RowEnv) (it : Nat) (s : RowState) :
    ∃ s1 : RowState, (s1 = s ∨ s1 = shuffle E s) ∧
      (iterationBody E it s).lambda = (rowLoop E { s1 with rms_error := 0 }).lambda ∧
      (iterationBody E it s).order = s1.order ∧
      (iterationBody E it s).L_last = (rowLoop E { s1 with rms_error := 0 }).L_last := by
  have key : ∀ s1 : RowState,
      ({ dampingUpdate E it (rowLoop E { s1 with rms_error := 0 }) with
          iterations := it + 1 } : RowState).lambda = (rowLoop E { s1 with rms_error := 0 }).lambda ∧
      ({ dampingUpdate E it (rowLoop E { s1 with rms_error := 0 }) with
          iterations := it + 1 } : RowState).order = s1.order ∧
      ({ dampingUpdate E it (rowLoop E { s1 with rms_error := 0 }) with
          iterations := it + 1 } : RowState).L_last =
        (rowLoop E { s1 with rms_error := 0 }).L_last := by
    intro s1
    obtain ⟨d1, d2, d3, _⟩ :=
      dampingUpdate_fields E it (rowLoop E { s1 with rms_error := 0 })
    exact ⟨d2, by
      show (dampingUpdate E it (rowLoop E { s1 with rms_error := 0 })).order = s1.order
      rw [d1, rowLoop_order], d3⟩
  unfold iterationBody
  split_ifs with hsh
  · exact ⟨shuffle E s, Or.inr rfl, key _⟩
  · exact ⟨s, Or.inl rfl, key _⟩

/-- What an iteration of a task that covers all `m` rows does, in
the compiled configuration: the rows are updated once each in the order of
the array `order` as the iteration uses it (after the random reordering, when
there is one), a permutation of `0..m-1` that need not keep the rows with
`findex < 0` first; a friction row reads the current-iteration `lambda` of
the row its `findex` names when that row stands earlier in this order, and
the value left by the previous iteration when it stands later. -/
theorem friction_row_reads (E : RowEnv) (m : Nat) (it : Nat) (s : RowState)
    (hs : E.startRow = 0) (hr : E.nRows = (m : Int)) (ho : OrderOK m s.order)
    (p q : Nat) (hp : p < m) (hq : q < m) (hpq : p ≠ q)
    (hf : E.findex ((iterationBody E it s).order p) = ((iterationBody E it s).order q : Int)) :
    OrderOK m (iterationBody E it s).order ∧
    (q < p → (iterationBody E it s).L_last ((iterationBody E it s).order p) =
      (iterationBody E it s).lambda ((iterationBody E it s).order q)) ∧
    (p < q → (iterationBody E it s).L_last ((iterationBody E it s).order p) =
      s.lambda ((iterationBody E it s).order q)) := by
  have hs0 : E.startRow.toNat = 0 := by omega
  have hrn : E.nRows.toNat = m := by omega
  have hR : ∀ p, InChunk E p → p < m := by
    intro p hp
    have := hp.2
    omega
  obtain ⟨s1, hs1, e1, e2, e3⟩ := iterationBody_reads E it s
  have h1 : OrderOK m s1.order ∧ s1.lambda = s.lambda := by
    rcases hs1 with rfl | rfl
    · exact ⟨ho, rfl⟩
    · exact ⟨shuffle_orderOK E s m hR ho, (shuffle_spec E s).1⟩
  rw [e2] at hf ⊢
  rw [e1, e3, rowLoop_eq_steps, hrn]
  have hinj := orderOK_injective m s1.order h1.1
  obtain ⟨_, k2⟩ := rowLoopSteps_reads E m { s1 with rms_error := 0 } hs0 hinj m le_rfl
  obtain ⟨j1, j2⟩ := k2 p q hp hq hpq hf
  refine ⟨h1.1, j1, ?_⟩
  intro hlt
  rw [← h1.2]
  exact j2 hlt

/-! ## The friction example, with the reordering -/

theorem exFriction_task :
    (SOR_task exFriction 0).startRow.toNat = 0 ∧ (SOR_task exFriction 0).nRows.toNat = 2 := by
  constructor <;> decide

theorem exFriction_order :
    (shuffle (SOR_task exFriction 0) (SOR_init exFriction)).order 0 = 1 ∧
    (shuffle (SOR_task exFriction 0) (SOR_init exFriction)).order 1 = 0 := by
  constructor <;> decide

theorem exFriction_iteration :
    iterationBody (SOR_task exFriction 0) 0 (SOR_init exFriction) =
      { dampingUpdate (SOR_task exFriction 0) 0 (rowLoop (SOR_task exFriction 0)
          { shuffle (SOR_task exFriction 0) (SOR_init exFriction) with rms_error := 0 }) with
        iterations := 1 } := rfl

theorem exFriction_delta0 (st : RowState) (hl : st.lambda 0 = 0) (hf : ∀ n, n < 6 → st.fc n = 0)
    (hd : ∀ n, n < 6 → st.f_damp n = 0) :
    rowDelta (SOR_task exFriction 0) st 0 = 1 := by
  simp [rowDelta, b_damp_row, hl, hf, hd, SOR_task, SOR_bscaled, SOR_Ad, SOR_diag,
    SOR_iMJ, SOR_Adcfm, SOR_Jscaled, exFriction, dot6, List.range_succ]

theorem exFriction_rowLoop (s1 : RowState) (h0 : s1.order 0 = 1) (h1 : s1.order 1 = 0)
    (hl : ∀ i, i < 2 → s1.lambda i = 0) (hf : ∀ n, n < 6 → s1.fc n = 0)
    (hd : ∀ n, n < 6 → s1.f_damp n = 0) :
    (rowLoop (SOR_task exFriction 0) s1).lambda 0 = 1 ∧
    (rowLoop (SOR_task exFriction 0) s1).L_last 1 = 0 := by
  have e : rowLoop (SOR_task exFriction 0) s1 =
      rowUpdate (SOR_task exFriction 0) (rowUpdate (SOR_task exFriction 0) s1 1) 0 := by
    rw [rowLoop_eq_steps, exFriction_task.2, rowLoopSteps_succ, rowLoopSteps_succ,
      exFriction_task.1, h0, h1]
    rfl
  have hfi1 : (SOR_task exFriction 0).findex 1 = 0 := rfl
  have hfi0 : (SOR_task exFriction 0).findex 0 = -1 := rfl
  -- the friction row comes first and reads `lambda[0] = 0`
  have hc1 : clampLambda (s1.lambda 1 + rowDelta (SOR_task exFriction 0) s1 1)
      (lo_act (SOR_task exFriction 0) s1.lambda 1)
      (hi_act (SOR_task exFriction 0) s1.lambda 1) = s1.lambda 1 := by
    have hhi : hi_act (SOR_task exFriction 0) s1.lambda 1 = some 0 := by
      simp [hi_act, hfi1, SOR_task, exFriction, hl 0 (by omega), dFabs]
    have hlo : lo_act (SOR_task exFriction 0) s1.lambda 1 = some 0 := by
      simp [lo_act, hfi1, hhi]
    rw [hhi, hlo, hl 1 (by omega)]
    generalize (0 : ℚ) + rowDelta (SOR_task exFriction 0) s1 1 = x
    unfold clampLambda
    by_cases hx : x < 0
    · simp [ltLo, hx]
    · by_cases hx2 : x > 0
      · simp [ltLo, gtHi, hx, hx2]
      · simp [ltLo, gtHi, hx, hx2]
        linarith [not_lt.mp hx, not_lt.mp hx2]
  obtain ⟨a1, a2, a3, _, _⟩ := rowUpdate_fixed (SOR_task exFriction 0) s1 1 hc1
  have aL : (rowUpdate (SOR_task exFriction 0) s1 1).L_last 1 = 0 := by
    rw [rowUpdate_L_last, if_pos (by rw [hfi1]), Function.update_same, hfi1]
    exact hl 0 (by omega)
  rw [e]
  constructor
  · rw [rowUpdate_lambda, Function.update_same, a1, hl 0 (by omega)]
    have hdelta : rowDelta (SOR_task exFriction 0) (rowUpdate (SOR_task exFriction 0) s1 1) 0
        = 1 :=
      exFriction_delta0 _ (by rw [a1]; exact hl 0 (by omega)) (by rw [a2]; exact hf)
        (by rw [a3]; exact hd)
    have hlo0 : ∀ L : Nat → ℚ, lo_act (SOR_task exFriction 0) L 0 = some 0 := by
      intro L
      have hneg : ¬ (SOR_task exFriction 0).findex 0 ≥ 0 := by rw [hfi0]; decide
      simp only [lo_act, if_neg hneg]
      rfl
    have hhi0 : ∀ L : Nat → ℚ, hi_act (SOR_task exFriction 0) L 0 = none := by
      intro L
      have hneg : ¬ (SOR_task exFriction 0).findex 0 ≥ 0 := by rw [hfi0]; decide
      simp only [hi_act, if_neg hneg]
      rfl
    rw [hdelta, hlo0, hhi0]
    simp [clampLambda, ltLo, gtHi]
  · rw [rowUpdate_L_last, if_neg (by rw [hfi0]; decide), aL]

theorem exFriction_result :
    (iterationBody (SOR_task exFriction 0) 0 (SOR_init exFriction)).order 0 = 1 ∧
    (iterationBody (SOR_task exFriction 0) 0 (SOR_init exFriction)).order 1 = 0 ∧
    (iterationBody (SOR_task exFriction 0) 0 (SOR_init exFriction)).lambda 0 = 1 ∧
    (iterationBody (SOR_task exFriction 0) 0 (SOR_init exFriction)).L_last 1 = 0 := by
  obtain ⟨d1, d2, d3, _⟩ := dampingUpdate_fields (SOR_task exFriction 0) 0
    (rowLoop (SOR_task exFriction 0)
      { shuffle (SOR_task exFriction 0) (SOR_init exFriction) with rms_error := 0 })
  have ho : (iterationBody (SOR_task exFriction 0) 0 (SOR_init exFriction)).order =
      (shuffle (SOR_task exFriction 0) (SOR_init exFriction)).order := by
    rw [exFriction_iteration]
    exact d1.trans (rowLoop_order _ _)
  have hsl : (shuffle (SOR_task exFriction 0) (SOR_init exFriction)).lambda =
      (SOR_init exFriction).lambda := (shuffle_spec _ _).1
  have hsf : (shuffle (SOR_task exFriction 0) (SOR_init exFriction)).fc =
      (SOR_init exFriction).fc := by rw [shuffle_eta]
  have hsd : (shuffle (SOR_task exFriction 0) (SOR_init exFriction)).f_damp =
      (SOR_init exFriction).f_damp := by rw [shuffle_eta]
  obtain ⟨r1, r2⟩ := exFriction_rowLoop
    { shuffle (SOR_task exFriction 0) (SOR_init exFriction) with rms_error := 0 }
    exFriction_order.1 exFriction_order.2
    (by
      intro i hi
      show (shuffle (SOR_task exFriction 0) (SOR_init exFriction)).lambda i = 0
      rw [hsl]
      exact if_pos hi)
    (by
      intro n hn
      show (shuffle (SOR_task exFriction 0) (SOR_init exFriction)).fc n = 0
      rw [hsf]
      exact if_pos hn)
    (by
      intro n _
      show (shuffle (SOR_task exFriction 0) (SOR_init exFriction)).f_damp n = 0
      rw [hsd]
      rfl)
  refine ⟨by rw [ho]; exact exFriction_order.1, by rw [ho]; exact exFriction_order.2, ?_, ?_⟩
  · rw [exFriction_iteration]
    exact (congrFun d2 0).trans r1
  · rw [exFriction_iteration]
    exact (congrFun d3 1).trans r2

/-- C15. The code at a failing input: a normal row `0` and a friction row `1`
coupled to it, with `dRandInt` returning `0`. The random reordering of
iteration `0` puts the friction row first; it is updated before row `0` and
reads `lambda[0] = 0`, not the value `1` that row `0` gets in this iteration,
against the comment of the row loop that all `lambda[]` values needed have
already been computed. -/
theorem C15_friction_row_updated_first :
    ¬ (∀ p q, p < 2 → q < 2 →
        exFriction.findex
          ((iterationBody (SOR_task exFriction 0) 0 (SOR_init exFriction)).order p) < 0 →
        exFriction.findex
          ((iterationBody (SOR_task exFriction 0) 0 (SOR_init exFriction)).order q) ≥ 0 →
        p < q) ∧
    ¬ ((iterationBody (SOR_task exFriction 0) 0 (SOR_init exFriction)).L_last 1 =
        (iterationBody (SOR_task exFriction 0) 0 (SOR_init exFriction)).lambda 0) := by
  obtain ⟨h0, h1, h2, h3⟩ := exFriction_result
  constructor
  · intro h
    have := h 1 0 (by omega) (by omega) (by rw [h1]; decide) (by rw [h0]; decide)
    omega
  · rw [h2, h3]
    norm_num

theorem exFriction_row_reads :
    (iterationBody (SOR_task exFriction 0) 0 (SOR_init exFriction)).L_last
        ((iterationBody (SOR_task exFriction 0) 0 (SOR_init exFriction)).order 0) =
      (SOR_init exFriction).lambda
        ((iterationBody (SOR_task exFriction 0) 0 (SOR_init exFriction)).order 1) :=
  (friction_row_reads (SOR_task exFriction 0) 2 0 (SOR_init exFriction) (by decide)
    (by decide) (orderFill_orderOK exFriction.findex 2) 0 1 (by decide) (by decide) (by decide)
    (by rw [exFriction_result.1, exFriction_result.2.1]; rfl)).2.2 (by decide)

/-! ## Pre-scaling -/

theorem foldl_range6 {α : Type} (f : α → Nat → α) (p : α) :
    (List.range 6).foldl f p = f (f (f (f (f (f p 0) 1) 2) 3) 4) 5 := rfl

/-- C21. Pre-scaling is a faithful optimisation: for every row `i`, the
unclamped `delta` that `ComputeRows` computes from the pre-scaled arrays
(`b*Ad`, `J*Ad`, `Adcfm = Ad*cfm`, `b_damp = Ad*(JiM_i . f_damp)`) equals
`Ad[i] * (b[i] - cfm[i]*lambda[i] + JiM_i . f_damp - J_i . fc)` in terms of the
unscaled `b`, `J` and `cfm` passed to `SOR_LCP`, the second body's terms
included only when `jb[2i+1] >= 0`. -/
theorem C21_prescaling_faithful (A : SORArgs) (c0 : Nat) (s : RowState) (i : Nat)
    (hi : i < A.m) :
    rowDelta (SOR_task A c0) s i =
      SOR_Ad A i * (A.b i - A.cfm i * s.lambda i
        + (Finset.sum (Finset.range 6) (fun j =>
              A.JiM (12 * i + j) * s.f_damp ((6 * A.jb (i * 2)).toNat + j))
            + (if A.jb (i * 2 + 1) ≥ 0 then
                Finset.sum (Finset.range 6) (fun j =>
                  A.JiM (12 * i + 6 + j) * s.f_damp ((6 * A.jb (i * 2 + 1)).toNat + j))
              else 0))
        - (Finset.sum (Finset.range 6) (fun j =>
              A.J (12 * i + j) * s.fc ((6 * A.jb (i * 2)).toNat + j))
            + (if A.jb (i * 2 + 1) ≥ 0 then
                Finset.sum (Finset.range 6) (fun j =>
                  A.J (12 * i + 6 + j) * s.fc ((6 * A.jb (i * 2 + 1)).toNat + j))
              else 0))) := by
  have hJ : ∀ n, n < 12 * A.m → SOR_Jscaled A n = A.J n * SOR_Ad A (n / 12) := by
    intro n hn
    unfold SOR_Jscaled
    rw [if_pos hn]
  have d0 : (12 * i) / 12 = i := by omega
  have da : ∀ c, c < 6 → (12 * i + c) / 12 = i := fun c hc => by omega
  have d6 : (12 * i + 6) / 12 = i := by omega
  have db : ∀ c, c < 6 → (12 * i + 6 + c) / 12 = i := fun c hc => by omega
  have hJ0 : SOR_Jscaled A (12 * i) = A.J (12 * i) * SOR_Ad A i := by
    rw [hJ _ (by omega), d0]
  have hJa : ∀ c, c < 6 → SOR_Jscaled A (12 * i + c) = A.J (12 * i + c) * SOR_Ad A i := by
    intro c hc
    rw [hJ _ (by omega), da c hc]
  have hJ6 : SOR_Jscaled A (12 * i + 6) = A.J (12 * i + 6) * SOR_Ad A i := by
    rw [hJ _ (by omega), d6]
  have hJb : ∀ c, c < 6 → SOR_Jscaled A (12 * i + 6 + c) = A.J (12 * i + 6 + c) * SOR_Ad A i := by
    intro c hc
    rw [hJ _ (by omega), db c hc]
  have hM6 : ∀ c, A.JiM (12 * i + c + 6) = A.JiM (12 * i + 6 + c) := by
    intro c
    congr 1
    omega
  have hb : SOR_bscaled A i = A.b i * SOR_Ad A i := by
    unfold SOR_bscaled
    rw [if_pos hi]
  have hcf : SOR_Adcfm A i = SOR_Ad A i * A.cfm i := by
    unfold SOR_Adcfm
    rw [if_pos hi]
  have hE : (SOR_task A c0).J = SOR_Jscaled A ∧ (SOR_task A c0).JiM = A.JiM ∧
      (SOR_task A c0).b = SOR_bscaled A ∧ (SOR_task A c0).Adcfm = SOR_Adcfm A ∧
      (SOR_task A c0).Ad = SOR_Ad A ∧ (SOR_task A c0).jb = A.jb := ⟨rfl, rfl, rfl, rfl, rfl, rfl⟩
  obtain ⟨e1, e2, e3, e4, e5, e6⟩ := hE
  unfold rowDelta b_damp_row
  rw [e1, e2, e3, e4, e5, e6]
  by_cases h2 : A.jb (i * 2 + 1) ≥ 0
  · simp only [foldl_range6, dot6, hb, hcf, if_pos h2, Finset.sum_range_succ,
      Finset.sum_range_zero, Nat.add_zero, zero_add, Nat.mul_comm i 12]
    rw [hJ0, hJa 1 (by omega), hJa 2 (by omega), hJa 3 (by omega), hJa 4 (by omega),
      hJa 5 (by omega), hJ6, hJb 1 (by omega), hJb 2 (by omega), hJb 3 (by omega),
      hJb 4 (by omega), hJb 5 (by omega), hM6 1, hM6 2, hM6 3, hM6 4, hM6 5]
    ring
  · simp only [foldl_range6, dot6, hb, hcf, if_neg h2, Finset.sum_range_succ,
      Finset.sum_range_zero, Nat.add_zero, zero_add, Nat.mul_comm i 12]
    rw [hJ0, hJa 1 (by omega), hJa 2 (by omega), hJa 3 (by omega), hJa 4 (by omega),
      hJa 5 (by omega)]
    ring

theorem C21_prescaling_faithful_witness :
    rowDelta (SOR_task exOneRow 0) (SOR_init exOneRow) 0 =
      SOR_Ad exOneRow 0 * (exOneRow.b 0 - exOneRow.cfm 0 * (SOR_init exOneRow).lambda 0
        + (Finset.sum (Finset.range 6) (fun j =>
              exOneRow.JiM (12 * 0 + j)
                * (SOR_init exOneRow).f_damp ((6 * exOneRow.jb (0 * 2)).toNat + j))
            + (if exOneRow.jb (0 * 2 + 1) ≥ 0 then
                Finset.sum (Finset.range 6) (fun j =>
                  exOneRow.JiM (12 * 0 + 6 + j)
                    * (SOR_init exOneRow).f_damp ((6 * exOneRow.jb (0 * 2 + 1)).toNat + j))
              else 0))
        - (Finset.sum (Finset.range 6) (fun j =>
              exOneRow.J (12 * 0 + j) * (SOR_init exOneRow).fc ((6 * exOneRow.jb (0 * 2)).toNat + j))
            + (if exOneRow.jb (0 * 2 + 1) ≥ 0 then
                Finset.sum (Finset.range 6) (fun j =>
                  exOneRow.J (12 * 0 + 6 + j)
                    * (SOR_init exOneRow).fc ((6 * exOneRow.jb (0 * 2 + 1)).toNat + j))
              else 0))) :=
  C21_prescaling_faithful exOneRow 0 (SOR_init exOneRow) 0 (by decide)

/-! ## No warm start -/

theorem tasks_no_iteration (E : List RowEnv) (s : RowState)
    (h : ∀ e, e ∈ E → e.num_iterations ≤ 0) :
    E.foldl (fun s e => ComputeRows e s) s = s := by
  induction E generalizing s with
  | nil => rfl
  | cons e l ih =>
    rw [List.foldl_cons]
    have h0 : e.num_iterations.toNat = 0 := by
      have := h e (List.mem_cons_self _ _)
      omega
    have : ComputeRows e s = s := by
      unfold ComputeRows
      rw [h0]
      rfl
    rw [this]
    exact ih s (fun e' he' => h e' (List.mem_cons_of_mem _ he'))

/-- C22. With warm starting disabled (the compiled configuration) `SOR_LCP`
overwrites `lambda` and `fc` with zeros before iterating: two runs that differ
only in the incoming contents of the arrays `lambda[0..m)` and `fc[0..6nb)`
leave the same memory; and with no iteration (`num_iterations <= 0`) it
returns `lambda = 0` and `fc = 0` for every row and body, whatever `lo` and
`hi` are. -/
theorem C22_no_warm_start (A : SORArgs) (lambda' fc' : Nat → ℚ)
    (hl : ∀ i, A.m ≤ i → lambda' i = A.lambda i)
    (hf : ∀ n, A.nb * 6 ≤ n → fc' n = A.fc n) :
    SOR_LCP { A with lambda := lambda', fc := fc' } = SOR_LCP A ∧
    (A.qs.num_iterations ≤ 0 →
      (∀ i, i < A.m → (SOR_LCP A).lambda i = 0) ∧
      (∀ n, n < A.nb * 6 → (SOR_LCP A).fc n = 0)) := by
  constructor
  · have hinit : SOR_init { A with lambda := lambda', fc := fc' } = SOR_init A := by
      have h1 : dSetZero lambda' A.m = dSetZero A.lambda A.m := by
        funext i
        unfold dSetZero
        by_cases hi : i < A.m
        · rw [if_pos hi, if_pos hi]
        · rw [if_neg hi, if_neg hi]
          exact hl i (by omega)
      have h2 : dSetZero fc' (A.nb * 6) = dSetZero A.fc (A.nb * 6) := by
        funext n
        unfold dSetZero
        by_cases hn : n < A.nb * 6
        · rw [if_pos hn, if_pos hn]
        · rw [if_neg hn, if_neg hn]
          exact hf n (by omega)
      show ({ order := (orderFill A.findex A.m).order, lambda := dSetZero lambda' A.m,
              fc := dSetZero fc' (A.nb * 6), b_damp := fun _ => 0, delta_error := fun _ => 0,
              f_damp := A.f_damp, v_damp := A.v_damp, v_joint_damp := A.v_joint_damp,
              rms_error := 0, randCalls := 0, iterations := 0, L_last := fun _ => 0 } : RowState)
          = _
      rw [h1, h2]
      rfl
    have htasks : SOR_tasks { A with lambda := lambda', fc := fc' } = SOR_tasks A := rfl
    unfold SOR_LCP
    rw [hinit, htasks]
  · intro hn
    have hz : SOR_LCP A = SOR_init A := by
      unfold SOR_LCP
      apply tasks_no_iteration
      intro e he
      unfold SOR_tasks at he
      rw [List.mem_map] at he
      obtain ⟨i, _, rfl⟩ := he
      exact hn
    rw [hz]
    constructor
    · intro i hi
      exact if_pos hi
    · intro n hn'
      exact if_pos hn'

theorem C22_no_warm_start_witness :
    SOR_LCP { exNoIteration with
        lambda := fun i => if i < 1 then 0 else 5, fc := fun n => if n < 6 then 0 else 7 } =
      SOR_LCP exNoIteration ∧
    (SOR_LCP exNoIteration).lambda 0 = 0 :=
  ⟨(C22_no_warm_start exNoIteration (fun i => if i < 1 then 0 else 5)
      (fun n => if n < 6 then 0 else 7)
      (fun i hi => if_neg (not_lt.mpr hi)) (fun n hn => if_neg (not_lt.mpr hn))).1,
   ((C22_no_warm_start exNoIteration (fun i => if i < 1 then 0 else 5)
      (fun n => if n < 6 then 0 else 7)
      (fun i hi => if_neg (not_lt.mpr hi)) (fun n hn => if_neg (not_lt.mpr hn))).2
      (by decide)).1 0 (by decide)⟩

/-! ## The order inside the two groups -/

/-- The rows placed at the front stand in ascending order, the rows placed at
the end in descending order, and all of them are below the loop counter. -/
theorem orderFill_steps_mono (findex : Nat → Int) (m t : Nat) (ht : t ≤ m) :
    ((List.range t).foldl (orderFillStep findex)
      { order := fun _ => 0, head := 0, tail := (m : Int) - 1 }).tail =
      (m : Int) - 1 - ((t : Int) - (((List.range t).foldl (orderFillStep findex)
        { order := fun _ => 0, head := 0, tail := (m : Int) - 1 }).head : Int)) ∧
    ((List.range t).foldl (orderFillStep findex)
      { order := fun _ => 0, head := 0, tail := (m : Int) - 1 }).head ≤ t ∧
    (∀ p : Nat, (p < ((List.range t).foldl (orderFillStep findex)
        { order := fun _ => 0, head := 0, tail := (m : Int) - 1 }).head ∨
        (((List.range t).foldl (orderFillStep findex)
          { order := fun _ => 0, head := 0, tail := (m : Int) - 1 }).tail < (p : Int) ∧ p < m)) →
      ((List.range t).foldl (orderFillStep findex)
        { order := fun _ => 0, head := 0, tail := (m : Int) - 1 }).order p < t) ∧
    (∀ p q : Nat, p < q → q < ((List.range t).foldl (orderFillStep findex)
        { order := fun _ => 0, head := 0, tail := (m : Int) - 1 }).head →
      ((List.range t).foldl (orderFillStep findex)
        { order := fun _ => 0, head := 0, tail := (m : Int) - 1 }).order p <
      ((List.range t).foldl (orderFillStep findex)
        { order := fun _ => 0, head := 0, tail := (m : Int) - 1 }).order q) ∧
    (∀ p q : Nat, ((List.range t).foldl (orderFillStep findex)
        { order := fun _ => 0, head := 0, tail := (m : Int) - 1 }).tail < (p : Int) → p < q →
      q < m →
      ((List.range t).foldl (orderFillStep findex)
        { order := fun _ => 0, head := 0, tail := (m : Int) - 1 }).order q <
      ((List.range t).foldl (orderFillStep findex)
        { order := fun _ => 0, head := 0, tail := (m : Int) - 1 }).order p) := by
  induction t with
  | zero =>
    refine ⟨by simp, by simp, ?_, ?_, ?_⟩
    · intro p hp
      simp only [List.range_zero, List.foldl_nil] at hp
      omega
    · intro p q _ hq
      simp only [List.range_zero, List.foldl_nil] at hq
      omega
    · intro p q hp hpq hq
      simp only [List.range_zero, List.foldl_nil] at hp
      omega
  | succ t ih =>
    have ih' := ih (by omega)
    simp only [List.range_succ, List.foldl_append, List.foldl_cons, List.foldl_nil] at ih' ⊢
    generalize (List.range t).foldl (orderFillStep findex)
      { order := fun _ => 0, head := 0, tail := (m : Int) - 1 } = f0 at ih' ⊢
    obtain ⟨h1, h2, h3, h4, h5⟩ := ih'
    unfold orderFillStep
    by_cases hneg : findex t < 0
    · rw [if_pos hneg]
      refine ⟨by simp only []; omega, by simp only []; omega, ?_, ?_, ?_⟩
      · intro p hp
        simp only [Function.update_apply] at hp ⊢
        by_cases hph : p = f0.head
        · rw [if_pos hph]; omega
        · rw [if_neg hph]
          have := h3 p (by omega)
          omega
      · intro p q hpq hq
        simp only [Function.update_apply] at hq ⊢
        rw [if_neg (show ¬ p = f0.head by omega)]
        by_cases hqh : q = f0.head
        · rw [if_pos hqh]
          exact h3 p (Or.inl (by omega))
        · rw [if_neg hqh]
          exact h4 p q hpq (by omega)
      · intro p q hp hpq hq
        simp only [Function.update_apply] at hp ⊢
        rw [if_neg (show ¬ q = f0.head by omega), if_neg (show ¬ p = f0.head by omega)]
        exact h5 p q hp hpq hq
    · rw [if_neg hneg]
      have htl2 : (f0.tail.toNat : Int) = f0.tail := by omega
      refine ⟨by simp only []; omega, by simp only []; omega, ?_, ?_, ?_⟩
      · intro p hp
        simp only [Function.update_apply] at hp ⊢
        by_cases hph : p = f0.tail.toNat
        · rw [if_pos hph]; omega
        · rw [if_neg hph]
          have := h3 p (by omega)
          omega
      · intro p q hpq hq
        simp only [Function.update_apply] at hq ⊢
        rw [if_neg (show ¬ p = f0.tail.toNat by omega),
          if_neg (show ¬ q = f0.tail.toNat by omega)]
        exact h4 p q hpq hq
      · intro p q hp hpq hq
        simp only [Function.update_apply] at hp ⊢
        rw [if_neg (show ¬ q = f0.tail.toNat by omega)]
        by_cases hph : p = f0.tail.toNat
        · rw [if_pos hph]
          exact h3 q (Or.inr ⟨by omega, hq⟩)
        · rw [if_neg hph]
          exact h5 p q (by omega) hpq hq

/-- C23, as stated, fails: for a normal row `0` and two friction rows `1` and
`2`, the fill loop puts row `1` at the end and row `2` before it, so the two
friction rows stand in descending row index. -/
theorem C23_counterexample :
    ¬ (∀ p q, p < q → q < 3 →
        exContactFindex ((orderFill exContactFindex 3).order p) ≥ 0 →
        exContactFindex ((orderFill exContactFindex 3).order q) ≥ 0 →
        (orderFill exContactFindex 3).order p < (orderFill exContactFindex 3).order q) := by
  intro h
  have := h 1 2 (by decide) (by decide) (by decide) (by decide)
  revert this
  decide

/-- C23, amended. In the array `order` built by `SOR_LCP`, two rows with
`findex < 0` appear in ascending row index (assembly order), and two rows
with `findex >= 0` appear in descending row index (reverse assembly order),
the second group being filled from the end of the array. -/
theorem C23_order_within_groups (findex : Nat → Int) (m p q : Nat) (hpq : p < q) (hq : q < m) :
    (findex ((orderFill findex m).order p) < 0 → findex ((orderFill findex m).order q) < 0 →
      (orderFill findex m).order p < (orderFill findex m).order q) ∧
    (findex ((orderFill findex m).order p) ≥ 0 → findex ((orderFill findex m).order q) ≥ 0 →
      (orderFill findex m).order q < (orderFill findex m).order p) := by
  obtain ⟨h1, h2, _, h4, h5⟩ := orderFill_steps_mono findex m m le_rfl
  obtain ⟨_, _, s3, s4⟩ := orderFill_steps_sign findex m m le_rfl
  unfold orderFill
  constructor
  · intro hp hq'
    apply h4 p q hpq
    by_contra hc
    have := s4 q (by omega) hq
    omega
  · intro hp hq'
    apply h5 p q _ hpq hq
    by_contra hc
    have := s3 p (by omega)
    omega

theorem C23_order_within_groups_witness :
    (orderFill exContactFindex 3).order 2 < (orderFill exContactFindex 3).order 1 :=
  (C23_order_within_groups exContactFindex 3 1 2 (by decide) (by decide)).2 (by decide)
    (by decide)

/-! ## The random reordering -/

theorem land_seven (k : Nat) : k &&& 7 = 0 ↔ k % 8 = 0 := by
  have h := Nat.and_pow_two_sub_one_eq_mod k 3
  have e : (2 : Nat) ^ 3 - 1 = 7 := by norm_num
  have e2 : (2 : Nat) ^ 3 = 8 := by norm_num
  rw [e, e2] at h
  rw [h]

theorem swapStep_swapAt (E : RowEnv) (s : RowState) (k : Nat) :
    (swapStep E s k).order =
      swapAt s.order (E.startRow.toNat + 1 + k)
        (dRandInt E.draws s.randCalls (E.startRow.toNat + 1 + k + 1 - E.startRow.toNat)
          + E.startRow.toNat) := rfl

/-- C24. Random reordering: `ComputeRows` shuffles at iteration `k` exactly
when `k mod 8 = 0` (iteration `0` included); for every sequence of random
draws each pass of a shuffle exchanges two entries of `order` at positions
inside `[startRow, startRow+nRows)`; the shuffle leaves every entry outside
that range (and all other memory) unchanged, and leaves `order` a permutation
of `0..m-1` with the same row indices inside the range of the chunk. -/
theorem C24_random_reordering (E : RowEnv) (m k : Nat) (s : RowState)
    (hR : ∀ p, InChunk E p → p < m) (ho : OrderOK m s.order) :
    ((iterationBody E k s).order = if k % 8 = 0 then (shuffle E s).order else s.order) ∧
    (∀ (st : RowState) (j : Nat), j + 1 < E.nRows.toNat →
      InChunk E (E.startRow.toNat + 1 + j) ∧
      InChunk E (dRandInt E.draws st.randCalls (E.startRow.toNat + 1 + j + 1 - E.startRow.toNat)
          + E.startRow.toNat) ∧
      (swapStep E st j).order =
        swapAt st.order (E.startRow.toNat + 1 + j)
          (dRandInt E.draws st.randCalls (E.startRow.toNat + 1 + j + 1 - E.startRow.toNat)
            + E.startRow.toNat)) ∧
    (∀ p, ¬ InChunk E p → (shuffle E s).order p = s.order p) ∧
    shuffle E s =
      { s with order := (shuffle E s).order, randCalls := (shuffle E s).randCalls } ∧
    OrderOK m (shuffle E s).order ∧
    (∀ p, InChunk E p → ∃ q, InChunk E q ∧ (shuffle E s).order p = s.order q) ∧
    (∀ q, InChunk E q → ∃ p, InChunk E p ∧ (shuffle E s).order p = s.order q) := by
  obtain ⟨_, _, h3, h4, h5⟩ := shuffle_spec E s
  refine ⟨?_, ?_, ?_, shuffle_eta E s, shuffle_orderOK E s m hR ho, ?_, ?_⟩
  · obtain ⟨d1, _⟩ := dampingUpdate_fields E k
      (rowLoop E { (if k &&& 7 = 0 then shuffle E s else s) with rms_error := 0 })
    have : (iterationBody E k s).order = (if k &&& 7 = 0 then shuffle E s else s).order :=
      d1.trans (rowLoop_order _ _)
    rw [this]
    by_cases hk : k % 8 = 0
    · rw [if_pos hk, if_pos ((land_seven k).mpr hk)]
    · rw [if_neg hk, if_neg (fun h => hk ((land_seven k).mp h))]
  · intro st j hj
    have hlt := dRandInt_lt E.draws st.randCalls (E.startRow.toNat + 1 + j + 1 - E.startRow.toNat)
      (by omega)
    refine ⟨⟨by omega, by omega⟩, ⟨by omega, by omega⟩, swapStep_swapAt E st j⟩
  · intro p hp
    exact h3 p hp
  · intro p hp
    obtain ⟨q, q1, q2, q3⟩ := h4 p hp.1 hp.2
    exact ⟨q, ⟨q1, q2⟩, q3⟩
  · intro q hq
    obtain ⟨p, p1, p2, p3⟩ := h5 q hq.1 hq.2
    exact ⟨p, ⟨p1, p2⟩, p3⟩

theorem C24_random_reordering_witness :
    (iterationBody (SOR_task exFriction 0) 0 (SOR_init exFriction)).order =
      if 0 % 8 = 0 then (shuffle (SOR_task exFriction 0) (SOR_init exFriction)).order
      else (SOR_init exFriction).order :=
  (C24_random_reordering (SOR_task exFriction 0) 2 0 (SOR_init exFriction)
    (SOR_task_range exFriction 0) (orderFill_orderOK exFriction.findex 2)).1

/-! ## The shuffle is uniform -/

theorem swapAt_apply (o : Nat → Nat) (i j p : Nat) :
    swapAt o i j p = if p = j then o i else if p = i then o j else o p := by
  simp only [swapAt, Function.update_apply]

theorem swapAt_swapAt (o : Nat → Nat) (i j : Nat) : swapAt (swapAt o i j) i j = o := by
  funext p
  simp only [swapAt_apply]
  by_cases h1 : p = j
  · subst h1
    by_cases h2 : i = p
    · subst h2
      simp
    · simp [h2]
  · by_cases h2 : p = i
    · subst h2
      simp [h1]
    · simp [h1, h2]

theorem shuffleWith_congr (a : Nat) (r r' : Nat → Nat) (o : Nat → Nat) (t : Nat)
    (h : ∀ k, k < t → r k = r' k) : shuffleWith a r o t = shuffleWith a r' o t := by
  induction t with
  | zero => rfl
  | succ t ih =>
    show swapAt (shuffleWith a r o t) _ _ = swapAt (shuffleWith a r' o t) _ _
    rw [ih (fun k hk => h k (by omega)), h t (by omega)]

/-- The reordering loop of `ComputeRows`, pass by pass, is `shuffleWith` for
the values returned by `dRandInt`. -/
theorem swapSteps_shuffleWith (E : RowEnv) (s : RowState) (t : Nat) :
    ((List.range t).foldl (swapStep E) s).order =
      shuffleWith E.startRow.toNat (fun k => dRandInt E.draws (s.randCalls + k) (k + 2))
        s.order t ∧
    ((List.range t).foldl (swapStep E) s).randCalls = s.randCalls + t := by
  induction t with
  | zero => exact ⟨rfl, rfl⟩
  | succ t ih =>
    simp only [List.range_succ, List.foldl_append, List.foldl_cons, List.foldl_nil]
    obtain ⟨i1, i2⟩ := ih
    refine ⟨?_, ?_⟩
    · rw [swapStep_swapAt, i1, i2]
      show _ = swapAt _ _ _
      have e : E.startRow.toNat + 1 + t + 1 - E.startRow.toNat = t + 2 := by omega
      rw [e]
    · show ((List.range t).foldl (swapStep E) s).randCalls + 1 = _
      rw [i2]
      omega

theorem shuffle_shuffleWith (E : RowEnv) (s : RowState) :
    (shuffle E s).order =
      shuffleWith E.startRow.toNat (fun k => dRandInt E.draws (s.randCalls + k) (k + 2))
        s.order (E.nRows.toNat - 1) :=
  (swapSteps_shuffleWith E s _).1

/-- After `t` passes the positions `a .. a+t` hold the entries they held
before, in some arrangement, and no other position has changed. -/
theorem shuffleWith_spec (a : Nat) (r : Nat → Nat) (o : Nat → Nat) (t : Nat)
    (hr : ∀ k, k < t → r k ≤ k + 1) :
    (∀ p, (p < a ∨ a + t < p) → shuffleWith a r o t p = o p) ∧
    (∀ p, a ≤ p → p ≤ a + t → ∃ q, a ≤ q ∧ q ≤ a + t ∧ shuffleWith a r o t p = o q) := by
  induction t with
  | zero =>
    refine ⟨fun p _ => rfl, ?_⟩
    intro p h1 h2
    exact ⟨p, h1, h2, rfl⟩
  | succ t ih =>
    obtain ⟨i1, i2⟩ := ih (fun k hk => hr k (by omega))
    have hrt := hr t (by omega)
    constructor
    · intro p hp
      show swapAt (shuffleWith a r o t) (a + 1 + t) (r t + a) p = o p
      rw [swapAt_apply, if_neg (by omega), if_neg (by omega)]
      exact i1 p (by omega)
    · intro p h1 h2
      show ∃ q, a ≤ q ∧ q ≤ a + (t + 1) ∧
        swapAt (shuffleWith a r o t) (a + 1 + t) (r t + a) p = o q
      rw [swapAt_apply]
      by_cases hp1 : p = r t + a
      · rw [if_pos hp1]
        refine ⟨a + 1 + t, by omega, by omega, ?_⟩
        exact i1 _ (by omega)
      · rw [if_neg hp1]
        by_cases hp2 : p = a + 1 + t
        · rw [if_pos hp2]
          obtain ⟨q, q1, q2, q3⟩ := i2 (r t + a) (by omega) (by omega)
          exact ⟨q, q1, by omega, q3⟩
        · rw [if_neg hp2]
          obtain ⟨q, q1, q2, q3⟩ := i2 p h1 (by omega)
          exact ⟨q, q1, by omega, q3⟩

/-- Different draws give different arrangements. -/
theorem shuffleWith_injective (a : Nat) (o : Nat → Nat) (t : Nat)
    (hinj : ∀ p q, a ≤ p → p ≤ a + t → a ≤ q → q ≤ a + t → o p = o q → p = q) :
    ∀ r r' : Nat → Nat, (∀ k, k < t → r k ≤ k + 1) → (∀ k, k < t → r' k ≤ k + 1) →
      shuffleWith a r o t = shuffleWith a r' o t → ∀ k, k < t → r k = r' k := by
  induction t with
  | zero => intro r r' _ _ _ k hk; omega
  | succ t ih =>
    intro r r' hr hr' he
    have hrt := hr t (by omega)
    have hrt' := hr' t (by omega)
    obtain ⟨c1, c2⟩ := shuffleWith_spec a r o t (fun k hk => hr k (by omega))
    obtain ⟨c1', c2'⟩ := shuffleWith_spec a r' o t (fun k hk => hr' k (by omega))
    -- where the entry `o (a + 1 + t)` stands in the common result
    have hpos : ∀ (r0 : Nat → Nat), (∀ k, k < t → r0 k ≤ k + 1) → r0 t ≤ t + 1 →
        ∀ p, a ≤ p → p ≤ a + (t + 1) →
        swapAt (shuffleWith a r0 o t) (a + 1 + t) (r0 t + a) p = o (a + 1 + t) →
        p = r0 t + a := by
      intro r0 hr0 hr0t p h1 h2 hv
      obtain ⟨d1, d2⟩ := shuffleWith_spec a r0 o t hr0
      by_contra hne
      rw [swapAt_apply, if_neg hne] at hv
      by_cases hp2 : p = a + 1 + t
      · rw [if_pos hp2] at hv
        obtain ⟨q, q1, q2, q3⟩ := d2 (r0 t + a) (by omega) (by omega)
        rw [q3] at hv
        have := hinj q (a + 1 + t) q1 (by omega) (by omega) (by omega) hv
        omega
      · rw [if_neg hp2] at hv
        obtain ⟨q, q1, q2, q3⟩ := d2 p h1 (by omega)
        rw [q3] at hv
        have := hinj q (a + 1 + t) q1 (by omega) (by omega) (by omega) hv
        omega
    have hval : swapAt (shuffleWith a r o t) (a + 1 + t) (r t + a) (r t + a) = o (a + 1 + t) := by
      rw [swapAt_apply, if_pos rfl]
      exact c1 _ (by omega)
    have he' : swapAt (shuffleWith a r o t) (a + 1 + t) (r t + a) =
        swapAt (shuffleWith a r' o t) (a + 1 + t) (r' t + a) := he
    have hlast : r t = r' t := by
      have h1 := hpos r' (fun k hk => hr' k (by omega)) hrt' (r t + a) (by omega) (by omega)
        (by rw [← he']; exact hval)
      omega
    have hprev : shuffleWith a r o t = shuffleWith a r' o t := by
      have := congrArg (fun f => swapAt f (a + 1 + t) (r t + a)) he'
      simp only [swapAt_swapAt] at this
      rw [this, hlast, swapAt_swapAt]
    have hih := ih (fun p q h1 h2 h3 h4 => hinj p q h1 (by omega) h3 (by omega)) r r'
      (fun k hk => hr k (by omega)) (fun k hk => hr' k (by omega)) hprev
    intro k hk
    by_cases hkt : k = t
    · rw [hkt]; exact hlast
    · exact hih k (by omega)

/-- Every arrangement is reached by some draws. -/
theorem shuffleWith_surjective (a : Nat) (o : Nat → Nat) (t : Nat)
    (hinj : ∀ p q, a ≤ p → p ≤ a + t → a ≤ q → q ≤ a + t → o p = o q → p = q) :
    ∀ o' : Nat → Nat, (∀ p, (p < a ∨ a + t < p) → o' p = o p) →
      (∀ q, a ≤ q → q ≤ a + t → ∃ p, a ≤ p ∧ p ≤ a + t ∧ o' p = o q) →
      ∃ r : Nat → Nat, (∀ k, k < t → r k ≤ k + 1) ∧ shuffleWith a r o t = o' := by
  induction t with
  | zero =>
    intro o' h1 h2
    refine ⟨fun _ => 0, fun k hk => by omega, ?_⟩
    funext p
    show o p = o' p
    by_cases hp : p = a
    · obtain ⟨p', p1, p2, p3⟩ := h2 a le_rfl (by omega)
      have : p' = a := by omega
      rw [hp, ← p3, this]
    · exact (h1 p (by omega)).symm
  | succ t ih =>
    intro o' h1 h2
    obtain ⟨j, j1, j2, j3⟩ := h2 (a + 1 + t) (by omega) (by omega)
    -- the arrangement before the last pass
    have hprev1 : ∀ p, (p < a ∨ a + t < p) → swapAt o' (a + 1 + t) j p = o p := by
      intro p hp
      rw [swapAt_apply]
      by_cases hpj : p = j
      · rw [if_pos hpj]
        have hj : j = a + 1 + t := by omega
        rw [hpj, hj]
        rw [hj] at j3
        exact j3
      · rw [if_neg hpj]
        by_cases hpi : p = a + 1 + t
        · rw [if_pos hpi, hpi]
          exact j3
        · rw [if_neg hpi]
          exact h1 p (by omega)
    have hprev2 : ∀ q, a ≤ q → q ≤ a + t →
        ∃ p, a ≤ p ∧ p ≤ a + t ∧ swapAt o' (a + 1 + t) j p = o q := by
      intro q q1 q2
      obtain ⟨p, p1, p2, p3⟩ := h2 q q1 (by omega)
      have hpj : p ≠ j := by
        intro e
        rw [e, j3] at p3
        have := hinj _ _ (by omega) (by omega) q1 (by omega) p3
        omega
      by_cases hpi : p = a + 1 + t
      · refine ⟨j, j1, ?_, ?_⟩
        · have : j ≠ a + 1 + t := fun e => hpj (by omega)
          omega
        · rw [swapAt_apply, if_pos rfl, ← hpi]
          exact p3
      · refine ⟨p, p1, by omega, ?_⟩
        rw [swapAt_apply, if_neg hpj, if_neg hpi]
        exact p3
    obtain ⟨r, hr, hsw⟩ := ih (fun p q h1 h2 h3 h4 => hinj p q h1 (by omega) h3 (by omega))
      (swapAt o' (a + 1 + t) j) hprev1 hprev2
    refine ⟨Function.update r t (j - a), ?_, ?_⟩
    · intro k hk
      by_cases hkt : k = t
      · rw [hkt, Function.update_same]
        omega
      · rw [Function.update_noteq hkt]
        exact hr k (by omega)
    · show swapAt (shuffleWith a (Function.update r t (j - a)) o t) (a + 1 + t)
        (Function.update r t (j - a) t + a) = o'
      rw [Function.update_same,
        shuffleWith_congr a (Function.update r t (j - a)) r o t
          (fun k hk => Function.update_noteq (by omega) _ _),
        hsw, show j - a + a = j by omega, swapAt_swapAt]

theorem prod_draws (n : Nat) :
    Finset.prod (Finset.range n) (fun k => k + 2) = (n + 1).factorial := by
  induction n with
  | zero => rfl
  | succ n ih =>
    rw [Finset.prod_range_succ, ih, Nat.factorial_succ (n + 1)]
    ring

/-- C25. The shuffle is uniform: for a chunk of `n` distinct entries, pass `k`
of the reordering loop (for `i = startRow + 1 + k`) draws
`dRandInt (k + 2)`, a value in `0 .. k+1`; two streams of draws that lead to
the same arrangement of the chunk agree on every value drawn, and every
arrangement of the chunk (the same entries at the positions of the chunk,
nothing changed elsewhere) is the result of some stream of draws; the number
of sequences of drawn values is `2 * 3 * ... * n = n!`. -/
theorem C25_shuffle_uniform (E : RowEnv) (s : RowState)
    (hinj : ∀ p q, InChunk E p → InChunk E q → s.order p = s.order q → p = q) :
    (∀ d d' : Nat → Nat,
      (shuffle { E with draws := d } s).order = (shuffle { E with draws := d' } s).order →
      ∀ k, k + 1 < E.nRows.toNat →
        dRandInt d (s.randCalls + k) (k + 2) = dRandInt d' (s.randCalls + k) (k + 2)) ∧
    (∀ o' : Nat → Nat, (∀ p, ¬ InChunk E p → o' p = s.order p) →
      (∀ q, InChunk E q → ∃ p, InChunk E p ∧ o' p = s.order q) →
      ∃ d : Nat → Nat, (shuffle { E with draws := d } s).order = o') ∧
    (∀ (d : Nat → Nat) (k : Nat), dRandInt d (s.randCalls + k) (k + 2) ≤ k + 1) ∧
    (1 ≤ E.nRows.toNat →
      Finset.prod (Finset.range (E.nRows.toNat - 1)) (fun k => k + 2) =
        E.nRows.toNat.factorial) := by
  have hsw : ∀ d : Nat → Nat, (shuffle { E with draws := d } s).order =
      shuffleWith E.startRow.toNat (fun k => dRandInt d (s.randCalls + k) (k + 2))
        s.order (E.nRows.toNat - 1) := fun d => shuffle_shuffleWith { E with draws := d } s
  have hb : ∀ (d : Nat → Nat) (k : Nat), dRandInt d (s.randCalls + k) (k + 2) ≤ k + 1 := by
    intro d k
    have := dRandInt_lt d (s.randCalls + k) (k + 2) (by omega)
    omega
  refine ⟨?_, ?_, hb, ?_⟩
  · intro d d' he k hk
    rw [hsw d, hsw d'] at he
    refine shuffleWith_injective E.startRow.toNat s.order (E.nRows.toNat - 1) ?_ _ _
      (fun k _ => hb d k) (fun k _ => hb d' k) he k (by omega)
    intro p q h1 h2 h3 h4 e
    exact hinj p q ⟨h1, by omega⟩ ⟨h3, by omega⟩ e
  · intro o' h1 h2
    by_cases hn : E.nRows.toNat = 0
    · refine ⟨fun _ => 0, ?_⟩
      rw [hsw, hn]
      show s.order = o'
      funext p
      exact (h1 p (fun hp => by have := hp.1; have := hp.2; omega)).symm
    · obtain ⟨r, hr, hres⟩ := shuffleWith_surjective E.startRow.toNat s.order
        (E.nRows.toNat - 1)
        (fun p q h1 h2 h3 h4 e => hinj p q ⟨h1, by omega⟩ ⟨h3, by omega⟩ e) o'
        (fun p hp => h1 p (fun hc => by have := hc.1; have := hc.2; omega))
        (fun q q1 q2 => by
          obtain ⟨p, hp, e⟩ := h2 q ⟨q1, by omega⟩
          exact ⟨p, hp.1, by have := hp.2; omega, e⟩)
      refine ⟨fun k => r (k - s.randCalls), ?_⟩
      rw [hsw, ← hres]
      apply shuffleWith_congr
      intro k hk
      show r (s.randCalls + k - s.randCalls) % (k + 2) = r k
      rw [Nat.add_sub_cancel_left]
      exact Nat.mod_eq_of_lt (by have := hr k hk; omega)
  · intro hn
    have := prod_draws (E.nRows.toNat - 1)
    rw [this]
    congr 1
    omega

theorem C25_shuffle_uniform_witness :
    ∃ d : Nat → Nat,
      (shuffle { SOR_task exFriction 0 with draws := d } (SOR_init exFriction)).order =
        (SOR_init exFriction).order :=
  (C25_shuffle_uniform (SOR_task exFriction 0) (SOR_init exFriction)
    (fun p q hp hq e =>
      orderOK_injective 2 _ (orderFill_orderOK exFriction.findex 2) p q
        (SOR_task_range exFriction 0 p hp) (SOR_task_range exFriction 0 q hq) e)).2.1
    (SOR_init exFriction).order (fun _ _ => rfl) (fun q hq => ⟨q, hq, rfl⟩)

/-! ## The preconditioner: the pivot of a row -/

/-- The pivot search over `n` columns of one body: either no column beats the
incoming pivot, or the result is the first column of largest magnitude, which
beats the incoming pivot. -/
theorem pivot_fold (J : Nat → ℚ) (Ji bo : Nat) (p0 : Pivot) (n : Nat) :
    ((List.range n).foldl (pivotStep J Ji bo) p0 = p0 ∧
      ∀ j, j < n → |J (Ji + j)| ≤ |p0.J_max|) ∨
    (∃ k, k < n ∧
      (List.range n).foldl (pivotStep J Ji bo) p0 = { J_max := J (Ji + k), J_max_i := bo + k } ∧
      |p0.J_max| < |J (Ji + k)| ∧ (∀ j, j < k → |J (Ji + j)| < |J (Ji + k)|) ∧
      ∀ j, j < n → |J (Ji + j)| ≤ |J (Ji + k)|) := by
  induction n with
  | zero => exact Or.inl ⟨rfl, fun j hj => by omega⟩
  | succ n ih =>
    simp only [List.range_succ, List.foldl_append, List.foldl_cons, List.foldl_nil]
    rcases ih with ⟨e, hle⟩ | ⟨k, hk, e, h1, h2, h3⟩
    · rw [e]
      unfold pivotStep
      rw [dFabs_eq_abs, dFabs_eq_abs]
      by_cases hgt : |J (Ji + n)| > |p0.J_max|
      · rw [if_pos hgt]
        refine Or.inr ⟨n, by omega, rfl, hgt, ?_, ?_⟩
        · intro j hj
          exact lt_of_le_of_lt (hle j hj) hgt
        · intro j hj
          by_cases hjn : j = n
          · rw [hjn]
          · exact le_of_lt (lt_of_le_of_lt (hle j (by omega)) hgt)
      · rw [if_neg hgt]
        refine Or.inl ⟨rfl, ?_⟩
        intro j hj
        by_cases hjn : j = n
        · rw [hjn]; exact not_lt.mp hgt
        · exact hle j (by omega)
    · rw [e]
      unfold pivotStep
      rw [dFabs_eq_abs, dFabs_eq_abs]
      by_cases hgt : |J (Ji + n)| > |J (Ji + k)|
      · rw [if_pos hgt]
        refine Or.inr ⟨n, by omega, rfl, lt_trans h1 hgt, ?_, ?_⟩
        · intro j hj
          exact lt_of_le_of_lt (h3 j hj) hgt
        · intro j hj
          by_cases hjn : j = n
          · rw [hjn]
          · exact le_of_lt (lt_of_le_of_lt (h3 j (by omega)) hgt)
      · rw [if_neg hgt]
        refine Or.inr ⟨k, by omega, rfl, h1, h2, ?_⟩
        intro j hj
        by_cases hjn : j = n
        · rw [hjn]; exact not_lt.mp hgt
        · exact h3 j (by omega)

/-- The pivot of a row that has a nonzero coefficient among the columns it
looks at: the first of them with the largest magnitude. -/
theorem rowPivot_spec (J : Nat → ℚ) (jb : Nat → Int) (i : Nat)
    (hnz : ∃ c, (c < 6 ∨ (c < 12 ∧ jb (i * 2 + 1) ≥ 0)) ∧ J (12 * i + c) ≠ 0) :
    ∃ k, (k < 6 ∨ (k < 12 ∧ jb (i * 2 + 1) ≥ 0)) ∧
      (rowPivot J jb i).J_max = J (12 * i + k) ∧
      (rowPivot J jb i).J_max_i =
        (if k < 6 then (jb (i * 2) * 6).toNat + k else (jb (i * 2 + 1) * 6).toNat + (k - 6)) ∧
      J (12 * i + k) ≠ 0 ∧
      (∀ c, (c < 6 ∨ (c < 12 ∧ jb (i * 2 + 1) ≥ 0)) → |J (12 * i + c)| ≤ |J (12 * i + k)|) ∧
      (∀ c, c < k → |J (12 * i + c)| < |J (12 * i + k)|) := by
  have hz : |(({ J_max := 0, J_max_i := 0 } : Pivot)).J_max| = 0 := abs_zero
  have hsec : ∀ c, 6 ≤ c → c < 12 → 12 * i + c = 12 * i + 6 + (c - 6) := fun c h1 h2 => by omega
  unfold rowPivot
  simp only []
  rcases pivot_fold J (12 * i) (jb (i * 2) * 6).toNat { J_max := 0, J_max_i := 0 } 6 with
    ⟨e1, hle1⟩ | ⟨k1, hk1, e1, g1, f1, a1⟩
  · -- the first body's six columns are zero
    rw [e1]
    have hzero1 : ∀ c, c < 6 → J (12 * i + c) = 0 := by
      intro c hc
      have := hle1 c hc
      rw [hz] at this
      exact abs_eq_zero.mp (le_antisymm this (abs_nonneg _))
    by_cases hb2 : jb (i * 2 + 1) ≥ 0
    · rw [if_pos hb2]
      rcases pivot_fold J (12 * i + 6) (jb (i * 2 + 1) * 6).toNat { J_max := 0, J_max_i := 0 } 6
        with ⟨e2, hle2⟩ | ⟨k2, hk2, e2, g2, f2, a2⟩
      · exfalso
        obtain ⟨c, hc, hne⟩ := hnz
        by_cases hc6 : c < 6
        · exact hne (hzero1 c hc6)
        · have hc12 : c < 12 := by omega
          have := hle2 (c - 6) (by omega)
          rw [hz, ← hsec c (by omega) hc12] at this
          exact hne (abs_eq_zero.mp (le_antisymm this (abs_nonneg _)))
      · rw [e2]
        refine ⟨6 + k2, Or.inr ⟨by omega, hb2⟩, ?_, ?_, ?_, ?_, ?_⟩
        · show J (12 * i + 6 + k2) = J (12 * i + (6 + k2))
          rw [Nat.add_assoc]
        · rw [if_neg (by omega), show 6 + k2 - 6 = k2 by omega]
        · rw [← Nat.add_assoc]
          intro h0
          rw [hz, h0, abs_zero] at g2
          exact lt_irrefl _ g2
        · intro c hc
          rw [← Nat.add_assoc]
          by_cases hc6 : c < 6
          · rw [hzero1 c hc6, abs_zero]
            exact abs_nonneg _
          · have hc12 : c < 12 := by omega
            rw [hsec c (by omega) hc12]
            exact a2 (c - 6) (by omega)
        · intro c hc
          rw [← Nat.add_assoc]
          by_cases hc6 : c < 6
          · rw [hzero1 c hc6, abs_zero]
            rw [hz] at g2
            exact g2
          · rw [hsec c (by omega) (by omega)]
            exact f2 (c - 6) (by omega)
    · rw [if_neg hb2]
      exfalso
      obtain ⟨c, hc, hne⟩ := hnz
      rcases hc with hc | ⟨_, hc⟩
      · exact hne (hzero1 c hc)
      · exact hb2 hc
  · -- the first body has a nonzero column
    rw [e1]
    have hnz1 : J (12 * i + k1) ≠ 0 := by
      intro h0
      rw [hz, h0, abs_zero] at g1
      exact lt_irrefl _ g1
    by_cases hb2 : jb (i * 2 + 1) ≥ 0
    · rw [if_pos hb2]
      rcases pivot_fold J (12 * i + 6) (jb (i * 2 + 1) * 6).toNat
        { J_max := J (12 * i + k1), J_max_i := (jb (i * 2) * 6).toNat + k1 } 6
        with ⟨e2, hle2⟩ | ⟨k2, hk2, e2, g2, f2, a2⟩
      · rw [e2]
        refine ⟨k1, Or.inl hk1, rfl, by rw [if_pos hk1], hnz1, ?_, ?_⟩
        · intro c hc
          by_cases hc6 : c < 6
          · exact a1 c hc6
          · have hc12 : c < 12 := by omega
            rw [hsec c (by omega) hc12]
            exact hle2 (c - 6) (by omega)
        · intro c hc
          exact f1 c hc
      · rw [e2]
        have g2' : |J (12 * i + k1)| < |J (12 * i + 6 + k2)| := g2
        refine ⟨6 + k2, Or.inr ⟨by omega, hb2⟩, ?_, ?_, ?_, ?_, ?_⟩
        · show J (12 * i + 6 + k2) = J (12 * i + (6 + k2))
          rw [Nat.add_assoc]
        · rw [if_neg (by omega), show 6 + k2 - 6 = k2 by omega]
        · rw [← Nat.add_assoc]
          intro h0
          rw [h0, abs_zero] at g2'
          exact absurd g2' (not_lt.mpr (abs_nonneg _))
        · intro c hc
          rw [← Nat.add_assoc]
          by_cases hc6 : c < 6
          · exact le_of_lt (lt_of_le_of_lt (a1 c hc6) g2')
          · have hc12 : c < 12 := by omega
            rw [hsec c (by omega) hc12]
            exact a2 (c - 6) (by omega)
        · intro c hc
          rw [← Nat.add_assoc]
          by_cases hc6 : c < 6
          · exact lt_of_le_of_lt (a1 c hc6) g2'
          · rw [hsec c (by omega) (by omega)]
            exact f2 (c - 6) (by omega)
    · rw [if_neg hb2]
      refine ⟨k1, Or.inl hk1, rfl, by rw [if_pos hk1], hnz1, ?_, ?_⟩
      · intro c hc
        rcases hc with hc | ⟨_, hc⟩
        · exact a1 c hc
        · exact absurd hc hb2
      · intro c hc
        exact f1 c hc

/-- C26. Preconditioner sweep: the Gauss-Seidel pass makes exactly `30`
sweeps over the rows `0..m-1`, whatever the residual; in a row update (of a
row with a nonzero coefficient) the pivot is the first column of largest
magnitude among the six columns of the first body followed by the six of the
second body when present; the update adds `(rhs[i] - J_i . x) / J_pivot` to
`x` at the pivot's body-velocity component and changes no other component. -/
theorem C26_preconditioner_sweep (m nb : Nat) (J : Nat → ℚ) (jb : Nat → Int) (rhs x : Nat → ℚ)
    (i : Nat)
    (hnz : ∃ c, (c < 6 ∨ (c < 12 ∧ jb (i * 2 + 1) ≥ 0)) ∧ J (12 * i + c) ≠ 0) :
    invJrhs_array m nb J jb rhs = (gsSweep m J jb rhs)^[30] (dSetZero (fun _ => 0) (6 * nb)) ∧
    (∀ y, gsSweep m J jb rhs y = (List.range m).foldl (gsRow J jb rhs) y) ∧
    (∃ k, (k < 6 ∨ (k < 12 ∧ jb (i * 2 + 1) ≥ 0)) ∧
      J (12 * i + k) ≠ 0 ∧
      (∀ c, (c < 6 ∨ (c < 12 ∧ jb (i * 2 + 1) ≥ 0)) → |J (12 * i + c)| ≤ |J (12 * i + k)|) ∧
      (∀ c, c < k → |J (12 * i + c)| < |J (12 * i + k)|) ∧
      gsRow J jb rhs x i
          (if k < 6 then (jb (i * 2) * 6).toNat + k else (jb (i * 2 + 1) * 6).toNat + (k - 6)) =
        x (if k < 6 then (jb (i * 2) * 6).toNat + k else (jb (i * 2 + 1) * 6).toNat + (k - 6))
          + (rhs i -
              (Finset.sum (Finset.range 6) (fun j =>
                  J (12 * i + j) * x ((jb (i * 2) * 6).toNat + j))
                + (if jb (i * 2 + 1) ≥ 0 then
                    Finset.sum (Finset.range 6) (fun j =>
                      J (12 * i + 6 + j) * x ((jb (i * 2 + 1) * 6).toNat + j))
                  else 0))) / J (12 * i + k) ∧
      ∀ n, n ≠ (if k < 6 then (jb (i * 2) * 6).toNat + k
                else (jb (i * 2 + 1) * 6).toNat + (k - 6)) →
        gsRow J jb rhs x i n = x n) := by
  refine ⟨rfl, fun _ => rfl, ?_⟩
  obtain ⟨k, hk, e1, e2, hne, hmax, hfirst⟩ := rowPivot_spec J jb i hnz
  refine ⟨k, hk, hne, hmax, hfirst, ?_, ?_⟩
  · unfold gsRow
    rw [e1, e2, Function.update_same, dot6_eq_sum, dot6_eq_sum]
    by_cases h2 : jb (i * 2 + 1) ≥ 0
    · rw [if_pos h2, if_pos h2]
    · rw [if_neg h2, if_neg h2, add_zero]
  · intro n hn
    unfold gsRow
    rw [e2, Function.update_noteq hn]

theorem C26_preconditioner_sweep_witness :
    invJrhs_array 1 1 exOneRow.J exOneRow.jb exOneRow.b =
      (gsSweep 1 exOneRow.J exOneRow.jb exOneRow.b)^[30] (dSetZero (fun _ => 0) (6 * 1)) :=
  (C26_preconditioner_sweep 1 1 exOneRow.J exOneRow.jb exOneRow.b (fun _ => 0) 0
    ⟨0, Or.inl (by decide), by
      show (if (12 * 0 + 0 : Nat) = 0 then (1 : ℚ) else 0) ≠ 0
      norm_num⟩).1

/-! ## The preconditioned right-hand side -/

theorem preBodies_mass (w : dxWorld) (body : Nat → dxBody) (nb i : Nat) (hi : i < nb) :
    (preBodies w body nb i).mass_mass = (body i).mass_mass ∧
    (preBodies w body nb i).mass_I = (body i).mass_I := by
  unfold preBodies
  rw [if_pos hi]
  have ht : tagBodies body nb i = { (body i) with tag := Int.ofNat i } := by
    unfold tagBodies
    rw [if_pos hi]
  have hg : ∀ b : dxBody, (gyroBody b).mass_mass = b.mass_mass ∧ (gyroBody b).mass_I = b.mass_I := by
    intro b
    unfold gyroBody
    split_ifs <;> exact ⟨rfl, rfl⟩
  obtain ⟨g1, g2⟩ := hg (tagBodies body nb i)
  constructor
  · show (gyroBody (tagBodies body nb i)).mass_mass = _
    rw [g1, ht]
  · show (gyroBody (tagBodies body nb i)).mass_I = _
    rw [g2, ht]

theorem I_array_cell (w : dxWorld) (body : Nat → dxBody) (nb b c : Nat) (hb : b < nb)
    (hc : c < 12) :
    I_array (preBodies w body nb) nb (12 * b + c) = globalI (body b) c := by
  obtain ⟨_, _, _, _, h5, _, _⟩ := preBodies_fields w body nb b hb
  obtain ⟨_, m2⟩ := preBodies_mass w body nb b hb
  have hG : globalI (preBodies w body nb b) = globalI (body b) := by
    unfold globalI
    rw [h5, m2]
  unfold I_array
  have e1 : (12 * b + c) / 12 = b := by omega
  have e2 : (12 * b + c) % 12 = c := by omega
  rw [if_pos (by omega), e1, e2, hG]

/-- C27. After preconditioning, for every row `i` the right-hand side
handed to the solver is `rhs[i] = J_i * M * x`, where `x` is the final
body-space vector of the preconditioner and `J_i * M` has, for each body of
the row, the linear part times the body's mass and the angular part times its
global-frame inertia tensor (the second body only when `jb[2i+1] >= 0`); the
right-hand side before preconditioning enters only through `x`. -/
theorem C27_preconditioned_rhs (w : dxWorld) (body : Nat → dxBody) (nb : Nat)
    (_joint : List dxJoint) (stepsize : ℚ) (draws : Nat → Nat) (i : Nat)
    (hi : i < count_m (jointiinfos _joint)) :
    (sorArgs w body nb _joint stepsize draws).b i =
      Finset.sum (Finset.range 6) (fun j =>
          tmpz_block (assemble w (1 / stepsize) (jointiinfos _joint)).J (12 * i)
            (preBodies w body nb
              ((jb_array (preBodies w body nb) (jointiinfos _joint)).jb (i * 2)).toNat).mass_mass
            (I_array (preBodies w body nb) nb)
            (12 * (jb_array (preBodies w body nb) (jointiinfos _joint)).jb (i * 2)).toNat j *
          invJrhs_array (count_m (jointiinfos _joint)) nb
            (assemble w (1 / stepsize) (jointiinfos _joint)).J
            (jb_array (preBodies w body nb) (jointiinfos _joint)).jb
            (rhs_array w body nb _joint stepsize)
            (((jb_array (preBodies w body nb) (jointiinfos _joint)).jb (i * 2) * 6).toNat + j))
        + (if (jb_array (preBodies w body nb) (jointiinfos _joint)).jb (i * 2 + 1) ≥ 0 then
            Finset.sum (Finset.range 6) (fun j =>
              tmpz_block (assemble w (1 / stepsize) (jointiinfos _joint)).J (12 * i + 6)
                (preBodies w body nb
                  ((jb_array (preBodies w body nb) (jointiinfos _joint)).jb
                    (i * 2 + 1)).toNat).mass_mass
                (I_array (preBodies w body nb) nb)
                (12 * (jb_array (preBodies w body nb) (jointiinfos _joint)).jb
                  (i * 2 + 1)).toNat j *
              invJrhs_array (count_m (jointiinfos _joint)) nb
                (assemble w (1 / stepsize) (jointiinfos _joint)).J
                (jb_array (preBodies w body nb) (jointiinfos _joint)).jb
                (rhs_array w body nb _joint stepsize)
                (((jb_array (preBodies w body nb) (jointiinfos _joint)).jb (i * 2 + 1) * 6).toNat
                  + j))
          else 0) ∧
    (∀ (J I : Nat → ℚ) (Jo Io : Nat) (mass : ℚ) (j : Nat), j < 3 →
      tmpz_block J Jo mass I Io j = J (Jo + j) * mass ∧
      tmpz_block J Jo mass I Io (3 + j) =
        Finset.sum (Finset.range 3) (fun k => J (Jo + 3 + k) * I (Io + 4 * k + j))) ∧
    (∀ b c, b < nb → c < 12 →
      I_array (preBodies w body nb) nb (12 * b + c) = globalI (body b) c ∧
      (preBodies w body nb b).mass_mass = (body b).mass_mass) ∧
    (∀ (m : Nat) (J : Nat → ℚ) (jb : Nat → Int) (bd : Nat → dxBody) (I x rhs rhs' : Nat → ℚ)
      (r : Nat), r < m →
      rhs_precond m J jb bd I x rhs r = rhs_precond m J jb bd I x rhs' r) := by
  refine ⟨?_, ?_, ?_, ?_⟩
  · rw [sorArgs_b]
    unfold rhs_precond
    simp only [if_pos hi]
    rw [dot6_eq_sum, dot6_eq_sum]
    by_cases h2 : (jb_array (preBodies w body nb) (jointiinfos _joint)).jb (i * 2 + 1) ≥ 0
    · rw [if_pos h2, if_pos h2]
      simp only [Nat.zero_add]
    · rw [if_neg h2, if_neg h2, add_zero]
      simp only [Nat.zero_add]
  · intro J I Jo Io mass j hj
    constructor
    · unfold tmpz_block
      rw [if_pos hj]
    · unfold tmpz_block
      rw [if_neg (by omega)]
      simp only [Finset.sum_range_succ, Finset.sum_range_zero, zero_add, Nat.add_zero,
        Nat.mul_zero, Nat.mul_one, show 3 + j - 3 = j by omega]
  · intro b c hb hc
    exact ⟨I_array_cell w body nb b c hb hc, (preBodies_mass w body nb b hb).1⟩
  · intro m J jb bd I x rhs rhs' r hr
    unfold rhs_precond
    simp only [if_pos hr]

theorem C27_preconditioned_rhs_witness :
    rhs_precond 1 exOneRow.J exOneRow.jb exOneRow.body exOneRow.invI (fun _ => 1)
        (fun _ => 0) 0 =
      rhs_precond 1 exOneRow.J exOneRow.jb exOneRow.body exOneRow.invI (fun _ => 1)
        (fun _ => 5) 0 :=
  (C27_preconditioned_rhs (ballWorld 1 1)
    (ballBodies exAxis0 (fun _ => 0) (fun _ => 0) (fun _ => 0)) 2 [ballJoint] 1 (fun _ => 0) 0
    (by decide)).2.2.2 1 exOneRow.J exOneRow.jb exOneRow.body exOneRow.invI (fun _ => 1)
    (fun _ => 0) (fun _ => 5) 0 (by decide)

/-! ## The damping ramp -/

/-- C28, as stated, fails: with `num_iterations = 20` the factor of iteration
`10` is `1/10`, not `1`, and the factor does not rise during the iterations
`0..9`: it is `0` at iteration `9` as at iteration `0`. -/
theorem C28_counterexample :
    ¬ (dampAlpha 10 20 = 1) ∧ ¬ (dampAlpha 0 20 < dampAlpha 9 20) := by
  constructor
  · simp only [dampAlpha]
    norm_num
  · simp only [dampAlpha]
    norm_num

/-- C28, amended. The factor `alpha` that scales the damping force is zero
during the first `10` iterations (iterations `0..9`); from iteration `10` on
it is `(iteration - 9) / (num_iterations - 10)`: it rises linearly, by
`1 / (num_iterations - 10)` per iteration, and reaches full strength
(`alpha = 1`) at the last iteration `num_iterations - 1`. -/
theorem C28_damping_ramp (k : Nat) (N : Int) :
    (k < 10 → dampAlpha k N = 0) ∧
    (10 ≤ k → dampAlpha k N = ((k : ℚ) - 9) / ((N : ℚ) - 10)) ∧
    (10 ≤ k → (k : Int) < N →
      0 < dampAlpha k N ∧ dampAlpha k N ≤ 1 ∧
      dampAlpha (k + 1) N - dampAlpha k N = 1 / ((N : ℚ) - 10)) ∧
    (10 ≤ k → (k : Int) + 1 = N → dampAlpha k N = 1) := by
  have hform : ∀ j : Nat, 10 ≤ j → dampAlpha j N = ((j : ℚ) - 9) / ((N : ℚ) - 10) := by
    intro j hj
    unfold dampAlpha
    rw [if_pos hj]
    push_cast
    congr 1
    ring
  refine ⟨?_, hform k, ?_, ?_⟩
  · intro hk
    unfold dampAlpha
    rw [if_neg (by omega)]
  · intro hk hN
    have hkq : (10 : ℚ) ≤ (k : ℚ) := by exact_mod_cast hk
    have hNq : ((k : Int) : ℚ) < (N : ℚ) := by exact_mod_cast hN
    have hNq' : (k : ℚ) + 1 ≤ (N : ℚ) := by
      have : (k : Int) + 1 ≤ N := by omega
      exact_mod_cast this
    have hden : (0 : ℚ) < (N : ℚ) - 10 := by linarith
    rw [hform k hk, hform (k + 1) (by omega)]
    refine ⟨div_pos (by linarith) hden, ?_, ?_⟩
    · rw [div_le_one hden]
      linarith
    · push_cast
      field_simp
  · intro hk hN
    have hNq : (N : ℚ) = (k : ℚ) + 1 := by
      have : N = (k : Int) + 1 := by omega
      rw [this]
      push_cast
      rfl
    have hkq : (10 : ℚ) ≤ (k : ℚ) := by exact_mod_cast hk
    rw [hform k hk, hNq]
    have : (k : ℚ) + 1 - 10 = (k : ℚ) - 9 := by ring
    rw [this]
    exact div_self (by linarith)

theorem C28_damping_ramp_witness : dampAlpha 19 20 = 1 :=
  (C28_damping_ramp 19 20).2.2.2 (by decide) (by decide)

/-! ## The damping blocks run after the row updates -/

theorem rowLoopSteps_b_damp (E : RowEnv) (s : RowState) (t : Nat) :
    (rowLoopSteps E s t).f_damp = s.f_damp ∧
    ∀ k, k < t → (rowLoopSteps E s t).b_damp (s.order (E.startRow.toNat + k)) =
      b_damp_row E s.f_damp (s.order (E.startRow.toNat + k)) := by
  induction t with
  | zero => exact ⟨rfl, fun k hk => by omega⟩
  | succ t ih =>
    obtain ⟨i1, i2⟩ := ih
    rw [rowLoopSteps_succ]
    refine ⟨i1, ?_⟩
    intro k hk
    show Function.update (rowLoopSteps E s t).b_damp (s.order (E.startRow.toNat + t))
      (b_damp_row E (rowLoopSteps E s t).f_damp (s.order (E.startRow.toNat + t)))
      (s.order (E.startRow.toNat + k)) = _
    rw [i1]
    by_cases he : s.order (E.startRow.toNat + k) = s.order (E.startRow.toNat + t)
    · rw [he, Function.update_same]
    · rw [Function.update_noteq he]
      by_cases hkt : k = t
      · exact absurd (by rw [hkt]) he
      · exact i2 k (by omega)

/-- One iteration is the row loop followed by the damping blocks; the row
loop leaves `f_damp` alone and writes `b_damp` from it. -/
theorem iterationBody_damp (E : RowEnv) (it : Nat) (s : RowState) :
    iterationBody E it s =
      { dampingUpdate E it
          (rowLoop E { (if it &&& 7 = 0 then shuffle E s else s) with rms_error := 0 }) with
        iterations := it + 1 } ∧
    (rowLoop E { (if it &&& 7 = 0 then shuffle E s else s) with rms_error := 0 }).f_damp =
      s.f_damp ∧
    (iterationBody E it s).order = (if it &&& 7 = 0 then shuffle E s else s).order ∧
    ∀ p, InChunk E p →
      (iterationBody E it s).b_damp ((iterationBody E it s).order p) =
        b_damp_row E s.f_damp ((iterationBody E it s).order p) := by
  have hfd : (if it &&& 7 = 0 then shuffle E s else s).f_damp = s.f_damp := by
    split_ifs
    · rw [shuffle_eta]
    · rfl
  obtain ⟨d1, _, _, _, _, _, d7, _⟩ := dampingUpdate_fields E it
    (rowLoop E { (if it &&& 7 = 0 then shuffle E s else s) with rms_error := 0 })
  obtain ⟨r1, r2⟩ := rowLoopSteps_b_damp E
    { (if it &&& 7 = 0 then shuffle E s else s) with rms_error := 0 } E.nRows.toNat
  have ho : (iterationBody E it s).order = (if it &&& 7 = 0 then shuffle E s else s).order :=
    d1.trans (rowLoop_order _ _)
  refine ⟨rfl, r1.trans hfd, ho, ?_⟩
  intro p hp
  rw [ho]
  have hb : (iterationBody E it s).b_damp =
      (rowLoop E { (if it &&& 7 = 0 then shuffle E s else s) with rms_error := 0 }).b_damp := d7
  rw [hb, rowLoop_eq_steps]
  have := r2 (p - E.startRow.toNat) (by have := hp.1; have := hp.2; omega)
  rw [show E.startRow.toNat + (p - E.startRow.toNat) = p by have := hp.1; omega] at this
  rw [← hfd]
  exact this

theorem exDamp_f_damp (R : RowState) (hfc : R.fc 0 = 0) (hfd : R.f_damp 0 = 0) :
    (dampingUpdate exDampEnv 10 R).f_damp 0 = -1 := by
  simp [dampingUpdate, dampRow, v_joint_damp_row, v_damp_update, dampAlpha, addScaled6,
    dSetZero, exDampEnv, unitBody, exAxis0, List.range_succ, hfc, hfd]

theorem exDamp_iteration :
    (iterationBody exDampEnv 10 exDampState).b_damp 0 = 0 ∧
    (iterationBody exDampEnv 10 exDampState).f_damp 0 = -1 := by
  obtain ⟨h1, h2, h3, h4⟩ := iterationBody_damp exDampEnv 10 exDampState
  have hs1 : (if 10 &&& 7 = 0 then shuffle exDampEnv exDampState else exDampState) =
      exDampState := if_neg (by decide)
  rw [hs1] at h1 h2 h3
  constructor
  · have hb := h4 0 ⟨by decide, by decide⟩
    rw [h3] at hb
    rw [show exDampState.order 0 = 0 from rfl] at hb
    rw [hb]
    simp [b_damp_row, exDampState, List.range_succ]
  · have hR : rowLoop exDampEnv { exDampState with rms_error := 0 } =
        rowUpdate exDampEnv { exDampState with rms_error := 0 } 0 :=
      rowLoop_of_one exDampEnv _ rfl
    have hdelta : rowDelta exDampEnv { exDampState with rms_error := 0 } 0 = 0 := by
      simp [rowDelta, b_damp_row, exDampEnv, exDampState, dot6, List.range_succ]
    obtain ⟨_, a2, a3, _, _⟩ := rowUpdate_fixed exDampEnv { exDampState with rms_error := 0 } 0
      (by
        rw [hdelta]
        simp [clampLambda, lo_act, hi_act, exDampEnv, ltLo, gtHi])
    rw [h1]
    show (dampingUpdate exDampEnv 10
      (rowLoop exDampEnv { exDampState with rms_error := 0 })).f_damp 0 = -1
    apply exDamp_f_damp
    · rw [hR, a2]
      rfl
    · rw [hR, a3]
      rfl

theorem exDamp_b_damp (f : Nat → dReal) : b_damp_row exDampEnv f 0 = f 0 := by
  simp [b_damp_row, exDampEnv, List.range_succ]

/-- C29, as stated, fails: in iteration `10` of `exDampEnv` the row update
writes `b_damp[0] = 0`, computed from the incoming `f_damp = 0`, while the
`f_damp` recomputed in this iteration is `-1` on the row's body, from which
`b_damp[0]` would be `-1`. -/
theorem C29_counterexample :
    ¬ ((iterationBody exDampEnv 10 exDampState).b_damp 0 =
        b_damp_row exDampEnv (iterationBody exDampEnv 10 exDampState).f_damp 0) := by
  obtain ⟨h1, h2⟩ := exDamp_iteration
  rw [h1]
  rw [exDamp_b_damp, h2]
  norm_num

/-- C29, amended. Within every iteration the two damping sub-steps (recompute
`v_damp`, then `f_damp`) are executed after that iteration's row updates: the
row updates leave `f_damp` alone, so the damping bias `b_damp` used by the row
updates of an iteration is computed from the `f_damp` the iteration started
with, which is the one recomputed at the end of the iteration before (the
incoming one for iteration `0`); and the `f_damp` on return, which the
velocity integrator applies, is the one recomputed after the row updates of
the last iteration executed. -/
theorem C29_damping_after_rows (E : RowEnv) (it : Nat) (s : RowState) :
    iterationBody E it s =
      { dampingUpdate E it
          (rowLoop E { (if it &&& 7 = 0 then shuffle E s else s) with rms_error := 0 }) with
        iterations := it + 1 } ∧
    (rowLoop E { (if it &&& 7 = 0 then shuffle E s else s) with rms_error := 0 }).f_damp =
      s.f_damp ∧
    (∀ p, InChunk E p →
      (iterationBody E it s).b_damp ((iterationBody E it s).order p) =
        b_damp_row E s.f_damp ((iterationBody E it s).order p)) ∧
    (∀ k p, InChunk E p →
      (iterationsRun E s (k + 2)).b_damp ((iterationsRun E s (k + 2)).order p) =
        b_damp_row E (iterationsRun E s (k + 1)).f_damp ((iterationsRun E s (k + 2)).order p)) ∧
    (1 ≤ E.num_iterations → ∃ (it1 : Nat) (s1 : RowState),
      ComputeRows E s = iterationBody E it1 s1 ∧
      (ComputeRows E s).f_damp =
        (dampingUpdate E it1 (rowLoop E
          { (if it1 &&& 7 = 0 then shuffle E s1 else s1) with rms_error := 0 })).f_damp) := by
  obtain ⟨h1, h2, _, h4⟩ := iterationBody_damp E it s
  refine ⟨h1, h2, h4, ?_, ?_⟩
  · intro k p hp
    exact (iterationBody_damp E (k + 1) (iterationsRun E s (k + 1))).2.2.2 p hp
  · intro hn
    obtain ⟨n, hn'⟩ : ∃ n, E.num_iterations.toNat = n + 1 :=
      ⟨E.num_iterations.toNat - 1, by omega⟩
    obtain ⟨it1, s1, e, _⟩ := iterLoop_last E n 0 s
    refine ⟨it1, s1, ?_, ?_⟩
    · unfold ComputeRows
      rw [hn', e]
    · have : ComputeRows E s = iterationBody E it1 s1 := by
        unfold ComputeRows
        rw [hn', e]
      rw [this, (iterationBody_damp E it1 s1).1]

theorem C29_damping_after_rows_witness :
    ∃ (it1 : Nat) (s1 : RowState),
      ComputeRows exDampEnv exDampState = iterationBody exDampEnv it1 s1 ∧
      (ComputeRows exDampEnv exDampState).f_damp =
        (dampingUpdate exDampEnv it1 (rowLoop exDampEnv
          { (if it1 &&& 7 = 0 then shuffle exDampEnv s1 else s1) with rms_error := 0 })).f_damp :=
  (C29_damping_after_rows exDampEnv 10 exDampState).2.2.2.2 (by decide)

/-! ## The damping force -/

theorem dampRows_v_damp (E : RowEnv) (it : Nat) (l : List Nat) (s : RowState) :
    (l.foldl (dampRow E it) s).v_damp = s.v_damp := by
  induction l generalizing s with
  | nil => rfl
  | cons a l ih =>
    simp only [List.foldl_cons]
    exact ih (dampRow E it s a)

theorem toNat_cell (x : Int) (b : Nat) (h : 0 ≤ x) : x.toNat = b ↔ x = (b : Int) := by
  constructor
  · intro e; omega
  · intro e; omega

theorem dampRow_f_damp (E : RowEnv) (it : Nat) (s : RowState) (j b c : Nat) (hc : c < 6)
    (h1 : 0 ≤ E.jb_damp (j * 2)) :
    (dampRow E it s j).f_damp (6 * b + c) =
      s.f_damp (6 * b + c)
        - ((if E.jb_damp (j * 2) = (b : Int) then
              E.J_damp (12 * j + c) * v_joint_damp_row E it s.v_damp j else 0)
          + (if E.jb_damp (j * 2 + 1) = (b : Int) then
              E.J_damp (12 * j + 6 + c) * v_joint_damp_row E it s.v_damp j else 0)) := by
  have e1 : (E.jb_damp (j * 2) * 6).toNat = 6 * (E.jb_damp (j * 2)).toNat := by omega
  by_cases h2 : E.jb_damp (j * 2 + 1) ≥ 0
  · have e2 : (E.jb_damp (j * 2 + 1) * 6).toNat = 6 * (E.jb_damp (j * 2 + 1)).toNat := by omega
    have d : (dampRow E it s j).f_damp =
        addScaled6 (addScaled6 s.f_damp (6 * (E.jb_damp (j * 2)).toNat)
            (-(v_joint_damp_row E it s.v_damp j)) E.J_damp (12 * j))
          (6 * (E.jb_damp (j * 2 + 1)).toNat) (-(v_joint_damp_row E it s.v_damp j))
          E.J_damp (12 * j + 6) := by
      unfold dampRow
      simp only [if_pos h2, e1, e2]
    rw [d, addScaled6_block _ _ _ _ _ _ _ hc, addScaled6_block _ _ _ _ _ _ _ hc]
    simp only [toNat_cell _ _ h1, toNat_cell _ _ h2]
    by_cases a1 : E.jb_damp (j * 2) = (b : Int) <;>
      by_cases a2 : E.jb_damp (j * 2 + 1) = (b : Int) <;>
      simp only [a1, a2, if_true, if_false] <;> ring
  · have d : (dampRow E it s j).f_damp =
        addScaled6 s.f_damp (6 * (E.jb_damp (j * 2)).toNat)
            (-(v_joint_damp_row E it s.v_damp j)) E.J_damp (12 * j) := by
      unfold dampRow
      simp only [if_neg h2, e1]
    have a2 : ¬ E.jb_damp (j * 2 + 1) = (b : Int) := by omega
    rw [d, addScaled6_block _ _ _ _ _ _ _ hc, if_neg a2]
    simp only [toNat_cell _ _ h1]
    by_cases a1 : E.jb_damp (j * 2) = (b : Int) <;>
      simp only [a1, if_true, if_false] <;> ring

theorem dampRows_f_damp (E : RowEnv) (it : Nat) (s : RowState) (b c : Nat) (hc : c < 6)
    (m : Nat) (h1 : ∀ j, j < m → 0 ≤ E.jb_damp (j * 2)) :
    ((List.range m).foldl (dampRow E it) s).f_damp (6 * b + c) =
      s.f_damp (6 * b + c)
        - Finset.sum (Finset.range m) (fun j =>
            (if E.jb_damp (j * 2) = (b : Int) then
                E.J_damp (12 * j + c) * v_joint_damp_row E it s.v_damp j else 0)
            + (if E.jb_damp (j * 2 + 1) = (b : Int) then
                E.J_damp (12 * j + 6 + c) * v_joint_damp_row E it s.v_damp j else 0)) := by
  induction m with
  | zero => simp
  | succ m ih =>
    rw [List.range_succ, List.foldl_append, List.foldl_cons, List.foldl_nil,
      dampRow_f_damp E it _ m b c hc (h1 m (Nat.lt_succ_self m)),
      ih (fun j hj => h1 j (Nat.lt_succ_of_lt hj)), dampRows_v_damp, Finset.sum_range_succ]
    ring

theorem v_joint_damp_row_eq (E : RowEnv) (it : Nat) (v : Nat → dReal) (j : Nat) :
    v_joint_damp_row E it v j =
      dampAlpha it E.num_iterations * (E.coeff_damp j *
        (Finset.sum (Finset.range 6) (fun k =>
            E.J_damp (12 * j + k) * v ((E.jb_damp (j * 2) * 6).toNat + k))
          + (if E.jb_damp (j * 2 + 1) ≥ 0 then
              Finset.sum (Finset.range 6) (fun k =>
                E.J_damp (12 * j + 6 + k) * v ((E.jb_damp (j * 2 + 1) * 6).toNat + k))
            else 0))) := by
  unfold v_joint_damp_row
  by_cases h2 : E.jb_damp (j * 2 + 1) ≥ 0
  · simp only [if_pos h2, foldl_range6, Finset.sum_range_succ, Finset.sum_range_zero]
    have e : ∀ k, 12 * j + k + 6 = 12 * j + 6 + k := fun k => by omega
    simp only [e]
    ring
  · simp only [if_neg h2, foldl_range6, Finset.sum_range_succ, Finset.sum_range_zero]
    ring

theorem v_damp_update_lin (E : RowEnv) (s : RowState) (b c : Nat) (hb : b < E.nb) (hc : c < 3) :
    v_damp_update E s (6 * b + c) =
      (E.body b).lvel c + E.stepsize * s.fc (6 * b + c)
        + E.stepsize * (E.body b).invMass * ((E.body b).facc c + s.f_damp (6 * b + c)) := by
  have h0 : 6 * b + c < 6 * E.nb := by omega
  have h1 : (6 * b + c) / 6 = b := by omega
  have h2 : (6 * b + c) % 6 = c := by omega
  unfold v_damp_update
  simp only [if_pos h0, h1, h2, if_pos hc]

theorem v_damp_update_ang (E : RowEnv) (s : RowState) (b c : Nat) (hb : b < E.nb) (hc : c < 3) :
    v_damp_update E s (6 * b + 3 + c) =
      (E.body b).avel c + E.stepsize * s.fc (6 * b + 3 + c)
        + (E.invI (12 * b + 4 * c) * (E.stepsize * ((E.body b).tacc 0 + s.f_damp (6 * b + 3)))
          + E.invI (12 * b + 4 * c + 1)
              * (E.stepsize * ((E.body b).tacc 1 + s.f_damp (6 * b + 4)))
          + E.invI (12 * b + 4 * c + 2)
              * (E.stepsize * ((E.body b).tacc 2 + s.f_damp (6 * b + 5)))) := by
  have h0 : 6 * b + 3 + c < 6 * E.nb := by omega
  have h1 : (6 * b + 3 + c) / 6 = b := by omega
  have h2 : (6 * b + 3 + c) % 6 = 3 + c := by omega
  have h3 : ¬ (3 + c < 3) := by omega
  have h4 : 3 + c - 3 = c := by omega
  unfold v_damp_update
  simp only [if_pos h0, h1, h2, if_neg h3, h4, dMultiply0_331, offs]
  rfl

theorem dampingUpdate_v_damp (E : RowEnv) (it : Nat) (s : RowState) :
    (dampingUpdate E it s).v_damp = v_damp_update E s := by
  unfold dampingUpdate
  rw [dampRows_v_damp]

theorem dampingUpdate_f_damp (E : RowEnv) (it : Nat) (s : RowState) (b c : Nat)
    (hb : b < E.nb) (hc : c < 6) (h1 : ∀ j, j < E.m_damp → 0 ≤ E.jb_damp (j * 2)) :
    (dampingUpdate E it s).f_damp (6 * b + c) =
      - Finset.sum (Finset.range E.m_damp) (fun j =>
          (if E.jb_damp (j * 2) = (b : Int) then
              E.J_damp (12 * j + c) * v_joint_damp_row E it (v_damp_update E s) j else 0)
          + (if E.jb_damp (j * 2 + 1) = (b : Int) then
              E.J_damp (12 * j + 6 + c) * v_joint_damp_row E it (v_damp_update E s) j
            else 0)) := by
  unfold dampingUpdate
  rw [dampRows_f_damp E it _ b c hc E.m_damp h1]
  have z : dSetZero s.f_damp (6 * E.nb) (6 * b + c) = 0 := if_pos (by omega)
  show dSetZero s.f_damp (6 * E.nb) (6 * b + c) - _ = _
  rw [z, zero_sub]

theorem dampingUpdate_no_rows (E : RowEnv) (it : Nat) (s : RowState) (h : E.m_damp = 0)
    (n : Nat) (hn : n < 6 * E.nb) : (dampingUpdate E it s).f_damp n = 0 := by
  unfold dampingUpdate
  rw [h]
  exact if_pos hn

/-- C30. Damping force: the damping blocks of an iteration run on the state `R`
left by the row loop, whose `f_damp` is still the previous value. They set
`v_damp` to `lvel + h*fc.lin + h*invMass*(facc + f_damp.lin)` and
`avel + h*fc.ang + invI*(h*(tacc + f_damp.ang))` for every body, and then, for
every body `b` and component `c`, `f_damp[6b+c]` to minus the sum over the
damping rows attached to `b` of `J_damp_j[c] * v_joint_damp[j]`, where
`v_joint_damp[j] = alpha * coeff_damp[j] * (J_damp_j . v_damp)` with the second
body's part only when `jb_damp[2j+1] >= 0`; with `m_damp = 0` the force is zero
after every iteration. -/
theorem C30_damping_force (E : RowEnv) (it : Nat) (s : RowState)
    (h1 : ∀ j, j < E.m_damp → 0 ≤ E.jb_damp (j * 2)) :
    (iterationBody E it s =
      { dampingUpdate E it
          (rowLoop E { (if it &&& 7 = 0 then shuffle E s else s) with rms_error := 0 }) with
        iterations := it + 1 } ∧
      (rowLoop E { (if it &&& 7 = 0 then shuffle E s else s) with rms_error := 0 }).f_damp =
        s.f_damp) ∧
    (∀ R : RowState, (dampingUpdate E it R).v_damp = v_damp_update E R) ∧
    (∀ (R : RowState) (b c : Nat), b < E.nb → c < 3 →
      v_damp_update E R (6 * b + c) =
        (E.body b).lvel c + E.stepsize * R.fc (6 * b + c)
          + E.stepsize * (E.body b).invMass * ((E.body b).facc c + R.f_damp (6 * b + c)) ∧
      v_damp_update E R (6 * b + 3 + c) =
        (E.body b).avel c + E.stepsize * R.fc (6 * b + 3 + c)
          + (E.invI (12 * b + 4 * c)
                * (E.stepsize * ((E.body b).tacc 0 + R.f_damp (6 * b + 3)))
            + E.invI (12 * b + 4 * c + 1)
                * (E.stepsize * ((E.body b).tacc 1 + R.f_damp (6 * b + 4)))
            + E.invI (12 * b + 4 * c + 2)
                * (E.stepsize * ((E.body b).tacc 2 + R.f_damp (6 * b + 5))))) ∧
    (∀ (v : Nat → dReal) (j : Nat),
      v_joint_damp_row E it v j =
        dampAlpha it E.num_iterations * (E.coeff_damp j *
          (Finset.sum (Finset.range 6) (fun k =>
              E.J_damp (12 * j + k) * v ((E.jb_damp (j * 2) * 6).toNat + k))
            + (if E.jb_damp (j * 2 + 1) ≥ 0 then
                Finset.sum (Finset.range 6) (fun k =>
                  E.J_damp (12 * j + 6 + k) * v ((E.jb_damp (j * 2 + 1) * 6).toNat + k))
              else 0)))) ∧
    (∀ (R : RowState) (b c : Nat), b < E.nb → c < 6 →
      (dampingUpdate E it R).f_damp (6 * b + c) =
        - Finset.sum (Finset.range E.m_damp) (fun j =>
            (if E.jb_damp (j * 2) = (b : Int) then
                E.J_damp (12 * j + c) * v_joint_damp_row E it (v_damp_update E R) j else 0)
            + (if E.jb_damp (j * 2 + 1) = (b : Int) then
                E.J_damp (12 * j + 6 + c) * v_joint_damp_row E it (v_damp_update E R) j
              else 0))) ∧
    (E.m_damp = 0 → ∀ (k n : Nat), n < 6 * E.nb →
      (iterationBody E it s).f_damp n = 0 ∧ (iterationsRun E s (k + 1)).f_damp n = 0) := by
  refine ⟨⟨(iterationBody_damp E it s).1, (iterationBody_damp E it s).2.1⟩,
    fun R => dampingUpdate_v_damp E it R,
    fun R b c hb hc => ⟨v_damp_update_lin E R b c hb hc, v_damp_update_ang E R b c hb hc⟩,
    fun v j => v_joint_damp_row_eq E it v j,
    fun R b c hb hc => dampingUpdate_f_damp E it R b c hb hc h1, ?_⟩
  intro h0 k n hn
  constructor
  · rw [(iterationBody_damp E it s).1]
    exact dampingUpdate_no_rows E it _ h0 n hn
  · show (iterationBody E k (iterationsRun E s k)).f_damp n = 0
    rw [(iterationBody_damp E k (iterationsRun E s k)).1]
    exact dampingUpdate_no_rows E k _ h0 n hn

theorem C30_damping_force_witness :
    (∀ j, j < exDampEnv.m_damp → 0 ≤ exDampEnv.jb_damp (j * 2)) ∧
    (dampingUpdate exDampEnv 10 exDampState).f_damp (6 * 0 + 0) =
      - Finset.sum (Finset.range exDampEnv.m_damp) (fun j =>
          (if exDampEnv.jb_damp (j * 2) = ((0 : Nat) : Int) then
              exDampEnv.J_damp (12 * j + 0)
                * v_joint_damp_row exDampEnv 10 (v_damp_update exDampEnv exDampState) j else 0)
          + (if exDampEnv.jb_damp (j * 2 + 1) = ((0 : Nat) : Int) then
              exDampEnv.J_damp (12 * j + 6 + 0)
                * v_joint_damp_row exDampEnv 10 (v_damp_update exDampEnv exDampState) j
            else 0)) :=
  ⟨by decide,
    (C30_damping_force exDampEnv 10 exDampState (by decide)).2.2.2.2.1 exDampState 0 0
      (by decide) (by decide)⟩

/-! ## The dispatch loop is well formed -/

theorem rowLoopSteps_invariant (E : RowEnv) (m : Nat) (P : RowState → Prop)
    (hrow : ∀ s idx, idx < m → P s → P (rowUpdate E s idx))
    (s : RowState) (ho : OrderOK m s.order) (hR : ∀ p, InChunk E p → p < m) (hP : P s)
    (t : Nat) (ht : t ≤ E.nRows.toNat) : P (rowLoopSteps E s t) := by
  induction t with
  | zero => exact hP
  | succ t ih =>
    rw [rowLoopSteps_succ]
    exact hrow _ _ (ho.1 _ (hR _ ⟨by omega, by omega⟩)) (ih (by omega))

theorem iterationsRun_invariant (E : RowEnv) (m : Nat) (P : RowState → Prop)
    (hstable : ∀ (s : RowState) (o : Nat → Nat) (r : Nat) (e : ℚ) (k : Nat),
      P s → P { s with order := o, randCalls := r, rms_error := e, iterations := k })
    (hrow : ∀ s idx, idx < m → P s → P (rowUpdate E s idx))
    (hdamp : ∀ it s, P s → P (dampingUpdate E it s))
    (hR : ∀ p, InChunk E p → p < m) (s : RowState) (ho : OrderOK m s.order) (hP : P s)
    (j : Nat) : OrderOK m (iterationsRun E s j).order ∧ P (iterationsRun E s j) := by
  induction j with
  | zero => exact ⟨ho, hP⟩
  | succ j ih =>
    exact ⟨iterationBody_orderOK E m hR j _ ih.1,
      iterationBody_invariant E m P hstable hrow hdamp hR j _ ih.1 ih.2⟩

theorem tasks_invariant (A : SORArgs) (P : RowState → Prop)
    (hstable : ∀ (s : RowState) (o : Nat → Nat) (r : Nat) (e : ℚ) (k : Nat),
      P s → P { s with order := o, randCalls := r, rms_error := e, iterations := k })
    (hrow : ∀ c s idx, idx < A.m → P s → P (rowUpdate (SOR_task A c) s idx))
    (hdamp : ∀ c it s, P s → P (dampingUpdate (SOR_task A c) it s))
    (L : List Nat) (s : RowState) (ho : OrderOK A.m s.order) (hP : P s) :
    OrderOK A.m (L.foldl (fun s i => ComputeRows (SOR_task A i) s) s).order ∧
    P (L.foldl (fun s i => ComputeRows (SOR_task A i) s) s) := by
  induction L generalizing s with
  | nil => exact ⟨ho, hP⟩
  | cons a L ih =>
    simp only [List.foldl_cons]
    obtain ⟨h1, h2⟩ := ComputeRows_invariant (SOR_task A a) A.m P hstable (hrow a) (hdamp a)
      (SOR_task_range A a) s ho hP
    exact ih _ h1 h2

/-- The state from which the row loop of iteration `j` of a task starts: the
memory after `j` iterations, reordered when `(j & 7) == 0`, with
`rms_error = 0`. -/
theorem rowLoop_start_invariant (E : RowEnv) (m : Nat) (P : RowState → Prop)
    (hstable : ∀ (s : RowState) (o : Nat → Nat) (r : Nat) (e : ℚ) (k : Nat),
      P s → P { s with order := o, randCalls := r, rms_error := e, iterations := k })
    (hR : ∀ p, InChunk E p → p < m) (j : Nat) (s : RowState) (ho : OrderOK m s.order)
    (hP : P s) :
    OrderOK m ({ (if j &&& 7 = 0 then shuffle E s else s) with rms_error := 0 } : RowState).order ∧
    P { (if j &&& 7 = 0 then shuffle E s else s) with rms_error := 0 } := by
  by_cases h : j &&& 7 = 0
  · rw [if_pos h]
    refine ⟨shuffle_orderOK E s m hR ho, ?_⟩
    rw [shuffle_eta]
    exact hstable s _ _ 0 s.iterations hP
  · rw [if_neg h]
    exact ⟨ho, hstable s s.order s.randCalls 0 s.iterations hP⟩

theorem dampingUpdate_FcInv (A : SORArgs) (E : RowEnv) (it : Nat) (s : RowState)
    (hP : FcInv A s) : FcInv A (dampingUpdate E it s) := by
  intro b c hb hc
  obtain ⟨_, d2, _, d4, _⟩ := dampingUpdate_fields E it s
  rw [d2, d4]
  exact hP b c hb hc

/-- C32. Incremental force invariant: in a sequential run, for rows that have
a first body, `fc[6b+c]` equals the sum over the rows whose first body is `b`
of `lambda[i] * J_i[c]` plus the sum over the rows whose second body is `b` of
`lambda[i] * J_i[6+c]`, for the unscaled `J` and with no inverse-mass factor:
before the first task, after the first `t` row updates of iteration `j` of any
task started after any tasks, and on return. -/
theorem C32_incremental_force_invariant (A : SORArgs)
    (hjb : ∀ i, i < A.m → 0 ≤ A.jb (i * 2)) :
    FcInv A (SOR_init A) ∧
    (∀ (c0 : Nat) (s : RowState) (idx : Nat), idx < A.m → FcInv A s →
      FcInv A (rowUpdate (SOR_task A c0) s idx)) ∧
    (∀ (L : List Nat) (c0 j t : Nat), t ≤ (SOR_task A c0).nRows.toNat →
      FcInv A (rowLoopSteps (SOR_task A c0)
        { (if j &&& 7 = 0 then
            shuffle (SOR_task A c0) (iterationsRun (SOR_task A c0)
              (L.foldl (fun s i => ComputeRows (SOR_task A i) s) (SOR_init A)) j)
          else iterationsRun (SOR_task A c0)
              (L.foldl (fun s i => ComputeRows (SOR_task A i) s) (SOR_init A)) j) with
          rms_error := 0 } t)) ∧
    (∀ b c, b < A.nb → c < 6 →
      (SOR_LCP A).fc (6 * b + c) =
        Finset.sum (Finset.range A.m) (fun i =>
          (if A.jb (i * 2) = (b : Int) then (SOR_LCP A).lambda i * A.J (12 * i + c) else 0)
          + (if A.jb (i * 2 + 1) = (b : Int) then
              (SOR_LCP A).lambda i * A.J (12 * i + 6 + c) else 0))) := by
  have hstable : ∀ (s : RowState) (o : Nat → Nat) (r : Nat) (e : ℚ) (k : Nat),
      FcInv A s →
      FcInv A { s with order := o, randCalls := r, rms_error := e, iterations := k } :=
    fun s o r e k h => h
  have hrow : ∀ c s idx, idx < A.m → FcInv A s → FcInv A (rowUpdate (SOR_task A c) s idx) :=
    fun c s idx hidx hP => rowUpdate_FcInv A hjb c s idx hidx hP
  have hdamp : ∀ c it s, FcInv A s → FcInv A (dampingUpdate (SOR_task A c) it s) :=
    fun c it s hP => dampingUpdate_FcInv A _ it s hP
  refine ⟨SOR_init_FcInv A, hrow, ?_, fun b c hb hc => SOR_LCP_FcInv A hjb b c hb hc⟩
  intro L c0 j t ht
  obtain ⟨o1, p1⟩ := tasks_invariant A (FcInv A) hstable hrow hdamp L (SOR_init A)
    (orderFill_orderOK A.findex A.m) (SOR_init_FcInv A)
  obtain ⟨o2, p2⟩ := iterationsRun_invariant (SOR_task A c0) A.m (FcInv A) hstable (hrow c0)
    (hdamp c0) (SOR_task_range A c0) _ o1 p1 j
  obtain ⟨o3, p3⟩ := rowLoop_start_invariant (SOR_task A c0) A.m (FcInv A) hstable
    (SOR_task_range A c0) j _ o2 p2
  exact rowLoopSteps_invariant (SOR_task A c0) A.m (FcInv A) (hrow c0) _ o3
    (SOR_task_range A c0) p3 t ht

theorem C32_incremental_force_invariant_witness :
    (SOR_LCP exOneRow).fc (6 * 0 + 0) =
      Finset.sum (Finset.range exOneRow.m) (fun i =>
        (if exOneRow.jb (i * 2) = ((0 : Nat) : Int) then
            (SOR_LCP exOneRow).lambda i * exOneRow.J (12 * i + 0) else 0)
        + (if exOneRow.jb (i * 2 + 1) = ((0 : Nat) : Int) then
            (SOR_LCP exOneRow).lambda i * exOneRow.J (12 * i + 6 + 0) else 0)) :=
  (C32_incremental_force_invariant exOneRow exOneRow_jb).2.2.2 0 0 (by decide) (by decide)

/-! ## The unclamped step in unscaled terms -/

theorem SOR_Jscaled_cell (A : SORArgs) (i c : Nat) (hi : i < A.m) (hc : c < 12) :
    SOR_Jscaled A (i * 12 + c) = SOR_Ad A i * A.J (12 * i + c) := by
  unfold SOR_Jscaled
  have h1 : i * 12 + c < 12 * A.m := by omega
  have h2 : (i * 12 + c) / 12 = i := by omega
  rw [if_pos h1, h2, Nat.mul_comm i 12, mul_comm]

theorem dot6_Jscaled (A : SORArgs) (f : Nat → ℚ) (o i : Nat) (hi : i < A.m) :
    dot6 f o (SOR_Jscaled A) (i * 12) = SOR_Ad A i * dot6 f o A.J (12 * i) ∧
    dot6 f o (SOR_Jscaled A) (i * 12 + 6) = SOR_Ad A i * dot6 f o A.J (12 * i + 6) := by
  have h0 := SOR_Jscaled_cell A i
  have e : ∀ c, i * 12 + 6 + c = i * 12 + (6 + c) := fun c => by omega
  have e2 : ∀ c, 12 * i + 6 + c = 12 * i + (6 + c) := fun c => by omega
  constructor
  · unfold dot6
    rw [show i * 12 = i * 12 + 0 from rfl, h0 0 hi (by omega), h0 1 hi (by omega),
      h0 2 hi (by omega), h0 3 hi (by omega), h0 4 hi (by omega), h0 5 hi (by omega)]
    simp only [Nat.add_zero]
    ring
  · unfold dot6
    rw [show i * 12 + 6 = i * 12 + (6 + 0) from rfl, e, e, e, e, e,
      h0 _ hi (by omega), h0 _ hi (by omega),
      h0 _ hi (by omega), h0 _ hi (by omega), h0 _ hi (by omega), h0 _ hi (by omega)]
    simp only [e2, Nat.add_zero]
    ring

theorem rowDelta_plain (A : SORArgs) (c0 : Nat) (s : RowState) (i : Nat) (hi : i < A.m) :
    rowDelta (SOR_task A c0) s i =
      SOR_Ad A i * (A.b i - A.cfm i * s.lambda i
        - (dot6 s.fc (6 * A.jb (i * 2)).toNat A.J (12 * i)
          + (if A.jb (i * 2 + 1) ≥ 0 then
              dot6 s.fc (6 * A.jb (i * 2 + 1)).toNat A.J (12 * i + 6) else 0)))
      + b_damp_row (SOR_task A c0) s.f_damp i := by
  have hb : SOR_bscaled A i = A.b i * SOR_Ad A i := if_pos hi
  have hcf : SOR_Adcfm A i = SOR_Ad A i * A.cfm i := if_pos hi
  have e : rowDelta (SOR_task A c0) s i =
      (if A.jb (i * 2 + 1) ≥ 0 then
        (SOR_bscaled A i - s.lambda i * SOR_Adcfm A i + b_damp_row (SOR_task A c0) s.f_damp i
          - dot6 s.fc (6 * A.jb (i * 2)).toNat (SOR_Jscaled A) (i * 12))
          - dot6 s.fc (6 * A.jb (i * 2 + 1)).toNat (SOR_Jscaled A) (i * 12 + 6)
      else
        SOR_bscaled A i - s.lambda i * SOR_Adcfm A i + b_damp_row (SOR_task A c0) s.f_damp i
          - dot6 s.fc (6 * A.jb (i * 2)).toNat (SOR_Jscaled A) (i * 12)) := rfl
  rw [e, hb, hcf, (dot6_Jscaled A s.fc _ i hi).1, (dot6_Jscaled A s.fc _ i hi).2]
  by_cases h2 : A.jb (i * 2 + 1) ≥ 0
  · rw [if_pos h2, if_pos h2]
    ring
  · rw [if_neg h2, if_neg h2]
    ring

theorem b_damp_row_of_zero (E : RowEnv) (f : Nat → ℚ) (index : Nat) (hf : ∀ n, f n = 0) :
    b_damp_row E f index = 0 := by
  unfold b_damp_row
  simp only [foldl_range6, hf, mul_zero, add_zero, ite_self, zero_mul]

theorem dampingUpdate_zero (E : RowEnv) (it : Nat) (s : RowState) (hm : E.m_damp = 0)
    (hf : ∀ n, s.f_damp n = 0) (n : Nat) : (dampingUpdate E it s).f_damp n = 0 := by
  unfold dampingUpdate
  rw [hm]
  show dSetZero s.f_damp (6 * E.nb) n = 0
  unfold dSetZero
  split_ifs
  · rfl
  · exact hf n

theorem clampLambda_none (x : ℚ) : clampLambda x none none = x := rfl

/-! ## One unbounded row: the closed form -/

theorem single_row_task (A : SORArgs) (hm : A.m = 1) (hov : 0 ≤ A.qs.num_overlap) :
    SOR_tasks A = [SOR_task A 0] ∧ (SOR_task A 0).startRow = 0 ∧ (SOR_task A 0).nRows = 1 := by
  have hcpos := SOR_chunk_pos A.m A.qs
  refine ⟨?_, ?_, ?_⟩
  · unfold SOR_tasks chunkStarts
    generalize hc : (SOR_chunk A.m A.qs).toNat = c
    have hc0 : 0 < c := by omega
    rw [hm]
    have : (1 + c - 1) / c = 1 := by
      rw [Nat.add_sub_cancel_left]
      exact Nat.div_self hc0
    rw [this]
    simp [List.range_succ]
  · simp only [SOR_task, SOR_nStart]
    split_ifs <;> omega
  · simp only [SOR_task, SOR_nStart, SOR_nEnd]
    rw [hm] at hcpos ⊢
    split_ifs <;> omega

theorem single_row_run (A : SORArgs) (k : Nat) (hm : A.m = 1) (hov : 0 ≤ A.qs.num_overlap)
    (hk : A.qs.num_iterations = (k : Int)) (htol : A.qs.sor_lcp_tolerance ≤ 0) :
    SOR_LCP A = iterationsRun (SOR_task A 0) (SOR_init A) k := by
  obtain ⟨ht, _, _⟩ := single_row_task A hm hov
  unfold SOR_LCP
  rw [ht]
  show ComputeRows (SOR_task A 0) (SOR_init A) = _
  unfold ComputeRows
  have hn : (SOR_task A 0).num_iterations.toNat = k := by
    show A.qs.num_iterations.toNat = k
    omega
  rw [hn]
  have := iterLoop_full (SOR_task A 0) (SOR_init A) k 0 (by
    intro i _
    unfold convergedAt sqrtLt
    have : ¬ (0 < (SOR_task A 0).sor_lcp_tolerance) := not_lt.mpr htol
    simp [this])
  rw [Nat.zero_add] at this
  exact this

theorem single_row_Jfc (A : SORArgs) (hm : A.m = 1) (s : RowState) (hP : FcInv A s)
    (hb1 : 0 ≤ A.jb 0 ∧ A.jb 0 < (A.nb : Int))
    (hb2 : A.jb 1 < (A.nb : Int) ∧ A.jb 1 ≠ A.jb 0) :
    dot6 s.fc (6 * A.jb (0 * 2)).toNat A.J (12 * 0)
      + (if A.jb (0 * 2 + 1) ≥ 0 then
          dot6 s.fc (6 * A.jb (0 * 2 + 1)).toNat A.J (12 * 0 + 6) else 0) =
    s.lambda 0 * diag_plain A 0 := by
  obtain ⟨B1, hB1⟩ := Int.eq_ofNat_of_zero_le hb1.1
  have hfc : ∀ b c, b < A.nb → c < 6 → s.fc (6 * b + c) =
      (if A.jb 0 = (b : Int) then s.lambda 0 * A.J c else 0)
        + (if A.jb 1 = (b : Int) then s.lambda 0 * A.J (6 + c) else 0) := by
    intro b c hb hc
    have := hP b c hb hc
    rw [hm] at this
    rw [this]
    unfold JTlambda
    simp only [Finset.sum_range_one, Nat.zero_mul, Nat.mul_zero, Nat.zero_add]
  have e1 : (6 * A.jb (0 * 2)).toNat = 6 * B1 := by
    rw [Nat.zero_mul, hB1]; omega
  have c1 : ∀ c, c < 6 → s.fc (6 * B1 + c) = s.lambda 0 * A.J c := by
    intro c hc
    rw [hfc B1 c (by omega) hc, if_pos hB1, if_neg (by rw [← hB1]; exact hb2.2), add_zero]
  unfold diag_plain
  by_cases h2 : A.jb (0 * 2 + 1) ≥ 0
  · obtain ⟨B2, hB2⟩ := Int.eq_ofNat_of_zero_le h2
    have hB2' : A.jb 1 = (B2 : Int) := hB2
    have e2 : (6 * A.jb (0 * 2 + 1)).toNat = 6 * B2 := by
      rw [hB2]; omega
    have c2 : ∀ c, c < 6 → s.fc (6 * B2 + c) = s.lambda 0 * A.J (6 + c) := by
      intro c hc
      rw [hfc B2 c (by omega) hc, if_pos hB2', if_neg (by rw [← hB2']; exact fun h => hb2.2 h.symm),
        zero_add]
    rw [if_pos h2, if_pos h2, e1, e2]
    unfold dot6
    rw [show 6 * B1 = 6 * B1 + 0 from rfl, show 6 * B2 = 6 * B2 + 0 from rfl,
      c1 0 (by omega), c1 1 (by omega), c1 2 (by omega), c1 3 (by omega), c1 4 (by omega),
      c1 5 (by omega), c2 0 (by omega), c2 1 (by omega), c2 2 (by omega), c2 3 (by omega),
      c2 4 (by omega), c2 5 (by omega)]
    simp only [Nat.mul_zero, Nat.zero_add, Nat.add_zero]
    ring
  · rw [if_neg h2, if_neg h2, e1]
    unfold dot6
    rw [show 6 * B1 = 6 * B1 + 0 from rfl,
      c1 0 (by omega), c1 1 (by omega), c1 2 (by omega), c1 3 (by omega), c1 4 (by omega),
      c1 5 (by omega)]
    simp only [Nat.mul_zero, Nat.zero_add, Nat.add_zero]
    ring

theorem iterationBody_one_row (E : RowEnv) (it : Nat) (s : RowState) (h : E.nRows.toNat = 1) :
    (iterationBody E it s).lambda =
      (rowUpdate E { s with rms_error := 0 } (s.order E.startRow.toNat)).lambda ∧
    (iterationBody E it s).delta_error =
      (rowUpdate E { s with rms_error := 0 } (s.order E.startRow.toNat)).delta_error := by
  have hs : (if it &&& 7 = 0 then shuffle E s else s) = s := by
    split_ifs
    · exact shuffle_of_le_one E s (by omega)
    · rfl
  have h1 := (iterationBody_damp E it s).1
  rw [hs, rowLoop_of_one E _ h] at h1
  obtain ⟨_, d2, _, _, _, d6, _⟩ := dampingUpdate_fields E it
    (rowUpdate E { s with rms_error := 0 } (s.order E.startRow.toNat))
  rw [h1]
  exact ⟨d2, d6⟩

theorem single_row_step (A : SORArgs) (hm : A.m = 1) (hov : 0 ≤ A.qs.num_overlap)
    (hfi : A.findex 0 < 0) (hlo : A.lo 0 = none) (hhi : A.hi 0 = none)
    (hb1 : 0 ≤ A.jb 0 ∧ A.jb 0 < (A.nb : Int))
    (hb2 : A.jb 1 < (A.nb : Int) ∧ A.jb 1 ≠ A.jb 0)
    (it : Nat) (s : RowState) (ho : OrderOK 1 s.order) (hP : FcInv A s)
    (hf : ∀ n, s.f_damp n = 0) :
    (iterationBody (SOR_task A 0) it s).lambda 0 =
      s.lambda 0 + A.qs.w / (diag_plain A 0 + A.cfm 0)
        * (A.b 0 - (diag_plain A 0 + A.cfm 0) * s.lambda 0) ∧
    (iterationBody (SOR_task A 0) it s).delta_error 0 =
      dFabs ((iterationBody (SOR_task A 0) it s).lambda 0 - s.lambda 0) := by
  obtain ⟨_, hs, hn⟩ := single_row_task A hm hov
  have hn1 : (SOR_task A 0).nRows.toNat = 1 := by rw [hn]; rfl
  have hs0 : (SOR_task A 0).startRow.toNat = 0 := by rw [hs]; rfl
  have ho0 : s.order 0 = 0 := by
    have := ho.1 0 (by omega)
    omega
  obtain ⟨e1, e2⟩ := iterationBody_one_row (SOR_task A 0) it s hn1
  rw [hs0, ho0] at e1 e2
  have h0 : 0 < A.m := by omega
  have hAd : SOR_Ad A 0 = A.qs.w / (diag_plain A 0 + A.cfm 0) := by
    unfold SOR_Ad
    rw [if_pos h0, SOR_diag_eq_plain A 0 h0]
  have hd : rowDelta (SOR_task A 0) { s with rms_error := 0 } 0 =
      A.qs.w / (diag_plain A 0 + A.cfm 0)
        * (A.b 0 - (diag_plain A 0 + A.cfm 0) * s.lambda 0) := by
    rw [rowDelta_plain A 0 _ 0 h0, b_damp_row_of_zero _ _ _ hf, add_zero, hAd]
    have := single_row_Jfc A hm { s with rms_error := 0 } hP hb1 hb2
    rw [this]
    show _ * (A.b 0 - A.cfm 0 * s.lambda 0 - s.lambda 0 * diag_plain A 0) = _
    ring
  have hlam : (rowUpdate (SOR_task A 0) { s with rms_error := 0 } 0).lambda 0 =
      s.lambda 0 + rowDelta (SOR_task A 0) { s with rms_error := 0 } 0 := by
    rw [rowUpdate_lambda, Function.update_same]
    have l1 : lo_act (SOR_task A 0) s.lambda 0 = none := by
      unfold lo_act
      rw [if_neg (by show ¬ A.findex 0 ≥ 0; omega)]
      exact hlo
    have l2 : hi_act (SOR_task A 0) s.lambda 0 = none := by
      unfold hi_act
      rw [if_neg (by show ¬ A.findex 0 ≥ 0; omega)]
      exact hhi
    show clampLambda _ (lo_act (SOR_task A 0) s.lambda 0) (hi_act (SOR_task A 0) s.lambda 0) = _
    rw [l1, l2, clampLambda_none]
  constructor
  · rw [e1, hlam, hd]
  · rw [e1, e2]
    show Function.update s.delta_error 0 _ 0 = _
    rw [Function.update_same]
    rfl

theorem single_row_closed (A : SORArgs) (hm : A.m = 1)
    (hov : 0 ≤ A.qs.num_overlap)
    (hfi : A.findex 0 < 0) (hlo : A.lo 0 = none) (hhi : A.hi 0 = none)
    (hb1 : 0 ≤ A.jb 0 ∧ A.jb 0 < (A.nb : Int))
    (hb2 : A.jb 1 < (A.nb : Int) ∧ A.jb 1 ≠ A.jb 0)
    (hmd : A.m_damp = 0) (hfd : ∀ n, A.f_damp n = 0)
    (hD : diag_plain A 0 + A.cfm 0 ≠ 0) (j : Nat) :
    (iterationsRun (SOR_task A 0) (SOR_init A) j).lambda 0 =
      A.b 0 / (diag_plain A 0 + A.cfm 0) * (1 - (1 - A.qs.w) ^ j) ∧
    (iterationsRun (SOR_task A 0) (SOR_init A) (j + 1)).delta_error 0 =
      dFabs ((iterationsRun (SOR_task A 0) (SOR_init A) (j + 1)).lambda 0
        - (iterationsRun (SOR_task A 0) (SOR_init A) j).lambda 0) := by
  have hstable : ∀ (s : RowState) (o : Nat → Nat) (r : Nat) (e : ℚ) (k : Nat),
      (FcInv A s ∧ ∀ n, s.f_damp n = 0) →
      (FcInv A { s with order := o, randCalls := r, rms_error := e, iterations := k } ∧
        ∀ n, ({ s with order := o, randCalls := r, rms_error := e, iterations := k } :
          RowState).f_damp n = 0) :=
    fun s o r e k h => h
  have hinv : ∀ j, OrderOK A.m (iterationsRun (SOR_task A 0) (SOR_init A) j).order ∧
      (FcInv A (iterationsRun (SOR_task A 0) (SOR_init A) j) ∧
        ∀ n, (iterationsRun (SOR_task A 0) (SOR_init A) j).f_damp n = 0) := by
    intro j
    apply iterationsRun_invariant (SOR_task A 0) A.m
      (fun s => FcInv A s ∧ ∀ n, s.f_damp n = 0) hstable
    · intro s idx hidx hP
      exact ⟨rowUpdate_FcInv A (fun i hi => by
        have : i = 0 := by omega
        rw [this]; exact hb1.1) 0 s idx hidx hP.1, hP.2⟩
    · intro it s hP
      exact ⟨dampingUpdate_FcInv A _ it s hP.1, dampingUpdate_zero _ it s hmd hP.2⟩
    · exact SOR_task_range A 0
    · exact orderFill_orderOK A.findex A.m
    · exact ⟨SOR_init_FcInv A, hfd⟩
  have hstep : ∀ j, (iterationsRun (SOR_task A 0) (SOR_init A) (j + 1)).lambda 0 =
      (iterationsRun (SOR_task A 0) (SOR_init A) j).lambda 0
        + A.qs.w / (diag_plain A 0 + A.cfm 0)
          * (A.b 0 - (diag_plain A 0 + A.cfm 0)
            * (iterationsRun (SOR_task A 0) (SOR_init A) j).lambda 0) ∧
      (iterationsRun (SOR_task A 0) (SOR_init A) (j + 1)).delta_error 0 =
        dFabs ((iterationsRun (SOR_task A 0) (SOR_init A) (j + 1)).lambda 0
          - (iterationsRun (SOR_task A 0) (SOR_init A) j).lambda 0) := by
    intro j
    obtain ⟨o, P, f⟩ := hinv j
    rw [hm] at o
    exact single_row_step A hm hov hfi hlo hhi hb1 hb2 j _ o P f
  refine ⟨?_, (hstep j).2⟩
  induction j with
  | zero =>
    show dSetZero A.lambda A.m 0 = _
    rw [pow_zero, sub_self, mul_zero]
    exact if_pos (by omega)
  | succ j ih =>
    rw [(hstep j).1, ih, pow_succ]
    field_simp
    ring

/-! ## A fixed point of an iteration solves the box problem -/

theorem rowDelta_congr (E : RowEnv) (s s' : RowState) (i : Nat) (hl : s'.lambda = s.lambda)
    (hf : s'.fc = s.fc) (hd : s'.f_damp = s.f_damp) : rowDelta E s' i = rowDelta E s i := by
  unfold rowDelta
  rw [hl, hf, hd]

/-- When every `delta_error` written by the first `t` row updates of an
iteration is `0`, these updates have changed neither `lambda` nor `fc`, and
each of them has found its row at a fixed point of the clamped step. -/
theorem rowLoopSteps_fixed (E : RowEnv) (s : RowState) (t : Nat)
    (hinj : ∀ p q, p < t → q < t →
      s.order (E.startRow.toNat + p) = s.order (E.startRow.toNat + q) → p = q)
    (hz : ∀ k, k < t → (rowLoopSteps E s t).delta_error (s.order (E.startRow.toNat + k)) = 0) :
    (rowLoopSteps E s t).lambda = s.lambda ∧ (rowLoopSteps E s t).fc = s.fc ∧
    (rowLoopSteps E s t).f_damp = s.f_damp ∧
    ∀ k, k < t →
      clampLambda (s.lambda (s.order (E.startRow.toNat + k))
          + rowDelta E s (s.order (E.startRow.toNat + k)))
        (lo_act E s.lambda (s.order (E.startRow.toNat + k)))
        (hi_act E s.lambda (s.order (E.startRow.toNat + k))) =
      s.lambda (s.order (E.startRow.toNat + k)) := by
  induction t with
  | zero => exact ⟨rfl, rfl, rfl, fun k hk => absurd hk (Nat.not_lt_zero k)⟩
  | succ t ih =>
    rw [rowLoopSteps_succ] at hz ⊢
    have hde : ∀ x, (rowUpdate E (rowLoopSteps E s t) (s.order (E.startRow.toNat + t))).delta_error
        x = Function.update (rowLoopSteps E s t).delta_error (s.order (E.startRow.toNat + t))
          (dFabs ((rowUpdate E (rowLoopSteps E s t) (s.order (E.startRow.toNat + t))).lambda
              (s.order (E.startRow.toNat + t))
            - (rowLoopSteps E s t).lambda (s.order (E.startRow.toNat + t)))) x := by
      intro x
      rw [rowUpdate_lambda, Function.update_same]
      rfl
    obtain ⟨i1, i2, i3, i4⟩ := ih (fun p q hp hq => hinj p q (by omega) (by omega)) (by
      intro k hk
      have := hz k (by omega)
      rw [hde, Function.update_noteq] at this
      · exact this
      · intro e
        have := hinj k t (by omega) (by omega) e
        omega)
    have hfix : clampLambda ((rowLoopSteps E s t).lambda (s.order (E.startRow.toNat + t))
          + rowDelta E (rowLoopSteps E s t) (s.order (E.startRow.toNat + t)))
        (lo_act E (rowLoopSteps E s t).lambda (s.order (E.startRow.toNat + t)))
        (hi_act E (rowLoopSteps E s t).lambda (s.order (E.startRow.toNat + t))) =
        (rowLoopSteps E s t).lambda (s.order (E.startRow.toNat + t)) := by
      have := hz t (by omega)
      rw [hde, Function.update_same, dFabs_eq_abs, abs_eq_zero, rowUpdate_lambda,
        Function.update_same] at this
      linarith
    obtain ⟨f1, f2, f3, _, _⟩ := rowUpdate_fixed E (rowLoopSteps E s t) _ hfix
    refine ⟨f1.trans i1, f2.trans i2, f3.trans i3, ?_⟩
    intro k hk
    by_cases hkt : k < t
    · exact i4 k hkt
    · have : k = t := by omega
      rw [this]
      rw [i1, rowDelta_congr E s _ _ i1 i2 i3] at hfix
      exact hfix

theorem clamp_fixed_cases (x d : ℚ) (lo : LoBound) (hi : HiBound)
    (h : clampLambda (x + d) lo hi = x) :
    (lo = some x ∧ d < 0) ∨ (hi = some x ∧ 0 < d) ∨ (loLe lo x ∧ leHi x hi ∧ d = 0) := by
  unfold clampLambda at h
  by_cases h1 : ltLo (x + d) lo = true
  · rw [if_pos h1] at h
    cases lo with
    | none => cases h1
    | some l =>
      left
      simp only [ltLo, decide_eq_true_eq] at h1
      simp only [Option.getD_some] at h
      exact ⟨by rw [h], by linarith⟩
  · rw [if_neg h1] at h
    by_cases h2 : gtHi (x + d) hi = true
    · rw [if_pos h2] at h
      cases hi with
      | none => cases h2
      | some u =>
        right; left
        simp only [gtHi, decide_eq_true_eq] at h2
        simp only [Option.getD_some] at h
        exact ⟨by rw [h], by linarith⟩
    · rw [if_neg h2] at h
      right; right
      have hd : d = 0 := by linarith
      rw [hd, add_zero] at h1 h2
      refine ⟨?_, ?_, hd⟩
      · intro l hl
        rw [hl] at h1
        simp only [ltLo, decide_eq_true_eq] at h1
        exact not_lt.mp h1
      · intro u hu
        rw [hu] at h2
        simp only [gtHi, decide_eq_true_eq] at h2
        exact not_lt.mp h2

theorem Jfc_of_FcInv (A : SORArgs) (s : RowState) (i : Nat) (hP : FcInv A s)
    (hjb : 0 ≤ A.jb (i * 2) ∧ A.jb (i * 2) < (A.nb : Int) ∧ A.jb (i * 2 + 1) < (A.nb : Int)) :
    dot6 s.fc (6 * A.jb (i * 2)).toNat A.J (12 * i)
      + (if A.jb (i * 2 + 1) ≥ 0 then
          dot6 s.fc (6 * A.jb (i * 2 + 1)).toNat A.J (12 * i + 6) else 0) =
    Finset.sum (Finset.range 6) (fun c =>
        JTlambda A.m A.J A.jb s.lambda (A.jb (i * 2)).toNat c * A.J (12 * i + c))
      + (if A.jb (i * 2 + 1) ≥ 0 then
          Finset.sum (Finset.range 6) (fun c =>
            JTlambda A.m A.J A.jb s.lambda (A.jb (i * 2 + 1)).toNat c * A.J (12 * i + 6 + c))
        else 0) := by
  have e1 : (6 * A.jb (i * 2)).toNat = 6 * (A.jb (i * 2)).toNat := by omega
  have k1 : dot6 s.fc (6 * A.jb (i * 2)).toNat A.J (12 * i) =
      Finset.sum (Finset.range 6) (fun c =>
        JTlambda A.m A.J A.jb s.lambda (A.jb (i * 2)).toNat c * A.J (12 * i + c)) := by
    rw [dot6_eq_sum, e1]
    apply Finset.sum_congr rfl
    intro c hc
    rw [hP _ c (by omega) (Finset.mem_range.mp hc)]
  rw [k1]
  by_cases h2 : A.jb (i * 2 + 1) ≥ 0
  · rw [if_pos h2, if_pos h2]
    have e2 : (6 * A.jb (i * 2 + 1)).toNat = 6 * (A.jb (i * 2 + 1)).toNat := by omega
    rw [dot6_eq_sum, e2]
    congr 1
    apply Finset.sum_congr rfl
    intro c hc
    rw [hP _ c (by omega) (Finset.mem_range.mp hc)]
  · rw [if_neg h2, if_neg h2]

theorem single_chunk_task (A : SORArgs) (hm : 1 ≤ A.m) (hov : 0 ≤ A.qs.num_overlap)
    (hnc : A.qs.num_chunks ≤ 1) :
    SOR_tasks A = [SOR_task A 0] ∧ (SOR_task A 0).startRow.toNat = 0 ∧
    (SOR_task A 0).nRows.toNat = A.m := by
  obtain ⟨hc, hst⟩ := single_chunk_starts A hm hnc
  refine ⟨?_, ?_, ?_⟩
  · unfold SOR_tasks
    rw [hst]
    rfl
  · simp only [SOR_task, SOR_nStart]
    split_ifs <;> omega
  · simp only [SOR_task, SOR_nStart, SOR_nEnd, hc]
    split_ifs <;> omega

/-- An iteration of the single task over all rows that records `delta = 0`
for every row leaves `lambda` unchanged, and every row then satisfies the
conditions of the box problem for the residual in unscaled terms. -/
theorem iteration_fixed_lcp (A : SORArgs) (j : Nat) (hm : 1 ≤ A.m)
    (hov : 0 ≤ A.qs.num_overlap) (hnc : A.qs.num_chunks ≤ 1)
    (hmd : A.m_damp = 0) (hfd : ∀ n, A.f_damp n = 0) (hw : 0 < A.qs.w)
    (hD : ∀ i, i < A.m → 0 < diag_plain A i + A.cfm i)
    (hfi : ∀ i, i < A.m → A.findex i < 0)
    (hjb : ∀ i, i < A.m →
      0 ≤ A.jb (i * 2) ∧ A.jb (i * 2) < (A.nb : Int) ∧ A.jb (i * 2 + 1) < (A.nb : Int))
    (hz : ∀ i, i < A.m →
      (iterationsRun (SOR_task A 0) (SOR_init A) (j + 1)).delta_error i = 0) :
    (iterationsRun (SOR_task A 0) (SOR_init A) (j + 1)).lambda =
      (iterationsRun (SOR_task A 0) (SOR_init A) j).lambda ∧
    ∀ i, i < A.m → ∃ r : ℚ,
      r = A.b i - A.cfm i * (iterationsRun (SOR_task A 0) (SOR_init A) (j + 1)).lambda i
        - (Finset.sum (Finset.range 6) (fun c =>
              JTlambda A.m A.J A.jb (iterationsRun (SOR_task A 0) (SOR_init A) (j + 1)).lambda
                (A.jb (i * 2)).toNat c * A.J (12 * i + c))
          + (if A.jb (i * 2 + 1) ≥ 0 then
              Finset.sum (Finset.range 6) (fun c =>
                JTlambda A.m A.J A.jb (iterationsRun (SOR_task A 0) (SOR_init A) (j + 1)).lambda
                  (A.jb (i * 2 + 1)).toNat c * A.J (12 * i + 6 + c))
            else 0)) ∧
      ((A.lo i = some ((iterationsRun (SOR_task A 0) (SOR_init A) (j + 1)).lambda i) ∧ r ≤ 0) ∨
        (A.hi i = some ((iterationsRun (SOR_task A 0) (SOR_init A) (j + 1)).lambda i) ∧ 0 ≤ r) ∨
        (loLe (A.lo i) ((iterationsRun (SOR_task A 0) (SOR_init A) (j + 1)).lambda i) ∧
          leHi ((iterationsRun (SOR_task A 0) (SOR_init A) (j + 1)).lambda i) (A.hi i) ∧
          r = 0)) := by
  obtain ⟨_, hs0, hn⟩ := single_chunk_task A hm hov hnc
  have hstable : ∀ (s : RowState) (o : Nat → Nat) (r : Nat) (e : ℚ) (k : Nat),
      (FcInv A s ∧ ∀ n, s.f_damp n = 0) →
      (FcInv A { s with order := o, randCalls := r, rms_error := e, iterations := k } ∧
        ∀ n, ({ s with order := o, randCalls := r, rms_error := e, iterations := k } :
          RowState).f_damp n = 0) :=
    fun s o r e k h => h
  obtain ⟨o1, p1⟩ := iterationsRun_invariant (SOR_task A 0) A.m
      (fun s => FcInv A s ∧ ∀ n, s.f_damp n = 0) hstable
      (fun s idx hidx hP =>
        ⟨rowUpdate_FcInv A (fun i hi => (hjb i hi).1) 0 s idx hidx hP.1, hP.2⟩)
      (fun it s hP => ⟨dampingUpdate_FcInv A _ it s hP.1, dampingUpdate_zero _ it s hmd hP.2⟩)
      (SOR_task_range A 0) (SOR_init A) (orderFill_orderOK A.findex A.m)
      ⟨SOR_init_FcInv A, hfd⟩ j
  obtain ⟨o2, p2⟩ := rowLoop_start_invariant (SOR_task A 0) A.m
      (fun s => FcInv A s ∧ ∀ n, s.f_damp n = 0) hstable (SOR_task_range A 0) j _ o1 p1
  have hbody := (iterationBody_damp (SOR_task A 0) j
    (iterationsRun (SOR_task A 0) (SOR_init A) j)).1
  have hlam0 : ({ (if j &&& 7 = 0 then
        shuffle (SOR_task A 0) (iterationsRun (SOR_task A 0) (SOR_init A) j)
      else iterationsRun (SOR_task A 0) (SOR_init A) j) with rms_error := 0 } : RowState).lambda
      = (iterationsRun (SOR_task A 0) (SOR_init A) j).lambda := by
    by_cases h : j &&& 7 = 0
    · rw [if_pos h, shuffle_eta]
    · rw [if_neg h]
  generalize hst : ({ (if j &&& 7 = 0 then
        shuffle (SOR_task A 0) (iterationsRun (SOR_task A 0) (SOR_init A) j)
      else iterationsRun (SOR_task A 0) (SOR_init A) j) with rms_error := 0 } : RowState)
      = start at o2 p2 hbody hlam0
  have hnext : iterationsRun (SOR_task A 0) (SOR_init A) (j + 1) =
      { dampingUpdate (SOR_task A 0) j (rowLoop (SOR_task A 0) start) with
        iterations := j + 1 } := hbody
  obtain ⟨_, d2, _, _, _, d6, _⟩ := dampingUpdate_fields (SOR_task A 0) j
    (rowLoop (SOR_task A 0) start)
  have hl1 : (iterationsRun (SOR_task A 0) (SOR_init A) (j + 1)).lambda =
      (rowLoop (SOR_task A 0) start).lambda := by rw [hnext]; exact d2
  have hd1 : (iterationsRun (SOR_task A 0) (SOR_init A) (j + 1)).delta_error =
      (rowLoop (SOR_task A 0) start).delta_error := by rw [hnext]; exact d6
  have hrl : rowLoop (SOR_task A 0) start = rowLoopSteps (SOR_task A 0) start A.m := by
    rw [rowLoop_eq_steps, hn]
  rw [hrl] at hl1 hd1
  have hinj := orderOK_injective A.m start.order o2
  obtain ⟨f1, _, _, f4⟩ := rowLoopSteps_fixed (SOR_task A 0) start A.m
    (fun p q hp hq e => by
      rw [hs0, Nat.zero_add, Nat.zero_add] at e
      exact hinj p q hp hq e)
    (fun k hk => by
      rw [← hd1]
      exact hz _ (o2.1 _ (by omega)))
  rw [hs0] at f4
  have hl2 : (iterationsRun (SOR_task A 0) (SOR_init A) (j + 1)).lambda = start.lambda :=
    hl1.trans f1
  refine ⟨hl2.trans hlam0, ?_⟩
  intro i hi
  obtain ⟨k, hk, hki⟩ := o2.2 i hi
  have hfix := f4 k hk
  rw [Nat.zero_add, hki] at hfix
  have h0 : ¬ (SOR_task A 0).findex i ≥ 0 := by
    show ¬ A.findex i ≥ 0
    have := hfi i hi
    omega
  have l1 : lo_act (SOR_task A 0) start.lambda i = A.lo i := by
    unfold lo_act
    rw [if_neg h0]
    rfl
  have l2 : hi_act (SOR_task A 0) start.lambda i = A.hi i := by
    unfold hi_act
    rw [if_neg h0]
    rfl
  rw [l1, l2] at hfix
  have hAd : SOR_Ad A i = A.qs.w / (diag_plain A i + A.cfm i) := by
    unfold SOR_Ad
    rw [if_pos hi, SOR_diag_eq_plain A i hi]
  have hAdpos : 0 < SOR_Ad A i := by
    rw [hAd]
    exact div_pos hw (hD i hi)
  have hdel := rowDelta_plain A 0 start i hi
  rw [b_damp_row_of_zero _ _ _ p2.2, add_zero, Jfc_of_FcInv A start i p2.1 (hjb i hi)] at hdel
  rw [hl2]
  refine ⟨_, rfl, ?_⟩
  generalize hr : A.b i - A.cfm i * start.lambda i
        - (Finset.sum (Finset.range 6) (fun c =>
              JTlambda A.m A.J A.jb start.lambda (A.jb (i * 2)).toNat c * A.J (12 * i + c))
          + (if A.jb (i * 2 + 1) ≥ 0 then
              Finset.sum (Finset.range 6) (fun c =>
                JTlambda A.m A.J A.jb start.lambda (A.jb (i * 2 + 1)).toNat c
                  * A.J (12 * i + 6 + c))
            else 0)) = r at hdel ⊢
  rcases clamp_fixed_cases _ _ _ _ hfix with ⟨a, b⟩ | ⟨a, b⟩ | ⟨a, b, c⟩
  · left
    refine ⟨a, ?_⟩
    rw [hdel] at b
    by_contra hc
    have := mul_pos hAdpos (not_le.mp hc)
    linarith
  · right; left
    refine ⟨a, ?_⟩
    rw [hdel] at b
    by_contra hc
    have := mul_neg_of_pos_of_neg hAdpos (not_le.mp hc)
    linarith
  · right; right
    refine ⟨a, b, ?_⟩
    rw [hdel] at c
    exact (mul_eq_zero.mp c).resolve_left (ne_of_gt hAdpos)

theorem exOneRow_fixed (i : Nat) (hi : i < exOneRow.m) :
    (iterationsRun (SOR_task exOneRow 0) (SOR_init exOneRow) (1 + 1)).delta_error i = 0 := by
  have hD : diag_plain exOneRow 0 + exOneRow.cfm 0 ≠ 0 := by
    simp [exOneRow, diag_plain, dot6]
  have h := fun j => single_row_closed exOneRow rfl (by decide) (by decide) rfl rfl
    (by decide) (by decide) rfl (fun _ => rfl) hD j
  have hi0 : i = 0 := by
    have : exOneRow.m = 1 := rfl
    omega
  rw [hi0, (h 1).2, (h 2).1, (h 1).1]
  have hw : exOneRow.qs.w = 1 := rfl
  rw [hw]
  norm_num [dFabs]

theorem exOneRow_D (i : Nat) (hi : i < exOneRow.m) :
    0 < diag_plain exOneRow i + exOneRow.cfm i := by
  have hi0 : i = 0 := by
    have : exOneRow.m = 1 := rfl
    omega
  rw [hi0]
  simp [exOneRow, diag_plain, dot6]

theorem exOneRow_bodies (i : Nat) (hi : i < exOneRow.m) :
    0 ≤ exOneRow.jb (i * 2) ∧ exOneRow.jb (i * 2) < (exOneRow.nb : Int) ∧
    exOneRow.jb (i * 2 + 1) < (exOneRow.nb : Int) := by
  have hi0 : i = 0 := by
    have : exOneRow.m = 1 := rfl
    omega
  rw [hi0]
  decide

/-! ## The damping rows have no effect while `alpha = 0` -/

theorem rowUpdate_no_damp (E : RowEnv) (s : RowState) (idx : Nat) :
    rowUpdate { E with m_damp := 0 } { s with v_joint_damp := fun _ => 0 } idx =
      { rowUpdate E s idx with v_joint_damp := fun _ => 0 } := rfl

theorem swapStep_no_damp (E : RowEnv) (s : RowState) (k : Nat) :
    swapStep { E with m_damp := 0 } { s with v_joint_damp := fun _ => 0 } k =
      { swapStep E s k with v_joint_damp := fun _ => 0 } := rfl

theorem shuffle_no_damp (E : RowEnv) (s : RowState) :
    shuffle { E with m_damp := 0 } { s with v_joint_damp := fun _ => 0 } =
      { shuffle E s with v_joint_damp := fun _ => 0 } := by
  unfold shuffle
  show (List.range (E.nRows.toNat - 1)).foldl (swapStep { E with m_damp := 0 })
    { s with v_joint_damp := fun _ => 0 } = _
  generalize List.range (E.nRows.toNat - 1) = l
  induction l generalizing s with
  | nil => rfl
  | cons a l ih =>
    simp only [List.foldl_cons]
    rw [swapStep_no_damp, ih]

theorem rowLoop_no_damp (E : RowEnv) (s : RowState) :
    rowLoop { E with m_damp := 0 } { s with v_joint_damp := fun _ => 0 } =
      { rowLoop E s with v_joint_damp := fun _ => 0 } := by
  have key : ∀ t, rowLoopSteps { E with m_damp := 0 } { s with v_joint_damp := fun _ => 0 } t =
      { rowLoopSteps E s t with v_joint_damp := fun _ => 0 } := by
    intro t
    induction t with
    | zero => rfl
    | succ t ih =>
      rw [rowLoopSteps_succ, rowLoopSteps_succ, ih]
      rfl
  exact key E.nRows.toNat

theorem dampAlpha_early (it : Nat) (N : Int) (h : it < 10) : dampAlpha it N = 0 := by
  unfold dampAlpha
  rw [if_neg (by omega)]

theorem dampRow_no_alpha (E : RowEnv) (it : Nat) (s : RowState) (j : Nat)
    (ha : dampAlpha it E.num_iterations = 0) :
    dampRow E it s j = { s with v_joint_damp := Function.update s.v_joint_damp j 0 } := by
  have hv : v_joint_damp_row E it s.v_damp j = 0 := by
    rw [v_joint_damp_row_eq, ha, zero_mul]
  unfold dampRow
  simp only [hv, neg_zero, addScaled6_zero, ite_self]

theorem dampRows_no_alpha (E : RowEnv) (it : Nat) (l : List Nat) (s : RowState)
    (ha : dampAlpha it E.num_iterations = 0) :
    ({ l.foldl (dampRow E it) s with v_joint_damp := fun _ => 0 } : RowState) =
      { s with v_joint_damp := fun _ => 0 } := by
  induction l generalizing s with
  | nil => rfl
  | cons a l ih =>
    simp only [List.foldl_cons]
    rw [ih, dampRow_no_alpha E it s a ha]

theorem dampingUpdate_no_alpha (E : RowEnv) (it : Nat) (s : RowState)
    (ha : dampAlpha it E.num_iterations = 0) :
    dampingUpdate { E with m_damp := 0 } it { s with v_joint_damp := fun _ => 0 } =
      { dampingUpdate E it s with v_joint_damp := fun _ => 0 } := by
  have h1 : dampingUpdate { E with m_damp := 0 } it { s with v_joint_damp := fun _ => 0 } =
      { s with v_damp := v_damp_update E s, f_damp := dSetZero s.f_damp (6 * E.nb),
               v_joint_damp := fun _ => 0 } := rfl
  rw [h1]
  unfold dampingUpdate
  rw [dampRows_no_alpha E it _ _ ha]

theorem iterationBody_no_alpha (E : RowEnv) (it : Nat) (s : RowState)
    (ha : dampAlpha it E.num_iterations = 0) :
    iterationBody { E with m_damp := 0 } it { s with v_joint_damp := fun _ => 0 } =
      { iterationBody E it s with v_joint_damp := fun _ => 0 } := by
  unfold iterationBody
  by_cases h : it &&& 7 = 0
  · simp only [if_pos h]
    rw [shuffle_no_damp]
    have := rowLoop_no_damp E { shuffle E s with rms_error := 0 }
    have e : ({ ({ shuffle E s with v_joint_damp := fun _ => 0 } : RowState) with
        rms_error := 0 } : RowState) =
        { ({ shuffle E s with rms_error := 0 } : RowState) with v_joint_damp := fun _ => 0 } :=
      rfl
    rw [e, this, dampingUpdate_no_alpha E it _ ha]
  · simp only [if_neg h]
    have := rowLoop_no_damp E { s with rms_error := 0 }
    have e : ({ ({ s with v_joint_damp := fun _ => 0 } : RowState) with
        rms_error := 0 } : RowState) =
        { ({ s with rms_error := 0 } : RowState) with v_joint_damp := fun _ => 0 } :=
      rfl
    rw [e, this, dampingUpdate_no_alpha E it _ ha]

theorem iterLoop_no_alpha (E : RowEnv) (n : Nat) :
    ∀ (it : Nat) (s : RowState), it + n ≤ 10 →
      iterLoop { E with m_damp := 0 } n it { s with v_joint_damp := fun _ => 0 } =
        { iterLoop E n it s with v_joint_damp := fun _ => 0 } := by
  induction n with
  | zero => intro it s _; rfl
  | succ n ih =>
    intro it s h
    have hb := iterationBody_no_alpha E it s (dampAlpha_early it _ (by omega))
    show (if sqrtLt (iterationBody { E with m_damp := 0 } it
          { s with v_joint_damp := fun _ => 0 }).rms_error E.sor_lcp_tolerance = true then
        iterationBody { E with m_damp := 0 } it { s with v_joint_damp := fun _ => 0 }
      else iterLoop { E with m_damp := 0 } n (it + 1)
        (iterationBody { E with m_damp := 0 } it { s with v_joint_damp := fun _ => 0 })) =
      { (if sqrtLt (iterationBody E it s).rms_error E.sor_lcp_tolerance = true then
          iterationBody E it s
        else iterLoop E n (it + 1) (iterationBody E it s)) with v_joint_damp := fun _ => 0 }
    rw [hb]
    by_cases hc : sqrtLt (iterationBody E it s).rms_error E.sor_lcp_tolerance = true
    · rw [if_pos hc, if_pos hc]
    · rw [if_neg hc, if_neg hc]
      exact ih (it + 1) _ (by omega)

theorem ComputeRows_no_alpha (E : RowEnv) (s : RowState) (hN : E.num_iterations ≤ 10) :
    ComputeRows { E with m_damp := 0 } { s with v_joint_damp := fun _ => 0 } =
      { ComputeRows E s with v_joint_damp := fun _ => 0 } := by
  unfold ComputeRows
  exact iterLoop_no_alpha E _ 0 s (by
    show 0 + E.num_iterations.toNat ≤ 10
    omega)

theorem tasks_no_alpha (A : SORArgs) (hN : A.qs.num_iterations ≤ 10) (L : List Nat)
    (s : RowState) :
    L.foldl (fun s i => ComputeRows (SOR_task { A with m_damp := 0 } i) s)
        { s with v_joint_damp := fun _ => 0 } =
      { L.foldl (fun s i => ComputeRows (SOR_task A i) s) s with v_joint_damp := fun _ => 0 } := by
  induction L generalizing s with
  | nil => rfl
  | cons a L ih =>
    simp only [List.foldl_cons]
    have := ComputeRows_no_alpha (SOR_task A a) s hN
    have e : SOR_task { A with m_damp := 0 } a = { SOR_task A a with m_damp := 0 } := rfl
    rw [e, this, ih]

/-- With `num_iterations <= 10` the run with the damping rows and the run
without them leave the same memory, `v_joint_damp` apart. -/
theorem SOR_LCP_no_alpha (A : SORArgs) (hN : A.qs.num_iterations ≤ 10) :
    ({ SOR_LCP { A with m_damp := 0 } with v_joint_damp := fun _ => 0 } : RowState) =
      { SOR_LCP A with v_joint_damp := fun _ => 0 } := by
  have h1 := tasks_no_alpha A hN (chunkStarts A.m (SOR_chunk A.m A.qs).toNat) (SOR_init A)
  have h2 := tasks_no_alpha { A with m_damp := 0 } hN
    (chunkStarts A.m (SOR_chunk A.m A.qs).toNat) (SOR_init A)
  rw [SOR_LCP_eq_foldl, SOR_LCP_eq_foldl]
  rw [← h1]
  exact h2.symm

theorem dampVelBody_zero (stepsize : ℚ) (invI f : Nat → ℚ) (i : Nat) (b : dxBody)
    (hf : ∀ n, f n = 0) : dampVelBody stepsize invI f i b = b := by
  have h1 : (fun j => if j < 3 then b.lvel j + stepsize * b.invMass * f (6 * i + j)
      else b.lvel j) = b.lvel := by
    funext j
    simp [hf]
  have h2 : (fun j => if j < 3 then
        b.avel j + dMultiply0_331 (offs invI (12 * i)) (fun t => f (6 * i + 3 + t) * stepsize) j
      else b.avel j) = b.avel := by
    funext j
    simp [hf, dMultiply0_331]
  unfold dampVelBody
  rw [h1, h2]

theorem iterationBody_f_damp_early (E : RowEnv) (it : Nat) (s : RowState) (h : it < 10)
    (n : Nat) (hn : n < 6 * E.nb) : (iterationBody E it s).f_damp n = 0 := by
  rw [(iterationBody_damp E it s).1]
  show (dampingUpdate E it _).f_damp n = 0
  have := congrArg RowState.f_damp
    (dampRows_no_alpha E it (List.range E.m_damp)
      { ({ rowLoop E { (if it &&& 7 = 0 then shuffle E s else s) with rms_error := 0 } with
            v_damp := v_damp_update E
              (rowLoop E { (if it &&& 7 = 0 then shuffle E s else s) with rms_error := 0 }) } :
          RowState) with
        f_damp := dSetZero
          (rowLoop E { (if it &&& 7 = 0 then shuffle E s else s) with rms_error := 0 }).f_damp
          (6 * E.nb) }
      (dampAlpha_early it _ h))
  exact (congrFun this n).trans (if_pos hn)

/-- C35. Actual damping ramp: for every iteration `k` with
`0 <= k < num_iterations`, `alpha = 0` when `k < 10` and
`alpha = (k - 9)/(num_iterations - 10)` when `k >= 10`, the divisor being
nonzero then; so `0 <= alpha <= 1`, and `alpha = 1` at the last iteration when
`num_iterations > 10`. When `num_iterations <= 10`, `f_damp` is zero on every
body after every iteration, and the run returns the same `lambda`, `fc`,
`f_damp` and `v_damp` as the run without the damping rows; when `f_damp`
starts at zero, as `dxQuickStepper` passes it, it is zero on return and the
velocity update due to damping changes no body. -/
theorem C35_actual_damping_ramp (A : SORArgs) :
    (∀ k : Nat, (k : Int) < A.qs.num_iterations →
      (k < 10 → dampAlpha k A.qs.num_iterations = 0) ∧
      (10 ≤ k → (A.qs.num_iterations : ℚ) - 10 ≠ 0 ∧
        dampAlpha k A.qs.num_iterations = ((k : ℚ) - 9) / ((A.qs.num_iterations : ℚ) - 10)) ∧
      0 ≤ dampAlpha k A.qs.num_iterations ∧ dampAlpha k A.qs.num_iterations ≤ 1 ∧
      (10 < A.qs.num_iterations → (k : Int) + 1 = A.qs.num_iterations →
        dampAlpha k A.qs.num_iterations = 1)) ∧
    (A.qs.num_iterations ≤ 10 →
      (∀ (c it : Nat) (s : RowState) (n : Nat), (it : Int) < A.qs.num_iterations →
        n < 6 * A.nb → (iterationBody (SOR_task A c) it s).f_damp n = 0) ∧
      (SOR_LCP A).lambda = (SOR_LCP { A with m_damp := 0 }).lambda ∧
      (SOR_LCP A).fc = (SOR_LCP { A with m_damp := 0 }).fc ∧
      (SOR_LCP A).f_damp = (SOR_LCP { A with m_damp := 0 }).f_damp ∧
      (SOR_LCP A).v_damp = (SOR_LCP { A with m_damp := 0 }).v_damp ∧
      ((∀ n, A.f_damp n = 0) →
        (∀ n, (SOR_LCP A).f_damp n = 0) ∧
        ∀ (stepsize : ℚ) (invI : Nat → ℚ) (i : Nat) (b : dxBody),
          dampVelBody stepsize invI (SOR_LCP A).f_damp i b = b)) ∧
    (∀ (w : dxWorld) (body : Nat → dxBody) (nb : Nat) (_joint : List dxJoint) (stepsize : ℚ)
      (draws : Nat → Nat) (n : Nat), (sorArgs w body nb _joint stepsize draws).f_damp n = 0) := by
  refine ⟨?_, ?_, fun _ _ _ _ _ _ _ => rfl⟩
  · intro k hk
    generalize A.qs.num_iterations = N at hk
    have hform : 10 ≤ k → dampAlpha k N = ((k : ℚ) - 9) / ((N : ℚ) - 10) := by
      intro h10
      unfold dampAlpha
      rw [if_pos h10]
      push_cast
      congr 1
      ring
    have hkN : (k : ℚ) + 1 ≤ (N : ℚ) := by
      have : (k : Int) + 1 ≤ N := by omega
      exact_mod_cast this
    refine ⟨fun h => dampAlpha_early k N h, ?_, ?_, ?_, ?_⟩
    · intro h10
      have : (10 : ℚ) ≤ (k : ℚ) := by exact_mod_cast h10
      exact ⟨by linarith, hform h10⟩
    · by_cases h10 : 10 ≤ k
      · have : (10 : ℚ) ≤ (k : ℚ) := by exact_mod_cast h10
        rw [hform h10]
        exact div_nonneg (by linarith) (by linarith)
      · rw [dampAlpha_early k N (by omega)]
    · by_cases h10 : 10 ≤ k
      · have : (10 : ℚ) ≤ (k : ℚ) := by exact_mod_cast h10
        rw [hform h10, div_le_one (by linarith)]
        linarith
      · rw [dampAlpha_early k N (by omega)]
        exact zero_le_one
    · intro hN hlast
      have h10 : 10 ≤ k := by omega
      have hNq : (N : ℚ) = (k : ℚ) + 1 := by
        have : N = (k : Int) + 1 := by omega
        rw [this]
        push_cast
        rfl
      have : (10 : ℚ) ≤ (k : ℚ) := by exact_mod_cast h10
      rw [hform h10, hNq]
      have e : (k : ℚ) + 1 - 10 = (k : ℚ) - 9 := by ring
      rw [e]
      exact div_self (by linarith)
  · intro hN
    have hsim := SOR_LCP_no_alpha A hN
    have hfd : (SOR_LCP A).f_damp = (SOR_LCP { A with m_damp := 0 }).f_damp :=
      (congrArg RowState.f_damp hsim).symm
    refine ⟨?_, (congrArg RowState.lambda hsim).symm, (congrArg RowState.fc hsim).symm, hfd,
      (congrArg RowState.v_damp hsim).symm, ?_⟩
    · intro c it s n hit hn
      exact iterationBody_f_damp_early (SOR_task A c) it s (by omega) n
        (by show n < 6 * A.nb; exact hn)
    · intro hz
      have hzero : ∀ n, (SOR_LCP A).f_damp n = 0 := by
        rw [hfd]
        apply SOR_LCP_invariant { A with m_damp := 0 } (fun s => ∀ n, s.f_damp n = 0)
        · intro s o r e k h
          exact h
        · intro c s idx _ h
          exact h
        · intro c it s h
          exact dampingUpdate_zero _ it s rfl h
        · exact hz
      exact ⟨hzero, fun stepsize invI i b => dampVelBody_zero stepsize invI _ i b hzero⟩

theorem C35_actual_damping_ramp_witness :
    (SOR_LCP exOneRow).lambda = (SOR_LCP { exOneRow with m_damp := 0 }).lambda :=
  ((C35_actual_damping_ramp exOneRow).2.1 (by decide)).2.1

/-! ## The preconditioner projects onto the row equation -/

theorem sum6_update_hit (J : Nat → ℚ) (a : Nat) (x : Nat → ℚ) (o k : Nat) (v : ℚ) (hk : k < 6) :
    Finset.sum (Finset.range 6) (fun j => J (a + j) * Function.update x (o + k) v (o + j)) =
      Finset.sum (Finset.range 6) (fun j => J (a + j) * x (o + j))
        + J (a + k) * (v - x (o + k)) := by
  have hpt : ∀ j ∈ Finset.range 6,
      J (a + j) * Function.update x (o + k) v (o + j) =
        J (a + j) * x (o + j) + (if j = k then J (a + k) * (v - x (o + k)) else 0) := by
    intro j _
    by_cases h : j = k
    · rw [h, Function.update_same, if_pos rfl]
      ring
    · rw [Function.update_noteq (by omega), if_neg h, add_zero]
  rw [Finset.sum_congr rfl hpt, Finset.sum_add_distrib, Finset.sum_ite_eq' (Finset.range 6) k,
    if_pos (Finset.mem_range.mpr hk)]

theorem sum6_update_miss (J : Nat → ℚ) (a : Nat) (x : Nat → ℚ) (o p : Nat) (v : ℚ)
    (hp : ∀ j, j < 6 → o + j ≠ p) :
    Finset.sum (Finset.range 6) (fun j => J (a + j) * Function.update x p v (o + j)) =
      Finset.sum (Finset.range 6) (fun j => J (a + j) * x (o + j)) := by
  apply Finset.sum_congr rfl
  intro j hj
  rw [Function.update_noteq (hp j (Finset.mem_range.mp hj))]

theorem gsRow_eq (J : Nat → ℚ) (jb : Nat → Int) (rhs x : Nat → ℚ) (i : Nat) :
    gsRow J jb rhs x i =
      Function.update x (rowPivot J jb i).J_max_i
        (x (rowPivot J jb i).J_max_i
          + (rhs i -
              (Finset.sum (Finset.range 6) (fun j =>
                  J (12 * i + j) * x ((jb (i * 2) * 6).toNat + j))
                + (if jb (i * 2 + 1) ≥ 0 then
                    Finset.sum (Finset.range 6) (fun j =>
                      J (12 * i + 6 + j) * x ((jb (i * 2 + 1) * 6).toNat + j))
                  else 0))) / (rowPivot J jb i).J_max) := by
  simp only [gsRow, dot6_eq_sum]
  by_cases h2 : jb (i * 2 + 1) ≥ 0
  · rw [if_pos h2, if_pos h2]
  · rw [if_neg h2, if_neg h2, add_zero]

/-- A row update of the preconditioner makes the row equation exact. -/
theorem gsRow_projects (J : Nat → ℚ) (jb : Nat → Int) (rhs x : Nat → ℚ) (i : Nat)
    (hnz : ∃ c, (c < 6 ∨ (c < 12 ∧ jb (i * 2 + 1) ≥ 0)) ∧ J (12 * i + c) ≠ 0)
    (hb1 : 0 ≤ jb (i * 2)) (hb2 : jb (i * 2 + 1) ≠ jb (i * 2)) :
    Finset.sum (Finset.range 6) (fun j =>
        J (12 * i + j) * gsRow J jb rhs x i ((jb (i * 2) * 6).toNat + j))
      + (if jb (i * 2 + 1) ≥ 0 then
          Finset.sum (Finset.range 6) (fun j =>
            J (12 * i + 6 + j) * gsRow J jb rhs x i ((jb (i * 2 + 1) * 6).toNat + j))
        else 0) = rhs i := by
  obtain ⟨k, hk, e1, e2, hne, _, _⟩ := rowPivot_spec J jb i hnz
  rw [gsRow_eq, e1]
  generalize hd : (Finset.sum (Finset.range 6) (fun j =>
                  J (12 * i + j) * x ((jb (i * 2) * 6).toNat + j))
                + (if jb (i * 2 + 1) ≥ 0 then
                    Finset.sum (Finset.range 6) (fun j =>
                      J (12 * i + 6 + j) * x ((jb (i * 2 + 1) * 6).toNat + j))
                  else 0)) = d
  by_cases hk6 : k < 6
  · rw [if_pos hk6] at e2
    rw [e2, sum6_update_hit J (12 * i) x (jb (i * 2) * 6).toNat k _ hk6]
    by_cases h2 : jb (i * 2 + 1) ≥ 0
    · rw [if_pos h2] at hd ⊢
      have hmiss : ∀ j, j < 6 →
          (jb (i * 2 + 1) * 6).toNat + j ≠ (jb (i * 2) * 6).toNat + k := by
        intro j hj
        omega
      rw [sum6_update_miss J (12 * i + 6) x _ _ _ hmiss, ← hd]
      field_simp
      ring
    · rw [if_neg h2] at hd ⊢
      rw [← hd]
      field_simp
      ring
  · have h2 : jb (i * 2 + 1) ≥ 0 := by
      rcases hk with h | ⟨_, h⟩
      · exact absurd h hk6
      · exact h
    have hk12 : k < 12 := by
      rcases hk with h | ⟨h, _⟩
      · omega
      · exact h
    rw [if_neg hk6] at e2
    rw [if_pos h2] at hd ⊢
    have hmiss : ∀ j, j < 6 →
        (jb (i * 2) * 6).toNat + j ≠ (jb (i * 2 + 1) * 6).toNat + (k - 6) := by
      intro j hj
      omega
    rw [e2, sum6_update_miss J (12 * i) x _ _ _ hmiss,
      sum6_update_hit J (12 * i + 6) x (jb (i * 2 + 1) * 6).toNat (k - 6) _ (by omega)]
    have e : 12 * i + 6 + (k - 6) = 12 * i + k := by omega
    rw [e, ← hd]
    field_simp
    ring

theorem gsRow_fixed (J : Nat → ℚ) (jb : Nat → Int) (rhs x : Nat → ℚ) (i : Nat)
    (h : Finset.sum (Finset.range 6) (fun j =>
          J (12 * i + j) * x ((jb (i * 2) * 6).toNat + j))
        + (if jb (i * 2 + 1) ≥ 0 then
            Finset.sum (Finset.range 6) (fun j =>
              J (12 * i + 6 + j) * x ((jb (i * 2 + 1) * 6).toNat + j))
          else 0) = rhs i) :
    gsRow J jb rhs x i = x := by
  rw [gsRow_eq, h, sub_self, zero_div, add_zero, Function.update_eq_self]

theorem gsSweep_fixed (m : Nat) (J : Nat → ℚ) (jb : Nat → Int) (rhs x : Nat → ℚ)
    (h : ∀ i, i < m →
      Finset.sum (Finset.range 6) (fun j =>
          J (12 * i + j) * x ((jb (i * 2) * 6).toNat + j))
        + (if jb (i * 2 + 1) ≥ 0 then
            Finset.sum (Finset.range 6) (fun j =>
              J (12 * i + 6 + j) * x ((jb (i * 2 + 1) * 6).toNat + j))
          else 0) = rhs i) :
    gsSweep m J jb rhs x = x := by
  unfold gsSweep
  induction m with
  | zero => rfl
  | succ m ih =>
    rw [List.range_succ, List.foldl_append, ih (fun i hi => h i (by omega))]
    exact gsRow_fixed J jb rhs x m (h m (by omega))

/-- C36. Preconditioner row projection: for a row `i` that has a nonzero
coefficient among its active columns, a first body, and a second body that is
absent or different from the first, the row equation `J_i . x = rhs[i]` holds
exactly right after the row's preconditioner update; and when every row has a
nonzero active coefficient and satisfies its equation, a sweep, and so any
number of further sweeps, leaves `x` unchanged. -/
theorem C36_preconditioner_row_projection (m : Nat) (J : Nat → ℚ) (jb : Nat → Int)
    (rhs x : Nat → ℚ) (i : Nat)
    (hnz : ∃ c, (c < 6 ∨ (c < 12 ∧ jb (i * 2 + 1) ≥ 0)) ∧ J (12 * i + c) ≠ 0)
    (hb1 : 0 ≤ jb (i * 2)) (hb2 : jb (i * 2 + 1) ≠ jb (i * 2)) :
    (Finset.sum (Finset.range 6) (fun j =>
        J (12 * i + j) * gsRow J jb rhs x i ((jb (i * 2) * 6).toNat + j))
      + (if jb (i * 2 + 1) ≥ 0 then
          Finset.sum (Finset.range 6) (fun j =>
            J (12 * i + 6 + j) * gsRow J jb rhs x i ((jb (i * 2 + 1) * 6).toNat + j))
        else 0) = rhs i) ∧
    (∀ y : Nat → ℚ,
      (∀ r, r < m →
        (∃ c, (c < 6 ∨ (c < 12 ∧ jb (r * 2 + 1) ≥ 0)) ∧ J (12 * r + c) ≠ 0) ∧
        Finset.sum (Finset.range 6) (fun j =>
            J (12 * r + j) * y ((jb (r * 2) * 6).toNat + j))
          + (if jb (r * 2 + 1) ≥ 0 then
              Finset.sum (Finset.range 6) (fun j =>
                J (12 * r + 6 + j) * y ((jb (r * 2 + 1) * 6).toNat + j))
            else 0) = rhs r) →
      (∀ r, r < m → gsRow J jb rhs y r = y) ∧ gsSweep m J jb rhs y = y ∧
      ∀ n, (gsSweep m J jb rhs)^[n] y = y) := by
  refine ⟨gsRow_projects J jb rhs x i hnz hb1 hb2, ?_⟩
  intro y hy
  have hs := gsSweep_fixed m J jb rhs y (fun r hr => (hy r hr).2)
  refine ⟨fun r hr => gsRow_fixed J jb rhs y r (hy r hr).2, hs, ?_⟩
  intro n
  exact Function.iterate_fixed hs n

theorem C36_preconditioner_row_projection_witness :
    Finset.sum (Finset.range 6) (fun j =>
        exOneRow.J (12 * 0 + j)
          * gsRow exOneRow.J exOneRow.jb exOneRow.b (fun _ => 0) 0
              ((exOneRow.jb (0 * 2) * 6).toNat + j))
      + (if exOneRow.jb (0 * 2 + 1) ≥ 0 then
          Finset.sum (Finset.range 6) (fun j =>
            exOneRow.J (12 * 0 + 6 + j)
              * gsRow exOneRow.J exOneRow.jb exOneRow.b (fun _ => 0) 0
                  ((exOneRow.jb (0 * 2 + 1) * 6).toNat + j))
        else 0) = exOneRow.b 0 :=
  (C36_preconditioner_row_projection 1 exOneRow.J exOneRow.jb exOneRow.b (fun _ => 0) 0
    ⟨0, Or.inl (by decide), by
      show (if (12 * 0 + 0 : Nat) = 0 then (1 : ℚ) else 0) ≠ 0
      norm_num⟩ (by decide) (by decide)).1

/-! ## The frame of a task -/

theorem rowUpdate_frame (E : RowEnv) (s : RowState) (idx j : Nat) (h : idx ≠ j) :
    (rowUpdate E s idx).lambda j = s.lambda j ∧
    (rowUpdate E s idx).delta_error j = s.delta_error j := by
  constructor
  · rw [rowUpdate_lambda, Function.update_noteq (Ne.symm h)]
  · show Function.update s.delta_error idx _ j = _
    rw [Function.update_noteq (Ne.symm h)]

theorem rowLoopSteps_frame (E : RowEnv) (s : RowState) (j : Nat)
    (hj : ∀ q, InChunk E q → s.order q ≠ j) (t : Nat) (ht : t ≤ E.nRows.toNat) :
    (rowLoopSteps E s t).lambda j = s.lambda j ∧
    (rowLoopSteps E s t).delta_error j = s.delta_error j := by
  induction t with
  | zero => exact ⟨rfl, rfl⟩
  | succ t ih =>
    rw [rowLoopSteps_succ]
    obtain ⟨h1, h2⟩ := rowUpdate_frame E (rowLoopSteps E s t) _ j
      (hj (E.startRow.toNat + t) ⟨by omega, by omega⟩)
    obtain ⟨i1, i2⟩ := ih (by omega)
    exact ⟨h1.trans i1, h2.trans i2⟩

theorem iterationBody_frame (E : RowEnv) (it : Nat) (s : RowState) (j : Nat)
    (hj : ∀ q, InChunk E q → s.order q ≠ j) :
    (iterationBody E it s).lambda j = s.lambda j ∧
    (iterationBody E it s).delta_error j = s.delta_error j ∧
    ∀ q, InChunk E q → (iterationBody E it s).order q ≠ j := by
  obtain ⟨h1, _, h3, _⟩ := iterationBody_damp E it s
  obtain ⟨_, d2, _, _, _, d6, _⟩ := dampingUpdate_fields E it
    (rowLoop E { (if it &&& 7 = 0 then shuffle E s else s) with rms_error := 0 })
  have hstart : (∀ q, InChunk E q → (if it &&& 7 = 0 then shuffle E s else s).order q ≠ j) ∧
      (if it &&& 7 = 0 then shuffle E s else s).lambda = s.lambda ∧
      (if it &&& 7 = 0 then shuffle E s else s).delta_error = s.delta_error := by
    by_cases h : it &&& 7 = 0
    · rw [if_pos h]
      obtain ⟨s1, _, _, s4, _⟩ := shuffle_spec E s
      refine ⟨?_, s1, ?_⟩
      · intro q hq
        obtain ⟨p, hp1, hp2, e⟩ := s4 q hq.1 hq.2
        rw [e]
        exact hj p ⟨hp1, hp2⟩
      · rw [shuffle_eta]
    · rw [if_neg h]
      exact ⟨hj, rfl, rfl⟩
  obtain ⟨f1, f2⟩ := rowLoopSteps_frame E
    { (if it &&& 7 = 0 then shuffle E s else s) with rms_error := 0 } j hstart.1
    E.nRows.toNat le_rfl
  rw [← rowLoop_eq_steps] at f1 f2
  refine ⟨?_, ?_, ?_⟩
  · rw [h1]
    exact ((congrFun d2 j).trans f1).trans (congrFun hstart.2.1 j)
  · rw [h1]
    exact ((congrFun d6 j).trans f2).trans (congrFun hstart.2.2 j)
  · intro q hq
    rw [h3]
    exact hstart.1 q hq

theorem iterLoop_frame (E : RowEnv) (j : Nat) (n : Nat) :
    ∀ (it : Nat) (s : RowState), (∀ q, InChunk E q → s.order q ≠ j) →
      (iterLoop E n it s).lambda j = s.lambda j ∧
      (iterLoop E n it s).delta_error j = s.delta_error j ∧
      ∀ q, InChunk E q → (iterLoop E n it s).order q ≠ j := by
  induction n with
  | zero => intro it s hj; exact ⟨rfl, rfl, hj⟩
  | succ n ih =>
    intro it s hj
    obtain ⟨b1, b2, b3⟩ := iterationBody_frame E it s j hj
    show (if sqrtLt (iterationBody E it s).rms_error E.sor_lcp_tolerance = true then
        iterationBody E it s else iterLoop E n (it + 1) (iterationBody E it s)).lambda j = _ ∧
      (if sqrtLt (iterationBody E it s).rms_error E.sor_lcp_tolerance = true then
        iterationBody E it s else iterLoop E n (it + 1) (iterationBody E it s)).delta_error j
        = _ ∧
      ∀ q, InChunk E q →
        (if sqrtLt (iterationBody E it s).rms_error E.sor_lcp_tolerance = true then
          iterationBody E it s else iterLoop E n (it + 1) (iterationBody E it s)).order q ≠ j
    by_cases hc : sqrtLt (iterationBody E it s).rms_error E.sor_lcp_tolerance = true
    · rw [if_pos hc]
      exact ⟨b1, b2, b3⟩
    · rw [if_neg hc]
      obtain ⟨i1, i2, i3⟩ := ih (it + 1) _ b3
      exact ⟨i1.trans b1, i2.trans b2, i3⟩

theorem exDamp_frame (q : Nat) (hq : InChunk exDampEnv q) : exDampState.order q ≠ 1 := by
  have h0 : q = 0 := by
    obtain ⟨_, h⟩ := hq
    have e1 : exDampEnv.startRow.toNat = 0 := rfl
    have e2 : exDampEnv.nRows.toNat = 1 := rfl
    rw [e1, e2] at h
    omega
  rw [h0]
  show (0 : Nat) ≠ 1
  decide

/-- C37. Chunk frame: in a sequential run, for every stream of random draws, a
`ComputeRows` task over the positions `[startRow, startRow+nRows)` of `order`
leaves `lambda[j]` and `delta_error[j]` unchanged for every row `j` that
`order` did not hold at one of these positions when the task started: after
the first `t` row updates of its first iteration, after any number of
iterations, and on return; and the rows at these positions on return are rows
that were there at the start. -/
theorem C37_chunk_frame (E : RowEnv) (s : RowState) (j : Nat)
    (hj : ∀ q, InChunk E q → s.order q ≠ j) :
    ((ComputeRows E s).lambda j = s.lambda j ∧
      (ComputeRows E s).delta_error j = s.delta_error j) ∧
    (∀ n it, (iterLoop E n it s).lambda j = s.lambda j ∧
      (iterLoop E n it s).delta_error j = s.delta_error j) ∧
    (∀ t, t ≤ E.nRows.toNat → (rowLoopSteps E s t).lambda j = s.lambda j ∧
      (rowLoopSteps E s t).delta_error j = s.delta_error j) ∧
    (∀ idx, idx ≠ j → (rowUpdate E s idx).lambda j = s.lambda j ∧
      (rowUpdate E s idx).delta_error j = s.delta_error j) ∧
    (∀ p, InChunk E p → ∃ q, InChunk E q ∧ (shuffle E s).order p = s.order q) ∧
    (∀ q, InChunk E q → (ComputeRows E s).order q ≠ j) := by
  have h := iterLoop_frame E j E.num_iterations.toNat 0 s hj
  refine ⟨⟨h.1, h.2.1⟩, ?_, fun t ht => rowLoopSteps_frame E s j hj t ht,
    fun idx hidx => rowUpdate_frame E s idx j hidx, ?_, h.2.2⟩
  · intro n it
    have := iterLoop_frame E j n it s hj
    exact ⟨this.1, this.2.1⟩
  · intro p hp
    obtain ⟨_, _, _, s4, _⟩ := shuffle_spec E s
    obtain ⟨q, h1, h2, e⟩ := s4 p hp.1 hp.2
    exact ⟨q, ⟨h1, h2⟩, e⟩

theorem C37_chunk_frame_witness :
    (ComputeRows exDampEnv exDampState).lambda 1 = exDampState.lambda 1 ∧
    (ComputeRows exDampEnv exDampState).delta_error 1 = exDampState.delta_error 1 :=
  (C37_chunk_frame exDampEnv exDampState 1 exDamp_frame).1

/-! ## The memory estimate is monotone -/

theorem ite_ge_max (a b : Nat) : (if a ≥ b then a else b) = max a b := by
  split_ifs with h
  · exact (max_eq_left h).symm
  · exact (max_eq_right (by omega)).symm

theorem estimateBytes_mono (sz : TypeSizes) (nb _nj nj m mfb md NB NJ M MFB : Nat)
    (g0 : nb ≤ NB) (g1 : nj ≤ NJ) (g2 : m ≤ M) (g3 : mfb ≤ MFB) :
    estimateBytes sz nb _nj nj m mfb md ≤ estimateBytes sz NB _nj NJ M MFB md := by
  have a1 : dEFFICIENT_SIZE (sz.sz_dReal * 3 * 4 * nb) ≤ dEFFICIENT_SIZE (sz.sz_dReal * 3 * 4 * NB) :=
    dEFFICIENT_SIZE_mono (Nat.mul_le_mul_left _ g0)
  have a2 : dEFFICIENT_SIZE (sz.sz_dReal * nb) ≤ dEFFICIENT_SIZE (sz.sz_dReal * NB) :=
    dEFFICIENT_SIZE_mono (Nat.mul_le_mul_left _ g0)
  have a3 : dEFFICIENT_SIZE (sz.sz_dReal * 6 * nb) ≤ dEFFICIENT_SIZE (sz.sz_dReal * 6 * NB) :=
    dEFFICIENT_SIZE_mono (Nat.mul_le_mul_left _ g0)
  have b1 : dEFFICIENT_SIZE (sz.sz_dJointWithInfo1 * nj) ≤
      dEFFICIENT_SIZE (sz.sz_dJointWithInfo1 * NJ) :=
    dEFFICIENT_SIZE_mono (Nat.mul_le_mul_left _ g1)
  have c1 : dEFFICIENT_SIZE (sz.sz_dReal * 12 * m) ≤ dEFFICIENT_SIZE (sz.sz_dReal * 12 * M) :=
    dEFFICIENT_SIZE_mono (Nat.mul_le_mul_left _ g2)
  have c2 : dEFFICIENT_SIZE (sz.sz_dReal * m) ≤ dEFFICIENT_SIZE (sz.sz_dReal * M) :=
    dEFFICIENT_SIZE_mono (Nat.mul_le_mul_left _ g2)
  have c3 : dEFFICIENT_SIZE (sz.sz_int * 2 * m) ≤ dEFFICIENT_SIZE (sz.sz_int * 2 * M) :=
    dEFFICIENT_SIZE_mono (Nat.mul_le_mul_left _ g2)
  have c4 : dEFFICIENT_SIZE (sz.sz_int * m) ≤ dEFFICIENT_SIZE (sz.sz_int * M) :=
    dEFFICIENT_SIZE_mono (Nat.mul_le_mul_left _ g2)
  have c5 : dEFFICIENT_SIZE (sz.sz_IndexError * m) ≤ dEFFICIENT_SIZE (sz.sz_IndexError * M) :=
    dEFFICIENT_SIZE_mono (Nat.mul_le_mul_left _ g2)
  have d1 : dEFFICIENT_SIZE (sz.sz_dReal * 12 * mfb) ≤ dEFFICIENT_SIZE (sz.sz_dReal * 12 * MFB) :=
    dEFFICIENT_SIZE_mono (Nat.mul_le_mul_left _ g3)
  unfold estimateBytes EstimateSOR_LCPMemoryRequirements
  simp only []
  generalize dEFFICIENT_SIZE (sz.sz_dReal * 3 * 4 * nb) = x1 at *
  generalize dEFFICIENT_SIZE (sz.sz_dReal * 3 * 4 * NB) = y1 at *
  generalize dEFFICIENT_SIZE (sz.sz_dReal * nb) = x2 at *
  generalize dEFFICIENT_SIZE (sz.sz_dReal * NB) = y2 at *
  generalize dEFFICIENT_SIZE (sz.sz_dReal * 6 * nb) = x3 at *
  generalize dEFFICIENT_SIZE (sz.sz_dReal * 6 * NB) = y3 at *
  generalize dEFFICIENT_SIZE (sz.sz_dJointWithInfo1 * nj) = x4 at *
  generalize dEFFICIENT_SIZE (sz.sz_dJointWithInfo1 * NJ) = y4 at *
  generalize dEFFICIENT_SIZE (sz.sz_dReal * 12 * m) = x5 at *
  generalize dEFFICIENT_SIZE (sz.sz_dReal * 12 * M) = y5 at *
  generalize dEFFICIENT_SIZE (sz.sz_dReal * m) = x6 at *
  generalize dEFFICIENT_SIZE (sz.sz_dReal * M) = y6 at *
  generalize dEFFICIENT_SIZE (sz.sz_int * 2 * m) = x7 at *
  generalize dEFFICIENT_SIZE (sz.sz_int * 2 * M) = y7 at *
  generalize dEFFICIENT_SIZE (sz.sz_int * m) = x8 at *
  generalize dEFFICIENT_SIZE (sz.sz_int * M) = y8 at *
  generalize dEFFICIENT_SIZE (sz.sz_IndexError * m) = x9 at *
  generalize dEFFICIENT_SIZE (sz.sz_IndexError * M) = y9 at *
  generalize dEFFICIENT_SIZE (sz.sz_dReal * 12 * mfb) = x10 at *
  generalize dEFFICIENT_SIZE (sz.sz_dReal * 12 * MFB) = y10 at *
  generalize dEFFICIENT_SIZE (sz.sz_dJointWithInfo1 * _nj) = z1 at *
  generalize dEFFICIENT_SIZE (sz.sz_dReal * 12 * md) = z2 at *
  generalize dEFFICIENT_SIZE (sz.sz_dReal * md) = z3 at *
  generalize dEFFICIENT_SIZE (sz.sz_int * 2 * md) = z4 at *
  simp only [ite_ge_max]
  by_cases hm : m > 0
  · have hM : M > 0 := by omega
    simp only [if_pos hm, if_pos hM]
    gcongr
  · by_cases hM : M > 0
    · simp only [if_neg hm, if_pos hM]
      gcongr
      refine le_trans b1 ?_
      simp only [Nat.add_assoc]
      exact Nat.le_add_right _ _
    · simp only [if_neg hm, if_neg hM]
      gcongr

theorem estCountStep_mono (e e' : EstCounts) (j j' : dxJoint)
    (h1 : e.njcurr ≤ e'.njcurr) (h2 : e.mcurr ≤ e'.mcurr) (h3 : e.mfbcurr ≤ e'.mfbcurr)
    (hf : j.feedback.isSome = j'.feedback.isSome) (hm : j.max_m ≤ j'.max_m) :
    (estCountStep e j).njcurr ≤ (estCountStep e' j').njcurr ∧
    (estCountStep e j).mcurr ≤ (estCountStep e' j').mcurr ∧
    (estCountStep e j).mfbcurr ≤ (estCountStep e' j').mfbcurr := by
  unfold estCountStep
  by_cases a : j.max_m > 0
  · have a' : j'.max_m > 0 := by omega
    rw [if_pos a, if_pos a']
    refine ⟨by show e.njcurr + 1 ≤ e'.njcurr + 1; omega,
      by show e.mcurr + j.max_m ≤ e'.mcurr + j'.max_m; omega, ?_⟩
    show (if j.feedback.isSome then e.mfbcurr + j.max_m else e.mfbcurr) ≤
      (if j'.feedback.isSome then e'.mfbcurr + j'.max_m else e'.mfbcurr)
    rw [hf]
    split_ifs <;> omega
  · rw [if_neg a]
    by_cases a' : j'.max_m > 0
    · rw [if_pos a']
      refine ⟨by show e.njcurr ≤ e'.njcurr + 1; omega,
        by show e.mcurr ≤ e'.mcurr + j'.max_m; omega, ?_⟩
      show e.mfbcurr ≤ (if j'.feedback.isSome then e'.mfbcurr + j'.max_m else e'.mfbcurr)
      split_ifs <;> omega
    · rw [if_neg a']
      exact ⟨h1, h2, h3⟩

theorem estCounts_mono (L L' : List dxJoint)
    (h : List.Forall₂ (fun j j' => j.feedback.isSome = j'.feedback.isSome ∧
      j.use_damping = j'.use_damping ∧ j.max_m ≤ j'.max_m) L L') :
    ∀ e e' : EstCounts, e.njcurr ≤ e'.njcurr → e.mcurr ≤ e'.mcurr → e.mfbcurr ≤ e'.mfbcurr →
      (L.foldl estCountStep e).njcurr ≤ (L'.foldl estCountStep e').njcurr ∧
      (L.foldl estCountStep e).mcurr ≤ (L'.foldl estCountStep e').mcurr ∧
      (L.foldl estCountStep e).mfbcurr ≤ (L'.foldl estCountStep e').mfbcurr := by
  induction h with
  | nil => intro e e' h1 h2 h3; exact ⟨h1, h2, h3⟩
  | cons hj _ ih =>
    intro e e' h1 h2 h3
    simp only [List.foldl_cons]
    obtain ⟨s1, s2, s3⟩ := estCountStep_mono e e' _ _ h1 h2 h3 hj.1 hj.2.2
    exact ih _ _ s1 s2 s3

theorem est_m_damp_congr (L L' : List dxJoint)
    (h : List.Forall₂ (fun j j' => j.feedback.isSome = j'.feedback.isSome ∧
      j.use_damping = j'.use_damping ∧ j.max_m ≤ j'.max_m) L L') :
    est_m_damp L = est_m_damp L' := by
  unfold est_m_damp
  generalize (0 : Nat) = a
  induction h generalizing a with
  | nil => rfl
  | cons hj _ ih =>
    simp only [List.foldl_cons]
    rw [hj.2.1]
    exact ih _

/-- C38. The memory estimate is monotone: for two joint lists of the same
length whose joints agree, position by position, on having a feedback sink and
on the damping flag, and whose `max_m` does not decrease from the first list
to the second, and for body counts `nb <= nb'`, the value returned by
`dxEstimateQuickStepMemoryRequirements` does not decrease. -/
theorem C38_estimate_monotone (sz : TypeSizes) (nb NB : Nat) (L L' : List dxJoint)
    (hnb : nb ≤ NB)
    (h : List.Forall₂ (fun j j' => j.feedback.isSome = j'.feedback.isSome ∧
      j.use_damping = j'.use_damping ∧ j.max_m ≤ j'.max_m) L L') :
    dxEstimateQuickStepMemoryRequirements sz nb L ≤
      dxEstimateQuickStepMemoryRequirements sz NB L' := by
  obtain ⟨g1, g2, g3⟩ := estCounts_mono L L' h { njcurr := 0, mcurr := 0, mfbcurr := 0 }
    { njcurr := 0, mcurr := 0, mfbcurr := 0 } le_rfl le_rfl le_rfl
  unfold dxEstimateQuickStepMemoryRequirements
  rw [est_m_damp_congr L L' h, h.length_eq]
  exact estimateBytes_mono sz nb _ _ _ _ _ NB _ _ _ hnb g1 g2 g3

theorem C38_estimate_monotone_witness :
    dxEstimateQuickStepMemoryRequirements exSizes 1 [exContactJoint] ≤
      dxEstimateQuickStepMemoryRequirements exSizes 2
        [{ exContactJoint with max_m := exContactJoint.max_m + 1 }] :=
  C38_estimate_monotone exSizes 1 2 [exContactJoint]
    [{ exContactJoint with max_m := exContactJoint.max_m + 1 }] (by decide)
    (List.Forall₂.cons ⟨rfl, rfl, Nat.le_succ _⟩ List.Forall₂.nil)

/-! ## Index safety of the row kernel -/

theorem InBounds_nil (E : RowEnv) : InBounds E [] := by
  intro x hx
  cases hx

theorem InBounds_append (E : RowEnv) (l1 l2 : List (Arr × Int)) (h1 : InBounds E l1)
    (h2 : InBounds E l2) : InBounds E (l1 ++ l2) := by
  intro x hx
  rcases List.mem_append.mp hx with h | h
  · exact h1 x h
  · exact h2 x h

theorem InBounds_cons (E : RowEnv) (a : Arr) (i : Int) (l : List (Arr × Int))
    (h0 : 0 ≤ i) (h1 : i < (arrLen E a : Int)) (h2 : InBounds E l) :
    InBounds E ((a, i) :: l) := by
  intro x hx
  rcases List.mem_cons.mp hx with h | h
  · rw [h]
    exact ⟨h0, h1⟩
  · exact h2 x h

theorem InBounds_cells (E : RowEnv) (a : Arr) (base : Int) (n : Nat) (h0 : 0 ≤ base)
    (h1 : base + (n : Int) ≤ (arrLen E a : Int)) : InBounds E (cells a base n) := by
  intro x hx
  unfold cells at hx
  obtain ⟨j, hj, rfl⟩ := List.mem_map.mp hx
  have := List.mem_range.mp hj
  constructor
  · show 0 ≤ base + (j : Int)
    omega
  · show base + (j : Int) < (arrLen E a : Int)
    omega

theorem InBounds_flatMap (E : RowEnv) (l : List Nat) (f : Nat → List (Arr × Int))
    (h : ∀ k, k ∈ l → InBounds E (f k)) : InBounds E (l.flatMap f) := by
  intro x hx
  obtain ⟨k, hk, hxk⟩ := List.mem_flatMap.mp hx
  exact h k hk x hxk

theorem swapSteps_randCalls (E : RowEnv) (s : RowState) (k : Nat) :
    ((List.range k).foldl (swapStep E) s).randCalls = s.randCalls + k := by
  induction k with
  | zero => rfl
  | succ k ih =>
    rw [List.range_succ, List.foldl_append, List.foldl_cons, List.foldl_nil]
    show ((List.range k).foldl (swapStep E) s).randCalls + 1 = _
    rw [ih]
    rfl

theorem swapAccesses_ok (E : RowEnv) (s : RowState) (k : Nat) (hS : 0 ≤ E.startRow)
    (hR : E.startRow + E.nRows ≤ (E.m : Int)) (hk : k + 1 < E.nRows.toNat) :
    InBounds E (swapAccesses E s k) := by
  have hn : (E.startRow + 1 + (k : Int) + 1 - E.startRow).toNat = k + 2 := by omega
  have hlt := dRandInt_lt E.draws s.randCalls (k + 2) (by omega)
  unfold swapAccesses
  simp only [hn]
  apply InBounds_cons
  · omega
  · show _ < ((E.m : Nat) : Int)
    omega
  apply InBounds_cons
  · omega
  · show _ < ((E.m : Nat) : Int)
    omega
  exact InBounds_nil E

theorem shuffleAccesses_ok (E : RowEnv) (s : RowState) (t : Nat) (hS : 0 ≤ E.startRow)
    (hR : E.startRow + E.nRows ≤ (E.m : Int)) (ht : t ≤ E.nRows.toNat - 1) :
    InBounds E (shuffleAccesses E s t) := by
  unfold shuffleAccesses
  apply InBounds_flatMap
  intro k hk
  have := List.mem_range.mp hk
  exact swapAccesses_ok E _ k hS hR (by omega)

theorem rowAccesses_ok (E : RowEnv) (s : RowState) (i : Int) (hi0 : 0 ≤ i)
    (him : i < (E.m : Int)) (ho : ∀ p, p < E.m → s.order p < E.m)
    (hjb : ∀ r, r < E.m → 0 ≤ E.jb (r * 2) ∧ E.jb (r * 2) < (E.nb : Int) ∧
      E.jb (r * 2 + 1) < (E.nb : Int))
    (hfi : ∀ r, r < E.m → E.findex r < (E.m : Int)) :
    InBounds E (rowAccesses E s i) := by
  have hidx : s.order i.toNat < E.m := ho _ (by omega)
  obtain ⟨j1, j2, j3⟩ := hjb _ hidx
  have hf := hfi _ hidx
  unfold rowAccesses
  simp only []
  generalize s.order i.toNat = idx at hidx j1 j2 j3 hf
  generalize E.jb (idx * 2) = b1 at j1 j2
  generalize E.jb (idx * 2 + 1) = b2 at j3
  generalize E.findex idx = fi at hf
  by_cases h2 : b2 ≥ 0 <;> by_cases hff : fi ≥ 0 <;>
    simp only [h2, hff, if_true, if_false] <;>
    (repeat' apply InBounds_append) <;>
    (repeat' first
      | exact InBounds_nil E
      | apply InBounds_cells
      | apply InBounds_cons) <;>
    (try simp only [arrLen]) <;> omega

theorem rowLoopAccesses_ok (E : RowEnv) (s : RowState) (t : Nat) (hS : 0 ≤ E.startRow)
    (hR : E.startRow + E.nRows ≤ (E.m : Int)) (ht : t ≤ E.nRows.toNat)
    (ho : ∀ p, p < E.m → s.order p < E.m)
    (hjb : ∀ r, r < E.m → 0 ≤ E.jb (r * 2) ∧ E.jb (r * 2) < (E.nb : Int) ∧
      E.jb (r * 2 + 1) < (E.nb : Int))
    (hfi : ∀ r, r < E.m → E.findex r < (E.m : Int)) :
    InBounds E (rowLoopAccesses E s t) := by
  unfold rowLoopAccesses
  apply InBounds_flatMap
  intro k hk
  have := List.mem_range.mp hk
  apply rowAccesses_ok E _ _ (by omega) (by omega) _ hjb hfi
  unfold rowLoopSteps
  rw [rowLoop_steps_order]
  exact ho

theorem vDampAccesses_ok (E : RowEnv) (bi : Nat) (h : bi < E.nb) :
    InBounds E (vDampAccesses bi) := by
  unfold vDampAccesses
  (repeat' apply InBounds_append) <;>
    (repeat' first
      | exact InBounds_nil E
      | apply InBounds_cells
      | apply InBounds_cons) <;>
    (try simp only [arrLen]) <;> omega

theorem dampRowAccesses_ok (E : RowEnv) (j : Nat) (h : j < E.m_damp)
    (hjd : ∀ r, r < E.m_damp → 0 ≤ E.jb_damp (r * 2) ∧ E.jb_damp (r * 2) < (E.nb : Int) ∧
      E.jb_damp (r * 2 + 1) < (E.nb : Int)) :
    InBounds E (dampRowAccesses E j) := by
  obtain ⟨j1, j2, j3⟩ := hjd j h
  unfold dampRowAccesses
  simp only []
  generalize E.jb_damp (j * 2) = b1 at j1 j2
  generalize E.jb_damp (j * 2 + 1) = b2 at j3
  by_cases h2 : b2 ≥ 0 <;>
    simp only [h2, if_true, if_false] <;>
    (repeat' apply InBounds_append) <;>
    (repeat' first
      | exact InBounds_nil E
      | apply InBounds_cells
      | apply InBounds_cons) <;>
    (try simp only [arrLen]) <;> omega

theorem dampAccesses_ok (E : RowEnv)
    (hjd : ∀ r, r < E.m_damp → 0 ≤ E.jb_damp (r * 2) ∧ E.jb_damp (r * 2) < (E.nb : Int) ∧
      E.jb_damp (r * 2 + 1) < (E.nb : Int)) :
    InBounds E (dampAccesses E) := by
  unfold dampAccesses
  apply InBounds_append
  · apply InBounds_append
    · apply InBounds_flatMap
      intro k hk
      exact vDampAccesses_ok E k (List.mem_range.mp hk)
    · apply InBounds_cells
      · exact le_rfl
      · simp only [arrLen]
        omega
  · apply InBounds_flatMap
    intro k hk
    exact dampRowAccesses_ok E k (List.mem_range.mp hk) hjd

theorem iterationAccesses_ok (E : RowEnv) (it : Nat) (s : RowState) (hS : 0 ≤ E.startRow)
    (hR : E.startRow + E.nRows ≤ (E.m : Int)) (ho : OrderOK E.m s.order)
    (hjb : ∀ r, r < E.m → 0 ≤ E.jb (r * 2) ∧ E.jb (r * 2) < (E.nb : Int) ∧
      E.jb (r * 2 + 1) < (E.nb : Int))
    (hjd : ∀ r, r < E.m_damp → 0 ≤ E.jb_damp (r * 2) ∧ E.jb_damp (r * 2) < (E.nb : Int) ∧
      E.jb_damp (r * 2 + 1) < (E.nb : Int))
    (hfi : ∀ r, r < E.m → E.findex r < (E.m : Int)) :
    InBounds E (iterationAccesses E it s) := by
  have hC : ∀ p, InChunk E p → p < E.m := by
    intro p hp
    obtain ⟨h1, h2⟩ := hp
    omega
  obtain ⟨o1, _⟩ := rowLoop_start_invariant E E.m (fun _ => True) (fun _ _ _ _ _ _ => trivial)
    hC it s ho trivial
  unfold iterationAccesses
  apply InBounds_append
  · apply InBounds_append
    · by_cases h : it &&& 7 = 0
      · rw [if_pos h]
        exact shuffleAccesses_ok E s _ hS hR le_rfl
      · rw [if_neg h]
        exact InBounds_nil E
    · exact rowLoopAccesses_ok E _ _ hS hR le_rfl o1.1 hjb hfi
  · exact dampAccesses_ok E hjd

theorem iterLoopAccesses_ok (E : RowEnv) (hS : 0 ≤ E.startRow)
    (hR : E.startRow + E.nRows ≤ (E.m : Int))
    (hjb : ∀ r, r < E.m → 0 ≤ E.jb (r * 2) ∧ E.jb (r * 2) < (E.nb : Int) ∧
      E.jb (r * 2 + 1) < (E.nb : Int))
    (hjd : ∀ r, r < E.m_damp → 0 ≤ E.jb_damp (r * 2) ∧ E.jb_damp (r * 2) < (E.nb : Int) ∧
      E.jb_damp (r * 2 + 1) < (E.nb : Int))
    (hfi : ∀ r, r < E.m → E.findex r < (E.m : Int)) (n : Nat) :
    ∀ (it : Nat) (s : RowState), OrderOK E.m s.order →
      InBounds E (iterLoopAccesses E n it s) := by
  have hC : ∀ p, InChunk E p → p < E.m := by
    intro p hp
    obtain ⟨h1, h2⟩ := hp
    omega
  induction n with
  | zero => intro it s _; exact InBounds_nil E
  | succ n ih =>
    intro it s ho
    show InBounds E (iterationAccesses E it s ++
      (if sqrtLt (iterationBody E it s).rms_error E.sor_lcp_tolerance = true then []
       else iterLoopAccesses E n (it + 1) (iterationBody E it s)))
    apply InBounds_append
    · exact iterationAccesses_ok E it s hS hR ho hjb hjd hfi
    · by_cases hc : sqrtLt (iterationBody E it s).rms_error E.sor_lcp_tolerance = true
      · rw [if_pos hc]
        exact InBounds_nil E
      · rw [if_neg hc]
        exact ih (it + 1) _ (iterationBody_orderOK E E.m hC it s ho)

theorem exDamp_orderOK : OrderOK exDampEnv.m exDampState.order := by
  constructor
  · intro p hp
    exact hp
  · intro j hj
    exact ⟨j, hj, rfl⟩

theorem exDamp_bodies (r : Nat) (hr : r < 1) :
    0 ≤ exDampEnv.jb (r * 2) ∧ exDampEnv.jb (r * 2) < ((1 : Nat) : Int) ∧
    exDampEnv.jb (r * 2 + 1) < ((1 : Nat) : Int) := by
  have h0 : r = 0 := by omega
  rw [h0]
  decide

theorem exDamp_damp_bodies (r : Nat) (hr : r < 1) :
    0 ≤ exDampEnv.jb_damp (r * 2) ∧ exDampEnv.jb_damp (r * 2) < ((1 : Nat) : Int) ∧
    exDampEnv.jb_damp (r * 2 + 1) < ((1 : Nat) : Int) := by
  have h0 : r = 0 := by omega
  rw [h0]
  decide

/-- C39. Index safety of the row kernel: if `order` is a permutation of
`0..m-1`, the task range lies in `[0, m)`, every first-body index `jb[2i]` and
`jb_damp[2j]` is in `[0, nb)`, every second-body index is below `nb` (negative
when absent) and every `findex[i]` is below `m`, then every cell `ComputeRows`
accesses in `order`, `jb`, `findex`, `lambda`, `b`, `Ad`, `Adcfm`, `hi`, `lo`,
`b_damp`, `delta_error` (length `m`, `2m` for `jb`), `J`, `iMJ`, `JiM`
(length `12m`), `fc`, `f_damp`, `v_damp` (length `6nb`), `invI`, `body`,
`J_damp`, `coeff_damp`, `v_joint_damp` and `jb_damp` is inside the array, for
every stream of random draws. -/
theorem C39_index_safety (E : RowEnv) (s : RowState) (hS : 0 ≤ E.startRow)
    (hR : E.startRow + E.nRows ≤ (E.m : Int)) (ho : OrderOK E.m s.order)
    (hjb : ∀ r, r < E.m → 0 ≤ E.jb (r * 2) ∧ E.jb (r * 2) < (E.nb : Int) ∧
      E.jb (r * 2 + 1) < (E.nb : Int))
    (hjd : ∀ r, r < E.m_damp → 0 ≤ E.jb_damp (r * 2) ∧ E.jb_damp (r * 2) < (E.nb : Int) ∧
      E.jb_damp (r * 2 + 1) < (E.nb : Int))
    (hfi : ∀ r, r < E.m → E.findex r < (E.m : Int)) :
    (∀ (a : Arr) (i : Int), (a, i) ∈ ComputeRowsAccesses E s →
      0 ≤ i ∧ i < (arrLen E a : Int)) ∧
    (∀ (n it : Nat) (a : Arr) (i : Int), (a, i) ∈ iterLoopAccesses E n it s →
      0 ≤ i ∧ i < (arrLen E a : Int)) ∧
    (∀ (it : Nat) (a : Arr) (i : Int), (a, i) ∈ iterationAccesses E it s →
      0 ≤ i ∧ i < (arrLen E a : Int)) := by
  refine ⟨?_, ?_, ?_⟩
  · intro a i h
    exact iterLoopAccesses_ok E hS hR hjb hjd hfi _ 0 s ho (a, i) h
  · intro n it a i h
    exact iterLoopAccesses_ok E hS hR hjb hjd hfi n it s ho (a, i) h
  · intro it a i h
    exact iterationAccesses_ok E it s hS hR ho hjb hjd hfi (a, i) h

theorem C39_index_safety_witness :
    (Arr.lambda, (0 : Int)) ∈ iterationAccesses exDampEnv 10 exDampState ∧
    ((0 : Int) ≤ 0 ∧ (0 : Int) < (arrLen exDampEnv Arr.lambda : Int)) :=
  ⟨by decide,
    (C39_index_safety exDampEnv exDampState (by decide) (by decide) exDamp_orderOK
      exDamp_bodies exDamp_damp_bodies
      (fun _ _ => (by decide : (-1 : Int) < ((1 : Nat) : Int)))).2.2 10 Arr.lambda 0 (by decide)⟩

/-! ## The dispatch loop in 32-bit arithmetic -/

theorem int32_of_fits (x : Int) (h1 : -2147483648 ≤ x) (h2 : x ≤ 2147483647) : int32 x = x := by
  unfold int32
  omega

/-- When `m + chunk + num_overlap` is inside `int` and the overlap is not
negative, no operation of the body of the dispatch loop wraps. -/
theorem dispatch_no_wrap (A : SORArgs) (i : Nat) (hov : 0 ≤ A.qs.num_overlap) (hi : i < A.m)
    (hfit : (A.m : Int) + SOR_chunk A.m A.qs + A.qs.num_overlap ≤ 2147483647) :
    int32 ((i : Int) - A.qs.num_overlap) = (i : Int) - A.qs.num_overlap ∧
    int32 (int32 ((i : Int) + SOR_chunk A.m A.qs) + A.qs.num_overlap)
      = (i : Int) + SOR_chunk A.m A.qs + A.qs.num_overlap ∧
    SOR_nStart32 A.qs i = SOR_nStart A.qs i ∧
    SOR_nEnd32 A.m A.qs i = SOR_nEnd A.m A.qs i ∧
    int32 (SOR_nEnd32 A.m A.qs i - SOR_nStart32 A.qs i)
      = SOR_nEnd32 A.m A.qs i - SOR_nStart32 A.qs i := by
  have hc := SOR_chunk_pos A.m A.qs
  have e0 : int32 ((i : Int) - A.qs.num_overlap) = (i : Int) - A.qs.num_overlap :=
    int32_of_fits _ (by omega) (by omega)
  have e1 : SOR_nStart32 A.qs i = SOR_nStart A.qs i := by
    simp only [SOR_nStart32, SOR_nStart, e0]
  have e2a : int32 ((i : Int) + SOR_chunk A.m A.qs) = (i : Int) + SOR_chunk A.m A.qs :=
    int32_of_fits _ (by omega) (by omega)
  have e2b : int32 ((i : Int) + SOR_chunk A.m A.qs + A.qs.num_overlap)
      = (i : Int) + SOR_chunk A.m A.qs + A.qs.num_overlap :=
    int32_of_fits _ (by omega) (by omega)
  have e2 : SOR_nEnd32 A.m A.qs i = SOR_nEnd A.m A.qs i := by
    simp only [SOR_nEnd32, SOR_nEnd, e2a, e2b]
  refine ⟨e0, by rw [e2a, e2b], e1, e2, ?_⟩
  rw [e1, e2]
  apply int32_of_fits
  · simp only [SOR_nEnd, SOR_nStart]
    split_ifs <;> omega
  · simp only [SOR_nEnd, SOR_nStart]
    split_ifs <;> omega

/-- On these inputs the 32-bit task is the task of the exact evaluation. -/
theorem SOR_task32_eq (A : SORArgs) (i : Nat) (hov : 0 ≤ A.qs.num_overlap) (hi : i < A.m)
    (hfit : (A.m : Int) + SOR_chunk A.m A.qs + A.qs.num_overlap ≤ 2147483647) :
    SOR_task32 A i = SOR_task A i := by
  obtain ⟨_, _, e1, e2, e3⟩ := dispatch_no_wrap A i hov hi hfit
  unfold SOR_task32
  rw [e3, e1, e2]
  rfl

/-- A task with `nRows <= 0` updates no row. -/
theorem ComputeRows_no_rows (E : RowEnv) (s : RowState) (h : E.nRows ≤ 0) (j : Nat) :
    (ComputeRows E s).lambda j = s.lambda j := by
  unfold ComputeRows
  refine (iterLoop_frame E j _ 0 s (fun q hq => ?_)).1
  unfold InChunk at hq
  omega

/-- With one row, one chunk and `num_overlap = INT_MAX`, the sum
`0 + 2 + num_overlap` wraps: the one task has `nRows = -2147483647`. -/
theorem overflow_task (A : SORArgs) (hm : A.m = 1) (hnc : A.qs.num_chunks ≤ 1)
    (hov : A.qs.num_overlap = 2147483647) :
    SOR_tasks32 A = [SOR_task32 A 0] ∧ (SOR_task32 A 0).startRow = 0 ∧
    (SOR_task32 A 0).nRows = -2147483647 := by
  obtain ⟨hc, hst⟩ := single_chunk_starts A (by omega) hnc
  refine ⟨?_, ?_, ?_⟩
  · unfold SOR_tasks32
    rw [hst]
    rfl
  · show SOR_nStart32 A.qs 0 = 0
    simp only [SOR_nStart32, hov, int32]
    split_ifs <;> omega
  · show int32 (SOR_nEnd32 A.m A.qs 0 - SOR_nStart32 A.qs 0) = -2147483647
    simp only [SOR_nEnd32, SOR_nStart32, hc, hov, int32]
    rw [hm]
    split_ifs <;> omega

theorem overflow_lambda (A : SORArgs) (hm : A.m = 1) (hnc : A.qs.num_chunks ≤ 1)
    (hov : A.qs.num_overlap = 2147483647) : (SOR_LCP32 A).lambda 0 = 0 := by
  obtain ⟨ht, _, hr⟩ := overflow_task A hm hnc hov
  unfold SOR_LCP32
  rw [ht]
  show (ComputeRows (SOR_task32 A 0) (SOR_init A)).lambda 0 = 0
  rw [ComputeRows_no_rows _ _ (by omega)]
  show dSetZero A.lambda A.m 0 = 0
  unfold dSetZero
  rw [if_pos (by omega)]

/-! ## Bounds on return, with the task ranges in 32-bit arithmetic -/

/-- C13, as stated, fails: for `m = 1`, `num_chunks = 1` and
`num_overlap = 2147483647 >= 0` the dispatch loop creates one task, and its
`nRows` is `-2147483647`, not `m`: the sum `0 + 2 + num_overlap` wraps. -/
theorem C13_counterexample :
    1 ≤ exOverflow.m ∧ 0 ≤ exOverflow.qs.num_overlap ∧ exOverflow.qs.num_chunks ≤ 1 ∧
    SOR_tasks32 exOverflow = [SOR_task32 exOverflow 0] ∧
    (SOR_task32 exOverflow 0).nRows = -2147483647 ∧
    ¬ ((SOR_task32 exOverflow 0).nRows = (exOverflow.m : Int)) := by
  obtain ⟨ht, _, hr⟩ := overflow_task exOverflow rfl (by decide) rfl
  refine ⟨by decide, by decide, by decide, ht, hr, ?_⟩
  rw [hr]
  decide

/-- C13, amended. Degenerate single chunk: for `m >= 1`, `num_chunks <= 1` and
an overlap `>= 0` with `m + chunk + num_overlap` inside `int`, `SOR_LCP`
creates exactly one task, with `startRow = 0` and `nRows = m`; the parameter
block scheduled on the pool is the one passed to the direct call of
`ComputeRows`; so, for a pool that runs a single scheduled task as a call of
it, the pooled path leaves the same memory (`lambda`, `fc` and the rest) as
the sequential path, for the same random draws. -/
theorem C13_single_chunk (poolWait : List RowEnv → RowState → RowState) (A : SORArgs)
    (hm : 1 ≤ A.m) (hov : 0 ≤ A.qs.num_overlap)
    (hfit : (A.m : Int) + SOR_chunk A.m A.qs + A.qs.num_overlap ≤ 2147483647)
    (hnc : A.qs.num_chunks ≤ 1)
    (hpool : ∀ E s, poolWait [E] s = ComputeRows E s) :
    SOR_tasks32 A = [SOR_task32 A 0] ∧
    (SOR_task32 A 0).startRow = 0 ∧ (SOR_task32 A 0).nRows = (A.m : Int) ∧
    (SOR_dispatch32 A true).queue = [SOR_task32 A 0] ∧
    (SOR_dispatch32 A true).mem = SOR_init A ∧
    (SOR_dispatch32 A false).queue = [] ∧
    (SOR_dispatch32 A false).mem = ComputeRows (SOR_task32 A 0) (SOR_init A) ∧
    SOR_LCP_pool32 poolWait A true = SOR_LCP32 A ∧
    SOR_LCP_pool32 poolWait A false = SOR_LCP32 A := by
  obtain ⟨hc, hst⟩ := single_chunk_starts A hm hnc
  have he := SOR_task32_eq A 0 hov (by omega) hfit
  have ht : SOR_tasks32 A = [SOR_task32 A 0] := by
    unfold SOR_tasks32
    rw [hst]
    rfl
  have hd1 : SOR_dispatch32 A true = { mem := SOR_init A, queue := [SOR_task32 A 0] } := by
    unfold SOR_dispatch32
    rw [hst]
    rfl
  have hd2 : SOR_dispatch32 A false =
      { mem := ComputeRows (SOR_task32 A 0) (SOR_init A), queue := [] } := by
    unfold SOR_dispatch32
    rw [hst]
    rfl
  have hL : SOR_LCP32 A = ComputeRows (SOR_task32 A 0) (SOR_init A) := by
    unfold SOR_LCP32
    rw [ht]
    rfl
  refine ⟨ht, ?_, ?_, by rw [hd1], by rw [hd1], by rw [hd2], by rw [hd2], ?_, ?_⟩
  · rw [he]
    simp only [SOR_task, SOR_nStart]
    split_ifs <;> omega
  · rw [he]
    simp only [SOR_task, SOR_nStart, SOR_nEnd, hc]
    split_ifs <;> omega
  · unfold SOR_LCP_pool32
    simp only [hd1, if_true, hpool, hL]
  · unfold SOR_LCP_pool32
    simp only [hd2, Bool.false_eq_true, if_false, hL]

theorem C13_single_chunk_witness :
    SOR_LCP_pool32 exPoolWait exFriction true = SOR_LCP32 exFriction :=
  (C13_single_chunk exPoolWait exFriction (by decide) (by decide) (by decide) (by decide)
    (fun _ _ => rfl)).2.2.2.2.2.2.2.1

/-! ## The dispatch loop is well formed -/

/-- A first task with `startRow = 0` and `nRows = m`, for `m <= chunk`, is the
task the exact evaluation creates for the same input with overlap `0`. -/
theorem SOR_task32_cover (A : SORArgs) (hch : (A.m : Int) ≤ SOR_chunk A.m A.qs)
    (hs : (SOR_task32 A 0).startRow = 0) (hr : (SOR_task32 A 0).nRows = (A.m : Int)) :
    SOR_task32 A 0 = SOR_task { A with qs := { A.qs with num_overlap := 0 } } 0 := by
  have h1 : SOR_nStart32 A.qs 0 = 0 := hs
  have h2 : int32 (SOR_nEnd32 A.m A.qs 0 - SOR_nStart32 A.qs 0) = (A.m : Int) := hr
  have h3 : SOR_nStart { A.qs with num_overlap := 0 } 0 = 0 := by
    simp [SOR_nStart]
  have hc : SOR_chunk A.m { A.qs with num_overlap := 0 } = SOR_chunk A.m A.qs := rfl
  have h4 : SOR_nEnd A.m { A.qs with num_overlap := 0 } 0 = (A.m : Int) := by
    simp only [SOR_nEnd, hc]
    split_ifs <;> omega
  have e : SOR_task { A with qs := { A.qs with num_overlap := 0 } } 0 =
      { SOR_task A 0 with
        startRow := SOR_nStart { A.qs with num_overlap := 0 } 0
        nRows := SOR_nEnd A.m { A.qs with num_overlap := 0 } 0
          - SOR_nStart { A.qs with num_overlap := 0 } 0 } := rfl
  rw [e, h4, h3]
  unfold SOR_task32
  rw [h2, h1, sub_zero]

/-- A run whose one task covers all rows is the exact run of the same input
with overlap `0`. -/
theorem SOR_LCP32_cover (A : SORArgs) (hch : (A.m : Int) ≤ SOR_chunk A.m A.qs)
    (hst : chunkStarts A.m (SOR_chunk A.m A.qs).toNat = [0])
    (hs : (SOR_task32 A 0).startRow = 0) (hr : (SOR_task32 A 0).nRows = (A.m : Int)) :
    SOR_tasks32 A = [SOR_task32 A 0] ∧
    SOR_LCP32 A = SOR_LCP { A with qs := { A.qs with num_overlap := 0 } } := by
  have ht : SOR_tasks32 A = [SOR_task32 A 0] := by
    unfold SOR_tasks32
    rw [hst]
    rfl
  have ht2 : SOR_tasks { A with qs := { A.qs with num_overlap := 0 } }
      = [SOR_task { A with qs := { A.qs with num_overlap := 0 } } 0] := by
    show (chunkStarts A.m (SOR_chunk A.m A.qs).toNat).map
      (SOR_task { A with qs := { A.qs with num_overlap := 0 } }) = _
    rw [hst]
    rfl
  refine ⟨ht, ?_⟩
  unfold SOR_LCP32 SOR_LCP
  rw [ht, ht2, SOR_task32_cover A hch hs hr]
  rfl

theorem single_row_starts (A : SORArgs) (hm : A.m = 1) :
    (A.m : Int) ≤ SOR_chunk A.m A.qs ∧ chunkStarts A.m (SOR_chunk A.m A.qs).toNat = [0] := by
  have hcpos := SOR_chunk_pos A.m A.qs
  refine ⟨by omega, ?_⟩
  unfold chunkStarts
  generalize hc : (SOR_chunk A.m A.qs).toNat = c
  have hc0 : 0 < c := by omega
  rw [hm]
  have : (1 + c - 1) / c = 1 := by
    rw [Nat.add_sub_cancel_left]
    exact Nat.div_self hc0
  rw [this]
  simp [List.range_succ]

/-- The one task of a single-row run covers the row when the overlap is not
negative and `m + chunk + num_overlap` is inside `int`. -/
theorem single_row_cover (A : SORArgs) (hm : A.m = 1) (hov : 0 ≤ A.qs.num_overlap)
    (hfit : (A.m : Int) + SOR_chunk A.m A.qs + A.qs.num_overlap ≤ 2147483647) :
    (SOR_task32 A 0).startRow = 0 ∧ (SOR_task32 A 0).nRows = 1 := by
  rw [SOR_task32_eq A 0 hov (by omega) hfit]
  exact (single_row_task A hm hov).2

/-- The one task of a single-chunk run covers all rows when the overlap is not
negative and `m + chunk + num_overlap` is inside `int`. -/
theorem single_chunk_cover (A : SORArgs) (hm : 1 ≤ A.m) (hnc : A.qs.num_chunks ≤ 1)
    (hov : 0 ≤ A.qs.num_overlap)
    (hfit : (A.m : Int) + SOR_chunk A.m A.qs + A.qs.num_overlap ≤ 2147483647) :
    (SOR_task32 A 0).startRow = 0 ∧ (SOR_task32 A 0).nRows = (A.m : Int) := by
  obtain ⟨hc, _⟩ := single_chunk_starts A hm hnc
  rw [SOR_task32_eq A 0 hov (by omega) hfit]
  constructor
  · simp only [SOR_task, SOR_nStart]
    split_ifs <;> omega
  · simp only [SOR_task, SOR_nStart, SOR_nEnd, hc]
    split_ifs <;> omega

/-! ## One unbounded row: the closed form -/

/-- C33, as stated, fails: one unbounded row `J = (1, 0, ...)` on one body,
`b = 1`, `cfm = 0`, `w = 1`, no damping, tolerance `0`, one iteration, with
`num_overlap = 2147483647`. The sum `i + chunk + num_overlap` of the dispatch
loop wraps, the task gets `nRows = -2147483647`, its iteration updates no row,
and `SOR_LCP` returns `lambda[0] = 0`, while `(b/D) * (1 - (1-w)^1) = 1`. -/
theorem C33_counterexample :
    exOverflow.m = 1 ∧ exOverflow.findex 0 < 0 ∧ exOverflow.lo 0 = none ∧
    exOverflow.hi 0 = none ∧
    (0 ≤ exOverflow.jb 0 ∧ exOverflow.jb 0 < (exOverflow.nb : Int)) ∧
    (exOverflow.jb 1 < (exOverflow.nb : Int) ∧ exOverflow.jb 1 ≠ exOverflow.jb 0) ∧
    exOverflow.m_damp = 0 ∧ (∀ n, exOverflow.f_damp n = 0) ∧
    exOverflow.qs.sor_lcp_tolerance ≤ 0 ∧
    diag_plain exOverflow 0 + exOverflow.cfm 0 ≠ 0 ∧
    exOverflow.qs.num_iterations = ((1 : Nat) : Int) ∧
    ¬ ((SOR_LCP32 exOverflow).lambda 0 =
      exOverflow.b 0 / (diag_plain exOverflow 0 + exOverflow.cfm 0)
        * (1 - (1 - exOverflow.qs.w) ^ 1)) := by
  have hD : diag_plain exOverflow 0 + exOverflow.cfm 0 = 1 := by
    simp [exOverflow, exOneRow, diag_plain, dot6]
  refine ⟨rfl, by decide, rfl, rfl, by decide, by decide, rfl, fun _ => rfl,
    by simp [exOverflow], by rw [hD]; norm_num, rfl, ?_⟩
  rw [overflow_lambda exOverflow rfl (by decide) rfl, hD]
  have hb : exOverflow.b 0 = 1 := rfl
  have hw : exOverflow.qs.w = 1 := rfl
  rw [hb, hw]
  norm_num

/-- C33, amended. Single-row closed form: for `m = 1` with a task that covers
the row (`startRow = 0`, `nRows = 1`), an unbounded row (`findex < 0`,
`lo = -infinity`, `hi = +infinity`) attached to one body or to two distinct
bodies, no damping rows and `f_damp = 0`, tolerance `<= 0` and
`D = J*J^T + cfm` nonzero, a run of `k` iterations returns
`lambda = (b/D) * (1 - (1-w)^k)` for the unscaled `b`, `J` and `cfm`; with
`w = 1` the row equation `D * lambda = b` holds after one iteration and the
delta of every later iteration is `0`. -/
theorem C33_single_row_closed_form (A : SORArgs) (k : Nat) (hm : A.m = 1)
    (hs : (SOR_task32 A 0).startRow = 0) (hr : (SOR_task32 A 0).nRows = 1)
    (hk : A.qs.num_iterations = (k : Int))
    (htol : A.qs.sor_lcp_tolerance ≤ 0)
    (hfi : A.findex 0 < 0) (hlo : A.lo 0 = none) (hhi : A.hi 0 = none)
    (hb1 : 0 ≤ A.jb 0 ∧ A.jb 0 < (A.nb : Int))
    (hb2 : A.jb 1 < (A.nb : Int) ∧ A.jb 1 ≠ A.jb 0)
    (hmd : A.m_damp = 0) (hfd : ∀ n, A.f_damp n = 0)
    (hD : diag_plain A 0 + A.cfm 0 ≠ 0) :
    (SOR_LCP32 A).lambda 0 =
      A.b 0 / (diag_plain A 0 + A.cfm 0) * (1 - (1 - A.qs.w) ^ k) ∧
    (A.qs.w = 1 → 1 ≤ k →
      (diag_plain A 0 + A.cfm 0) * (SOR_LCP32 A).lambda 0 = A.b 0 ∧
      (2 ≤ k → (SOR_LCP32 A).delta_error 0 = 0)) := by
  obtain ⟨hch, hst⟩ := single_row_starts A hm
  have hr1 : (SOR_task32 A 0).nRows = (A.m : Int) := by
    rw [hr, hm]
    rfl
  have hL := (SOR_LCP32_cover A hch hst hs hr1).2
  have hrun := single_row_run { A with qs := { A.qs with num_overlap := 0 } } k hm
    (le_refl (0 : Int)) hk htol
  have hcl := fun j => single_row_closed { A with qs := { A.qs with num_overlap := 0 } } hm
    (le_refl (0 : Int)) hfi hlo hhi hb1 hb2 hmd hfd hD j
  have hclosed : ∀ j, (iterationsRun (SOR_task { A with qs := { A.qs with num_overlap := 0 } } 0)
      (SOR_init { A with qs := { A.qs with num_overlap := 0 } }) j).lambda 0 =
      A.b 0 / (diag_plain A 0 + A.cfm 0) * (1 - (1 - A.qs.w) ^ j) := fun j => (hcl j).1
  have hdelta := fun j => (hcl j).2
  rw [hL, hrun]
  refine ⟨hclosed k, ?_⟩
  intro hw hk1
  constructor
  · rw [hclosed k, hw, sub_self, zero_pow (by omega), sub_zero, mul_one]
    field_simp
  · intro hk2
    obtain ⟨j, rfl⟩ : ∃ j, k = j + 1 := ⟨k - 1, by omega⟩
    rw [hdelta j, hclosed (j + 1), hclosed j, hw, sub_self, zero_pow (by omega),
      zero_pow (by omega), sub_self]
    rfl

theorem C33_single_row_closed_form_witness :
    (SOR_LCP32 exOneRow).lambda 0 =
      exOneRow.b 0 / (diag_plain exOneRow 0 + exOneRow.cfm 0) * (1 - (1 - exOneRow.qs.w) ^ 1) :=
  (C33_single_row_closed_form exOneRow 1 rfl
    (by decide) (by decide) rfl (by simp [exOneRow])
    (by decide) rfl rfl (by decide) (by decide) rfl (fun _ => rfl)
    (by simp [exOneRow, diag_plain, dot6])).1

/-! ## A fixed point of the single task over all rows -/

/-- C34. A fixed point solves the box problem: in a sequential run with a
single chunk whose task covers all rows (`startRow = 0`, `nRows = m`), no
damping rows and `f_damp = 0`, `w > 0`, every `J_i*J_i^T + cfm[i] > 0`, every
`findex < 0` and every body index in range, if iteration `j` records
`delta = 0` for every row, then it leaves `lambda` unchanged and for every row
`i`, with the residual `r = b[i] - cfm[i]*lambda[i] - J_i . (J^T lambda)` in
unscaled terms, either `lambda[i] = lo[i]` and `r <= 0`, or
`lambda[i] = hi[i]` and `r >= 0`, or `lo[i] <= lambda[i] <= hi[i]` and
`r = 0`; the same holds for the values returned by `SOR_LCP` when the recorded
deltas it returns are all `0`. -/
theorem C34_fixed_point_solves_lcp (A : SORArgs) (hm : 1 ≤ A.m)
    (hnc : A.qs.num_chunks ≤ 1)
    (hs : (SOR_task32 A 0).startRow = 0) (hr : (SOR_task32 A 0).nRows = (A.m : Int))
    (hmd : A.m_damp = 0) (hfd : ∀ n, A.f_damp n = 0) (hw : 0 < A.qs.w)
    (hD : ∀ i, i < A.m → 0 < diag_plain A i + A.cfm i)
    (hfi : ∀ i, i < A.m → A.findex i < 0)
    (hjb : ∀ i, i < A.m →
      0 ≤ A.jb (i * 2) ∧ A.jb (i * 2) < (A.nb : Int) ∧ A.jb (i * 2 + 1) < (A.nb : Int)) :
    SOR_tasks32 A = [SOR_task32 A 0] ∧
    (∀ j, (∀ i, i < A.m →
        (iterationsRun (SOR_task32 A 0) (SOR_init A) (j + 1)).delta_error i = 0) →
      (iterationsRun (SOR_task32 A 0) (SOR_init A) (j + 1)).lambda =
        (iterationsRun (SOR_task32 A 0) (SOR_init A) j).lambda ∧
      ∀ i, i < A.m → ∃ r : ℚ,
        r = A.b i - A.cfm i * (iterationsRun (SOR_task32 A 0) (SOR_init A) (j + 1)).lambda i
          - (Finset.sum (Finset.range 6) (fun c =>
                JTlambda A.m A.J A.jb (iterationsRun (SOR_task32 A 0) (SOR_init A) (j + 1)).lambda
                  (A.jb (i * 2)).toNat c * A.J (12 * i + c))
            + (if A.jb (i * 2 + 1) ≥ 0 then
                Finset.sum (Finset.range 6) (fun c =>
                  JTlambda A.m A.J A.jb
                    (iterationsRun (SOR_task32 A 0) (SOR_init A) (j + 1)).lambda
                    (A.jb (i * 2 + 1)).toNat c * A.J (12 * i + 6 + c))
              else 0)) ∧
        ((A.lo i = some ((iterationsRun (SOR_task32 A 0) (SOR_init A) (j + 1)).lambda i)
            ∧ r ≤ 0) ∨
          (A.hi i = some ((iterationsRun (SOR_task32 A 0) (SOR_init A) (j + 1)).lambda i)
            ∧ 0 ≤ r) ∨
          (loLe (A.lo i) ((iterationsRun (SOR_task32 A 0) (SOR_init A) (j + 1)).lambda i) ∧
            leHi ((iterationsRun (SOR_task32 A 0) (SOR_init A) (j + 1)).lambda i) (A.hi i) ∧
            r = 0))) ∧
    (1 ≤ A.qs.num_iterations → (∀ i, i < A.m → (SOR_LCP32 A).delta_error i = 0) →
      ∀ i, i < A.m → ∃ r : ℚ,
        r = A.b i - A.cfm i * (SOR_LCP32 A).lambda i
          - (Finset.sum (Finset.range 6) (fun c =>
                JTlambda A.m A.J A.jb (SOR_LCP32 A).lambda
                  (A.jb (i * 2)).toNat c * A.J (12 * i + c))
            + (if A.jb (i * 2 + 1) ≥ 0 then
                Finset.sum (Finset.range 6) (fun c =>
                  JTlambda A.m A.J A.jb (SOR_LCP32 A).lambda
                    (A.jb (i * 2 + 1)).toNat c * A.J (12 * i + 6 + c))
              else 0)) ∧
        ((A.lo i = some ((SOR_LCP32 A).lambda i) ∧ r ≤ 0) ∨
          (A.hi i = some ((SOR_LCP32 A).lambda i) ∧ 0 ≤ r) ∨
          (loLe (A.lo i) ((SOR_LCP32 A).lambda i) ∧
            leHi ((SOR_LCP32 A).lambda i) (A.hi i) ∧
            r = 0))) := by
  obtain ⟨hc, hst⟩ := single_chunk_starts A hm hnc
  obtain ⟨ht32, hL⟩ := SOR_LCP32_cover A (by omega) hst hs hr
  have he := SOR_task32_cover A (by omega) hs hr
  have key := fun j => iteration_fixed_lcp { A with qs := { A.qs with num_overlap := 0 } } j hm
    (le_refl (0 : Int)) hnc hmd hfd hw hD hfi hjb
  refine ⟨ht32, ?_⟩
  rw [hL, he]
  refine ⟨key, ?_⟩
  intro hN hz
  obtain ⟨ht, _, _⟩ := single_chunk_task { A with qs := { A.qs with num_overlap := 0 } } hm
    (le_refl (0 : Int)) hnc
  have hrun : ∃ j, SOR_LCP { A with qs := { A.qs with num_overlap := 0 } } =
      iterationsRun (SOR_task { A with qs := { A.qs with num_overlap := 0 } } 0)
        (SOR_init { A with qs := { A.qs with num_overlap := 0 } }) (j + 1) := by
    obtain ⟨j, _, h2, h3⟩ := iterLoop_some
      (SOR_task { A with qs := { A.qs with num_overlap := 0 } } 0)
      (SOR_init { A with qs := { A.qs with num_overlap := 0 } })
      (SOR_task { A with qs := { A.qs with num_overlap := 0 } } 0).num_iterations.toNat 0
    have hn : (SOR_task { A with qs := { A.qs with num_overlap := 0 } } 0).num_iterations.toNat
        ≠ 0 := by
      show A.qs.num_iterations.toNat ≠ 0
      omega
    have hj : 0 < j := h2.resolve_left hn
    refine ⟨j - 1, ?_⟩
    unfold SOR_LCP
    rw [ht]
    show ComputeRows (SOR_task { A with qs := { A.qs with num_overlap := 0 } } 0)
      (SOR_init { A with qs := { A.qs with num_overlap := 0 } }) = _
    unfold ComputeRows
    have e : j - 1 + 1 = 0 + j := by omega
    rw [e]
    exact h3
  obtain ⟨j, hj⟩ := hrun
  rw [hj] at hz ⊢
  exact (key j hz).2

theorem C34_fixed_point_solves_lcp_witness :
    (iterationsRun (SOR_task32 exOneRow 0) (SOR_init exOneRow) (1 + 1)).lambda =
      (iterationsRun (SOR_task32 exOneRow 0) (SOR_init exOneRow) 1).lambda :=
  ((C34_fixed_point_solves_lcp exOneRow (by decide) (by decide) (by decide) (by decide)
    rfl (fun _ => rfl)
    (by simp [exOneRow]) exOneRow_D (fun _ _ => by simp [exOneRow]) exOneRow_bodies).2.1 1
    (fun i hi => by
      rw [SOR_task32_eq exOneRow 0 (by decide) (by decide) (by decide)]
      exact exOneRow_fixed i hi)).1

end QuickStep
